import Mathlib

/-!
# noevent: a single-threaded readiness reactor

A shallow embedding of `include/noevent.h`, `src/noevent.cc`, `src/kqueue.cc` and
`src/epoll.cc`, followed by theorems about it.

Conventions of the embedding.

* A callback (`std::function`) is `Option Nat`: `none` is `nullptr`, `some k` is the
  k-th user function.  What user function `k` does when it is invoked is given by a
  `Program`: the list of public `EventHub` calls it makes.
* `std::shared_ptr<void>` user data is `Option Nat` (`none` is `nullptr`).
* `std::chrono::system_clock::time_point` is an `Int` number of clock ticks;
  `std::chrono::seconds` is an `Int` number of seconds.  The deadline that `Ready`
  stores is computed in the 64-bit representation of the clock (`deadline_of`).  Every
  reading of `system_clock::now()` and every answer of the operating system is an input.
* `Event::fd_` is the key under which the event is stored in `EventHub::events`
  (set once by the constructor and never assigned).
* A C++ exception leaves the hub in the state reached at the `throw`; every
  operation returns a `Result` carrying that state.
* `EventHub.trace` is a ghost field: the chronological list of callback invocations
  and backend calls.
-/

set_option autoImplicit false

namespace noevent

/-! ## Event -/

/-- The enumeration `Event::Type`. -/
inductive EventType where
  | kWrite
  | kRead
  | kTimeout
  | kError
deriving DecidableEq, Repr

/-- The class `Event`; `where_` and `result_` are bitsets, one `Bool` per bit. -/
structure Event where
  is_locked : Bool := false
  where_kInReady : Bool := false
  where_kInTimeout : Bool := false
  where_kInActive : Bool := false
  data_ : Option Nat := none
  result_kWrite : Bool := false
  result_kRead : Bool := false
  result_kTimeout : Bool := false
  result_kError : Bool := false
  write_cb_ : Option Nat := none
  read_cb_ : Option Nat := none
  error_cb_ : Option Nat := none
  timeout_stamp_ : Int := 0
deriving DecidableEq, Repr

/-- The call `result_.reset()`. -/
def Event.result_reset (e : Event) : Event :=
  { e with result_kWrite := false, result_kRead := false,
           result_kTimeout := false, result_kError := false }

/-! ## The descriptor table (`std::unordered_map<int, std::shared_ptr<Event>>`) -/

/-- A finite map from descriptors to events: an association list with distinct keys. -/
structure Table where
  entries : List (Int × Event)
  nodup : (entries.map Prod.fst).Nodup
deriving DecidableEq

namespace Table

/-- The empty table. -/
def empty : Table := ⟨[], List.nodup_nil⟩

/-- Lookup in an association list. -/
def lookupList (fd : Int) : List (Int × Event) → Option Event
  | [] => none
  | (k, e) :: rest => if k = fd then some e else lookupList fd rest

/-- The lookup `events.find(fd)`. -/
def lookup (t : Table) (fd : Int) : Option Event := lookupList fd t.entries

/-- The test `events.contains(fd)`. -/
def contains (t : Table) (fd : Int) : Bool := (t.lookup fd).isSome

/-- The number `events.size()`. -/
def size (t : Table) : Nat := t.entries.length

/-- The call `events.erase(fd)`. -/
def erase (t : Table) (fd : Int) : Table :=
  ⟨t.entries.filter (fun p => !decide (p.1 = fd)),
    t.nodup.sublist ((List.filter_sublist t.entries).map Prod.fst)⟩

/-- The assignment `events[fd] = e`. -/
def insert (t : Table) (fd : Int) (e : Event) : Table :=
  ⟨(fd, e) :: t.entries.filter (fun p => !decide (p.1 = fd)),
    List.nodup_cons.mpr
      ⟨by simp [List.mem_map, List.mem_filter],
       t.nodup.sublist ((List.filter_sublist t.entries).map Prod.fst)⟩⟩

end Table

/-! ## `utils::EventMinHeap`

`std::push_heap`, `std::pop_heap` and `std::make_heap` belong to the C++ standard
library; they are embedded as the sift-up / sift-down algorithms of its usual
implementations, over a comparator `comp` ("less than" of a max-heap). -/

/-- Exchange of the elements at two positions of a vector. -/
def swap (data : List Int) (i j : Nat) : List Int :=
  (data.set i (data.getD j 0)).set j (data.getD i 0)

/-- Sift the element at `hole` up towards the root while its parent is less. -/
def sift_up (comp : Int → Int → Bool) : Nat → List Int → Nat → List Int
  | 0, data, _ => data
  | fuel + 1, data, hole =>
    if hole = 0 then data
    else
      let parent := (hole - 1) / 2
      if comp (data.getD parent 0) (data.getD hole 0) then
        sift_up comp fuel (swap data parent hole) parent
      else data

/-- The child of `start` that is not less than its sibling, within the first `len`
elements (`start` has a left child there). -/
def larger_child (comp : Int → Int → Bool) (len : Nat) (data : List Int) (start : Nat) :
    Nat :=
  if 2 * start + 2 < len ∧ comp (data.getD (2 * start + 1) 0) (data.getD (2 * start + 2) 0)
  then 2 * start + 2 else 2 * start + 1

/-- Sift the element at `start` down within the first `len` elements. -/
def sift_down (comp : Int → Int → Bool) : Nat → Nat → List Int → Nat → List Int
  | 0, _, data, _ => data
  | fuel + 1, len, data, start =>
    if len ≤ 2 * start + 1 then data
    else if comp (data.getD (larger_child comp len data start) 0) (data.getD start 0) then data
    else sift_down comp fuel len (swap data start (larger_child comp len data start))
      (larger_child comp len data start)

/-- The algorithm `std::push_heap(first, last, comp)`. -/
def push_heap (comp : Int → Int → Bool) (data : List Int) : List Int :=
  sift_up comp data.length data (data.length - 1)

/-- The algorithm `std::pop_heap(first, last, comp)`: the first element goes last. -/
def pop_heap (comp : Int → Int → Bool) (data : List Int) : List Int :=
  if data.length ≤ 1 then data
  else sift_down comp data.length (data.length - 1) (swap data 0 (data.length - 1)) 0

/-- The loop of `std::make_heap`: sift down the positions `start, start - 1, …, 0`. -/
def make_heap_from (comp : Int → Int → Bool) : Nat → List Int → List Int
  | 0, data => sift_down comp data.length data.length data 0
  | start + 1, data =>
    make_heap_from comp start (sift_down comp data.length data.length data (start + 1))

/-- The algorithm `std::make_heap(first, last, comp)`. -/
def make_heap (comp : Int → Int → Bool) (data : List Int) : List Int :=
  if data.length ≤ 1 then data else make_heap_from comp ((data.length - 2) / 2) data

/-- The default comparator of `std::make_heap(first, last)`: `operator<` on `int`. -/
def int_less (lhs rhs : Int) : Bool := decide (lhs < rhs)

/-- The deadline `EV_HUB.events.at(fd)->timeout_stamp_` read by the heap's comparator.
Heap members are tracked descriptors (`Destroy` refuses a descriptor flagged
`kInTimeout`); an untracked descriptor reads as 0. -/
def stamp (events : Table) (fd : Int) : Int :=
  match events.lookup fd with
  | some e => e.timeout_stamp_
  | none => 0

/-- The lambda passed by `EventMinHeap::Push` and `EventMinHeap::Pop`. -/
def stamp_greater (events : Table) (lhs rhs : Int) : Bool :=
  decide (stamp events lhs > stamp events rhs)

namespace EventMinHeap

/-- The method `EventMinHeap::Push`. -/
def Push (events : Table) (data : List Int) (fd : Int) : List Int :=
  push_heap (stamp_greater events) (data ++ [fd])

/-- The method `EventMinHeap::Pop`. -/
def Pop (events : Table) (data : List Int) : List Int :=
  (pop_heap (stamp_greater events) data).dropLast

/-- The method `EventMinHeap::Remove`: `std::make_heap` is called without the comparator. -/
def Remove (data : List Int) (fd : Int) : List Int :=
  if fd ∈ data then make_heap int_less (data.erase fd) else data

/-- The method `EventMinHeap::Top`. -/
def Top (data : List Int) : Option Int := data.head?

end EventMinHeap

/-! ## The hub state -/

/-- The exceptions thrown by the library, one constructor per `throw` site or
standard-library failure. -/
inductive Exception where
  /-- Thrown as `std::invalid_argument("invalid file descriptor.")`. -/
  | invalid_argument_fd
  /-- Thrown as `std::invalid_argument("error callback cannot be nullptr.")`. -/
  | invalid_argument_error_cb
  /-- Thrown as `std::logic_error("file descriptor already exists.")`. -/
  | logic_error_already_exists
  /-- Thrown as `std::logic_error("file descriptor not exists.")`. -/
  | logic_error_not_exists
  /-- Thrown as `std::logic_error("trying to change a locked event is not allowed.")`. -/
  | logic_error_locked
  /-- Thrown as `std::logic_error("event in ready or timeout cannot be destroyed.")`. -/
  | logic_error_ready_or_timeout
  /-- Thrown by `unordered_map::at` as `std::out_of_range`. -/
  | out_of_range
  /-- Thrown as `std::runtime_error("failed to add event.")`. -/
  | runtime_error_add
  /-- Thrown as `std::runtime_error("failed to del event.")`. -/
  | runtime_error_del
  /-- Thrown as `std::runtime_error("failed to poll events.")`. -/
  | runtime_error_poll
  /-- Thrown by `std::vector`'s constructor for a negative element count. -/
  | length_error
  /-- Thrown by calling an empty `std::function`. -/
  | bad_function_call
  /-- Raised by a loop of the embedding that used up its iteration bound. -/
  | out_of_fuel
deriving DecidableEq, Repr

/-- The concrete class behind `sys_ev_op_`, chosen by the constructor of `EventHub`. -/
inductive Backend where
  | KQueue
  | Epoll
deriving DecidableEq, Repr

/-- The `filter` of a `struct kevent`. -/
inductive Filter where
  | EVFILT_READ
  | EVFILT_WRITE
  | other
deriving DecidableEq, Repr

/-- One reported `struct epoll_event`: the descriptor and the bits `EPOLLIN`, `EPOLLOUT`. -/
structure EpollEvent where
  fd : Int
  epollin : Bool
  epollout : Bool
deriving DecidableEq, Repr

/-- What the operating system and the clock answer during one `LoopOnce`. -/
structure OS where
  /-- Whether `kevent(EV_ADD)` fails for this descriptor and filter. -/
  kevent_add_fails : Int → Filter → Bool := fun _ _ => false
  /-- Whether `epoll_ctl(EPOLL_CTL_ADD)` fails for this descriptor. -/
  epoll_add_fails : Int → Bool := fun _ => false
  /-- Whether `epoll_ctl(EPOLL_CTL_DEL)` fails for this descriptor. -/
  epoll_del_fails : Int → Bool := fun _ => false
  /-- The events returned by the polling `kevent` call, `none` when it returns `< 0`. -/
  kevents : Option (List (Int × Filter)) := some []
  /-- The events returned by `epoll_wait`, `none` when it returns `< 0`. -/
  epoll_events : Option (List EpollEvent) := some []
  /-- The clock reading in `CalculateWaittingTime`. -/
  now_wait : Int := 0
  /-- The clock reading in `CheckTimeoutEvents`. -/
  now_check : Int := 0

/-- An entry of the ghost trace. -/
inductive Obs where
  /-- A user callback was invoked as `cb(fd, type, data)`. -/
  | call (cb : Nat) (fd : Int) (type : EventType) (data : Option Nat)
  /-- The call `sys_ev_op_->Add(fd)` returned (`ok = true`) or threw. -/
  | add (fd : Int) (ok : Bool)
  /-- The call `sys_ev_op_->Del(fd)` returned (`ok = true`) or threw. -/
  | del (fd : Int) (ok : Bool)
  /-- The call `sys_ev_op_->Poll(waitting_time)` was made. -/
  | poll (waitting_time : Int)
deriving DecidableEq, Repr

/-- The class `EventHub`, with the backend's `registered_event_count_` and the trace. -/
structure EventHub where
  events : Table := Table.empty
  current_fd_ : Int := -1
  ready_fds_ : List Int := []
  timeout_heap_ : List Int := []
  active_fds_ : List Int := []
  sys_ev_op_ : Backend := Backend.KQueue
  registered_event_count_ : Int := 0
  trace : List Obs := []
deriving DecidableEq

/-- The outcome of an operation: normal return, or an exception, with the hub state. -/
inductive Result where
  | ok (hub : EventHub)
  | raised (e : Exception) (hub : EventHub)
deriving DecidableEq

/-- The hub state an operation ends in. -/
def Result.hub : Result → EventHub
  | Result.ok h => h
  | Result.raised _ h => h

/-- The exception an operation ends with, if any. -/
def Result.exception : Result → Option Exception
  | Result.ok _ => none
  | Result.raised e _ => some e

/-- Sequencing: run `f` on the state of a normal return, propagate an exception. -/
def Result.andThen (r : Result) (f : EventHub → Result) : Result :=
  match r with
  | Result.ok h => f h
  | Result.raised e h => Result.raised e h

/-- The number of clock ticks of `system_clock` in one second. -/
def ticks_per_second : Int := 1000000

/-- The value of a computation in the 64-bit signed representation of the clock: the
mathematical result reduced into `[-2^63, 2^63)` (signed overflow is undefined in C++;
the embedding takes the two's complement result). -/
def wrap64 (x : Int) : Int :=
  (x + 9223372036854775808) % 18446744073709551616 - 9223372036854775808

/-- Whether the integer is a value of the 64-bit signed representation of the clock. -/
@[reducible] def representable (x : Int) : Prop :=
  -9223372036854775808 ≤ x ∧ x < 9223372036854775808

/-- The time point `std::chrono::system_clock::now() + timeout_period` of `Ready`: the
period in seconds is converted to clock ticks and added to the clock reading, both in the
64-bit representation of the clock. -/
def deadline_of (now period : Int) : Int :=
  wrap64 (now + wrap64 (period * ticks_per_second))

/-- The hub as its constructor leaves it, over the given backend. -/
def EventHub.initial (backend : Backend) : EventHub := { sys_ev_op_ := backend }

namespace EventHub

/-- The assignment through `events.at(fd)->…`, for a tracked descriptor. -/
def update (h : EventHub) (fd : Int) (f : Event → Event) : EventHub :=
  match h.events.lookup fd with
  | some e => { h with events := h.events.insert fd (f e) }
  | none => h

/-- The getter `EventsCount`. -/
def EventsCount (h : EventHub) : Nat := h.events.size

/-- The getter `IsInTimeout` on a tracked descriptor. -/
def IsInTimeout (h : EventHub) (fd : Int) : Bool :=
  match h.events.lookup fd with
  | some e => e.where_kInTimeout
  | none => false

/-- The getter `IsInReady` on a tracked descriptor. -/
def IsInReady (h : EventHub) (fd : Int) : Bool :=
  match h.events.lookup fd with
  | some e => e.where_kInReady
  | none => false

/-- The getter `IsInActive` on a tracked descriptor. -/
def IsInActive (h : EventHub) (fd : Int) : Bool :=
  match h.events.lookup fd with
  | some e => e.where_kInActive
  | none => false

/-- The method `EventHub::TimeoutPush`. -/
def TimeoutPush (h : EventHub) (fd : Int) : EventHub :=
  ({ h with timeout_heap_ := EventMinHeap.Push h.events h.timeout_heap_ fd }).update fd
    (fun e => { e with where_kInTimeout := true })

/-- The method `EventHub::TimeoutRemove`. -/
def TimeoutRemove (h : EventHub) (fd : Int) : EventHub :=
  ({ h with timeout_heap_ := EventMinHeap.Remove h.timeout_heap_ fd }).update fd
    (fun e => { e with where_kInTimeout := false })

/-- The method `EventHub::ReadyPush`. -/
def ReadyPush (h : EventHub) (fd : Int) : EventHub :=
  ({ h with ready_fds_ := h.ready_fds_ ++ [fd] }).update fd
    (fun e => { e with where_kInReady := true })

/-- The method `EventHub::ActivePush`. -/
def ActivePush (h : EventHub) (fd : Int) : EventHub :=
  ({ h with active_fds_ := h.active_fds_ ++ [fd] }).update fd
    (fun e => { e with where_kInActive := true })

/-- The method `EventHub::SetCurrent`. -/
def SetCurrent (h : EventHub) (fd : Int) : Result :=
  if fd < 0 then Result.raised Exception.invalid_argument_fd h
  else
    match h.events.lookup fd with
    | none => Result.raised Exception.logic_error_not_exists h
    | some e =>
      if e.is_locked then Result.raised Exception.logic_error_locked h
      else Result.ok { h with current_fd_ := fd }

/-- The method `EventHub::CreateEmpty`. -/
def CreateEmpty (h : EventHub) (fd : Int) (error_cb : Option Nat) : Result :=
  if fd < 0 then Result.raised Exception.invalid_argument_fd h
  else if error_cb = none then Result.raised Exception.invalid_argument_error_cb h
  else if h.events.contains fd then Result.raised Exception.logic_error_already_exists h
  else SetCurrent { h with events := h.events.insert fd { error_cb_ := error_cb } } fd

/-- The method `EventHub::OnRead`. -/
def OnRead (h : EventHub) (read_cb : Option Nat) : Result :=
  match h.events.lookup h.current_fd_ with
  | none => Result.raised Exception.out_of_range h
  | some _ => Result.ok (h.update h.current_fd_ (fun e => { e with read_cb_ := read_cb }))

/-- The method `EventHub::OnWrite`. -/
def OnWrite (h : EventHub) (write_cb : Option Nat) : Result :=
  match h.events.lookup h.current_fd_ with
  | none => Result.raised Exception.out_of_range h
  | some _ => Result.ok (h.update h.current_fd_ (fun e => { e with write_cb_ := write_cb }))

/-- The method `EventHub::WithData`. -/
def WithData (h : EventHub) (data : Option Nat) : Result :=
  match h.events.lookup h.current_fd_ with
  | none => Result.raised Exception.out_of_range h
  | some _ => Result.ok (h.update h.current_fd_ (fun e => { e with data_ := data }))

/-- The method `EventHub::Ready`; `now` is the clock reading it takes when a timeout
period is given. -/
def Ready (h : EventHub) (timeout_period : Option Int) (now : Int) : Result :=
  match h.events.lookup h.current_fd_ with
  | none => Result.raised Exception.out_of_range h
  | some current_ev =>
    let fd := h.current_fd_
    let h1 :=
      if current_ev.read_cb_ ≠ none ∨ current_ev.write_cb_ ≠ none then
        if h.IsInReady fd then h else h.ReadyPush fd
      else h
    match timeout_period with
    | none => Result.ok h1
    | some period =>
      let h2 := if h1.IsInTimeout fd then h1.TimeoutRemove fd else h1
      let h3 := h2.update fd (fun e => { e with timeout_stamp_ := deadline_of now period })
      Result.ok (h3.TimeoutPush fd)

/-- The method `EventHub::Destroy`.  The entry is erased; the `reset()` that follows on
the erased slot is what a dispatch in progress later reads as `nullptr`. -/
def Destroy (h : EventHub) : Result :=
  match h.events.lookup h.current_fd_ with
  | none => Result.raised Exception.out_of_range h
  | some _ =>
    if h.IsInReady h.current_fd_ ∨ h.IsInTimeout h.current_fd_ then
      Result.raised Exception.logic_error_ready_or_timeout h
    else Result.ok { h with events := h.events.erase h.current_fd_ }

end EventHub

/-! ## User callbacks -/

/-- A call of the public builder surface made from inside a user callback. -/
inductive Action where
  | CreateEmpty (fd : Int) (error_cb : Option Nat)
  | SetCurrent (fd : Int)
  | OnRead (read_cb : Option Nat)
  | OnWrite (write_cb : Option Nat)
  | WithData (data : Option Nat)
  | Ready (timeout_period : Option Int) (now : Int)
  | Destroy
deriving DecidableEq, Repr

/-- What each user function does when invoked as `cb(fd, type, data)`: the calls it
makes on the hub, in order.  An exception of one of them leaves the callback. -/
abbrev Program := Nat → Int → EventType → Option Nat → List Action

/-- The program in which no callback touches the hub. -/
def Program.inert : Program := fun _ _ _ _ => []

/-- One public call. -/
def Action.run (a : Action) (h : EventHub) : Result :=
  match a with
  | Action.CreateEmpty fd error_cb => h.CreateEmpty fd error_cb
  | Action.SetCurrent fd => h.SetCurrent fd
  | Action.OnRead read_cb => h.OnRead read_cb
  | Action.OnWrite write_cb => h.OnWrite write_cb
  | Action.WithData data => h.WithData data
  | Action.Ready timeout_period now => h.Ready timeout_period now
  | Action.Destroy => h.Destroy

/-- A sequence of public calls; the first exception ends it. -/
def run_actions : List Action → EventHub → Result
  | [], h => Result.ok h
  | a :: rest, h => (a.run h).andThen (run_actions rest)

/-- The invocation `cb(fd, type, data)` of a callback slot; an empty slot throws. -/
def invoke (prog : Program) (cb : Option Nat) (fd : Int) (type : EventType)
    (data : Option Nat) (h : EventHub) : Result :=
  match cb with
  | none => Result.raised Exception.bad_function_call h
  | some k =>
    run_actions (prog k fd type data) { h with trace := h.trace ++ [Obs.call k fd type data] }

/-! ## The backends (`kqueue.cc`, `epoll.cc`) -/

namespace KQueue

/-- The method `KQueue::Add`. -/
def Add (os : OS) (h : EventHub) (fd : Int) : Result :=
  match h.events.lookup fd with
  | none => Result.raised Exception.out_of_range h
  | some current_ev =>
    if current_ev.write_cb_ ≠ none ∧ os.kevent_add_fails fd Filter.EVFILT_WRITE = true then
      Result.raised Exception.runtime_error_add h
    else if current_ev.read_cb_ ≠ none ∧ os.kevent_add_fails fd Filter.EVFILT_READ = true then
      Result.raised Exception.runtime_error_add h
    else Result.ok { h with registered_event_count_ := h.registered_event_count_ + 1 }

/-- The method `KQueue::Del`: the results of the two `kevent` calls are ignored. -/
def Del (h : EventHub) (fd : Int) : Result :=
  match h.events.lookup fd with
  | none => Result.raised Exception.out_of_range h
  | some _ => Result.ok { h with registered_event_count_ := h.registered_event_count_ - 1 }

/-- The body of the `for` loop of `KQueue::Poll` over the reported events. -/
def report : List (Int × Filter) → EventHub → Result
  | [], h => Result.ok h
  | (ident, filter) :: rest, h =>
    match h.events.lookup ident with
    | none => Result.raised Exception.out_of_range h
    | some _ =>
      let h1 :=
        match filter with
        | Filter.EVFILT_READ => h.update ident (fun e => { e with result_kRead := true })
        | Filter.EVFILT_WRITE => h.update ident (fun e => { e with result_kWrite := true })
        | Filter.other => h
      let h2 := if h1.IsInActive ident then h1 else h1.ActivePush ident
      report rest h2

/-- The method `KQueue::Poll`. -/
def Poll (os : OS) (h : EventHub) : Result :=
  if h.registered_event_count_ < 0 then Result.raised Exception.length_error h
  else
    match os.kevents with
    | none => Result.raised Exception.runtime_error_poll h
    | some active_kevs => report active_kevs h

end KQueue

namespace Epoll

/-- The method `Epoll::Add`. -/
def Add (os : OS) (h : EventHub) (fd : Int) : Result :=
  match h.events.lookup fd with
  | none => Result.raised Exception.out_of_range h
  | some _ =>
    if os.epoll_add_fails fd then Result.raised Exception.runtime_error_add h
    else Result.ok { h with registered_event_count_ := h.registered_event_count_ + 1 }

/-- The method `Epoll::Del`. -/
def Del (os : OS) (h : EventHub) (fd : Int) : Result :=
  if os.epoll_del_fails fd then Result.raised Exception.runtime_error_del h
  else Result.ok { h with registered_event_count_ := h.registered_event_count_ - 1 }

/-- The body of the `for` loop of `Epoll::Poll` over the reported events. -/
def report : List EpollEvent → EventHub → Result
  | [], h => Result.ok h
  | ev :: rest, h =>
    match h.events.lookup ev.fd with
    | none => Result.raised Exception.out_of_range h
    | some _ =>
      let h1 := if ev.epollin then h.update ev.fd (fun e => { e with result_kRead := true })
                else h
      let h2 := if ev.epollout then h1.update ev.fd (fun e => { e with result_kWrite := true })
                else h1
      report rest (h2.ActivePush ev.fd)

/-- The method `Epoll::Poll`. -/
def Poll (os : OS) (h : EventHub) : Result :=
  if h.registered_event_count_ < 0 then Result.raised Exception.length_error h
  else
    match os.epoll_events with
    | none => Result.raised Exception.runtime_error_poll h
    | some active_epoll_evs => report active_epoll_evs h

end Epoll

namespace EventHub

/-- The virtual call `sys_ev_op_->Add(fd)`, recorded in the trace. -/
def sys_Add (os : OS) (h : EventHub) (fd : Int) : Result :=
  match (match h.sys_ev_op_ with
         | Backend.KQueue => KQueue.Add os h fd
         | Backend.Epoll => Epoll.Add os h fd) with
  | Result.ok h1 => Result.ok { h1 with trace := h1.trace ++ [Obs.add fd true] }
  | Result.raised e h1 => Result.raised e { h1 with trace := h1.trace ++ [Obs.add fd false] }

/-- The virtual call `sys_ev_op_->Del(fd)`, recorded in the trace. -/
def sys_Del (os : OS) (h : EventHub) (fd : Int) : Result :=
  match (match h.sys_ev_op_ with
         | Backend.KQueue => KQueue.Del h fd
         | Backend.Epoll => Epoll.Del os h fd) with
  | Result.ok h1 => Result.ok { h1 with trace := h1.trace ++ [Obs.del fd true] }
  | Result.raised e h1 => Result.raised e { h1 with trace := h1.trace ++ [Obs.del fd false] }

/-- The virtual call `sys_ev_op_->Poll(waitting_time)`, recorded in the trace. -/
def sys_Poll (os : OS) (h : EventHub) (waitting_time : Int) : Result :=
  let h1 := { h with trace := h.trace ++ [Obs.poll waitting_time] }
  match h1.sys_ev_op_ with
  | Backend.KQueue => KQueue.Poll os h1
  | Backend.Epoll => Epoll.Poll os h1

/-- The loop of `EventHub::PreprocessReadyEvents`, at most `fuel` iterations. -/
def PreprocessReadyEvents_loop (os : OS) : Nat → EventHub → Result
  | 0, h =>
    match h.ready_fds_ with
    | [] => Result.ok h
    | _ :: _ => Result.raised Exception.out_of_fuel h
  | fuel + 1, h =>
    match h.ready_fds_ with
    | [] => Result.ok h
    | fd :: rest =>
      -- ReadyFrontAndPop
      let h1 := { h with ready_fds_ := rest }
      match h1.events.lookup fd with
      | none => Result.raised Exception.out_of_range h1
      | some _ =>
        let h2 := h1.update fd (fun e => { e with where_kInReady := false })
        match h2.events.lookup fd with
        | none => Result.raised Exception.out_of_range h2
        | some current_ev =>
          if current_ev.write_cb_ = none ∧ current_ev.read_cb_ = none then
            let h3 := if h2.IsInTimeout fd then h2.TimeoutRemove fd else h2
            PreprocessReadyEvents_loop os fuel h3
          else
            let h3 := h2.update fd (fun e => { e with is_locked := true })
            match sys_Add os h3 fd with
            | Result.ok h4 => PreprocessReadyEvents_loop os fuel h4
            | Result.raised _ h4 =>
              -- catch (...)
              let h5 := if h4.IsInTimeout fd then h4.TimeoutRemove fd else h4
              let h6 := h5.update fd (fun e => { e.result_reset with result_kError := true })
              PreprocessReadyEvents_loop os fuel (h6.ActivePush fd)

/-- The method `EventHub::PreprocessReadyEvents`: each iteration pops one descriptor
and none is pushed, so the length of the queue bounds the iterations. -/
def PreprocessReadyEvents (os : OS) (h : EventHub) : Result :=
  PreprocessReadyEvents_loop os h.ready_fds_.length h

/-- The method `EventHub::CalculateWaittingTime`: the waiting time in whole seconds
(`duration_cast` truncates), or the exception of `events.at`. -/
def CalculateWaittingTime (os : OS) (h : EventHub) : Except Exception Int :=
  match EventMinHeap.Top h.timeout_heap_ with
  | none => Except.ok 0
  | some top =>
    match h.events.lookup top with
    | none => Except.error Exception.out_of_range
    | some current_ev =>
      if current_ev.timeout_stamp_ ≤ os.now_wait then Except.ok 0
      else Except.ok (Int.tdiv (current_ev.timeout_stamp_ - os.now_wait) ticks_per_second)

/-- The loop of `EventHub::CheckTimeoutEvents`, at most `fuel` iterations. -/
def CheckTimeoutEvents_loop (os : OS) : Nat → EventHub → Result
  | 0, h =>
    match EventMinHeap.Top h.timeout_heap_ with
    | none => Result.ok h
    | some top =>
      match h.events.lookup top with
      | none => Result.raised Exception.out_of_range h
      | some current_ev =>
        if current_ev.timeout_stamp_ > os.now_check then Result.ok h
        else Result.raised Exception.out_of_fuel h
  | fuel + 1, h =>
    match EventMinHeap.Top h.timeout_heap_ with
    | none => Result.ok h
    | some top =>
      match h.events.lookup top with
      | none => Result.raised Exception.out_of_range h
      | some current_ev =>
        if current_ev.timeout_stamp_ > os.now_check then Result.ok h
        else
          let h1 := { h with timeout_heap_ := EventMinHeap.Pop h.events h.timeout_heap_ }
          let h2 := h1.update top (fun e => { e with where_kInTimeout := false })
          if h2.IsInActive top then
            let h3 := h2.update top (fun e => { e.result_reset with result_kTimeout := true })
            CheckTimeoutEvents_loop os fuel h3
          else
            let deregistered :=
              if current_ev.read_cb_ ≠ none ∨ current_ev.write_cb_ ≠ none then sys_Del os h2 top
              else Result.ok h2
            match deregistered with
            | Result.raised e h3 => Result.raised e h3
            | Result.ok h3 =>
              let h4 := h3.update top (fun e => { e.result_reset with result_kTimeout := true })
              CheckTimeoutEvents_loop os fuel (h4.ActivePush top)

/-- The method `EventHub::CheckTimeoutEvents`: each iteration pops one heap member and
none is pushed, so the size of the heap bounds the iterations. -/
def CheckTimeoutEvents (os : OS) (h : EventHub) : Result :=
  CheckTimeoutEvents_loop os h.timeout_heap_.length h

/-- How one guarded callback invocation of `ResponseActiveEvents` ends. -/
inductive Step where
  /-- Control reaches the next statement. -/
  | next (hub : EventHub)
  /-- The `return` taken when `current_ev == nullptr`. -/
  | returned (hub : EventHub)
  /-- The callback threw. -/
  | raised (e : Exception) (hub : EventHub)

/-- The hub state one guarded callback invocation ends in. -/
def Step.hub : Step → EventHub
  | Step.next h => h
  | Step.returned h => h
  | Step.raised _ h => h

/-- One of the four guarded callback invocations of `ResponseActiveEvents` for the
descriptor `fd`: if `guard` holds of the event, call the slot `cb` with `type` and the
event's data, then test `current_ev == nullptr`.  The slot of an erased descriptor is
read as `nullptr` (what `Destroy` stores there). -/
def guarded_call (prog : Program) (fd : Int) (type : EventType) (guard : Event → Bool)
    (cb : Event → Option Nat) (h : EventHub) : Step :=
  match h.events.lookup fd with
  | none => Step.returned h
  | some current_ev =>
    if guard current_ev then
      match invoke prog (cb current_ev) fd type current_ev.data_ h with
      | Result.raised e h1 => Step.raised e h1
      | Result.ok h1 => if h1.events.contains fd then Step.next h1 else Step.returned h1
    else Step.next h

/-- The loop of `EventHub::ResponseActiveEvents`, at most `fuel` iterations. -/
def ResponseActiveEvents_loop (prog : Program) (os : OS) : Nat → EventHub → Result
  | 0, h =>
    match h.active_fds_ with
    | [] => Result.ok h
    | _ :: _ => Result.raised Exception.out_of_fuel h
  | fuel + 1, h =>
    match h.active_fds_ with
    | [] => Result.ok h
    | fd :: rest =>
      -- ActiveFrontAndPop
      let h1 := { h with active_fds_ := rest }
      match h1.events.lookup fd with
      | none => Result.raised Exception.out_of_range h1
      | some _ =>
        let h2 := h1.update fd (fun e => { e with where_kInActive := false })
        match h2.events.lookup fd with
        | none => Result.raised Exception.out_of_range h2
        | some current_ev =>
          let deregistered :=
            if current_ev.write_cb_ ≠ none ∨ current_ev.read_cb_ ≠ none then sys_Del os h2 fd
            else Result.ok h2
          match deregistered with
          | Result.raised e h3 => Result.raised e h3
          | Result.ok h3 =>
            let wr_callback := current_ev.write_cb_
            let rd_callbcak := current_ev.read_cb_
            let h4 := h3.update fd (fun e => { e with read_cb_ := none, write_cb_ := none })
            let h5 := if h4.IsInTimeout fd then h4.TimeoutRemove fd else h4
            let h6 := h5.update fd (fun e => { e with is_locked := false })
            match guarded_call prog fd EventType.kWrite
                (fun e => wr_callback.isSome && e.result_kWrite) (fun _ => wr_callback) h6 with
            | Step.raised e h7 => Result.raised e h7
            | Step.returned h7 => Result.ok h7
            | Step.next h7 =>
              match guarded_call prog fd EventType.kRead
                  (fun e => rd_callbcak.isSome && e.result_kRead) (fun _ => rd_callbcak) h7 with
              | Step.raised e h8 => Result.raised e h8
              | Step.returned h8 => Result.ok h8
              | Step.next h8 =>
                match guarded_call prog fd EventType.kError
                    (fun e => e.result_kError) (fun e => e.error_cb_) h8 with
                | Step.raised e h9 => Result.raised e h9
                | Step.returned h9 => Result.ok h9
                | Step.next h9 =>
                  match guarded_call prog fd EventType.kTimeout
                      (fun e => e.result_kTimeout) (fun e => e.error_cb_) h9 with
                  | Step.raised e h10 => Result.raised e h10
                  | Step.returned h10 => Result.ok h10
                  | Step.next h10 =>
                    ResponseActiveEvents_loop prog os fuel
                      (h10.update fd (fun e => e.result_reset))

/-- The method `EventHub::ResponseActiveEvents`: each iteration pops one descriptor and
no public call pushes one, so the length of the queue bounds the iterations. -/
def ResponseActiveEvents (prog : Program) (os : OS) (h : EventHub) : Result :=
  ResponseActiveEvents_loop prog os h.active_fds_.length h

/-- The method `EventHub::LoopOnce`. -/
def LoopOnce (prog : Program) (os : OS) (h : EventHub) (can_block : Bool) : Result :=
  (PreprocessReadyEvents os h).andThen fun h1 =>
    match (if can_block then CalculateWaittingTime os h1 else Except.ok 0) with
    | Except.error e => Result.raised e h1
    | Except.ok waitting_time =>
      (sys_Poll os h1 waitting_time).andThen fun h2 =>
        (CheckTimeoutEvents os h2).andThen fun h3 =>
          ResponseActiveEvents prog os h3

/-- The method `EventHub::LoopOnce` where the operating system answers `os` up to and
during `CheckTimeoutEvents` and `os_dispatch` during `ResponseActiveEvents`: a system call
that is repeated within one iteration need not be answered twice in the same way.  With
`os_dispatch = os` this is `LoopOnce`. -/
def LoopOnce_answers (prog : Program) (os os_dispatch : OS) (h : EventHub)
    (can_block : Bool) : Result :=
  (PreprocessReadyEvents os h).andThen fun h1 =>
    match (if can_block then CalculateWaittingTime os h1 else Except.ok 0) with
    | Except.error e => Result.raised e h1
    | Except.ok waitting_time =>
      (sys_Poll os h1 waitting_time).andThen fun h2 =>
        (CheckTimeoutEvents os h2).andThen fun h3 =>
          ResponseActiveEvents prog os_dispatch h3

end EventHub

/-! ## Sequences of public calls and the trace -/

/-- A call of the public surface made by the owner of the hub. -/
inductive Call where
  | action (a : Action)
  | LoopOnce (os : OS) (can_block : Bool)

/-- One call of the owner. -/
def Call.run (prog : Program) (c : Call) (h : EventHub) : Result :=
  match c with
  | Call.action a => a.run h
  | Call.LoopOnce os can_block => h.LoopOnce prog os can_block

/-- A sequence of calls of the owner; after a call that throws, the owner goes on
with the hub as the throw left it. -/
def run_calls (prog : Program) : List Call → EventHub → EventHub
  | [], h => h
  | c :: rest, h => run_calls prog rest (c.run prog h).hub

/-- Whether a trace entry is a callback invocation for the descriptor `fd`. -/
def Obs.is_call_for (fd : Int) : Obs → Bool
  | Obs.call _ g _ _ => decide (g = fd)
  | _ => false

/-- The callback invocations for the descriptor `fd` in a trace, in order. -/
def calls_for (fd : Int) (trace : List Obs) : List Obs :=
  trace.filter (Obs.is_call_for fd)

/-- Whether a trace entry is a callback invocation. -/
def Obs.is_call : Obs → Bool
  | Obs.call _ _ _ _ => true
  | _ => false

/-- The callback invocations in a trace, in order. -/
def calls (trace : List Obs) : List Obs :=
  trace.filter Obs.is_call

/-! ## Scenarios -/

/-- Descriptors 1, 2 and 3, each with a read callback and an error callback, armed at
time 0 with timeouts of 10 s, 20 s and 30 s; then descriptor 3 is re-armed with 40 s. -/
def scenario_rearm : EventHub :=
  run_calls Program.inert
    [Call.action (Action.CreateEmpty 1 (some 10)), Call.action (Action.OnRead (some 11)),
     Call.action (Action.Ready (some 10) 0),
     Call.action (Action.CreateEmpty 2 (some 20)), Call.action (Action.OnRead (some 21)),
     Call.action (Action.Ready (some 20) 0),
     Call.action (Action.CreateEmpty 3 (some 30)), Call.action (Action.OnRead (some 31)),
     Call.action (Action.Ready (some 30) 0),
     Call.action (Action.Ready (some 40) 0)]
    (EventHub.initial Backend.KQueue)

/-- An iteration at time `t` seconds in which the operating system reports nothing. -/
def quiet_at (t : Int) : OS :=
  { now_wait := t * ticks_per_second, now_check := t * ticks_per_second }

/-- Descriptor 5 with error callback 50 and read callback 51, armed without a timeout,
after one iteration in which nothing is reported. -/
def scenario_armed : EventHub :=
  run_calls Program.inert
    [Call.action (Action.CreateEmpty 5 (some 50)), Call.action (Action.OnRead (some 51)),
     Call.action (Action.Ready none 0), Call.LoopOnce (quiet_at 0) true]
    (EventHub.initial Backend.KQueue)

/-- Descriptor 5 (error callback 50, read callback 51) armed at time 0 with a timeout of
2 s and descriptor 7 (error callback 70, read callback 71) armed without one, after one
iteration at time 0 in which nothing is reported. -/
def scenario_race : EventHub :=
  run_calls Program.inert
    [Call.action (Action.CreateEmpty 5 (some 50)), Call.action (Action.OnRead (some 51)),
     Call.action (Action.Ready (some 2) 0),
     Call.action (Action.CreateEmpty 7 (some 70)), Call.action (Action.OnRead (some 71)),
     Call.action (Action.Ready none 0), Call.LoopOnce (quiet_at 0) true]
    (EventHub.initial Backend.KQueue)

/-- The iteration of the race: at time 2 s the poll reports 5 and 7 readable. -/
def os_race : OS :=
  { kevents := some [(5, Filter.EVFILT_READ), (7, Filter.EVFILT_READ)],
    now_wait := 2 * ticks_per_second, now_check := 2 * ticks_per_second }

/-- The calls `LoopOnce(can_block)` of a list of iterations, each with the answers of
the operating system during it. -/
def loops (its : List (OS × Bool)) : List Call :=
  its.map (fun it => Call.LoopOnce it.1 it.2)

/-- Timeout scenario, first stage: `fd` has read callback `r`, error callback `e` and
data `data`, and awaits registration and its deadline. -/
def Pending (fd : Int) (r e : Nat) (data : Option Nat) (deadline : Int) (h : EventHub) :
    Prop :=
  h.sys_ev_op_ = Backend.KQueue ∧ h.registered_event_count_ = 0 ∧
  h.ready_fds_ = [fd] ∧ h.timeout_heap_ = [fd] ∧ h.active_fds_ = [] ∧
  h.events.lookup fd = some
    { where_kInReady := true, where_kInTimeout := true, data_ := data,
      read_cb_ := some r, error_cb_ := some e, timeout_stamp_ := deadline }

/-- Timeout scenario, second stage: `fd` is locked and registered, in the heap. -/
def Armed (fd : Int) (r e : Nat) (data : Option Nat) (deadline : Int) (h : EventHub) :
    Prop :=
  h.sys_ev_op_ = Backend.KQueue ∧ h.registered_event_count_ = 1 ∧
  h.ready_fds_ = [] ∧ h.timeout_heap_ = [fd] ∧ h.active_fds_ = [] ∧
  h.events.lookup fd = some
    { is_locked := true, where_kInTimeout := true, data_ := data,
      read_cb_ := some r, error_cb_ := some e, timeout_stamp_ := deadline }

/-- Timeout scenario, last stage: the timeout was dispatched; nothing is queued. -/
def Fired (h : EventHub) : Prop :=
  h.sys_ev_op_ = Backend.KQueue ∧ h.registered_event_count_ = -1 ∧
  h.ready_fds_ = [] ∧ h.timeout_heap_ = [] ∧ h.active_fds_ = []

/-- Descriptor 3 with error callback 30, just created. -/
def scenario_created : EventHub :=
  run_calls Program.inert [Call.action (Action.CreateEmpty 3 (some 30))]
    (EventHub.initial Backend.KQueue)

/-! ## Notions used to state the behaviour of one iteration -/

/-- Whether the event has a read or a write callback. -/
def Event.has_callback (e : Event) : Bool := e.write_cb_.isSome || e.read_cb_.isSome

/-- Whether `KQueue::Add` throws for a descriptor with this event. -/
def KQueue.add_fails (os : OS) (fd : Int) (e : Event) : Bool :=
  (e.write_cb_.isSome && os.kevent_add_fails fd Filter.EVFILT_WRITE) ||
  (e.read_cb_.isSome && os.kevent_add_fails fd Filter.EVFILT_READ)

/-- The invocation of a callback slot as a trace entry (nothing for an empty slot). -/
def call_of (cb : Option Nat) (fd : Int) (type : EventType) (data : Option Nat) : List Obs :=
  match cb with
  | some k => [Obs.call k fd type data]
  | none => []

/-- The callback invocations that the dispatch of `fd` makes for an event with these
callbacks and result flags, in order. -/
def dispatch_calls (fd : Int) (e : Event) : List Obs :=
  (if e.result_kWrite then call_of e.write_cb_ fd EventType.kWrite e.data_ else []) ++
  (if e.result_kRead then call_of e.read_cb_ fd EventType.kRead e.data_ else []) ++
  (if e.result_kError then call_of e.error_cb_ fd EventType.kError e.data_ else []) ++
  (if e.result_kTimeout then call_of e.error_cb_ fd EventType.kTimeout e.data_ else [])

/-- The hub runs on KQueue, every queued descriptor is tracked exactly once, every event
has an error callback, and a descriptor flagged `kInActive` is in the dispatch queue. -/
structure Sound (h : EventHub) : Prop where
  kqueue : h.sys_ev_op_ = Backend.KQueue
  ready_tracked : ∀ g ∈ h.ready_fds_, h.events.lookup g ≠ none
  heap_tracked : ∀ g ∈ h.timeout_heap_, h.events.lookup g ≠ none
  active_tracked : ∀ g ∈ h.active_fds_, h.events.lookup g ≠ none
  error_cb : ∀ g e, h.events.lookup g = some e → e.error_cb_ ≠ none
  active_flag : ∀ g e, h.events.lookup g = some e → e.where_kInActive = true →
    g ∈ h.active_fds_
  ready_nodup : h.ready_fds_.Nodup
  heap_nodup : h.timeout_heap_.Nodup

/-- The flags `kInReady` and `kInTimeout` agree with the registration queue and the
timeout heap, and no descriptor occurs twice in either. -/
structure Consistent (h : EventHub) : Prop where
  ready_nodup : h.ready_fds_.Nodup
  heap_nodup : h.timeout_heap_.Nodup
  ready_flag : ∀ g, g ∈ h.ready_fds_ ↔ h.IsInReady g = true
  heap_flag : ∀ g, g ∈ h.timeout_heap_ ↔ h.IsInTimeout g = true

/-- The dispatch queue holds no descriptor twice and holds exactly the descriptors
flagged `kInActive`. -/
structure ActiveAgree (h : EventHub) : Prop where
  active_nodup : h.active_fds_.Nodup
  active_flag : ∀ g, g ∈ h.active_fds_ ↔ h.IsInActive g = true

/-- The descriptor `x` is tracked with the event `e` and is not the selected descriptor. -/
@[reducible] def EventHub.shields (h : EventHub) (x : Int) (e : Event) : Prop :=
  h.events.lookup x = some e ∧ h.current_fd_ ≠ x

/-- The event after the poll reported its descriptor with the given filter. -/
def Event.reported (e : Event) (filter : Filter) : Event :=
  { e with where_kInActive := true
           result_kRead := e.result_kRead || decide (filter = Filter.EVFILT_READ)
           result_kWrite := e.result_kWrite || decide (filter = Filter.EVFILT_WRITE) }

/-- The event of descriptor `x` after the poll reported the list `evs`. -/
def Event.polled (x : Int) (evs : List (Int × Filter)) (e : Event) : Event :=
  evs.foldl (fun e1 r => if r.1 = x then e1.reported r.2 else e1) e

/-- The event after its descriptor was dispatched by callbacks that leave it alone. -/
def Event.dispatched (e : Event) : Event :=
  { e with where_kInActive := false, where_kInTimeout := false, is_locked := false,
           read_cb_ := none, write_cb_ := none,
           result_kWrite := false, result_kRead := false,
           result_kTimeout := false, result_kError := false }

/-- Descriptor 9 (error callback 90, read callback 91) and descriptor 4 (error callback
40, read callback 41), both armed without a timeout and awaiting registration. -/
def scenario_bad_handle : EventHub :=
  run_calls Program.inert
    [Call.action (Action.CreateEmpty 9 (some 90)), Call.action (Action.OnRead (some 91)),
     Call.action (Action.Ready none 0),
     Call.action (Action.CreateEmpty 4 (some 40)), Call.action (Action.OnRead (some 41)),
     Call.action (Action.Ready none 0)]
    (EventHub.initial Backend.KQueue)

/-- An iteration in which the registration of descriptor 9 fails and the poll reports
descriptor 4 readable. -/
def os_bad_handle : OS :=
  { kevent_add_fails := fun fd _ => decide (fd = 9),
    kevents := some [(4, Filter.EVFILT_READ)] }

/-- Descriptor 9 (error callback 90, read callback 91, write callback 92) and descriptor 4
(error callback 40, read callback 41), both armed without a timeout and awaiting
registration. -/
def scenario_half_registered : EventHub :=
  run_calls Program.inert
    [Call.action (Action.CreateEmpty 9 (some 90)), Call.action (Action.OnRead (some 91)),
     Call.action (Action.OnWrite (some 92)), Call.action (Action.Ready none 0),
     Call.action (Action.CreateEmpty 4 (some 40)), Call.action (Action.OnRead (some 41)),
     Call.action (Action.Ready none 0)]
    (EventHub.initial Backend.KQueue)

/-- An iteration in which `kevent` adds the write filter of descriptor 9 and refuses its
read filter, and the poll then reports descriptor 9 writable. -/
def os_half_registered : OS :=
  { kevent_add_fails := fun fd filter => decide (fd = 9 ∧ filter = Filter.EVFILT_READ),
    kevents := some [(9, Filter.EVFILT_WRITE)] }

/-- User code in which function 41, the read callback of descriptor 4 below, destroys the
descriptor it is called for (`SetCurrent(fd).Destroy()`); every other function leaves the
hub alone. -/
def prog_self_destroy : Program :=
  fun k fd _ _ => if k = 41 then [Action.SetCurrent fd, Action.Destroy] else []

/-- Descriptor 4 (error callback 40, read callback 41) and descriptor 7 (error callback
70, read callback 71), both armed without a timeout and awaiting registration. -/
def scenario_two_readers (backend : Backend) : EventHub :=
  run_calls prog_self_destroy
    [Call.action (Action.CreateEmpty 4 (some 40)), Call.action (Action.OnRead (some 41)),
     Call.action (Action.Ready none 0),
     Call.action (Action.CreateEmpty 7 (some 70)), Call.action (Action.OnRead (some 71)),
     Call.action (Action.Ready none 0)]
    (EventHub.initial backend)

/-- An iteration in which the poll reports descriptors 4 and 7 readable. -/
def os_both_readable : OS :=
  { kevents := some [(4, Filter.EVFILT_READ), (7, Filter.EVFILT_READ)],
    epoll_events := some [{ fd := 4, epollin := true, epollout := false },
                          { fd := 7, epollin := true, epollout := false }] }

/-- An iteration in which the poll reports descriptor 7 readable. -/
def os_seven_readable : OS :=
  { kevents := some [(7, Filter.EVFILT_READ)],
    epoll_events := some [{ fd := 7, epollin := true, epollout := false }] }

/-- The hub of `scenario_bad_handle` over the epoll backend. -/
def scenario_bad_handle_epoll : EventHub :=
  run_calls Program.inert
    [Call.action (Action.CreateEmpty 9 (some 90)), Call.action (Action.OnRead (some 91)),
     Call.action (Action.Ready none 0),
     Call.action (Action.CreateEmpty 4 (some 40)), Call.action (Action.OnRead (some 41)),
     Call.action (Action.Ready none 0)]
    (EventHub.initial Backend.Epoll)

/-- An iteration over epoll in which `epoll_ctl` refuses to add descriptor 9 and, the
descriptor not being registered, refuses to delete it; nothing is reported. -/
def os_bad_handle_epoll : OS :=
  { epoll_add_fails := fun fd => decide (fd = 9),
    epoll_del_fails := fun fd => decide (fd = 9) }

/-! ## Notions used to state what an iteration leaves alone -/

/-- Whether a trace entry is a call `sys_ev_op_->Add(fd)`. -/
def Obs.is_add_for (fd : Int) : Obs → Bool
  | Obs.add g _ => decide (g = fd)
  | _ => false

/-- The calls `sys_ev_op_->Add(fd)` in a trace, in order. -/
def adds_for (fd : Int) (trace : List Obs) : List Obs :=
  trace.filter (Obs.is_add_for fd)

/-- Whether the poll of the iteration reports the descriptor `fd` (on either backend). -/
def OS.reports (os : OS) (fd : Int) : Bool :=
  (match os.kevents with
   | some evs => evs.any (fun r => decide (r.1 = fd))
   | none => false) ||
  (match os.epoll_events with
   | some evs => evs.any (fun ev => decide (ev.fd = fd))
   | none => false)

/-- As far as the descriptor `f` is concerned, the hub `h1` is the hub `h`: same event,
as often in the registration queue and in the dispatch queue, in the timeout heap or not
as before, and the same callback invocations and `Add` calls for it in the trace. -/
structure SameFor (f : Int) (h h1 : EventHub) : Prop where
  lookup : h1.events.lookup f = h.events.lookup f
  ready : h1.ready_fds_.count f = h.ready_fds_.count f
  heap : f ∈ h1.timeout_heap_ ↔ f ∈ h.timeout_heap_
  active : h1.active_fds_.count f = h.active_fds_.count f
  calls : calls_for f h1.trace = calls_for f h.trace
  adds : adds_for f h1.trace = adds_for f h.trace

/-- An event that no iteration acts on by itself: unlocked, no read or write callback, not
flagged as awaiting registration or a deadline, and no error or timeout pending. -/
def Event.spent (e : Event) : Bool :=
  e.read_cb_.isNone && e.write_cb_.isNone && !e.result_kError && !e.result_kTimeout &&
  !e.is_locked && !e.where_kInReady && !e.where_kInTimeout

/-- The descriptor `f` is tracked with a spent event and is neither in the registration
queue nor in the timeout heap. -/
def EventHub.spent_at (h : EventHub) (f : Int) : Prop :=
  (h.events.lookup f).map Event.spent = some true ∧ f ∉ h.ready_fds_ ∧
  f ∉ h.timeout_heap_

/-- The descriptor `f` is tracked with the event `e` and is in none of the three queues. -/
def EventHub.idle_at (h : EventHub) (f : Int) (e : Event) : Prop :=
  h.events.lookup f = some e ∧ f ∉ h.ready_fds_ ∧ f ∉ h.timeout_heap_ ∧
  f ∉ h.active_fds_

/-- The descriptor `f` is spent in `h1`, and the trace of `h1` holds the same callback
invocations and `Add` calls for `f` as the trace of `h`. -/
structure StaysSpent (f : Int) (h h1 : EventHub) : Prop where
  spent : h1.spent_at f
  calls : calls_for f h1.trace = calls_for f h.trace
  adds : adds_for f h1.trace = adds_for f h.trace

/-- The callbacks of the descriptors other than `f` leave `f` alone, from whatever state
they are invoked in. -/
def Program.leaves (prog : Program) (f : Int) : Prop :=
  ∀ (k : Nat) (g : Int) (t : EventType) (d : Option Nat) (h0 : EventHub), g ≠ f →
    SameFor f h0 (run_actions (prog k g t d) h0).hub

/-- What the dispatch of a descriptor reads from its event between two callbacks: the
four result flags, the error callback and the user data. -/
def Event.pending (e : Event) : Bool × Bool × Bool × Bool × Option Nat × Option Nat :=
  (e.result_kWrite, e.result_kRead, e.result_kError, e.result_kTimeout, e.error_cb_, e.data_)

/-- The callbacks of the descriptor `g`, invoked while `g` is tracked and unlocked, return
normally and leave `g` tracked and unlocked with the same result flags, error callback
and user data (they may set callbacks and call `Ready`). -/
def Program.keeps (prog : Program) (g : Int) : Prop :=
  ∀ (k : Nat) (t : EventType) (d : Option Nat) (h0 : EventHub) (e0 : Event),
    h0.events.lookup g = some e0 → e0.is_locked = false →
    ∃ h1 e1, run_actions (prog k g t d) h0 = Result.ok h1 ∧
      h1.events.lookup g = some e1 ∧ e1.is_locked = false ∧ e1.pending = e0.pending

/-- The call does not select the descriptor `f`: it is neither `SetCurrent(f)` nor
`CreateEmpty(f, …)`. -/
def Action.avoids (f : Int) : Action → Bool
  | Action.SetCurrent g => decide (g ≠ f)
  | Action.CreateEmpty g _ => decide (g ≠ f)
  | _ => true

/-- The call selects a descriptor other than `f`: it is `SetCurrent(g)` or
`CreateEmpty(g, …)` with `g ≠ f`. -/
def Action.selects_other (f : Int) : Action → Bool
  | Action.SetCurrent g => decide (g ≠ f)
  | Action.CreateEmpty g _ => decide (g ≠ f)
  | _ => false

/-- A callback that re-arms its descriptor for reading, as the read callback of the echo
example does: callback 51 selects its descriptor, sets itself as the read callback, clears
the write callback and calls `Ready()` without a timeout. -/
def prog_rearm : Program :=
  fun k fd _ _ =>
    if k = 51 then
      [Action.SetCurrent fd, Action.OnRead (some 51), Action.OnWrite none,
       Action.Ready none 0]
    else []

/-- Descriptor 5 (error callback 50) armed at time 0 with a read callback and a timeout of
2 s, its read callback then set to null; and descriptor 7 (error callback 70, read
callback 51) armed without a timeout.  Both await registration. -/
def scenario_cancelled : EventHub :=
  run_calls prog_rearm
    [Call.action (Action.CreateEmpty 5 (some 50)), Call.action (Action.OnRead (some 51)),
     Call.action (Action.Ready (some 2) 0), Call.action (Action.OnRead none),
     Call.action (Action.CreateEmpty 7 (some 70)), Call.action (Action.OnRead (some 51)),
     Call.action (Action.Ready none 0)]
    (EventHub.initial Backend.KQueue)

/-- An iteration at time 3 s in which the poll reports descriptor 7 readable. -/
def os_after_deadline : OS :=
  { kevents := some [(7, Filter.EVFILT_READ)],
    now_wait := 3 * ticks_per_second, now_check := 3 * ticks_per_second }

/-- An iteration in which the poll reports descriptor 5 readable. -/
def os_five_readable : OS :=
  { kevents := some [(5, Filter.EVFILT_READ)],
    epoll_events := some [{ fd := 5, epollin := true, epollout := false }] }

/-- The heap after the descriptors `fds` were pushed, in this order, onto an empty
`EventMinHeap`. -/
def EventMinHeap.push_all (events : Table) (fds : List Int) : List Int :=
  fds.foldl (EventMinHeap.Push events) []

/-- The descriptors read by a client that repeats `Top()` then `Pop()`, at most `fuel`
times, until the heap is empty. -/
def EventMinHeap.drain (events : Table) : Nat → List Int → List Int
  | 0, _ => []
  | fuel + 1, data =>
    match EventMinHeap.Top data with
    | none => []
    | some top => top :: EventMinHeap.drain events fuel (EventMinHeap.Pop events data)

/-- The first `len` elements of the vector are in heap order for the key: no element has
a key below the key of its parent. -/
def heap_ordered (key : Int → Int) (len : Nat) (data : List Int) : Prop :=
  ∀ i, 0 < i → i < len → key (data.getD ((i - 1) / 2) 0) ≤ key (data.getD i 0)

/-- Heap order but for the element at `hole`, which may have a key below its parent's;
the children of `hole` are in order with the parent of `hole`. -/
def heap_ordered_but_up (key : Int → Int) (len : Nat) (data : List Int) (hole : Nat) :
    Prop :=
  (∀ i, 0 < i → i < len → i ≠ hole →
    key (data.getD ((i - 1) / 2) 0) ≤ key (data.getD i 0)) ∧
  (0 < hole → ∀ c, 0 < c → c < len → (c - 1) / 2 = hole →
    key (data.getD ((hole - 1) / 2) 0) ≤ key (data.getD c 0))

/-- Heap order but for the element at `start`, which may have a key above its children's;
the children of `start` are in order with the parent of `start`. -/
def heap_ordered_but_down (key : Int → Int) (len : Nat) (data : List Int) (start : Nat) :
    Prop :=
  (∀ i, 0 < i → i < len → (i - 1) / 2 ≠ start →
    key (data.getD ((i - 1) / 2) 0) ≤ key (data.getD i 0)) ∧
  (0 < start → ∀ c, 0 < c → c < len → (c - 1) / 2 = start →
    key (data.getD ((start - 1) / 2) 0) ≤ key (data.getD c 0))

/-! ## Notions and scenarios for the deregistrations, the wait and the timers -/

/-- Whether a trace entry is a call `sys_ev_op_->Del(fd)`. -/
def Obs.is_del_for (fd : Int) : Obs → Bool
  | Obs.del g _ => decide (g = fd)
  | _ => false

/-- The calls `sys_ev_op_->Del(fd)` in a trace, in order. -/
def dels_for (fd : Int) (trace : List Obs) : List Obs :=
  trace.filter (Obs.is_del_for fd)

/-- The wait that `LoopOnce(can_block)` computes for a hub whose registration queue has
been drained: `0s` without `can_block`, else the value of `CalculateWaittingTime` at the
clock reading `now`, in whole seconds. -/
def wait_bound (h : EventHub) (can_block : Bool) (now : Int) : Int :=
  if can_block = true then
    match EventMinHeap.Top h.timeout_heap_ with
    | none => 0
    | some top =>
      if stamp h.events top ≤ now then 0
      else Int.tdiv (stamp h.events top - now) ticks_per_second
  else 0

/-- Descriptor 5 (error callback 50, read callback 51) armed at time 0 with a timeout of
2 s and awaiting registration. -/
def scenario_deadline : EventHub :=
  run_calls Program.inert
    [Call.action (Action.CreateEmpty 5 (some 50)), Call.action (Action.OnRead (some 51)),
     Call.action (Action.Ready (some 2) 0)]
    (EventHub.initial Backend.KQueue)

/-- An iteration at time `t` clock ticks in which the operating system reports nothing. -/
def quiet_at_tick (t : Int) : OS :=
  { now_wait := t, now_check := t }

/-- Descriptors 1, 2 and 3 with an error callback only, armed at time 0 with timeouts of
10 s, 20 s and 30 s; then descriptor 3 is re-armed with 40 s. -/
def scenario_timers : EventHub :=
  run_calls Program.inert
    [Call.action (Action.CreateEmpty 1 (some 10)), Call.action (Action.Ready (some 10) 0),
     Call.action (Action.CreateEmpty 2 (some 20)), Call.action (Action.Ready (some 20) 0),
     Call.action (Action.CreateEmpty 3 (some 30)), Call.action (Action.Ready (some 30) 0),
     Call.action (Action.Ready (some 40) 0)]
    (EventHub.initial Backend.KQueue)

/-- Descriptor 5 with an error callback only, armed at time 0 with a timeout of 2 s. -/
def scenario_timer : EventHub :=
  run_calls Program.inert
    [Call.action (Action.CreateEmpty 5 (some 50)), Call.action (Action.Ready (some 2) 0)]
    (EventHub.initial Backend.KQueue)

/-- No callback of the descriptor `g` reconfigures or destroys `g`: in whatever state it is
invoked, the calls it makes on the hub, up to their end or to the first that throws, leave
the event of `g` and the membership of `g` in the registration queue, the timeout heap and
the dispatch queue as they are.  The callbacks may act on other descriptors and may
throw. -/
def Program.respects (prog : Program) (g : Int) : Prop :=
  ∀ (k : Nat) (t : EventType) (d : Option Nat) (h0 : EventHub),
    SameFor g h0 (run_actions (prog k g t d) h0).hub

/-- The event of a descriptor in the middle of its dispatch: taken from the dispatch queue
and the timeout heap, its callbacks saved and cleared, unlocked, the result flags not yet
reset. -/
def Event.dispatching (e : Event) : Event :=
  { e with where_kInActive := false, where_kInTimeout := false, is_locked := false,
           read_cb_ := none, write_cb_ := none }

/-- A callback that accepts a connection, as the read callback of the listening socket of
the echo example does, without re-arming its own descriptor: callback 51 creates
descriptor 6 with error callback 60, gives it the read callback 61 and arms it. -/
def prog_accept : Program :=
  fun k _ _ _ =>
    if k = 51 then
      [Action.CreateEmpty 6 (some 60), Action.OnRead (some 61), Action.Ready none 0]
    else []

/-- An event of a timer-only descriptor: no read and no write callback, unlocked and not
flagged as awaiting registration. -/
def Event.timer (e : Event) : Bool :=
  e.read_cb_.isNone && e.write_cb_.isNone && !e.is_locked && !e.where_kInReady

/-- The descriptor `f` is a timer-only descriptor in `h1`, and the trace of `h1` holds the
same `Add` and `Del` calls for `f` as the trace of `h`. -/
structure StaysTimer (f : Int) (h h1 : EventHub) : Prop where
  timer : (h1.events.lookup f).map Event.timer = some true
  adds : adds_for f h1.trace = adds_for f h.trace
  dels : dels_for f h1.trace = dels_for f h.trace

/-! ## The timeout scenario over epoll -/

/-- Descriptor 5 (error callback 50, read callback 51) armed at time 0 with a timeout of
2 s on the epoll backend, after the iteration at time 0 that registers it. -/
def scenario_timeout_epoll : EventHub :=
  run_calls Program.inert
    [Call.action (Action.CreateEmpty 5 (some 50)), Call.action (Action.OnRead (some 51)),
     Call.action (Action.Ready (some 2) 0), Call.LoopOnce (quiet_at 0) true]
    (EventHub.initial Backend.Epoll)

/-- The answers at time 2 s once descriptor 5 has been deleted from the epoll instance:
`epoll_ctl(EPOLL_CTL_DEL)` fails for it. -/
def os_five_deleted : OS :=
  { epoll_del_fails := fun fd => decide (fd = 5),
    now_wait := 2 * ticks_per_second, now_check := 2 * ticks_per_second }

/-- An iteration at time `t` seconds over an epoll instance with no registered descriptor:
`epoll_wait` is called for zero events and fails. -/
def epoll_empty_at (t : Int) : OS :=
  { epoll_events := none, now_wait := t * ticks_per_second,
    now_check := t * ticks_per_second }

/-! ## Re-arming callbacks -/

/-- Whether the call is `OnRead` or `OnWrite`. -/
def Action.sets_callback : Action → Bool
  | Action.OnRead _ => true
  | Action.OnWrite _ => true
  | _ => false

/-- The event of the selected descriptor after the calls of `cfg`, each an `OnRead` or an
`OnWrite`: the read callback is the argument of the last `OnRead`, the write callback that
of the last `OnWrite`, and a callback that no call sets is as before. -/
def Event.configured (cfg : List Action) (e : Event) : Event :=
  cfg.foldl (fun e1 a =>
    match a with
    | Action.OnRead cb => { e1 with read_cb_ := cb }
    | Action.OnWrite cb => { e1 with write_cb_ := cb }
    | _ => e1) e

/-- The event of the selected descriptor after `Ready(t)` with the clock reading `now`:
flagged as awaiting registration if it has a callback, and flagged as in the timeout heap
with the deadline computed from `now` and the period if one is given. -/
def Event.armed (t : Option Int) (now : Int) (e : Event) : Event :=
  { e with
    where_kInReady := e.where_kInReady || e.has_callback
    where_kInTimeout := e.where_kInTimeout || t.isSome
    timeout_stamp_ :=
      match t with
      | some p => deadline_of now p
      | none => e.timeout_stamp_ }

/-- What a callback that re-arms its descriptor does, as the callbacks of the echo and
chatroom examples do: `SetCurrent(fd)`, then the calls `cfg` of `OnRead` and `OnWrite`,
then `Ready(timeout)`, which reads the clock as `now` when a timeout is given. -/
structure Rearm where
  cfg : List Action
  timeout : Option Int
  now : Int

/-- The calls of a re-arming callback of the descriptor `fd`. -/
def Rearm.body (r : Rearm) (fd : Int) : List Action :=
  Action.SetCurrent fd :: (r.cfg ++ [Action.Ready r.timeout r.now])

/-- The event of the descriptor after a re-arming callback ran on it. -/
def Rearm.event (r : Rearm) (e : Event) : Event :=
  (e.configured r.cfg).armed r.timeout r.now

/-- The calls of a callback that re-arms its descriptor as `p` says, or that does not call
into the hub (`none`). -/
def calls_of_plan (p : Option Rearm) (fd : Int) : List Action :=
  match p with
  | some r => r.body fd
  | none => []

/-- Whether every configuration call of the plan is an `OnRead` or an `OnWrite`. -/
def plan_valid (p : Option Rearm) : Bool :=
  match p with
  | some r => r.cfg.all Action.sets_callback
  | none => true

/-- The event after the invocation of a callback that behaves as `p` says, if the callback
is invoked at all. -/
def Event.after (p : Option Rearm) (invoked : Bool) (e : Event) : Event :=
  match invoked, p with
  | true, some r => r.event e
  | _, _ => e

/-- The event of a descriptor after its dispatch, when the callbacks invoked with kind
Write, Read, Error and Timeout behave as `pw`, `pr`, `pe` and `pt` say: the dispatch clears
both callbacks, unlocks the descriptor and takes it from the timeout heap, then invokes the
write callback if there was one and the writable flag is set, then the read callback
likewise, then the error callback for the errored flag and for the timed-out flag, and
finally resets the result flags. -/
def Event.rearmed (pw pr pe pt : Option Rearm) (e : Event) : Event :=
  ((((e.dispatching.after pw (e.write_cb_.isSome && e.result_kWrite)).after pr
    (e.read_cb_.isSome && e.result_kRead)).after pe e.result_kError).after pt
    e.result_kTimeout).result_reset

/-- The callbacks of a connection of the echo example: the read callback 51 re-arms the
descriptor for writing (`SetCurrent(fd).OnWrite(52).Ready()`), and the write callback 52
re-arms it for reading with a timeout of 10 s (`SetCurrent(fd).OnRead(51).Ready(10s)`, at
clock reading 1 s). -/
def prog_echo : Program :=
  fun k fd _ _ =>
    if k = 51 then [Action.SetCurrent fd, Action.OnWrite (some 52), Action.Ready none 0]
    else if k = 52 then
      [Action.SetCurrent fd, Action.OnRead (some 51),
       Action.Ready (some 10) (1 * ticks_per_second)]
    else []

/-- The callbacks of a user of the chatroom example: the read callback 51 and the write
callback 52 both re-arm the descriptor with both callbacks
(`SetCurrent(fd).OnRead(51).OnWrite(52).Ready()`). -/
def prog_chat : Program :=
  fun k fd _ _ =>
    if k = 51 ∨ k = 52 then
      [Action.SetCurrent fd, Action.OnRead (some 51), Action.OnWrite (some 52),
       Action.Ready none 0]
    else []

/-- Whether the poll of the iteration reports the descriptor `fd` readable to the given
backend. -/
def OS.readable (os : OS) (backend : Backend) (fd : Int) : Bool :=
  match backend with
  | Backend.KQueue =>
    (match os.kevents with
     | some evs => decide ((fd, Filter.EVFILT_READ) ∈ evs)
     | none => false)
  | Backend.Epoll =>
    (match os.epoll_events with
     | some evs => evs.any (fun ev => decide (ev.fd = fd) && ev.epollin)
     | none => false)

/-- Whether the poll of the iteration reports the descriptor `fd` writable to the given
backend. -/
def OS.writable (os : OS) (backend : Backend) (fd : Int) : Bool :=
  match backend with
  | Backend.KQueue =>
    (match os.kevents with
     | some evs => decide ((fd, Filter.EVFILT_WRITE) ∈ evs)
     | none => false)
  | Backend.Epoll =>
    (match os.epoll_events with
     | some evs => evs.any (fun ev => decide (ev.fd = fd) && ev.epollout)
     | none => false)

/-- The event of descriptor `x` after `Epoll::Poll` reported the list `evs`. -/
def Event.epolled (x : Int) (evs : List EpollEvent) (e : Event) : Event :=
  evs.foldl (fun e1 ev =>
    if ev.fd = x then
      { e1 with where_kInActive := true
                result_kRead := e1.result_kRead || ev.epollin
                result_kWrite := e1.result_kWrite || ev.epollout }
    else e1) e

/-- Descriptor 5 (error callback 50, read callback 51, write callback 52, user data 8)
armed without a timeout on the given backend, after one iteration that registers it and
reports nothing. -/
def scenario_connection (backend : Backend) : EventHub :=
  run_calls Program.inert
    [Call.action (Action.CreateEmpty 5 (some 50)), Call.action (Action.OnRead (some 51)),
     Call.action (Action.OnWrite (some 52)), Call.action (Action.WithData (some 8)),
     Call.action (Action.Ready none 0), Call.LoopOnce (quiet_at 0) true]
    (EventHub.initial backend)

/-- An iteration in which the poll reports descriptor 5 readable and writable. -/
def os_five_both : OS :=
  { kevents := some [(5, Filter.EVFILT_READ), (5, Filter.EVFILT_WRITE)],
    epoll_events := some [{ fd := 5, epollin := true, epollout := true }] }

/-- Whether the poll of the iteration names the descriptor `fd` to the given backend, with
whatever filter or flags. -/
def OS.names (os : OS) (backend : Backend) (fd : Int) : Bool :=
  match backend with
  | Backend.KQueue =>
    (match os.kevents with
     | some evs => evs.any (fun r => decide (r.1 = fd))
     | none => false)
  | Backend.Epoll =>
    (match os.epoll_events with
     | some evs => evs.any (fun ev => decide (ev.fd = fd))
     | none => false)

/-- The event of a descriptor after a poll that names it or not (`named`) and reports it
readable and writable or not. -/
def Event.notified (named readable writable : Bool) (e : Event) : Event :=
  { e with where_kInActive := e.where_kInActive || named
           result_kRead := e.result_kRead || readable
           result_kWrite := e.result_kWrite || writable }

/-- The callbacks that the dispatch of `fd` invokes after a poll on the given backend, for
an event with no result flag pending before the poll: the write callback if the poll
reports `fd` writable, then the read callback if it reports `fd` readable. -/
def reported_calls (os : OS) (backend : Backend) (fd : Int) (e : Event) : List Obs :=
  (if os.writable backend fd then call_of e.write_cb_ fd EventType.kWrite e.data_ else []) ++
  (if os.readable backend fd then call_of e.read_cb_ fd EventType.kRead e.data_ else [])

/-- Descriptor 5 (error callback 50, read callback 51, write callback 52, user data 8)
just armed by `Ready()` without a timeout on the given backend: it awaits registration. -/
def scenario_queued (backend : Backend) : EventHub :=
  run_calls Program.inert
    [Call.action (Action.CreateEmpty 5 (some 50)), Call.action (Action.OnRead (some 51)),
     Call.action (Action.OnWrite (some 52)), Call.action (Action.WithData (some 8)),
     Call.action (Action.Ready none 0)]
    (EventHub.initial backend)
/-! ## Lemmas on the descriptor table -/

theorem Table.lookupList_filter_self (fd : Int) (l : List (Int × Event)) :
    Table.lookupList fd (l.filter (fun p => !decide (p.1 = fd))) = none := by
  induction l with
  | nil => rfl
  | cons p rest ih =>
    obtain ⟨k, e⟩ := p
    by_cases hk : k = fd
    · simpa [List.filter_cons, hk] using ih
    · simpa [List.filter_cons, hk, Table.lookupList] using ih

theorem Table.lookupList_filter_ne (fd g : Int) (hg : g ≠ fd) (l : List (Int × Event)) :
    Table.lookupList g (l.filter (fun p => !decide (p.1 = fd))) = Table.lookupList g l := by
  induction l with
  | nil => rfl
  | cons p rest ih =>
    obtain ⟨k, e⟩ := p
    by_cases hk : k = fd
    · subst hk
      have hkg : ¬ k = g := fun h => hg h.symm
      simpa [List.filter_cons, Table.lookupList, hkg] using ih
    · by_cases hkg : k = g
      · subst hkg
        simp [List.filter_cons, hk, Table.lookupList]
      · simpa [List.filter_cons, hk, Table.lookupList, hkg] using ih

@[simp] theorem Table.lookup_empty (fd : Int) : Table.empty.lookup fd = none := rfl

@[simp] theorem Table.lookup_insert (t : Table) (fd : Int) (e : Event) :
    (t.insert fd e).lookup fd = some e := by
  simp [Table.lookup, Table.insert, Table.lookupList]

theorem Table.lookup_insert_ne (t : Table) (fd g : Int) (e : Event) (hg : g ≠ fd) :
    (t.insert fd e).lookup g = t.lookup g := by
  have hfg : ¬ fd = g := fun h => hg h.symm
  simp [Table.lookup, Table.insert, Table.lookupList, hfg, Table.lookupList_filter_ne fd g hg]

theorem Table.lookup_insert_eq (t : Table) (fd g : Int) (e : Event) :
    (t.insert fd e).lookup g = if g = fd then some e else t.lookup g := by
  by_cases hg : g = fd
  · subst hg; simp
  · simp [hg, Table.lookup_insert_ne t fd g e hg]

@[simp] theorem Table.lookup_erase (t : Table) (fd : Int) : (t.erase fd).lookup fd = none := by
  simp [Table.lookup, Table.erase, Table.lookupList_filter_self]

theorem Table.lookup_erase_ne (t : Table) (fd g : Int) (hg : g ≠ fd) :
    (t.erase fd).lookup g = t.lookup g := by
  simp [Table.lookup, Table.erase, Table.lookupList_filter_ne fd g hg]

theorem Table.lookupList_eq_none (fd : Int) (l : List (Int × Event)) :
    Table.lookupList fd l = none ↔ fd ∉ l.map Prod.fst := by
  induction l with
  | nil => simp [Table.lookupList]
  | cons p rest ih =>
    obtain ⟨k, e⟩ := p
    by_cases hk : k = fd
    · simp [Table.lookupList, hk]
    · have hfk : ¬ fd = k := fun h => hk h.symm
      simp only [Table.lookupList, hk, if_false, ih, List.map_cons, List.mem_cons, hfk,
        false_or]

theorem Table.filter_of_not_mem (fd : Int) (l : List (Int × Event))
    (h : fd ∉ l.map Prod.fst) : l.filter (fun p => !decide (p.1 = fd)) = l := by
  rw [List.filter_eq_self]
  intro p hp
  have : p.1 ≠ fd := fun heq => h (heq ▸ List.mem_map_of_mem Prod.fst hp)
  simp [this]

theorem Table.length_filter_of_mem (fd : Int) (l : List (Int × Event))
    (hn : (l.map Prod.fst).Nodup) (h : fd ∈ l.map Prod.fst) :
    (l.filter (fun p => !decide (p.1 = fd))).length + 1 = l.length := by
  induction l with
  | nil => simp at h
  | cons p rest ih =>
    simp only [List.map_cons, List.nodup_cons] at hn
    by_cases hp : p.1 = fd
    · have hnot : fd ∉ rest.map Prod.fst := hp ▸ hn.1
      simp [List.filter_cons, hp, Table.filter_of_not_mem fd rest hnot]
    · have hmem : fd ∈ rest.map Prod.fst := by
        simp only [List.map_cons, List.mem_cons] at h
        rcases h with h | h
        · exact absurd h.symm hp
        · exact h
      simpa [List.filter_cons, hp] using ih hn.2 hmem

theorem Table.size_insert (t : Table) (fd : Int) (e : Event) (h : t.lookup fd = none) :
    (t.insert fd e).size = t.size + 1 := by
  have hn : fd ∉ t.entries.map Prod.fst := (Table.lookupList_eq_none fd _).1 h
  simp [Table.size, Table.insert, Table.filter_of_not_mem fd _ hn]

theorem Table.size_erase (t : Table) (fd : Int) (h : t.lookup fd ≠ none) :
    (t.erase fd).size + 1 = t.size := by
  have hm : fd ∈ t.entries.map Prod.fst := by
    by_contra hn
    exact h ((Table.lookupList_eq_none fd _).2 hn)
  exact Table.length_filter_of_mem fd _ t.nodup hm
@[simp] theorem Table.insert_insert (t : Table) (fd : Int) (a b : Event) :
    (t.insert fd a).insert fd b = t.insert fd b := by
  simp [Table.insert, List.filter_cons, List.filter_filter]


/-! ## Lemmas on `update` and the builder surface -/

namespace EventHub

@[simp] theorem update_lookup (h : EventHub) (fd g : Int) (f : Event → Event) :
    (h.update fd f).events.lookup g =
      if g = fd then (h.events.lookup fd).map f else h.events.lookup g := by
  unfold update
  cases hl : h.events.lookup fd with
  | none =>
    by_cases hg : g = fd
    · subst hg; simp [hl]
    · simp [hg]
  | some e => simp [Table.lookup_insert_eq]

@[simp] theorem update_current_fd_ (h : EventHub) (fd : Int) (f : Event → Event) :
    (h.update fd f).current_fd_ = h.current_fd_ := by
  unfold update; split <;> rfl

@[simp] theorem update_ready_fds_ (h : EventHub) (fd : Int) (f : Event → Event) :
    (h.update fd f).ready_fds_ = h.ready_fds_ := by
  unfold update; split <;> rfl

@[simp] theorem update_timeout_heap_ (h : EventHub) (fd : Int) (f : Event → Event) :
    (h.update fd f).timeout_heap_ = h.timeout_heap_ := by
  unfold update; split <;> rfl

@[simp] theorem update_active_fds_ (h : EventHub) (fd : Int) (f : Event → Event) :
    (h.update fd f).active_fds_ = h.active_fds_ := by
  unfold update; split <;> rfl

@[simp] theorem update_sys_ev_op_ (h : EventHub) (fd : Int) (f : Event → Event) :
    (h.update fd f).sys_ev_op_ = h.sys_ev_op_ := by
  unfold update; split <;> rfl

@[simp] theorem update_registered_event_count_ (h : EventHub) (fd : Int) (f : Event → Event) :
    (h.update fd f).registered_event_count_ = h.registered_event_count_ := by
  unfold update; split <;> rfl

@[simp] theorem update_trace (h : EventHub) (fd : Int) (f : Event → Event) :
    (h.update fd f).trace = h.trace := by
  unfold update; split <;> rfl

end EventHub

/-! ## The 64-bit computation of a deadline -/

theorem wrap64_of_representable (x : Int) (hx : representable x) : wrap64 x = x := by
  obtain ⟨h1, h2⟩ := hx
  unfold wrap64
  omega

theorem wrap64_representable (x : Int) : representable (wrap64 x) := by
  unfold wrap64 representable
  omega

/-- Without overflow the deadline is the clock reading plus the period in clock ticks. -/
theorem deadline_of_eq (now period : Int) (hp : representable (period * ticks_per_second))
    (hs : representable (now + period * ticks_per_second)) :
    deadline_of now period = now + period * ticks_per_second := by
  unfold deadline_of
  rw [wrap64_of_representable _ hp, wrap64_of_representable _ hs]

/-! ## Lemmas on the phases of `LoopOnce` -/

namespace EventHub

theorem PreprocessReadyEvents_nil (os : OS) (h : EventHub) (hr : h.ready_fds_ = []) :
    PreprocessReadyEvents os h = Result.ok h := by
  simp [PreprocessReadyEvents, hr, PreprocessReadyEvents_loop]

theorem CalculateWaittingTime_ok (os : OS) (h : EventHub) (can_block : Bool)
    (htop : ∀ top, EventMinHeap.Top h.timeout_heap_ = some top →
      h.events.lookup top ≠ none) :
    ∃ w, (if can_block = true then CalculateWaittingTime os h else Except.ok 0)
      = Except.ok w := by
  cases can_block with
  | false => exact ⟨0, by simp⟩
  | true =>
    simp only [if_true, CalculateWaittingTime]
    cases ht : EventMinHeap.Top h.timeout_heap_ with
    | none => exact ⟨0, rfl⟩
    | some top =>
      cases hl : h.events.lookup top with
      | none => exact absurd hl (htop top ht)
      | some ev =>
        by_cases hle : ev.timeout_stamp_ ≤ os.now_wait
        · exact ⟨0, by simp [hl, hle]⟩
        · exact ⟨Int.tdiv (ev.timeout_stamp_ - os.now_wait) ticks_per_second, by
            simp [hl, hle]⟩

end EventHub

theorem LoopOnce_tail (prog : Program) (os : OS) (can_block : Bool) (h h1 : EventHub)
    (hp : EventHub.PreprocessReadyEvents os h = Result.ok h1)
    (htop : ∀ top, EventMinHeap.Top h1.timeout_heap_ = some top →
      h1.events.lookup top ≠ none) :
    ∃ w, h.LoopOnce prog os can_block =
      (EventHub.sys_Poll os h1 w).andThen fun h2 =>
        (EventHub.CheckTimeoutEvents os h2).andThen fun h3 =>
          EventHub.ResponseActiveEvents prog os h3 := by
  obtain ⟨w, hw⟩ := EventHub.CalculateWaittingTime_ok os h1 can_block htop
  exact ⟨w, by simp only [EventHub.LoopOnce, hp, Result.andThen, hw]⟩


/-! ## Lemmas on the heap algorithms: they permute the vector -/

theorem swap_length (data : List Int) (i j : Nat) : (swap data i j).length = data.length := by
  simp [swap]

theorem swap_perm (data : List Int) (i j : Nat) (hi : i < data.length)
    (hj : j < data.length) : (swap data i j).Perm data := by
  rw [List.perm_iff_count]
  intro a
  have hdi : data.getD i 0 = data[i] := by simp [List.getD, List.getElem?_eq_getElem hi]
  have hdj : data.getD j 0 = data[j] := by simp [List.getD, List.getElem?_eq_getElem hj]
  have hj2 : j < (data.set i data[j]).length := by simpa using hj
  have hget : (data.set i data[j])[j] = data[j] := by
    by_cases hij : i = j
    · subst hij; simp
    · simp [List.getElem_set_ne hij]
  have hci : data[i] = a → 1 ≤ data.count a := fun h =>
    List.count_pos_iff.mpr (h ▸ List.getElem_mem hi)
  unfold swap
  rw [hdi, hdj, List.count_set data[i] a _ j hj2, List.count_set data[j] a data i hi, hget]
  by_cases h1 : data[i] = a <;> by_cases h2 : data[j] = a <;> simp [h1, h2]
  · have := hci h1; omega
  · have := hci h1; omega

theorem larger_child_lt (comp : Int → Int → Bool) (len : Nat) (data : List Int)
    (start : Nat) (h : ¬ len ≤ 2 * start + 1) : larger_child comp len data start < len := by
  unfold larger_child
  split
  · rename_i hc; exact hc.1
  · omega

theorem sift_down_perm (comp : Int → Int → Bool) (fuel len : Nat) (data : List Int)
    (start : Nat) (hlen : len ≤ data.length) :
    (sift_down comp fuel len data start).Perm data := by
  induction fuel generalizing data start with
  | zero => exact List.Perm.refl _
  | succ n ih =>
    simp only [sift_down]
    by_cases h1 : len ≤ 2 * start + 1
    · simp only [h1, if_true]; exact List.Perm.refl _
    · simp only [h1, if_false]
      split
      · exact List.Perm.refl _
      · have hc := larger_child_lt comp len data start h1
        exact (ih _ _ (by rw [swap_length]; exact hlen)).trans
          (swap_perm data _ _ (by omega) (by omega))

theorem sift_up_perm (comp : Int → Int → Bool) (fuel : Nat) (data : List Int)
    (hole : Nat) (hh : hole < data.length) :
    (sift_up comp fuel data hole).Perm data := by
  induction fuel generalizing data hole with
  | zero => exact List.Perm.refl _
  | succ n ih =>
    simp only [sift_up]
    split
    · exact List.Perm.refl _
    · split
      · have hp : (hole - 1) / 2 < data.length := by omega
        exact (ih _ _ (by rw [swap_length]; exact hp)).trans (swap_perm data _ _ hp hh)
      · exact List.Perm.refl _

theorem push_heap_perm (comp : Int → Int → Bool) (data : List Int) :
    (push_heap comp data).Perm data := by
  unfold push_heap
  cases data with
  | nil => simp [sift_up]
  | cons x rest => exact sift_up_perm comp _ _ _ (by simp)

theorem pop_heap_perm (comp : Int → Int → Bool) (data : List Int) :
    (pop_heap comp data).Perm data := by
  unfold pop_heap
  split
  · exact List.Perm.refl _
  · rename_i hlen
    exact (sift_down_perm comp _ _ _ _ (by rw [swap_length]; omega)).trans
      (swap_perm data _ _ (by omega) (by omega))

theorem make_heap_from_perm (comp : Int → Int → Bool) (start : Nat) (data : List Int) :
    (make_heap_from comp start data).Perm data := by
  induction start generalizing data with
  | zero => exact sift_down_perm comp _ _ _ _ (le_refl _)
  | succ n ih =>
    simp only [make_heap_from]
    exact (ih _).trans (sift_down_perm comp _ _ _ _ (le_refl _))

theorem make_heap_perm (comp : Int → Int → Bool) (data : List Int) :
    (make_heap comp data).Perm data := by
  unfold make_heap
  split
  · exact List.Perm.refl _
  · exact make_heap_from_perm comp _ _

theorem swap_getElem?_of_ne (data : List Int) (i j k : Nat) (hi : k ≠ i) (hj : k ≠ j) :
    (swap data i j)[k]? = data[k]? := by
  unfold swap
  rw [List.getElem?_set_ne (Ne.symm hj), List.getElem?_set_ne (Ne.symm hi)]

theorem sift_down_getElem?_ge (comp : Int → Int → Bool) (fuel len : Nat) (data : List Int)
    (start k : Nat) (hk : len ≤ k) :
    (sift_down comp fuel len data start)[k]? = data[k]? := by
  induction fuel generalizing data start with
  | zero => rfl
  | succ n ih =>
    simp only [sift_down]
    by_cases h1 : len ≤ 2 * start + 1
    · simp only [h1, if_true]
    · simp only [h1, if_false]
      split
      · rfl
      · have hc := larger_child_lt comp len data start h1
        rw [ih, swap_getElem?_of_ne data _ _ k (by omega) (by omega)]

theorem pop_heap_getLast? (comp : Int → Int → Bool) (data : List Int) :
    (pop_heap comp data).getLast? = data.head? := by
  unfold pop_heap
  split
  · rename_i hlen
    match data, hlen with
    | [], _ => rfl
    | [x], _ => rfl
  · rename_i hlen
    have hlen2 : 2 ≤ data.length := by omega
    have hl : (sift_down comp data.length (data.length - 1)
        (swap data 0 (data.length - 1)) 0).length = data.length := by
      rw [(sift_down_perm comp _ _ _ _ (by rw [swap_length]; omega)).length_eq, swap_length]
    rw [List.getLast?_eq_getElem?, hl, sift_down_getElem?_ge comp _ _ _ _ _ (le_refl _)]
    unfold swap
    rw [List.getElem?_set_self (by simp; omega)]
    cases data with
    | nil => simp at hlen2
    | cons x rest => simp

theorem EventMinHeap.Top_not_mem_Pop (events : Table) (data : List Int) (top : Int)
    (hn : data.Nodup) (ht : EventMinHeap.Top data = some top) :
    top ∉ EventMinHeap.Pop events data := by
  have hlast : (pop_heap (stamp_greater events) data).getLast? = some top := by
    rw [pop_heap_getLast?]; exact ht
  have hnd : (pop_heap (stamp_greater events) data).Nodup :=
    (pop_heap_perm _ data).nodup_iff.mpr hn
  unfold EventMinHeap.Pop
  generalize pop_heap (stamp_greater events) data = l at hlast hnd
  intro hmem
  have hne : l ≠ [] := by
    intro h; rw [h] at hlast; simp at hlast
  have hl := List.dropLast_append_getLast hne
  have hlast2 : l.getLast hne = top := by
    rw [List.getLast?_eq_getLast _ hne] at hlast
    exact Option.some.inj hlast
  rw [← hl, hlast2] at hnd
  have := List.nodup_append.mp hnd
  exact this.2.2 hmem (by simp) 

namespace EventMinHeap

theorem mem_of_mem_Pop (events : Table) (data : List Int) (x : Int)
    (hx : x ∈ Pop events data) : x ∈ data :=
  (pop_heap_perm _ data).subset (List.dropLast_subset _ hx)

theorem nodup_Pop (events : Table) (data : List Int) (hn : data.Nodup) :
    (Pop events data).Nodup :=
  ((pop_heap_perm _ data).nodup_iff.mpr hn).sublist (List.dropLast_sublist _)

theorem length_Pop (events : Table) (data : List Int) :
    (Pop events data).length = data.length - 1 := by
  simp [Pop, (pop_heap_perm (stamp_greater events) data).length_eq]

theorem mem_of_mem_Remove (data : List Int) (fd x : Int)
    (hx : x ∈ Remove data fd) : x ∈ data := by
  unfold Remove at hx
  split at hx
  · exact List.mem_of_mem_erase ((make_heap_perm _ _).subset hx)
  · exact hx

theorem nodup_Remove (data : List Int) (fd : Int) (hn : data.Nodup) :
    (Remove data fd).Nodup := by
  unfold Remove
  split
  · exact (make_heap_perm _ _).nodup_iff.mpr (hn.erase fd)
  · exact hn

theorem not_mem_Remove (data : List Int) (fd : Int) (hn : data.Nodup) :
    fd ∉ Remove data fd := by
  unfold Remove
  split
  · intro hmem
    have := (make_heap_perm _ _).subset hmem
    exact (List.Nodup.mem_erase_iff hn).mp this |>.1 rfl
  · assumption

theorem Top_mem (data : List Int) (top : Int) (ht : Top data = some top) : top ∈ data := by
  cases data with
  | nil => simp [Top] at ht
  | cons x rest =>
    simp only [Top, List.head?_cons, Option.some.injEq] at ht
    simp [ht]

end EventMinHeap

/-! ## One iteration of each loop of `LoopOnce` (KQueue backend) -/

namespace EventHub

theorem Preprocess_step_cancel (os : OS) (n : Nat) (h : EventHub) (g : Int)
    (rest : List Int) (e : Event)
    (hr : h.ready_fds_ = g :: rest) (hg : h.events.lookup g = some e)
    (hcb : e.has_callback = false) :
    PreprocessReadyEvents_loop os (n + 1) h = PreprocessReadyEvents_loop os n
      { h with
        ready_fds_ := rest
        timeout_heap_ :=
          if e.where_kInTimeout = true then EventMinHeap.Remove h.timeout_heap_ g
          else h.timeout_heap_
        events := h.events.insert g
          { e with where_kInReady := false, where_kInTimeout := false } } := by
  simp only [Event.has_callback] at hcb
  cases hto : e.where_kInTimeout <;> cases hw : e.write_cb_ <;> cases hrd : e.read_cb_ <;>
    simp_all [PreprocessReadyEvents_loop, IsInTimeout, update, TimeoutRemove]

theorem Preprocess_step_ok (os : OS) (n : Nat) (h : EventHub) (g : Int)
    (rest : List Int) (e : Event) (hkq : h.sys_ev_op_ = Backend.KQueue)
    (hr : h.ready_fds_ = g :: rest) (hg : h.events.lookup g = some e)
    (hcb : e.has_callback = true) (hadd : KQueue.add_fails os g e = false) :
    PreprocessReadyEvents_loop os (n + 1) h = PreprocessReadyEvents_loop os n
      { h with
        ready_fds_ := rest
        registered_event_count_ := h.registered_event_count_ + 1
        trace := h.trace ++ [Obs.add g true]
        events := h.events.insert g
          { e with where_kInReady := false, is_locked := true } } := by
  simp only [Event.has_callback, KQueue.add_fails] at hcb hadd
  cases hw : e.write_cb_ <;> cases hrd : e.read_cb_ <;>
    simp_all [PreprocessReadyEvents_loop, update, sys_Add, KQueue.Add]

theorem Preprocess_step_fail (os : OS) (n : Nat) (h : EventHub) (g : Int)
    (rest : List Int) (e : Event) (hkq : h.sys_ev_op_ = Backend.KQueue)
    (hr : h.ready_fds_ = g :: rest) (hg : h.events.lookup g = some e)
    (hadd : KQueue.add_fails os g e = true) :
    PreprocessReadyEvents_loop os (n + 1) h = PreprocessReadyEvents_loop os n
      { h with
        ready_fds_ := rest
        trace := h.trace ++ [Obs.add g false]
        timeout_heap_ :=
          if e.where_kInTimeout = true then EventMinHeap.Remove h.timeout_heap_ g
          else h.timeout_heap_
        active_fds_ := h.active_fds_ ++ [g]
        events := h.events.insert g
          { e with where_kInReady := false, is_locked := true, where_kInTimeout := false,
                   where_kInActive := true, result_kWrite := false, result_kRead := false,
                   result_kTimeout := false, result_kError := true } } := by
  simp only [KQueue.add_fails] at hadd
  cases hto : e.where_kInTimeout <;> cases hw : e.write_cb_ <;> cases hrd : e.read_cb_ <;>
    cases hfw : os.kevent_add_fails g Filter.EVFILT_WRITE <;>
    cases hfr : os.kevent_add_fails g Filter.EVFILT_READ <;>
    simp_all [PreprocessReadyEvents_loop, update, sys_Add, KQueue.Add, IsInTimeout,
      TimeoutRemove, ActivePush, Event.result_reset]

theorem report_step_read (h : EventHub) (ident : Int) (rest : List (Int × Filter))
    (e : Event) (hg : h.events.lookup ident = some e) :
    KQueue.report ((ident, Filter.EVFILT_READ) :: rest) h = KQueue.report rest
      { h with
        active_fds_ := if e.where_kInActive = true then h.active_fds_
                       else h.active_fds_ ++ [ident]
        events := h.events.insert ident
          { e with result_kRead := true, where_kInActive := true } } := by
  cases ha : e.where_kInActive <;>
    simp_all [KQueue.report, update, IsInActive, ActivePush]

theorem report_step_write (h : EventHub) (ident : Int) (rest : List (Int × Filter))
    (e : Event) (hg : h.events.lookup ident = some e) :
    KQueue.report ((ident, Filter.EVFILT_WRITE) :: rest) h = KQueue.report rest
      { h with
        active_fds_ := if e.where_kInActive = true then h.active_fds_
                       else h.active_fds_ ++ [ident]
        events := h.events.insert ident
          { e with result_kWrite := true, where_kInActive := true } } := by
  cases ha : e.where_kInActive <;>
    simp_all [KQueue.report, update, IsInActive, ActivePush]

theorem report_step_other (h : EventHub) (ident : Int) (rest : List (Int × Filter))
    (e : Event) (hg : h.events.lookup ident = some e) :
    KQueue.report ((ident, Filter.other) :: rest) h = KQueue.report rest
      (if e.where_kInActive = true then h else
        { h with
          active_fds_ := h.active_fds_ ++ [ident]
          events := h.events.insert ident { e with where_kInActive := true } }) := by
  cases ha : e.where_kInActive <;>
    simp_all [KQueue.report, update, IsInActive, ActivePush]

theorem CheckTimeout_stop_empty (os : OS) (n : Nat) (h : EventHub)
    (hh : h.timeout_heap_ = []) : CheckTimeoutEvents_loop os n h = Result.ok h := by
  cases n <;> simp [CheckTimeoutEvents_loop, hh, EventMinHeap.Top]

theorem CheckTimeout_stop_later (os : OS) (n : Nat) (h : EventHub) (top : Int) (e : Event)
    (ht : EventMinHeap.Top h.timeout_heap_ = some top) (hg : h.events.lookup top = some e)
    (hlater : os.now_check < e.timeout_stamp_) :
    CheckTimeoutEvents_loop os n h = Result.ok h := by
  cases n <;> simp [CheckTimeoutEvents_loop, ht, hg, hlater]

theorem CheckTimeout_step_active (os : OS) (n : Nat) (h : EventHub) (top : Int) (e : Event)
    (ht : EventMinHeap.Top h.timeout_heap_ = some top) (hg : h.events.lookup top = some e)
    (hexp : e.timeout_stamp_ ≤ os.now_check) (ha : e.where_kInActive = true) :
    CheckTimeoutEvents_loop os (n + 1) h = CheckTimeoutEvents_loop os n
      { h with
        timeout_heap_ := EventMinHeap.Pop h.events h.timeout_heap_
        events := h.events.insert top
          { e with where_kInTimeout := false, result_kWrite := false, result_kRead := false,
                   result_kTimeout := true, result_kError := false } } := by
  have hnl : ¬ os.now_check < e.timeout_stamp_ := not_lt.mpr hexp
  simp [CheckTimeoutEvents_loop, ht, hg, hnl, update, IsInActive, ha, Event.result_reset]

theorem CheckTimeout_step_push (os : OS) (n : Nat) (h : EventHub) (top : Int) (e : Event)
    (hkq : h.sys_ev_op_ = Backend.KQueue)
    (ht : EventMinHeap.Top h.timeout_heap_ = some top) (hg : h.events.lookup top = some e)
    (hexp : e.timeout_stamp_ ≤ os.now_check) (ha : e.where_kInActive = false) :
    CheckTimeoutEvents_loop os (n + 1) h = CheckTimeoutEvents_loop os n
      { h with
        timeout_heap_ := EventMinHeap.Pop h.events h.timeout_heap_
        registered_event_count_ :=
          if e.has_callback = true then h.registered_event_count_ - 1
          else h.registered_event_count_
        trace := if e.has_callback = true then h.trace ++ [Obs.del top true] else h.trace
        active_fds_ := h.active_fds_ ++ [top]
        events := h.events.insert top
          { e with where_kInTimeout := false, where_kInActive := true,
                   result_kWrite := false, result_kRead := false,
                   result_kTimeout := true, result_kError := false } } := by
  have hnl : ¬ os.now_check < e.timeout_stamp_ := not_lt.mpr hexp
  cases hw : e.write_cb_ <;> cases hrd : e.read_cb_ <;>
    simp [CheckTimeoutEvents_loop, ht, hg, hnl, update, IsInActive, ha, Event.result_reset,
      hw, hrd, Event.has_callback, sys_Del, KQueue.Del, hkq, ActivePush]

theorem guarded_call_inert (prog : Program) (hinert : ∀ k g t d, prog k g t d = [])
    (fd : Int) (type : EventType) (guard : Event → Bool) (cb : Event → Option Nat)
    (h : EventHub) :
    guarded_call prog fd type guard cb h =
      match h.events.lookup fd with
      | none => Step.returned h
      | some e =>
        if guard e = true then
          match cb e with
          | none => Step.raised Exception.bad_function_call h
          | some k => Step.next { h with trace := h.trace ++ [Obs.call k fd type e.data_] }
        else Step.next h := by
  unfold guarded_call
  cases hl : h.events.lookup fd with
  | none => rfl
  | some e =>
    cases hgd : guard e with
    | false => simp [hgd]
    | true =>
      cases hk : cb e with
      | none => simp [hgd, hk, invoke]
      | some k => simp [hgd, hk, invoke, hinert, run_actions, Table.contains, hl]

theorem Response_step (prog : Program) (hinert : ∀ k g t d, prog k g t d = []) (os : OS)
    (n : Nat) (h : EventHub) (g : Int) (rest : List Int) (e : Event) (x : Nat)
    (hkq : h.sys_ev_op_ = Backend.KQueue)
    (ha : h.active_fds_ = g :: rest) (hg : h.events.lookup g = some e)
    (hx : e.error_cb_ = some x) :
    ResponseActiveEvents_loop prog os (n + 1) h = ResponseActiveEvents_loop prog os n
      { h with
        active_fds_ := rest
        timeout_heap_ :=
          if e.where_kInTimeout = true then EventMinHeap.Remove h.timeout_heap_ g
          else h.timeout_heap_
        registered_event_count_ :=
          if e.has_callback = true then h.registered_event_count_ - 1
          else h.registered_event_count_
        trace := (if e.has_callback = true then h.trace ++ [Obs.del g true] else h.trace)
          ++ dispatch_calls g e
        events := h.events.insert g
          { e with where_kInActive := false, where_kInTimeout := false, is_locked := false,
                   read_cb_ := none, write_cb_ := none,
                   result_kWrite := false, result_kRead := false,
                   result_kTimeout := false, result_kError := false } } := by
  cases hw : e.write_cb_ <;> cases hrd : e.read_cb_ <;> cases hto : e.where_kInTimeout <;>
    cases hW : e.result_kWrite <;> cases hR : e.result_kRead <;>
    cases hE : e.result_kError <;> cases hT : e.result_kTimeout <;>
    simp [ResponseActiveEvents_loop, ha, hg, update, hw, hrd, hto, hW, hR, hE, hT, hx,
      Event.has_callback, sys_Del, KQueue.Del, hkq, IsInTimeout, TimeoutRemove,
      guarded_call_inert prog hinert, dispatch_calls, call_of, Event.result_reset]

end EventHub

/-! ## Preservation of `Sound` and the effect of each loop -/

theorem Sound_step (h : EventHub) (g : Int) (e e1 : Event)
    (ready1 heap1 active1 : List Int) (cnt1 : Int) (tr1 : List Obs)
    (hs : Sound h) (hg : h.events.lookup g = some e) (herr : e1.error_cb_ = e.error_cb_)
    (hready : ∀ x ∈ ready1, x ∈ h.ready_fds_) (hrn : ready1.Nodup)
    (hheap : ∀ x ∈ heap1, x ∈ h.timeout_heap_) (hhn : heap1.Nodup)
    (hact : ∀ x ∈ active1, x ∈ h.active_fds_ ∨ x = g)
    (hact2 : ∀ x ∈ h.active_fds_, x ≠ g → x ∈ active1)
    (hflag : e1.where_kInActive = true → g ∈ active1) :
    Sound { events := h.events.insert g e1, current_fd_ := h.current_fd_,
            ready_fds_ := ready1, timeout_heap_ := heap1, active_fds_ := active1,
            sys_ev_op_ := h.sys_ev_op_, registered_event_count_ := cnt1, trace := tr1 } := by
  have htr : ∀ x, h.events.lookup x ≠ none → (h.events.insert g e1).lookup x ≠ none := by
    intro x hx
    rw [Table.lookup_insert_eq]
    split
    · simp
    · exact hx
  refine ⟨hs.kqueue, ?_, ?_, ?_, ?_, ?_, hrn, hhn⟩
  · intro x hx
    exact htr x (hs.ready_tracked x (hready x hx))
  · intro x hx
    exact htr x (hs.heap_tracked x (hheap x hx))
  · intro x hx
    rcases hact x hx with hx | hx
    · exact htr x (hs.active_tracked x hx)
    · subst hx; simp
  · intro x ex hx
    simp only [Table.lookup_insert_eq] at hx
    split at hx
    · simp only [Option.some.injEq] at hx
      subst hx
      rw [herr]
      exact hs.error_cb g e hg
    · exact hs.error_cb x ex hx
  · intro x ex hx hfl
    simp only [Table.lookup_insert_eq] at hx
    split at hx
    · rename_i hxg
      simp only [Option.some.injEq] at hx
      subst hx
      subst hxg
      exact hflag hfl
    · rename_i hxg
      exact hact2 x (hs.active_flag x ex hx hfl) hxg

theorem Table.mem_of_lookupList (fd : Int) (e : Event) (l : List (Int × Event))
    (h : Table.lookupList fd l = some e) : (fd, e) ∈ l := by
  induction l with
  | nil => simp [Table.lookupList] at h
  | cons p rest ih =>
    obtain ⟨k, v⟩ := p
    by_cases hk : k = fd
    · simp only [Table.lookupList, hk, if_true, Option.some.injEq] at h
      simp [hk, h]
    · simp only [Table.lookupList, hk, if_false] at h
      exact List.mem_cons_of_mem _ (ih h)

theorem Sound_of_checks (h : EventHub) (hk : h.sys_ev_op_ = Backend.KQueue)
    (h1 : ∀ g ∈ h.ready_fds_, h.events.lookup g ≠ none)
    (h2 : ∀ g ∈ h.timeout_heap_, h.events.lookup g ≠ none)
    (h3 : ∀ g ∈ h.active_fds_, h.events.lookup g ≠ none)
    (h4 : ∀ p ∈ h.events.entries, p.2.error_cb_ ≠ none ∧
      (p.2.where_kInActive = true → p.1 ∈ h.active_fds_))
    (h5 : h.ready_fds_.Nodup) (h6 : h.timeout_heap_.Nodup) : Sound h :=
  ⟨hk, h1, h2, h3,
    fun g e hg => (h4 (g, e) (Table.mem_of_lookupList g e _ hg)).1,
    fun g e hg => (h4 (g, e) (Table.mem_of_lookupList g e _ hg)).2, h5, h6⟩

/-! ## The registration loop -/

theorem calls_for_append (x : Int) (t1 t2 : List Obs) :
    calls_for x (t1 ++ t2) = calls_for x t1 ++ calls_for x t2 := by
  simp [calls_for]

theorem Preprocess_step (os : OS) (n : Nat) (h : EventHub) (g : Int) (rest : List Int)
    (e : Event) (hs : Sound h) (hr : h.ready_fds_ = g :: rest)
    (hg : h.events.lookup g = some e) :
    ∃ h1, EventHub.PreprocessReadyEvents_loop os (n + 1) h =
        EventHub.PreprocessReadyEvents_loop os n h1 ∧
      Sound h1 ∧ h1.ready_fds_ = rest ∧
      h.registered_event_count_ ≤ h1.registered_event_count_ ∧
      (∀ x, calls_for x h1.trace = calls_for x h.trace) ∧
      (∀ o ∈ h.trace, o ∈ h1.trace) ∧
      (∀ x ∈ h1.timeout_heap_, x ∈ h.timeout_heap_) ∧
      (∀ x, h.events.lookup x ≠ none → h1.events.lookup x ≠ none) ∧
      (∀ x, x ≠ g → h1.events.lookup x = h.events.lookup x ∧
        h1.active_fds_.count x = h.active_fds_.count x) ∧
      (KQueue.add_fails os g e = true →
        h1.events.lookup g = some
          { e with where_kInReady := false, is_locked := true, where_kInTimeout := false,
                   where_kInActive := true, result_kWrite := false, result_kRead := false,
                   result_kTimeout := false, result_kError := true } ∧
        (e.where_kInTimeout = true → g ∉ h1.timeout_heap_) ∧
        h1.active_fds_.count g = h.active_fds_.count g + 1) ∧
      (e.has_callback = true → KQueue.add_fails os g e = false →
        h1.events.lookup g = some { e with where_kInReady := false, is_locked := true } ∧
        h1.active_fds_ = h.active_fds_ ∧
        Obs.add g true ∈ h1.trace) ∧
      (∃ e1, h1.events.lookup g = some e1 ∧ (e.is_locked = true → e1.is_locked = true)) := by
  have hrest_mem : ∀ x ∈ rest, x ∈ h.ready_fds_ := fun x hx => by
    rw [hr]; exact List.mem_cons_of_mem _ hx
  have hrest_nd : rest.Nodup := by
    have := hs.ready_nodup; rw [hr] at this; exact (List.nodup_cons.mp this).2
  have hheap_if : ∀ x ∈ (if e.where_kInTimeout = true
      then EventMinHeap.Remove h.timeout_heap_ g else h.timeout_heap_),
      x ∈ h.timeout_heap_ := by
    intro x hx
    split at hx
    · exact EventMinHeap.mem_of_mem_Remove _ _ _ hx
    · exact hx
  have hheap_nd : (if e.where_kInTimeout = true
      then EventMinHeap.Remove h.timeout_heap_ g else h.timeout_heap_).Nodup := by
    split
    · exact EventMinHeap.nodup_Remove _ _ hs.heap_nodup
    · exact hs.heap_nodup
  have hflag_old : e.where_kInActive = true → g ∈ h.active_fds_ :=
    fun hf => hs.active_flag g e hg hf
  have hdom : ∀ e1 : Event, ∀ x, h.events.lookup x ≠ none →
      (h.events.insert g e1).lookup x ≠ none := by
    intro e1 x hx
    rw [Table.lookup_insert_eq]
    split
    · simp
    · exact hx
  cases hcb : e.has_callback with
  | false =>
    have hnf : KQueue.add_fails os g e = false := by
      simp only [Event.has_callback, Bool.or_eq_false_iff] at hcb
      simp [KQueue.add_fails, hcb.1, hcb.2]
    refine ⟨_, EventHub.Preprocess_step_cancel os n h g rest e hr hg hcb, ?_, rfl, le_refl _,
      fun _ => rfl, fun _ ho => ho, hheap_if, hdom _, ?_, ?_, ?_,
      ⟨_, Table.lookup_insert _ _ _, fun hl => hl⟩⟩
    · exact Sound_step h g e _ rest _ h.active_fds_ _ _ hs hg rfl hrest_mem hrest_nd
        hheap_if hheap_nd (fun x hx => Or.inl hx) (fun x hx _ => hx) hflag_old
    · intro x hx
      exact ⟨Table.lookup_insert_ne _ _ _ _ hx, rfl⟩
    · intro hf; rw [hnf] at hf; exact absurd hf (by simp)
    · intro hf; exact absurd hf (by simp)
  | true =>
    cases hfail : KQueue.add_fails os g e with
    | false =>
      refine ⟨_, EventHub.Preprocess_step_ok os n h g rest e hs.kqueue hr hg hcb hfail, ?_, rfl,
        by simp, ?_, ?_, fun _ hx => hx, hdom _, ?_, ?_, ?_,
        ⟨_, Table.lookup_insert _ _ _, fun _ => rfl⟩⟩
      · exact Sound_step h g e _ rest _ h.active_fds_ _ _ hs hg rfl hrest_mem hrest_nd
          (fun _ hx => hx) hs.heap_nodup (fun x hx => Or.inl hx) (fun x hx _ => hx) hflag_old
      · intro x
        simp [calls_for_append, calls_for, Obs.is_call_for]
      · intro o ho
        simp [ho]
      · intro x hx
        exact ⟨Table.lookup_insert_ne _ _ _ _ hx, rfl⟩
      · intro hf; exact absurd hf (by simp)
      · intro _ _
        exact ⟨by simp, rfl, by simp⟩
    | true =>
      refine ⟨_, EventHub.Preprocess_step_fail os n h g rest e hs.kqueue hr hg hfail, ?_, rfl,
        le_refl _, ?_, ?_, hheap_if, hdom _, ?_, ?_, ?_,
        ⟨_, Table.lookup_insert _ _ _, fun _ => rfl⟩⟩
      · exact Sound_step h g e _ rest _ (h.active_fds_ ++ [g]) _ _ hs hg rfl hrest_mem
          hrest_nd hheap_if hheap_nd
          (fun x hx => by
            rcases List.mem_append.mp hx with hx | hx
            · exact Or.inl hx
            · exact Or.inr (by simpa using hx))
          (fun x hx _ => List.mem_append_left _ hx) (fun _ => by simp)
      · intro x
        simp [calls_for_append, calls_for, Obs.is_call_for]
      · intro o ho
        simp [ho]
      · intro x hx
        refine ⟨Table.lookup_insert_ne _ _ _ _ hx, ?_⟩
        simp [List.count_append, List.count_cons, Ne.symm hx]
      · intro _
        refine ⟨by simp, ?_, by simp [List.count_append]⟩
        intro hto
        simp only [hto, if_true]
        exact EventMinHeap.not_mem_Remove _ _ hs.heap_nodup
      · intro _ hf; exact absurd hf (by simp)

theorem Preprocess_spec (os : OS) (n : Nat) :
    ∀ h : EventHub, h.ready_fds_.length ≤ n → Sound h →
    ∃ h1, EventHub.PreprocessReadyEvents_loop os n h = Result.ok h1 ∧
      Sound h1 ∧ h1.ready_fds_ = [] ∧
      h.registered_event_count_ ≤ h1.registered_event_count_ ∧
      (∀ x, calls_for x h1.trace = calls_for x h.trace) ∧
      (∀ o ∈ h.trace, o ∈ h1.trace) ∧
      (∀ x ∈ h1.timeout_heap_, x ∈ h.timeout_heap_) ∧
      (∀ x, h.events.lookup x ≠ none → h1.events.lookup x ≠ none) ∧
      (∀ x, x ∉ h.ready_fds_ → h1.events.lookup x = h.events.lookup x ∧
        h1.active_fds_.count x = h.active_fds_.count x) ∧
      (∀ x e, x ∈ h.ready_fds_ → h.events.lookup x = some e →
        KQueue.add_fails os x e = true →
        h1.events.lookup x = some
          { e with where_kInReady := false, is_locked := true, where_kInTimeout := false,
                   where_kInActive := true, result_kWrite := false, result_kRead := false,
                   result_kTimeout := false, result_kError := true } ∧
        (e.where_kInTimeout = true → x ∉ h1.timeout_heap_) ∧
        h1.active_fds_.count x = h.active_fds_.count x + 1) ∧
      (∀ x e, x ∈ h.ready_fds_ → h.events.lookup x = some e →
        e.has_callback = true → KQueue.add_fails os x e = false →
        h1.events.lookup x = some { e with where_kInReady := false, is_locked := true } ∧
        h1.active_fds_.count x = h.active_fds_.count x ∧
        Obs.add x true ∈ h1.trace) := by
  induction n with
  | zero =>
    intro h hlen hs
    have hnil : h.ready_fds_ = [] := List.length_eq_zero.mp (Nat.le_zero.mp hlen)
    refine ⟨h, by simp [EventHub.PreprocessReadyEvents_loop, hnil], hs, hnil, le_refl _,
      fun _ => rfl, fun _ ho => ho, fun _ hx => hx, fun _ hx => hx, fun _ _ => ⟨rfl, rfl⟩,
      ?_, ?_⟩
    · intro x e hx; rw [hnil] at hx; exact absurd hx (List.not_mem_nil _)
    · intro x e hx; rw [hnil] at hx; exact absurd hx (List.not_mem_nil _)
  | succ n ih =>
    intro h hlen hs
    cases hr : h.ready_fds_ with
    | nil =>
      refine ⟨h, by simp [EventHub.PreprocessReadyEvents_loop, hr], hs, hr, le_refl _,
        fun _ => rfl, fun _ ho => ho, fun _ hx => hx, fun _ hx => hx, fun _ _ => ⟨rfl, rfl⟩,
      ?_, ?_⟩
      · intro x e hx; exact absurd hx (List.not_mem_nil _)
      · intro x e hx; exact absurd hx (List.not_mem_nil _)
    | cons g rest =>
      have hgt : h.events.lookup g ≠ none := hs.ready_tracked g (by rw [hr]; simp)
      obtain ⟨e, hg⟩ := Option.ne_none_iff_exists'.mp hgt
      have hnd := hs.ready_nodup
      rw [hr] at hnd
      have hgrest : g ∉ rest := (List.nodup_cons.mp hnd).1
      obtain ⟨h1, hstep, hs1, hr1, hc1, hcalls1, htr1, hheap1, hdom1, hframe1, hfail1,
        hok1, _⟩ := Preprocess_step os n h g rest e hs hr hg
      obtain ⟨h2, hloop, hs2, hr2, hc2, hcalls2, htr2, hheap2, hdom2, hframe2, hfail2, hok2⟩ :=
        ih h1 (by rw [hr1]; rw [hr] at hlen; simpa using hlen) hs1
      have hg1 := hframe2 g (by rw [hr1]; exact hgrest)
      refine ⟨h2, by rw [hstep, hloop], hs2, hr2, le_trans hc1 hc2,
        fun x => (hcalls2 x).trans (hcalls1 x), fun o ho => htr2 o (htr1 o ho),
        fun x hx => hheap1 x (hheap2 x hx), fun x hx => hdom2 x (hdom1 x hx), ?_, ?_, ?_⟩
      · intro x hx
        have hxg : x ≠ g := fun h => hx (by rw [h]; simp)
        have hxr : x ∉ rest := fun h => hx (List.mem_cons_of_mem _ h)
        have a := hframe2 x (by rw [hr1]; exact hxr)
        have b := hframe1 x hxg
        exact ⟨a.1.trans b.1, a.2.trans b.2⟩
      · intro x ex hx hlx hf
        rcases List.mem_cons.mp hx with hxg | hxr
        · subst hxg
          rw [hg] at hlx
          simp only [Option.some.injEq] at hlx
          subst hlx
          obtain ⟨a, b, c⟩ := hfail1 hf
          exact ⟨hg1.1.trans a, fun hto hmem => b hto (hheap2 x hmem), hg1.2.trans c⟩
        · have hxg : x ≠ g := fun h => hgrest (h ▸ hxr)
          have b := hframe1 x hxg
          obtain ⟨a1, a2, a3⟩ := hfail2 x ex (by rw [hr1]; exact hxr) (b.1.trans hlx) hf
          exact ⟨a1, a2, a3.trans (by rw [b.2])⟩
      · intro x ex hx hlx hcb hf
        rcases List.mem_cons.mp hx with hxg | hxr
        · subst hxg
          rw [hg] at hlx
          simp only [Option.some.injEq] at hlx
          subst hlx
          obtain ⟨a, b, c⟩ := hok1 hcb hf
          exact ⟨hg1.1.trans a, hg1.2.trans (by rw [b]), htr2 _ c⟩
        · have hxg : x ≠ g := fun h => hgrest (h ▸ hxr)
          have b := hframe1 x hxg
          obtain ⟨a1, a2, a3⟩ := hok2 x ex (by rw [hr1]; exact hxr) (b.1.trans hlx) hcb hf
          exact ⟨a1, a2.trans b.2, a3⟩


theorem Preprocess_keeps_locked (os : OS) (n : Nat) :
    ∀ h h2 : EventHub, h.ready_fds_.length ≤ n → Sound h →
    EventHub.PreprocessReadyEvents_loop os n h = Result.ok h2 →
    ∀ x e, h.events.lookup x = some e → e.is_locked = true →
      ∃ e2, h2.events.lookup x = some e2 ∧ e2.is_locked = true := by
  induction n with
  | zero =>
    intro h h2 hlen _ hloop x e hx hl
    have hnil : h.ready_fds_ = [] := List.length_eq_zero.mp (Nat.le_zero.mp hlen)
    simp only [EventHub.PreprocessReadyEvents_loop, hnil, Result.ok.injEq] at hloop
    subst hloop
    exact ⟨e, hx, hl⟩
  | succ n ih =>
    intro h h2 hlen hs hloop x e hx hl
    cases hr : h.ready_fds_ with
    | nil =>
      simp only [EventHub.PreprocessReadyEvents_loop, hr, Result.ok.injEq] at hloop
      subst hloop
      exact ⟨e, hx, hl⟩
    | cons g rest =>
      obtain ⟨eg, hg⟩ := Option.ne_none_iff_exists'.mp
        (hs.ready_tracked g (by rw [hr]; simp))
      obtain ⟨h1, hstep, hs1, hr1, _, _, _, _, _, hframe1, _, _, e1, hg1, hlock1⟩ :=
        Preprocess_step os n h g rest eg hs hr hg
      rw [hstep] at hloop
      have hlen1 : h1.ready_fds_.length ≤ n := by
        rw [hr1]; rw [hr] at hlen; simpa using hlen
      by_cases hxg : x = g
      · subst hxg
        rw [hg] at hx
        simp only [Option.some.injEq] at hx
        subst hx
        exact ih h1 h2 hlen1 hs1 hloop x e1 hg1 (hlock1 hl)
      · exact ih h1 h2 hlen1 hs1 hloop x e ((hframe1 x hxg).1.trans hx) hl

/-! ## The poll -/

theorem report_step (h : EventHub) (ident : Int) (filter : Filter)
    (rest : List (Int × Filter)) (e : Event) (hs : Sound h)
    (hg : h.events.lookup ident = some e) :
    ∃ h1, KQueue.report ((ident, filter) :: rest) h = KQueue.report rest h1 ∧
      Sound h1 ∧ h1.ready_fds_ = h.ready_fds_ ∧ h1.timeout_heap_ = h.timeout_heap_ ∧
      h1.registered_event_count_ = h.registered_event_count_ ∧ h1.trace = h.trace ∧
      (∀ x ∈ h.active_fds_, x ∈ h1.active_fds_) ∧
      (∀ x, x ≠ ident → h1.events.lookup x = h.events.lookup x ∧
        h1.active_fds_.count x = h.active_fds_.count x) ∧
      h1.events.lookup ident = some (e.reported filter) := by
  have hflag_old : e.where_kInActive = true → ident ∈ h.active_fds_ :=
    fun hf => hs.active_flag ident e hg hf
  have hsound : ∀ e1 : Event, e1.error_cb_ = e.error_cb_ → ∀ cnt tr,
      Sound { events := h.events.insert ident e1, current_fd_ := h.current_fd_,
              ready_fds_ := h.ready_fds_, timeout_heap_ := h.timeout_heap_,
              active_fds_ := (if e.where_kInActive = true then h.active_fds_
                              else h.active_fds_ ++ [ident]),
              sys_ev_op_ := h.sys_ev_op_, registered_event_count_ := cnt, trace := tr } := by
    intro e1 he1 cnt tr
    refine Sound_step h ident e e1 _ _ _ cnt tr hs hg he1 (fun _ hx => hx) hs.ready_nodup
      (fun _ hx => hx) hs.heap_nodup ?_ ?_ ?_
    · intro x hx
      split at hx
      · exact Or.inl hx
      · rcases List.mem_append.mp hx with hx | hx
        · exact Or.inl hx
        · exact Or.inr (by simpa using hx)
    · intro x hx _
      split
      · exact hx
      · exact List.mem_append_left _ hx
    · intro _
      split
      · rename_i hact; exact hflag_old hact
      · simp
  have hmono : ∀ x ∈ h.active_fds_, x ∈ (if e.where_kInActive = true then h.active_fds_
      else h.active_fds_ ++ [ident]) := by
    intro x hx
    split
    · exact hx
    · exact List.mem_append_left _ hx
  have hcount : ∀ x, x ≠ ident → (if e.where_kInActive = true then h.active_fds_
      else h.active_fds_ ++ [ident]).count x = h.active_fds_.count x := by
    intro x hx
    split
    · rfl
    · simp [List.count_append, List.count_cons, Ne.symm hx]
  cases filter with
  | EVFILT_READ =>
    refine ⟨_, EventHub.report_step_read h ident rest e hg,
      hsound { e with result_kRead := true, where_kInActive := true } rfl _ _, rfl, rfl, rfl, rfl,
      hmono, fun x hx => ⟨Table.lookup_insert_ne _ _ _ _ hx, hcount x hx⟩, ?_⟩
    simp [Event.reported]
  | EVFILT_WRITE =>
    refine ⟨_, EventHub.report_step_write h ident rest e hg,
      hsound { e with result_kWrite := true, where_kInActive := true } rfl _ _, rfl, rfl, rfl, rfl,
      hmono, fun x hx => ⟨Table.lookup_insert_ne _ _ _ _ hx, hcount x hx⟩, ?_⟩
    simp [Event.reported]
  | other =>
    cases ha : e.where_kInActive with
    | true =>
      refine ⟨h, by rw [EventHub.report_step_other h ident rest e hg]; simp [ha], hs, rfl, rfl,
        rfl, rfl, fun _ hx => hx, fun _ _ => ⟨rfl, rfl⟩, ?_⟩
      rw [hg]
      cases e
      simp_all [Event.reported]
    | false =>
      have h1 := hsound { e with where_kInActive := true } rfl h.registered_event_count_
        h.trace
      simp only [ha] at h1 hmono hcount
      refine ⟨_, by rw [EventHub.report_step_other h ident rest e hg]; simp only [ha]; rfl,
        h1, rfl, rfl, rfl, rfl, hmono,
        fun x hx => ⟨Table.lookup_insert_ne _ _ _ _ hx, hcount x hx⟩, ?_⟩
      simp [Event.reported]

theorem Event.polled_cons (x : Int) (r : Int × Filter) (rest : List (Int × Filter))
    (e : Event) :
    Event.polled x (r :: rest) e =
      Event.polled x rest (if r.1 = x then e.reported r.2 else e) := rfl

theorem Event.polled_eq (x : Int) (evs : List (Int × Filter)) (e : Event) :
    Event.polled x evs e =
      { e with where_kInActive := e.where_kInActive || decide (x ∈ evs.map Prod.fst)
               result_kRead := e.result_kRead || decide ((x, Filter.EVFILT_READ) ∈ evs)
               result_kWrite := e.result_kWrite || decide ((x, Filter.EVFILT_WRITE) ∈ evs) } := by
  induction evs generalizing e with
  | nil => simp [Event.polled]
  | cons r rest ih =>
    obtain ⟨ident, filter⟩ := r
    rw [Event.polled_cons, ih]
    by_cases hx : ident = x
    · subst hx
      cases filter <;> simp [Event.reported, Bool.or_assoc]
    · have hx2 : ¬ x = ident := fun h => hx h.symm
      have hx3 : (x == ident) = false := by simpa using hx2
      simp [hx, hx2, hx3]

theorem Event.polled_of_not_mem (x : Int) (evs : List (Int × Filter)) (e : Event)
    (hx : x ∉ evs.map Prod.fst) : Event.polled x evs e = e := by
  have h1 : (x, Filter.EVFILT_READ) ∉ evs := fun hm => hx (List.mem_map_of_mem Prod.fst hm)
  have h2 : (x, Filter.EVFILT_WRITE) ∉ evs := fun hm => hx (List.mem_map_of_mem Prod.fst hm)
  rw [Event.polled_eq]
  simp [hx, h1, h2]

theorem Event.polled_dispatched (x : Int) (evs : List (Int × Filter)) (e : Event) :
    (Event.polled x evs e).dispatched = e.dispatched := by
  rw [Event.polled_eq]
  rfl

theorem dispatch_calls_polled_registered (x : Int) (evs : List (Int × Filter)) (e : Event) :
    dispatch_calls x
        (Event.polled x evs { e with where_kInReady := false, is_locked := true }) =
      dispatch_calls x (Event.polled x evs e) := by
  rw [Event.polled_eq, Event.polled_eq]
  rfl

theorem report_spec (evs : List (Int × Filter)) :
    ∀ h : EventHub, Sound h → (∀ r ∈ evs, h.events.lookup r.1 ≠ none) →
    ∃ h1, KQueue.report evs h = Result.ok h1 ∧
      Sound h1 ∧ h1.ready_fds_ = h.ready_fds_ ∧ h1.timeout_heap_ = h.timeout_heap_ ∧
      h1.registered_event_count_ = h.registered_event_count_ ∧ h1.trace = h.trace ∧
      (∀ x ∈ h.active_fds_, x ∈ h1.active_fds_) ∧
      (∀ x, h1.events.lookup x = (h.events.lookup x).map (Event.polled x evs)) ∧
      (∀ x, x ∉ evs.map Prod.fst → h1.active_fds_.count x = h.active_fds_.count x) := by
  induction evs with
  | nil =>
    intro h hs _
    refine ⟨h, rfl, hs, rfl, rfl, rfl, rfl, fun _ hx => hx, ?_, fun _ _ => rfl⟩
    intro x
    cases h.events.lookup x <;> simp [Event.polled]
  | cons r rest ih =>
    intro h hs htr
    obtain ⟨ident, filter⟩ := r
    obtain ⟨e, hg⟩ := Option.ne_none_iff_exists'.mp (htr (ident, filter) (by simp))
    obtain ⟨h1, hstep, hs1, hr1, hh1, hc1, ht1, hmono1, hframe1, hid1⟩ :=
      report_step h ident filter rest e hs hg
    have htr1 : ∀ r ∈ rest, h1.events.lookup r.1 ≠ none := by
      intro r hr
      by_cases hri : r.1 = ident
      · rw [hri, hid1]; simp
      · rw [(hframe1 r.1 hri).1]; exact htr r (List.mem_cons_of_mem _ hr)
    obtain ⟨h2, hrep, hs2, hr2, hh2, hc2, ht2, hmono2, hlook2, hcount2⟩ := ih h1 hs1 htr1
    refine ⟨h2, by rw [hstep, hrep], hs2, hr2.trans hr1, hh2.trans hh1, hc2.trans hc1,
      ht2.trans ht1, fun x hx => hmono2 x (hmono1 x hx), ?_, ?_⟩
    · intro x
      rw [hlook2 x]
      by_cases hx : x = ident
      · subst hx
        rw [hid1, hg]
        simp [Event.polled_cons]
      · have hx2 : ¬ ident = x := fun h => hx h.symm
        rw [(hframe1 x hx).1]
        cases h.events.lookup x <;> simp [Event.polled_cons, hx2]
    · intro x hx
      simp only [List.map_cons, List.mem_cons, not_or] at hx
      rw [hcount2 x hx.2, (hframe1 x hx.1).2]

theorem Sound_trace (h : EventHub) (tr : List Obs) (hs : Sound h) :
    Sound { h with trace := tr } :=
  ⟨hs.kqueue, hs.ready_tracked, hs.heap_tracked, hs.active_tracked, hs.error_cb,
    hs.active_flag, hs.ready_nodup, hs.heap_nodup⟩

theorem sys_Poll_spec (os : OS) (w : Int) (evs : List (Int × Filter)) (h : EventHub)
    (hs : Sound h) (hcount : 0 ≤ h.registered_event_count_) (hk : os.kevents = some evs)
    (htr : ∀ r ∈ evs, h.events.lookup r.1 ≠ none) :
    ∃ h1, EventHub.sys_Poll os h w = Result.ok h1 ∧
      Sound h1 ∧ h1.ready_fds_ = h.ready_fds_ ∧ h1.timeout_heap_ = h.timeout_heap_ ∧
      h1.registered_event_count_ = h.registered_event_count_ ∧
      h1.trace = h.trace ++ [Obs.poll w] ∧
      (∀ x ∈ h.active_fds_, x ∈ h1.active_fds_) ∧
      (∀ x, h1.events.lookup x = (h.events.lookup x).map (Event.polled x evs)) ∧
      (∀ x, x ∉ evs.map Prod.fst → h1.active_fds_.count x = h.active_fds_.count x) := by
  obtain ⟨h1, hrep, hs1, hr1, hh1, hc1, ht1, hmono1, hlook1, hcount1⟩ :=
    report_spec evs { h with trace := h.trace ++ [Obs.poll w] } (Sound_trace h _ hs) htr
  refine ⟨h1, ?_, hs1, hr1, hh1, hc1, ht1, hmono1, hlook1, hcount1⟩
  have hkq := hs.kqueue
  unfold EventHub.sys_Poll
  simp only [hkq, KQueue.Poll]
  rw [if_neg (not_lt.mpr hcount)]
  simp only [hk]
  rw [← hkq]
  exact hrep

/-! ## The timeout loop -/

theorem CheckTimeout_step (os : OS) (n : Nat) (h : EventHub) (top : Int) (e : Event)
    (hs : Sound h) (ht : EventMinHeap.Top h.timeout_heap_ = some top)
    (hg : h.events.lookup top = some e) (hexp : e.timeout_stamp_ ≤ os.now_check) :
    ∃ h1, EventHub.CheckTimeoutEvents_loop os (n + 1) h =
        EventHub.CheckTimeoutEvents_loop os n h1 ∧
      Sound h1 ∧ h1.ready_fds_ = h.ready_fds_ ∧
      h1.timeout_heap_ = EventMinHeap.Pop h.events h.timeout_heap_ ∧
      (∀ x, calls_for x h1.trace = calls_for x h.trace) ∧
      (∀ o ∈ h.trace, o ∈ h1.trace) ∧
      (∀ x ∈ h.active_fds_, x ∈ h1.active_fds_) ∧
      (∀ x, x ≠ top → h1.events.lookup x = h.events.lookup x ∧
        h1.active_fds_.count x = h.active_fds_.count x) ∧
      h1.events.lookup top = some
        { e with where_kInTimeout := false, where_kInActive := true,
                 result_kWrite := false, result_kRead := false,
                 result_kTimeout := true, result_kError := false } ∧
      (∀ x, (h1.events.lookup x).map Event.dispatched =
        (h.events.lookup x).map Event.dispatched) := by
  have hdisp : ∀ e1 : Event, e1.dispatched = e.dispatched → ∀ x,
      ((h.events.insert top e1).lookup x).map Event.dispatched =
        (h.events.lookup x).map Event.dispatched := by
    intro e1 he1 x
    rw [Table.lookup_insert_eq]
    split
    · rename_i hxt
      rw [hxt, hg]
      simp [he1]
    · rfl
  have hpop : ∀ x ∈ EventMinHeap.Pop h.events h.timeout_heap_, x ∈ h.timeout_heap_ :=
    fun x hx => EventMinHeap.mem_of_mem_Pop _ _ _ hx
  have hpopn := EventMinHeap.nodup_Pop h.events _ hs.heap_nodup
  cases ha : e.where_kInActive with
  | true =>
    refine ⟨_, EventHub.CheckTimeout_step_active os n h top e ht hg hexp ha, ?_, rfl, rfl,
      fun _ => rfl, fun _ ho => ho, fun _ hx => hx,
      fun x hx => ⟨Table.lookup_insert_ne _ _ _ _ hx, rfl⟩, ?_, hdisp _ rfl⟩
    · exact Sound_step h top e _ _ _ h.active_fds_ _ _ hs hg rfl (fun _ hx => hx)
        hs.ready_nodup hpop hpopn (fun x hx => Or.inl hx) (fun x hx _ => hx)
        (fun _ => hs.active_flag top e hg ha)
    · simp [ha]
  | false =>
    refine ⟨_, EventHub.CheckTimeout_step_push os n h top e hs.kqueue ht hg hexp ha, ?_, rfl,
      rfl, ?_, ?_, fun x hx => List.mem_append_left _ hx, ?_, ?_, hdisp _ rfl⟩
    · exact Sound_step h top e _ _ _ (h.active_fds_ ++ [top]) _ _ hs hg rfl (fun _ hx => hx)
        hs.ready_nodup hpop hpopn
        (fun x hx => by
          rcases List.mem_append.mp hx with hx | hx
          · exact Or.inl hx
          · exact Or.inr (by simpa using hx))
        (fun x hx _ => List.mem_append_left _ hx) (fun _ => by simp)
    · intro x
      show calls_for x (if e.has_callback = true then h.trace ++ [Obs.del top true]
        else h.trace) = calls_for x h.trace
      split
      · simp [calls_for_append, calls_for, Obs.is_call_for]
      · rfl
    · intro o ho
      show o ∈ (if e.has_callback = true then h.trace ++ [Obs.del top true] else h.trace)
      split
      · simp [ho]
      · exact ho
    · intro x hx
      refine ⟨Table.lookup_insert_ne _ _ _ _ hx, ?_⟩
      simp [List.count_append, List.count_cons, Ne.symm hx]
    · simp

theorem CheckTimeout_spec (os : OS) (n : Nat) :
    ∀ h : EventHub, h.timeout_heap_.length ≤ n → Sound h →
    ∃ h1, EventHub.CheckTimeoutEvents_loop os n h = Result.ok h1 ∧
      Sound h1 ∧ h1.ready_fds_ = h.ready_fds_ ∧
      (∀ x, calls_for x h1.trace = calls_for x h.trace) ∧
      (∀ o ∈ h.trace, o ∈ h1.trace) ∧
      (∀ x ∈ h1.timeout_heap_, x ∈ h.timeout_heap_) ∧
      (∀ x ∈ h.active_fds_, x ∈ h1.active_fds_) ∧
      (∀ x, x ∉ h.timeout_heap_ → h1.events.lookup x = h.events.lookup x ∧
        h1.active_fds_.count x = h.active_fds_.count x) ∧
      (∀ x, (h1.events.lookup x).map Event.dispatched =
        (h.events.lookup x).map Event.dispatched) := by
  induction n with
  | zero =>
    intro h hlen hs
    have hnil : h.timeout_heap_ = [] := List.length_eq_zero.mp (Nat.le_zero.mp hlen)
    exact ⟨h, EventHub.CheckTimeout_stop_empty os 0 h hnil, hs, rfl, fun _ => rfl,
      fun _ ho => ho, fun _ hx => hx, fun _ hx => hx, fun _ _ => ⟨rfl, rfl⟩, fun _ => rfl⟩
  | succ n ih =>
    intro h hlen hs
    cases ht : EventMinHeap.Top h.timeout_heap_ with
    | none =>
      have hnil : h.timeout_heap_ = [] := by
        cases hh : h.timeout_heap_ with
        | nil => rfl
        | cons a b => simp [EventMinHeap.Top, hh] at ht
      exact ⟨h, EventHub.CheckTimeout_stop_empty os _ h hnil, hs, rfl, fun _ => rfl,
        fun _ ho => ho, fun _ hx => hx, fun _ hx => hx, fun _ _ => ⟨rfl, rfl⟩, fun _ => rfl⟩
    | some top =>
      have htop := EventMinHeap.Top_mem _ _ ht
      obtain ⟨e, hg⟩ := Option.ne_none_iff_exists'.mp (hs.heap_tracked top htop)
      by_cases hexp : e.timeout_stamp_ ≤ os.now_check
      · obtain ⟨h1, hstep, hs1, hr1, hh1, hcalls1, htr1, hact1, hframe1, _, hdisp1⟩ :=
          CheckTimeout_step os n h top e hs ht hg hexp
        have hlen1 : h1.timeout_heap_.length ≤ n := by
          rw [hh1, EventMinHeap.length_Pop]; omega
        obtain ⟨h2, hloop, hs2, hr2, hcalls2, htr2, hheap2, hact2, hframe2, hdisp2⟩ :=
          ih h1 hlen1 hs1
        refine ⟨h2, by rw [hstep, hloop], hs2, hr2.trans hr1,
          fun x => (hcalls2 x).trans (hcalls1 x), fun o ho => htr2 o (htr1 o ho), ?_,
          fun x hx => hact2 x (hact1 x hx), ?_, fun x => (hdisp2 x).trans (hdisp1 x)⟩
        · intro x hx
          have := hheap2 x hx
          rw [hh1] at this
          exact EventMinHeap.mem_of_mem_Pop _ _ _ this
        · intro x hx
          have hxt : x ≠ top := fun h => hx (h ▸ htop)
          have hx1 : x ∉ h1.timeout_heap_ := by
            rw [hh1]; exact fun hm => hx (EventMinHeap.mem_of_mem_Pop _ _ _ hm)
          have a := hframe2 x hx1
          have b := hframe1 x hxt
          exact ⟨a.1.trans b.1, a.2.trans b.2⟩
      · exact ⟨h, EventHub.CheckTimeout_stop_later os _ h top e ht hg (not_le.mp hexp), hs, rfl,
          fun _ => rfl, fun _ ho => ho, fun _ hx => hx, fun _ hx => hx,
          fun _ _ => ⟨rfl, rfl⟩, fun _ => rfl⟩


theorem CheckTimeout_keeps_locks (os : OS) (n : Nat) :
    ∀ h h2 : EventHub, h.timeout_heap_.length ≤ n → Sound h →
    EventHub.CheckTimeoutEvents_loop os n h = Result.ok h2 →
    ∀ x, (h2.events.lookup x).map Event.is_locked =
      (h.events.lookup x).map Event.is_locked := by
  induction n with
  | zero =>
    intro h h2 hlen _ hloop x
    have hnil : h.timeout_heap_ = [] := List.length_eq_zero.mp (Nat.le_zero.mp hlen)
    rw [EventHub.CheckTimeout_stop_empty os 0 h hnil] at hloop
    simp only [Result.ok.injEq] at hloop
    subst hloop
    rfl
  | succ n ih =>
    intro h h2 hlen hs hloop x
    cases ht : EventMinHeap.Top h.timeout_heap_ with
    | none =>
      have hnil : h.timeout_heap_ = [] := by
        cases hh : h.timeout_heap_ with
        | nil => rfl
        | cons a b => simp [EventMinHeap.Top, hh] at ht
      rw [EventHub.CheckTimeout_stop_empty os _ h hnil] at hloop
      simp only [Result.ok.injEq] at hloop
      subst hloop
      rfl
    | some top =>
      have htop := EventMinHeap.Top_mem _ _ ht
      obtain ⟨e, hg⟩ := Option.ne_none_iff_exists'.mp (hs.heap_tracked top htop)
      by_cases hexp : e.timeout_stamp_ ≤ os.now_check
      · obtain ⟨h1, hstep, hs1, _, hh1, _, _, _, hframe1, hg1, _⟩ :=
          CheckTimeout_step os n h top e hs ht hg hexp
        rw [hstep] at hloop
        have hlen1 : h1.timeout_heap_.length ≤ n := by
          rw [hh1, EventMinHeap.length_Pop]; omega
        rw [ih h1 h2 hlen1 hs1 hloop x]
        by_cases hxt : x = top
        · subst hxt
          rw [hg1, hg]
          rfl
        · rw [(hframe1 x hxt).1]
      · rw [EventHub.CheckTimeout_stop_later os _ h top e ht hg (not_le.mp hexp)] at hloop
        simp only [Result.ok.injEq] at hloop
        subst hloop
        rfl

/-! ## The dispatch loop, for callbacks that do not call into the hub -/

theorem calls_for_call_of (x g : Int) (cb : Option Nat) (type : EventType)
    (data : Option Nat) :
    calls_for x (call_of cb g type data) = if x = g then call_of cb g type data else [] := by
  by_cases hxg : x = g
  · subst hxg
    cases cb <;> simp [call_of, calls_for, Obs.is_call_for]
  · have hgx : ¬ g = x := fun h => hxg h.symm
    cases cb <;> simp [call_of, calls_for, Obs.is_call_for, hxg, hgx]

theorem calls_for_dispatch_calls (x g : Int) (e : Event) :
    calls_for x (dispatch_calls g e) = if x = g then dispatch_calls g e else [] := by
  unfold dispatch_calls
  by_cases hxg : x = g
  · simp only [calls_for_append, hxg, if_true]
    cases e.result_kWrite <;> cases e.result_kRead <;> cases e.result_kError <;>
      cases e.result_kTimeout <;> simp [calls_for_call_of] <;> simp [calls_for]
  · simp only [calls_for_append, hxg, if_false]
    cases e.result_kWrite <;> cases e.result_kRead <;> cases e.result_kError <;>
      cases e.result_kTimeout <;> simp [calls_for_call_of, hxg] <;> simp [calls_for]

theorem dispatch_calls_dispatched (g : Int) (e : Event) :
    dispatch_calls g e.dispatched = [] := by
  simp [dispatch_calls, Event.dispatched]

theorem Event.dispatched_dispatched (e : Event) : e.dispatched.dispatched = e.dispatched := rfl

theorem Response_step_sound (prog : Program) (hinert : ∀ k g t d, prog k g t d = [])
    (os : OS) (n : Nat) (h : EventHub) (g : Int) (rest : List Int) (e : Event)
    (hs : Sound h) (ha : h.active_fds_ = g :: rest) (hg : h.events.lookup g = some e) :
    ∃ h1, EventHub.ResponseActiveEvents_loop prog os (n + 1) h =
        EventHub.ResponseActiveEvents_loop prog os n h1 ∧
      Sound h1 ∧ h1.active_fds_ = rest ∧ h1.ready_fds_ = h.ready_fds_ ∧
      (∀ x ∈ h1.timeout_heap_, x ∈ h.timeout_heap_) ∧
      (∀ o ∈ h.trace, o ∈ h1.trace) ∧
      (∀ x, calls_for x h1.trace =
        calls_for x h.trace ++ (if x = g then dispatch_calls g e else [])) ∧
      (∀ x, x ≠ g → h1.events.lookup x = h.events.lookup x) ∧
      h1.events.lookup g = some e.dispatched ∧
      (e.where_kInTimeout = true → g ∉ h1.timeout_heap_) := by
  obtain ⟨xe, hxe⟩ := Option.ne_none_iff_exists'.mp (hs.error_cb g e hg)
  have hheap_if : ∀ x ∈ (if e.where_kInTimeout = true
      then EventMinHeap.Remove h.timeout_heap_ g else h.timeout_heap_),
      x ∈ h.timeout_heap_ := by
    intro x hx
    split at hx
    · exact EventMinHeap.mem_of_mem_Remove _ _ _ hx
    · exact hx
  have hheap_nd : (if e.where_kInTimeout = true
      then EventMinHeap.Remove h.timeout_heap_ g else h.timeout_heap_).Nodup := by
    split
    · exact EventMinHeap.nodup_Remove _ _ hs.heap_nodup
    · exact hs.heap_nodup
  refine ⟨_, EventHub.Response_step prog hinert os n h g rest e xe hs.kqueue ha hg hxe, ?_, rfl,
    rfl, hheap_if, ?_, ?_, fun x hx => Table.lookup_insert_ne _ _ _ _ hx, ?_, ?_⟩
  · exact Sound_step h g e _ _ _ rest _ _ hs hg rfl (fun _ hx => hx) hs.ready_nodup
      hheap_if hheap_nd (fun x hx => Or.inl (by rw [ha]; exact List.mem_cons_of_mem _ hx))
      (fun x hx hxg => by
        rw [ha] at hx
        rcases List.mem_cons.mp hx with hx | hx
        · exact absurd hx hxg
        · exact hx)
      (fun hf => by simp at hf)
  · intro o ho
    show o ∈ (if e.has_callback = true then h.trace ++ [Obs.del g true] else h.trace)
      ++ dispatch_calls g e
    apply List.mem_append_left
    split
    · simp [ho]
    · exact ho
  · intro x
    show calls_for x ((if e.has_callback = true then h.trace ++ [Obs.del g true]
      else h.trace) ++ dispatch_calls g e) = _
    rw [calls_for_append, calls_for_dispatch_calls]
    congr 1
    split
    · simp [calls_for_append, calls_for, Obs.is_call_for]
    · rfl
  · simp [Event.dispatched]
  · intro hto
    simp only [hto, if_true]
    exact EventMinHeap.not_mem_Remove _ _ hs.heap_nodup

theorem Response_spec (prog : Program) (hinert : ∀ k g t d, prog k g t d = []) (os : OS)
    (n : Nat) :
    ∀ h : EventHub, h.active_fds_.length ≤ n → Sound h →
    ∃ h1, EventHub.ResponseActiveEvents_loop prog os n h = Result.ok h1 ∧
      Sound h1 ∧ h1.active_fds_ = [] ∧ h1.ready_fds_ = h.ready_fds_ ∧
      (∀ x ∈ h1.timeout_heap_, x ∈ h.timeout_heap_) ∧
      (∀ o ∈ h.trace, o ∈ h1.trace) ∧
      (∀ x, calls_for x h1.trace = calls_for x h.trace ++
        (if x ∈ h.active_fds_ then ((h.events.lookup x).map (dispatch_calls x)).getD []
         else [])) ∧
      (∀ x, x ∉ h.active_fds_ → h1.events.lookup x = h.events.lookup x) ∧
      (∀ x, x ∈ h.active_fds_ →
        h1.events.lookup x = (h.events.lookup x).map Event.dispatched) := by
  induction n with
  | zero =>
    intro h hlen hs
    have hnil : h.active_fds_ = [] := List.length_eq_zero.mp (Nat.le_zero.mp hlen)
    refine ⟨h, by simp [EventHub.ResponseActiveEvents_loop, hnil], hs, hnil, rfl,
      fun _ hx => hx, fun _ ho => ho, ?_, fun _ _ => rfl, ?_⟩
    · intro x; simp [hnil]
    · intro x hx; rw [hnil] at hx; exact absurd hx (List.not_mem_nil _)
  | succ n ih =>
    intro h hlen hs
    cases ha : h.active_fds_ with
    | nil =>
      refine ⟨h, by simp [EventHub.ResponseActiveEvents_loop, ha], hs, ha, rfl,
        fun _ hx => hx, fun _ ho => ho, ?_, fun _ _ => rfl, ?_⟩
      · intro x; simp
      · intro x hx; exact absurd hx (List.not_mem_nil _)
    | cons g rest =>
      obtain ⟨e, hg⟩ := Option.ne_none_iff_exists'.mp
        (hs.active_tracked g (by rw [ha]; simp))
      obtain ⟨h1, hstep, hs1, ha1, hr1, hheap1, htr1, hcalls1, hframe1, hg1, _⟩ :=
        Response_step_sound prog hinert os n h g rest e hs ha hg
      obtain ⟨h2, hloop, hs2, ha2, hr2, hheap2, htr2, hcalls2, hframe2, hdisp2⟩ :=
        ih h1 (by rw [ha1]; rw [ha] at hlen; simpa using hlen) hs1
      refine ⟨h2, by rw [hstep, hloop], hs2, ha2, hr2.trans hr1,
        fun x hx => hheap1 x (hheap2 x hx), fun o ho => htr2 o (htr1 o ho), ?_, ?_, ?_⟩
      · intro x
        rw [hcalls2 x, hcalls1 x, ha1, List.append_assoc]
        congr 1
        by_cases hxg : x = g
        · subst hxg
          simp only [if_true, List.mem_cons, true_or, hg, Option.map_some', Option.getD_some,
            hg1, dispatch_calls_dispatched]
          simp
        · simp only [hxg, if_false, List.nil_append, List.mem_cons, false_or,
            hframe1 x hxg]
      · intro x hx
        have hxg : x ≠ g := fun h => hx (by rw [h]; simp)
        have hxr : x ∉ rest := fun h => hx (List.mem_cons_of_mem _ h)
        rw [hframe2 x (by rw [ha1]; exact hxr), hframe1 x hxg]
      · intro x hx
        by_cases hxg : x = g
        · subst hxg
          by_cases hxr : x ∈ rest
          · rw [hdisp2 x (by rw [ha1]; exact hxr), hg1, hg]
            rfl
          · rw [hframe2 x (by rw [ha1]; exact hxr), hg1, hg]
            rfl
        · have hxr : x ∈ rest := by
            rcases List.mem_cons.mp hx with h | h
            · exact absurd h hxg
            · exact h
          rw [hdisp2 x (by rw [ha1]; exact hxr), hframe1 x hxg]


/-! ## The lock of a descriptor -/

theorem lookup_update_lock (h : EventHub) (fd : Int) (f : Event → Event)
    (hf : ∀ e, (f e).is_locked = e.is_locked) (g : Int) :
    ((h.update fd f).events.lookup g).map Event.is_locked =
      (h.events.lookup g).map Event.is_locked := by
  rw [EventHub.update_lookup]
  split
  · rename_i hgf
    subst hgf
    cases h.events.lookup g <;> simp [hf]
  · rfl

theorem lock_ReadyPush (h : EventHub) (fd g : Int) :
    ((h.ReadyPush fd).events.lookup g).map Event.is_locked =
      (h.events.lookup g).map Event.is_locked := by
  exact lookup_update_lock _ _ _ (by intro _; rfl) g

theorem lock_TimeoutPush (h : EventHub) (fd g : Int) :
    ((h.TimeoutPush fd).events.lookup g).map Event.is_locked =
      (h.events.lookup g).map Event.is_locked := by
  exact lookup_update_lock _ _ _ (by intro _; rfl) g

theorem lock_TimeoutRemove (h : EventHub) (fd g : Int) :
    ((h.TimeoutRemove fd).events.lookup g).map Event.is_locked =
      (h.events.lookup g).map Event.is_locked := by
  exact lookup_update_lock _ _ _ (by intro _; rfl) g

theorem Ready_keeps_locks (h : EventHub) (timeout_period : Option Int) (now : Int) (g : Int) :
    ((h.Ready timeout_period now).hub.events.lookup g).map Event.is_locked =
      (h.events.lookup g).map Event.is_locked := by
  unfold EventHub.Ready
  cases hc : h.events.lookup h.current_fd_ with
  | none => rfl
  | some ce =>
    cases timeout_period with
    | none =>
      simp only [Result.hub]
      split_ifs <;> simp only [lock_ReadyPush]
    | some period =>
      simp only [Result.hub]
      have hst : ∀ (x : EventHub) (fd s : Int),
          ((x.update fd (fun e => { e with timeout_stamp_ := s })).events.lookup g).map
            Event.is_locked = (x.events.lookup g).map Event.is_locked :=
        fun x fd s => lookup_update_lock _ _ _ (by intro _; rfl) g
      split_ifs <;>
        simp only [lock_TimeoutPush, hst, lock_TimeoutRemove, lock_ReadyPush]

/-- No call of the builder surface changes the lock of a descriptor that stays tracked. -/
theorem Action_keeps_lock (a : Action) (h : EventHub) (g : Int) (e e1 : Event)
    (hg : h.events.lookup g = some e) (hg1 : (a.run h).hub.events.lookup g = some e1) :
    e1.is_locked = e.is_locked := by
  have key : ((a.run h).hub.events.lookup g).map Event.is_locked =
      (h.events.lookup g).map Event.is_locked := by
    cases a with
    | CreateEmpty fd cb =>
      simp only [Action.run, EventHub.CreateEmpty, EventHub.SetCurrent]
      split_ifs <;> try rfl
      all_goals
        rename_i hcont
        have hfg : g ≠ fd := by
          intro hgf
          subst hgf
          simp [Table.contains, hg] at hcont
        simp [Result.hub, Table.lookup_insert_ne _ _ _ _ hfg]
    | SetCurrent fd =>
      simp only [Action.run, EventHub.SetCurrent]
      split_ifs <;> try rfl
      all_goals (split <;> try rfl) 
      all_goals (split_ifs <;> rfl)
    | OnRead cb =>
      simp only [Action.run, EventHub.OnRead]
      split
      · rfl
      · exact lookup_update_lock _ _ _ (by intro _; rfl) g
    | OnWrite cb =>
      simp only [Action.run, EventHub.OnWrite]
      split
      · rfl
      · exact lookup_update_lock _ _ _ (by intro _; rfl) g
    | WithData d =>
      simp only [Action.run, EventHub.WithData]
      split
      · rfl
      · exact lookup_update_lock _ _ _ (by intro _; rfl) g
    | Ready t now => exact Ready_keeps_locks h t now g
    | Destroy =>
      simp only [Action.run, EventHub.Destroy] at hg1 ⊢
      split at hg1
      · rfl
      · split_ifs at hg1 ⊢
        · rfl
        · have hgc : g ≠ h.current_fd_ := by
            intro hgc
            rw [hgc] at hg1
            simp [Result.hub] at hg1
          simp [Result.hub, Table.lookup_erase_ne _ _ _ hgc]
  rw [hg, hg1] at key
  simpa using key

/-- A locked descriptor that is not the selected one is out of reach of the builder
surface: no call changes its event, and no call selects it. -/
theorem Action_frame_locked (a : Action) (h : EventHub) (x : Int) (e : Event)
    (hx : h.events.lookup x = some e) (hl : e.is_locked = true) (hc : h.current_fd_ ≠ x) :
    (a.run h).hub.events.lookup x = some e ∧ (a.run h).hub.current_fd_ ≠ x := by
  have hxc : x ≠ h.current_fd_ := fun hh => hc hh.symm
  cases a with
  | CreateEmpty fd cb =>
    simp only [Action.run, EventHub.CreateEmpty, EventHub.SetCurrent]
    by_cases hfd : fd < 0
    · simp [hfd, Result.hub, hx, hc]
    · by_cases hcb : cb = none
      · simp [hfd, hcb, Result.hub, hx, hc]
      · by_cases hcont : h.events.contains fd = true
        · simp [hfd, hcb, hcont, Result.hub, hx, hc]
        · have hxf : x ≠ fd := by
            intro hxf
            subst hxf
            simp [Table.contains, hx] at hcont
          simp only [hfd, hcb, hcont, if_false, Table.lookup_insert]
          simp [Result.hub, Table.lookup_insert_ne _ _ _ _ hxf, hx, Ne.symm hxf]
  | SetCurrent fd =>
    simp only [Action.run, EventHub.SetCurrent]
    by_cases hfd : fd < 0
    · simp [hfd, Result.hub, hx, hc]
    · cases hf : h.events.lookup fd with
      | none => simp [hfd, Result.hub, hx, hc]
      | some ef =>
        by_cases hlf : ef.is_locked = true
        · simp [hfd, hlf, Result.hub, hx, hc]
        · have hxf : fd ≠ x := by
            intro hxf
            subst hxf
            rw [hx] at hf
            cases hf
            exact hlf hl
          simp [hfd, hlf, Result.hub, hx, hxf]
  | OnRead cb =>
    simp only [Action.run, EventHub.OnRead]
    cases h.events.lookup h.current_fd_ <;> simp [Result.hub, hx, hc, hxc]
  | OnWrite cb =>
    simp only [Action.run, EventHub.OnWrite]
    cases h.events.lookup h.current_fd_ <;> simp [Result.hub, hx, hc, hxc]
  | WithData d =>
    simp only [Action.run, EventHub.WithData]
    cases h.events.lookup h.current_fd_ <;> simp [Result.hub, hx, hc, hxc]
  | Ready t now =>
    simp only [Action.run, EventHub.Ready]
    cases h.events.lookup h.current_fd_ with
    | none => simp [Result.hub, hx, hc]
    | some ce =>
      cases t with
      | none =>
        simp only [Result.hub]
        split_ifs <;> simp [EventHub.ReadyPush, hx, hc, hxc]
      | some period =>
        simp only [Result.hub]
        split_ifs <;>
          simp [EventHub.ReadyPush, EventHub.TimeoutPush, EventHub.TimeoutRemove, hx, hc, hxc]
  | Destroy =>
    simp only [Action.run, EventHub.Destroy]
    cases h.events.lookup h.current_fd_ with
    | none => simp [Result.hub, hx, hc]
    | some ce =>
      split_ifs
      · simp [Result.hub, hx, hc]
      · simp [Result.hub, Table.lookup_erase_ne _ _ _ hxc, hx, hc]

theorem Action_active_fds_ (a : Action) (h : EventHub) :
    (a.run h).hub.active_fds_ = h.active_fds_ := by
  cases a with
  | CreateEmpty fd cb =>
    simp only [Action.run, EventHub.CreateEmpty, EventHub.SetCurrent]
    split_ifs <;> try rfl
    all_goals (simp only [Table.lookup_insert]; split_ifs <;> rfl)
  | SetCurrent fd =>
    simp only [Action.run, EventHub.SetCurrent]
    split_ifs <;> try rfl
    all_goals (split <;> try rfl)
    all_goals (split_ifs <;> rfl)
  | OnRead cb =>
    simp only [Action.run, EventHub.OnRead]
    split <;> simp [Result.hub]
  | OnWrite cb =>
    simp only [Action.run, EventHub.OnWrite]
    split <;> simp [Result.hub]
  | WithData d =>
    simp only [Action.run, EventHub.WithData]
    split <;> simp [Result.hub]
  | Ready t now =>
    simp only [Action.run, EventHub.Ready]
    cases h.events.lookup h.current_fd_ with
    | none => rfl
    | some ce =>
      cases t with
      | none =>
        simp only [Result.hub]
        split_ifs <;> simp [EventHub.ReadyPush]
      | some period =>
        simp only [Result.hub]
        split_ifs <;>
          simp [EventHub.ReadyPush, EventHub.TimeoutPush, EventHub.TimeoutRemove]
  | Destroy =>
    simp only [Action.run, EventHub.Destroy]
    cases h.events.lookup h.current_fd_ with
    | none => rfl
    | some ce => split_ifs <;> rfl

/-- A locked descriptor that is not the selected one stays so through any sequence of
builder calls, whether the sequence returns or throws. -/
theorem run_actions_shields (x : Int) (e : Event) (hl : e.is_locked = true)
    (acts : List Action) :
    ∀ h : EventHub, h.shields x e →
      (run_actions acts h).hub.shields x e ∧
      (run_actions acts h).hub.active_fds_ = h.active_fds_ := by
  induction acts with
  | nil => intro h hs; exact ⟨hs, rfl⟩
  | cons a rest ih =>
    intro h hs
    have ha := Action_frame_locked a h x e hs.1 hl hs.2
    have haa := Action_active_fds_ a h
    simp only [run_actions]
    cases hr : a.run h with
    | ok h1 =>
      rw [hr] at ha haa
      simp only [Result.andThen]
      obtain ⟨i1, i2⟩ := ih h1 ha
      exact ⟨i1, i2.trans haa⟩
    | raised ex h1 =>
      rw [hr] at ha haa
      exact ⟨ha, haa⟩

/-- In any sequence of builder calls, `SetCurrent(x)` on a locked descriptor `x` that is
not the selected one does not succeed: the sequence throws, at that call or before. -/
theorem run_actions_SetCurrent_locked (x : Int) (e : Event) (hl : e.is_locked = true)
    (acts rest : List Action) :
    ∀ h : EventHub, h.shields x e →
      (run_actions (acts ++ Action.SetCurrent x :: rest) h).exception ≠ none := by
  induction acts with
  | nil =>
    intro h hs
    by_cases hx0 : x < 0
    · simp [run_actions, Action.run, EventHub.SetCurrent, hx0, Result.andThen,
        Result.exception]
    · simp [run_actions, Action.run, EventHub.SetCurrent, hx0, hs.1, hl, Result.andThen,
        Result.exception]
  | cons a acts ih =>
    intro h hs
    have ha := Action_frame_locked a h x e hs.1 hl hs.2
    simp only [List.cons_append, run_actions]
    cases hr : a.run h with
    | ok h1 =>
      rw [hr] at ha
      simp only [Result.andThen]
      exact ih h1 ha
    | raised ex h1 => simp [Result.andThen, Result.exception]

theorem guarded_call_shields (prog : Program) (y : Int) (type : EventType)
    (guard : Event → Bool) (cb : Event → Option Nat) (h : EventHub) (x : Int) (e : Event)
    (hl : e.is_locked = true) (hs : h.shields x e) :
    (EventHub.guarded_call prog y type guard cb h).hub.shields x e ∧
    (EventHub.guarded_call prog y type guard cb h).hub.active_fds_ = h.active_fds_ := by
  unfold EventHub.guarded_call
  cases hly : h.events.lookup y with
  | none => exact ⟨hs, rfl⟩
  | some ev =>
    by_cases hg : guard ev = true
    · simp only [hg, if_true]
      cases hk : cb ev with
      | none => exact ⟨hs, rfl⟩
      | some k =>
        simp only [invoke]
        have hr := run_actions_shields x e hl (prog k y type ev.data_)
          { h with trace := h.trace ++ [Obs.call k y type ev.data_] } hs
        cases hres : run_actions (prog k y type ev.data_)
            { h with trace := h.trace ++ [Obs.call k y type ev.data_] } with
        | ok h1 =>
          rw [hres] at hr
          simp only []
          split_ifs <;> exact hr
        | raised ex h1 =>
          rw [hres] at hr
          exact hr
    · simp only [hg]
      exact ⟨hs, rfl⟩

theorem sys_Del_frame (os : OS) (h : EventHub) (y : Int) :
    (EventHub.sys_Del os h y).hub.events = h.events ∧
    (EventHub.sys_Del os h y).hub.current_fd_ = h.current_fd_ ∧
    (EventHub.sys_Del os h y).hub.active_fds_ = h.active_fds_ := by
  unfold EventHub.sys_Del KQueue.Del Epoll.Del
  cases h.sys_ev_op_ <;> simp only []
  · cases h.events.lookup y <;> exact ⟨rfl, rfl, rfl⟩
  · split_ifs <;> exact ⟨rfl, rfl, rfl⟩

theorem shields_update (h : EventHub) (x y : Int) (e : Event) (f : Event → Event)
    (hy : y ≠ x) (hs : h.shields x e) : (h.update y f).shields x e := by
  unfold EventHub.shields
  rw [EventHub.update_lookup, EventHub.update_current_fd_, if_neg (Ne.symm hy)]
  exact hs

theorem shields_TimeoutRemove (h : EventHub) (x y : Int) (e : Event)
    (hy : y ≠ x) (hs : h.shields x e) : (h.TimeoutRemove y).shields x e :=
  shields_update _ x y e _ hy hs

theorem dereg_frame (c : Prop) [Decidable c] (os : OS) (h : EventHub) (y : Int) (r : Result)
    (x : Int) (e : Event)
    (heq : (if c then EventHub.sys_Del os h y else Result.ok h) = r) (hs : h.shields x e) :
    r.hub.shields x e ∧ r.hub.active_fds_ = h.active_fds_ := by
  subst heq
  have hf := sys_Del_frame os h y
  unfold EventHub.shields at hs ⊢
  split_ifs
  · rw [hf.1, hf.2.1, hf.2.2]; exact ⟨hs, rfl⟩
  · exact ⟨hs, rfl⟩

theorem guarded_call_shields_eq (prog : Program) (y : Int) (type : EventType)
    (guard : Event → Bool) (cb : Event → Option Nat) (h : EventHub) (s : EventHub.Step)
    (x : Int) (e : Event) (hl : e.is_locked = true)
    (heq : EventHub.guarded_call prog y type guard cb h = s) (hs : h.shields x e) :
    s.hub.shields x e ∧ s.hub.active_fds_ = h.active_fds_ := by
  subst heq
  exact guarded_call_shields prog y type guard cb h x e hl hs

theorem prologue_shields (h : EventHub) (x y : Int) (e : Event) (f g : Event → Event)
    (hy : y ≠ x) (hs : h.shields x e) :
    ((if (h.update y f).IsInTimeout y = true then (h.update y f).TimeoutRemove y
      else h.update y f).update y g).shields x e ∧
    ((if (h.update y f).IsInTimeout y = true then (h.update y f).TimeoutRemove y
      else h.update y f).update y g).active_fds_ = h.active_fds_ := by
  refine ⟨shields_update _ x y e _ hy ?_, ?_⟩
  · split_ifs
    · exact shields_TimeoutRemove _ x y e hy (shields_update _ x y e _ hy hs)
    · exact shields_update _ x y e _ hy hs
  · rw [EventHub.update_active_fds_]
    split_ifs
    · simp [EventHub.TimeoutRemove]
    · simp

/-- One iteration of the dispatch loop for a descriptor other than `x`: either the loop
goes on with the rest of the queue, or it ends there; in both cases `x` is as before. -/
theorem Response_iter_shields (prog : Program) (os : OS) (x : Int) (e : Event)
    (hl : e.is_locked = true) (n : Nat) (h : EventHub) (y : Int) (rest : List Int)
    (ha : h.active_fds_ = y :: rest) (hy : y ≠ x) (hs : h.shields x e) :
    (∃ h1, EventHub.ResponseActiveEvents_loop prog os (n + 1) h =
        EventHub.ResponseActiveEvents_loop prog os n h1 ∧
      h1.active_fds_ = rest ∧ h1.shields x e) ∨
    (EventHub.ResponseActiveEvents_loop prog os (n + 1) h).hub.shields x e := by
  have key : ∀ r, EventHub.ResponseActiveEvents_loop prog os (n + 1) h = r →
      (∃ h1, r = EventHub.ResponseActiveEvents_loop prog os n h1 ∧
        h1.active_fds_ = rest ∧ h1.shields x e) ∨ r.hub.shields x e := by
    intro r hr
    simp only [EventHub.ResponseActiveEvents_loop, ha] at hr
    have hs1 : ({ h with active_fds_ := rest } : EventHub).shields x e := hs
    have ha1 : ({ h with active_fds_ := rest } : EventHub).active_fds_ = rest := rfl
    generalize ({ h with active_fds_ := rest } : EventHub) = h1 at hr hs1 ha1
    split at hr
    · subst hr; exact Or.inr hs1
    · have hs2 := shields_update h1 x y e (fun e => { e with where_kInActive := false }) hy hs1
      have ha2 : (h1.update y (fun e => { e with where_kInActive := false })).active_fds_ = rest := by
        rw [EventHub.update_active_fds_]; exact ha1
      generalize h1.update y (fun e => { e with where_kInActive := false }) = h2 at hr hs2 ha2
      split at hr
      · subst hr; exact Or.inr hs2
      · split at hr
        · rename_i hD
          have hf := dereg_frame _ os h2 y _ x e hD hs2
          subst hr
          exact Or.inr hf.1
        · rename_i h3 hD
          have hf := dereg_frame _ os h2 y _ x e hD hs2
          have hp := prologue_shields h3 x y e
            (fun e => { e with read_cb_ := none, write_cb_ := none })
            (fun e => { e with is_locked := false }) hy hf.1
          split at hr
          · rename_i hG
            have hg := guarded_call_shields_eq prog y _ _ _ _ _ x e hl hG hp.1
            subst hr
            exact Or.inr hg.1
          · rename_i hG
            have hg := guarded_call_shields_eq prog y _ _ _ _ _ x e hl hG hp.1
            subst hr
            exact Or.inr hg.1
          · rename_i hG
            have hg := guarded_call_shields_eq prog y _ _ _ _ _ x e hl hG hp.1
            split at hr
            · rename_i hG2
              have hg2 := guarded_call_shields_eq prog y _ _ _ _ _ x e hl hG2 hg.1
              subst hr
              exact Or.inr hg2.1
            · rename_i hG2
              have hg2 := guarded_call_shields_eq prog y _ _ _ _ _ x e hl hG2 hg.1
              subst hr
              exact Or.inr hg2.1
            · rename_i hG2
              have hg2 := guarded_call_shields_eq prog y _ _ _ _ _ x e hl hG2 hg.1
              split at hr
              · rename_i hG3
                have hg3 := guarded_call_shields_eq prog y _ _ _ _ _ x e hl hG3 hg2.1
                subst hr
                exact Or.inr hg3.1
              · rename_i hG3
                have hg3 := guarded_call_shields_eq prog y _ _ _ _ _ x e hl hG3 hg2.1
                subst hr
                exact Or.inr hg3.1
              · rename_i hG3
                have hg3 := guarded_call_shields_eq prog y _ _ _ _ _ x e hl hG3 hg2.1
                split at hr
                · rename_i hG4
                  have hg4 := guarded_call_shields_eq prog y _ _ _ _ _ x e hl hG4 hg3.1
                  subst hr
                  exact Or.inr hg4.1
                · rename_i hG4
                  have hg4 := guarded_call_shields_eq prog y _ _ _ _ _ x e hl hG4 hg3.1
                  subst hr
                  exact Or.inr hg4.1
                · rename_i hG4
                  have hg4 := guarded_call_shields_eq prog y _ _ _ _ _ x e hl hG4 hg3.1
                  refine Or.inl ⟨_, hr.symm, ?_, shields_update _ x y e _ hy hg4.1⟩
                  rw [EventHub.update_active_fds_]
                  exact hg4.2.trans (hg3.2.trans (hg2.2.trans (hg.2.trans
                    (hp.2.trans (hf.2.trans ha2)))))
  exact key _ rfl

/-- The dispatch loop leaves a locked descriptor alone that is neither the selected one
nor in the dispatch queue, whatever the callbacks of the dispatched descriptors do. -/
theorem Response_shields (prog : Program) (os : OS) (x : Int) (e : Event)
    (hl : e.is_locked = true) (n : Nat) :
    ∀ h : EventHub, h.shields x e → x ∉ h.active_fds_ →
      (EventHub.ResponseActiveEvents_loop prog os n h).hub.shields x e := by
  induction n with
  | zero =>
    intro h hs _
    unfold EventHub.ResponseActiveEvents_loop
    split <;> exact hs
  | succ n ih =>
    intro h hs hx
    cases ha : h.active_fds_ with
    | nil =>
      unfold EventHub.ResponseActiveEvents_loop
      simp only [ha]
      exact hs
    | cons y rest =>
      rw [ha] at hx
      have hy : y ≠ x := fun hyx => hx (hyx ▸ List.mem_cons_self _ _)
      rcases Response_iter_shields prog os x e hl n h y rest ha hy hs with
        ⟨h1, heq, ha1, hs1⟩ | hend
      · rw [heq]
        exact ih h1 hs1 (by rw [ha1]; exact fun hm => hx (List.mem_cons_of_mem _ hm))
      · exact hend

/-- A locked descriptor `x` awaiting dispatch that is not the selected one: whatever the
callbacks of the descriptors queued before it do, either the loop reaches the dispatch of
`x` with the event of `x` unchanged, or it ends before with the event of `x` unchanged. -/
theorem Response_shields_until (prog : Program) (os : OS) (x : Int) (e : Event)
    (hl : e.is_locked = true) (post : List Int) (pre : List Int) :
    ∀ (n : Nat) (h : EventHub), h.active_fds_ = pre ++ x :: post → x ∉ pre →
      h.shields x e →
      (∃ hm m, EventHub.ResponseActiveEvents_loop prog os n h =
          EventHub.ResponseActiveEvents_loop prog os m hm ∧
        hm.active_fds_ = x :: post ∧ hm.shields x e) ∨
      (EventHub.ResponseActiveEvents_loop prog os n h).hub.shields x e := by
  induction pre with
  | nil =>
    intro n h ha _ hs
    exact Or.inl ⟨h, n, rfl, ha, hs⟩
  | cons y pre ih =>
    intro n h ha hx hs
    have hy : y ≠ x := fun hyx => hx (hyx ▸ List.mem_cons_self _ _)
    have hx1 : x ∉ pre := fun hm => hx (List.mem_cons_of_mem _ hm)
    cases n with
    | zero =>
      refine Or.inr ?_
      unfold EventHub.ResponseActiveEvents_loop
      split <;> exact hs
    | succ n =>
      rcases Response_iter_shields prog os x e hl n h y (pre ++ x :: post) ha hy hs with
        ⟨h1, heq, ha1, hs1⟩ | hend
      · rw [heq]
        exact ih n h1 ha1 hx1 hs1
      · exact Or.inr hend

theorem lock_ActivePush (h : EventHub) (fd g : Int) :
    ((h.ActivePush fd).events.lookup g).map Event.is_locked =
      (h.events.lookup g).map Event.is_locked := by
  exact lookup_update_lock _ _ _ (by intro _; rfl) g

theorem KQueue_report_keeps_locks (evs : List (Int × Filter)) :
    ∀ h h1 : EventHub, KQueue.report evs h = Result.ok h1 →
    ∀ g, (h1.events.lookup g).map Event.is_locked =
      (h.events.lookup g).map Event.is_locked := by
  induction evs with
  | nil =>
    intro h h1 hr g
    simp only [KQueue.report, Result.ok.injEq] at hr
    subst hr
    rfl
  | cons r rest ih =>
    obtain ⟨ident, filter⟩ := r
    intro h h1 hr g
    simp only [KQueue.report] at hr
    cases hl : h.events.lookup ident with
    | none => simp [hl] at hr
    | some ev =>
      simp only [hl] at hr
      rw [ih _ h1 hr g]
      have hrd : ∀ x : EventHub,
          ((x.update ident (fun e => { e with result_kRead := true })).events.lookup g).map
            Event.is_locked = (x.events.lookup g).map Event.is_locked :=
        fun x => lookup_update_lock _ _ _ (by intro _; rfl) g
      have hwr : ∀ x : EventHub,
          ((x.update ident (fun e => { e with result_kWrite := true })).events.lookup g).map
            Event.is_locked = (x.events.lookup g).map Event.is_locked :=
        fun x => lookup_update_lock _ _ _ (by intro _; rfl) g
      cases filter <;> simp only [] <;> split_ifs <;>
        simp only [lock_ActivePush, hrd, hwr]

theorem Epoll_report_keeps_locks (evs : List EpollEvent) :
    ∀ h h1 : EventHub, Epoll.report evs h = Result.ok h1 →
    ∀ g, (h1.events.lookup g).map Event.is_locked =
      (h.events.lookup g).map Event.is_locked := by
  induction evs with
  | nil =>
    intro h h1 hr g
    simp only [Epoll.report, Result.ok.injEq] at hr
    subst hr
    rfl
  | cons ev rest ih =>
    intro h h1 hr g
    simp only [Epoll.report] at hr
    cases hl : h.events.lookup ev.fd with
    | none => simp [hl] at hr
    | some _ =>
      simp only [hl] at hr
      rw [ih _ h1 hr g]
      have hrd : ∀ x : EventHub,
          ((x.update ev.fd (fun e => { e with result_kRead := true })).events.lookup g).map
            Event.is_locked = (x.events.lookup g).map Event.is_locked :=
        fun x => lookup_update_lock _ _ _ (by intro _; rfl) g
      have hwr : ∀ x : EventHub,
          ((x.update ev.fd (fun e => { e with result_kWrite := true })).events.lookup g).map
            Event.is_locked = (x.events.lookup g).map Event.is_locked :=
        fun x => lookup_update_lock _ _ _ (by intro _; rfl) g
      split_ifs <;> simp only [lock_ActivePush, hrd, hwr]

/-- The poll changes no lock, on either backend. -/
theorem sys_Poll_keeps_locks (os : OS) (h h1 : EventHub) (w : Int)
    (hp : EventHub.sys_Poll os h w = Result.ok h1) (g : Int) :
    (h1.events.lookup g).map Event.is_locked = (h.events.lookup g).map Event.is_locked := by
  unfold EventHub.sys_Poll at hp
  simp only [] at hp
  cases hb : h.sys_ev_op_ with
  | KQueue =>
    simp only [hb, KQueue.Poll] at hp
    split_ifs at hp
    cases hk : os.kevents with
    | none => simp [hk] at hp
    | some evs =>
      simp only [hk] at hp
      exact KQueue_report_keeps_locks evs _ h1 hp g
  | Epoll =>
    simp only [hb, Epoll.Poll] at hp
    split_ifs at hp
    cases hk : os.epoll_events with
    | none => simp [hk] at hp
    | some evs =>
      simp only [hk] at hp
      exact Epoll_report_keeps_locks evs _ h1 hp g


/-! ## The membership flags agree with the queues in every reachable state -/

theorem IsInReady_update (h : EventHub) (fd g : Int) (f : Event → Event) :
    (h.update fd f).IsInReady g =
      if g = fd then ((h.events.lookup fd).map (fun e => (f e).where_kInReady)).getD false
      else h.IsInReady g := by
  unfold EventHub.IsInReady
  rw [EventHub.update_lookup]
  by_cases hg : g = fd
  · simp only [hg, if_true]
    cases h.events.lookup fd <;> rfl
  · simp only [hg, if_false]

theorem IsInTimeout_update (h : EventHub) (fd g : Int) (f : Event → Event) :
    (h.update fd f).IsInTimeout g =
      if g = fd then ((h.events.lookup fd).map (fun e => (f e).where_kInTimeout)).getD false
      else h.IsInTimeout g := by
  unfold EventHub.IsInTimeout
  rw [EventHub.update_lookup]
  by_cases hg : g = fd
  · simp only [hg, if_true]
    cases h.events.lookup fd <;> rfl
  · simp only [hg, if_false]

theorem IsInReady_update_keep (h : EventHub) (fd g : Int) (f : Event → Event)
    (hf : ∀ e, (f e).where_kInReady = e.where_kInReady) :
    (h.update fd f).IsInReady g = h.IsInReady g := by
  rw [IsInReady_update]
  split
  · rename_i hg
    subst hg
    unfold EventHub.IsInReady
    cases h.events.lookup g <;> simp [hf]
  · rfl

theorem IsInTimeout_update_keep (h : EventHub) (fd g : Int) (f : Event → Event)
    (hf : ∀ e, (f e).where_kInTimeout = e.where_kInTimeout) :
    (h.update fd f).IsInTimeout g = h.IsInTimeout g := by
  rw [IsInTimeout_update]
  split
  · rename_i hg
    subst hg
    unfold EventHub.IsInTimeout
    cases h.events.lookup g <;> simp [hf]
  · rfl

theorem Consistent_frame (h h1 : EventHub) (hr : h1.ready_fds_ = h.ready_fds_)
    (ht : h1.timeout_heap_ = h.timeout_heap_)
    (hir : ∀ g, h1.IsInReady g = h.IsInReady g)
    (hit : ∀ g, h1.IsInTimeout g = h.IsInTimeout g) (hc : Consistent h) :
    Consistent h1 :=
  ⟨hr ▸ hc.ready_nodup, ht ▸ hc.heap_nodup,
    fun g => by rw [hr, hir]; exact hc.ready_flag g,
    fun g => by rw [ht, hit]; exact hc.heap_flag g⟩

theorem Consistent_update (h : EventHub) (fd : Int) (f : Event → Event)
    (hfr : ∀ e, (f e).where_kInReady = e.where_kInReady)
    (hft : ∀ e, (f e).where_kInTimeout = e.where_kInTimeout) (hc : Consistent h) :
    Consistent (h.update fd f) :=
  Consistent_frame h _ (EventHub.update_ready_fds_ h fd f) (EventHub.update_timeout_heap_ h fd f)
    (fun g => IsInReady_update_keep h fd g f hfr)
    (fun g => IsInTimeout_update_keep h fd g f hft) hc

theorem Consistent_ActivePush (h : EventHub) (fd : Int) (hc : Consistent h) :
    Consistent (h.ActivePush fd) :=
  Consistent_update _ fd _ (fun _ => rfl) (fun _ => rfl)
    (Consistent_frame h _ rfl rfl (fun _ => rfl) (fun _ => rfl) hc)

theorem IsInReady_tracked (h : EventHub) (g : Int) (hg : h.IsInReady g = true) :
    h.events.lookup g ≠ none := by
  unfold EventHub.IsInReady at hg
  cases hl : h.events.lookup g with
  | none => rw [hl] at hg; simp at hg
  | some e => simp

theorem IsInTimeout_tracked (h : EventHub) (g : Int) (hg : h.IsInTimeout g = true) :
    h.events.lookup g ≠ none := by
  unfold EventHub.IsInTimeout at hg
  cases hl : h.events.lookup g with
  | none => rw [hl] at hg; simp at hg
  | some e => simp

theorem Consistent_ReadyPush (h : EventHub) (fd : Int) (htr : h.events.lookup fd ≠ none)
    (hnot : h.IsInReady fd = false) (hc : Consistent h) :
    Consistent (h.ReadyPush fd) := by
  obtain ⟨e, he⟩ := Option.ne_none_iff_exists'.mp htr
  have hfd : fd ∉ h.ready_fds_ := by
    intro hm
    rw [(hc.ready_flag fd).mp hm] at hnot
    exact absurd hnot (by simp)
  unfold EventHub.ReadyPush
  refine ⟨?_, ?_, ?_, ?_⟩
  · rw [EventHub.update_ready_fds_]
    exact List.nodup_append.mpr ⟨hc.ready_nodup, List.nodup_singleton _,
      fun x hx hx2 => hfd (by rw [List.mem_singleton] at hx2; exact hx2 ▸ hx)⟩
  · rw [EventHub.update_timeout_heap_]
    exact hc.heap_nodup
  · intro g
    rw [EventHub.update_ready_fds_, IsInReady_update]
    by_cases hg : g = fd
    · subst hg
      simp [he]
    · simp only [hg, if_false, List.mem_append, List.mem_singleton, or_false]
      exact hc.ready_flag g
  · intro g
    rw [EventHub.update_timeout_heap_, IsInTimeout_update_keep _ _ _ _ (by intro _; rfl)]
    exact hc.heap_flag g

theorem EventMinHeap.mem_Push (events : Table) (data : List Int) (fd x : Int) :
    x ∈ EventMinHeap.Push events data fd ↔ x ∈ data ∨ x = fd := by
  unfold EventMinHeap.Push
  rw [(push_heap_perm _ _).mem_iff]
  simp

theorem EventMinHeap.nodup_Push (events : Table) (data : List Int) (fd : Int)
    (hn : data.Nodup) (hfd : fd ∉ data) : (EventMinHeap.Push events data fd).Nodup := by
  unfold EventMinHeap.Push
  rw [(push_heap_perm _ _).nodup_iff]
  exact List.nodup_append.mpr ⟨hn, List.nodup_singleton _,
    fun x hx hx2 => hfd (by rw [List.mem_singleton] at hx2; exact hx2 ▸ hx)⟩

theorem EventMinHeap.mem_Remove (data : List Int) (fd x : Int) (hn : data.Nodup) :
    x ∈ EventMinHeap.Remove data fd ↔ x ∈ data ∧ x ≠ fd := by
  unfold EventMinHeap.Remove
  split
  · rw [(make_heap_perm _ _).mem_iff, List.Nodup.mem_erase_iff hn]
    exact and_comm
  · rename_i hfd
    exact ⟨fun hx => ⟨hx, fun hxe => hfd (hxe ▸ hx)⟩, fun hx => hx.1⟩

theorem EventMinHeap.mem_Pop (events : Table) (data : List Int) (top x : Int)
    (hn : data.Nodup) (ht : EventMinHeap.Top data = some top) :
    x ∈ EventMinHeap.Pop events data ↔ x ∈ data ∧ x ≠ top := by
  have hlast : (pop_heap (stamp_greater events) data).getLast? = some top := by
    rw [pop_heap_getLast?]; exact ht
  have hperm := pop_heap_perm (stamp_greater events) data
  have hnd : (pop_heap (stamp_greater events) data).Nodup := hperm.nodup_iff.mpr hn
  rw [← hperm.mem_iff]
  unfold EventMinHeap.Pop
  generalize pop_heap (stamp_greater events) data = l at hlast hnd
  have hne : l ≠ [] := by
    intro h; rw [h] at hlast; simp at hlast
  have hl := List.dropLast_append_getLast hne
  have hlast2 : l.getLast hne = top := by
    rw [List.getLast?_eq_getLast _ hne] at hlast
    exact Option.some.inj hlast
  rw [hlast2] at hl
  have hnd2 := hnd
  rw [← hl] at hnd2
  have hdisj := (List.nodup_append.mp hnd2).2.2
  constructor
  · intro hx
    refine ⟨List.dropLast_subset _ hx, fun hxt => ?_⟩
    exact hdisj hx (by rw [hxt]; simp)
  · rintro ⟨hx, hxt⟩
    rw [← hl, List.mem_append, List.mem_singleton] at hx
    rcases hx with hx | hx
    · exact hx
    · exact absurd hx hxt

theorem Consistent_TimeoutPush (h : EventHub) (fd : Int) (htr : h.events.lookup fd ≠ none)
    (hnot : h.IsInTimeout fd = false) (hc : Consistent h) :
    Consistent (h.TimeoutPush fd) := by
  obtain ⟨e, he⟩ := Option.ne_none_iff_exists'.mp htr
  have hfd : fd ∉ h.timeout_heap_ := by
    intro hm
    rw [(hc.heap_flag fd).mp hm] at hnot
    exact absurd hnot (by simp)
  unfold EventHub.TimeoutPush
  refine ⟨?_, ?_, ?_, ?_⟩
  · rw [EventHub.update_ready_fds_]
    exact hc.ready_nodup
  · rw [EventHub.update_timeout_heap_]
    exact EventMinHeap.nodup_Push _ _ _ hc.heap_nodup hfd
  · intro g
    rw [EventHub.update_ready_fds_, IsInReady_update_keep _ _ _ _ (by intro _; rfl)]
    exact hc.ready_flag g
  · intro g
    rw [EventHub.update_timeout_heap_, IsInTimeout_update]
    by_cases hg : g = fd
    · subst hg
      simp [he, EventMinHeap.mem_Push]
    · simp only [hg, if_false, EventMinHeap.mem_Push, or_false]
      exact hc.heap_flag g

theorem Consistent_TimeoutRemove (h : EventHub) (fd : Int) (hc : Consistent h) :
    Consistent (h.TimeoutRemove fd) := by
  unfold EventHub.TimeoutRemove
  refine ⟨?_, ?_, ?_, ?_⟩
  · rw [EventHub.update_ready_fds_]
    exact hc.ready_nodup
  · rw [EventHub.update_timeout_heap_]
    exact EventMinHeap.nodup_Remove _ _ hc.heap_nodup
  · intro g
    rw [EventHub.update_ready_fds_, IsInReady_update_keep _ _ _ _ (by intro _; rfl)]
    exact hc.ready_flag g
  · intro g
    rw [EventHub.update_timeout_heap_, IsInTimeout_update]
    simp only [EventMinHeap.mem_Remove _ _ _ hc.heap_nodup]
    by_cases hg : g = fd
    · subst hg
      cases h.events.lookup g <;> simp
    · simp only [hg, if_false, ne_eq, not_false_eq_true, and_true]
      exact hc.heap_flag g

/-- The first two statements of an iteration of `CheckTimeoutEvents`. -/
theorem Consistent_TimeoutPop (h : EventHub) (top : Int)
    (ht : EventMinHeap.Top h.timeout_heap_ = some top) (hc : Consistent h) :
    Consistent (({ h with timeout_heap_ := EventMinHeap.Pop h.events h.timeout_heap_ } :
      EventHub).update top (fun e => { e with where_kInTimeout := false })) := by
  refine ⟨?_, ?_, ?_, ?_⟩
  · rw [EventHub.update_ready_fds_]
    exact hc.ready_nodup
  · rw [EventHub.update_timeout_heap_]
    exact EventMinHeap.nodup_Pop _ _ hc.heap_nodup
  · intro g
    rw [EventHub.update_ready_fds_, IsInReady_update_keep _ _ _ _ (by intro _; rfl)]
    exact hc.ready_flag g
  · intro g
    rw [EventHub.update_timeout_heap_, IsInTimeout_update]
    simp only [EventMinHeap.mem_Pop _ _ top _ hc.heap_nodup ht]
    by_cases hg : g = top
    · subst hg
      cases h.events.lookup g <;> simp
    · simp only [hg, if_false, ne_eq, not_false_eq_true, and_true]
      exact hc.heap_flag g

/-- The statement `ReadyFrontAndPop` of `PreprocessReadyEvents`. -/
theorem Consistent_ReadyPop (h : EventHub) (fd : Int) (rest : List Int)
    (hr : h.ready_fds_ = fd :: rest) (hc : Consistent h) :
    Consistent (({ h with ready_fds_ := rest } : EventHub).update fd
      (fun e => { e with where_kInReady := false })) := by
  have hnd := hc.ready_nodup
  rw [hr] at hnd
  have hfd : fd ∉ rest := (List.nodup_cons.mp hnd).1
  refine ⟨?_, ?_, ?_, ?_⟩
  · rw [EventHub.update_ready_fds_]
    exact (List.nodup_cons.mp hnd).2
  · rw [EventHub.update_timeout_heap_]
    exact hc.heap_nodup
  · intro g
    rw [EventHub.update_ready_fds_, IsInReady_update]
    by_cases hg : g = fd
    · subst hg
      simp only [if_true]
      cases h.events.lookup g <;> simp [hfd]
    · simp only [hg, if_false]
      have := hc.ready_flag g
      rw [hr, List.mem_cons] at this
      simp only [hg, false_or] at this
      exact this
  · intro g
    rw [EventHub.update_timeout_heap_, IsInTimeout_update_keep _ _ _ _ (by intro _; rfl)]
    exact hc.heap_flag g

theorem update_tracked (h : EventHub) (fd g : Int) (f : Event → Event) :
    (h.update fd f).events.lookup g ≠ none ↔ h.events.lookup g ≠ none := by
  rw [EventHub.update_lookup]
  by_cases hg : g = fd
  · subst hg
    cases h.events.lookup g <;> simp
  · simp [hg]

theorem IsInTimeout_TimeoutRemove (h : EventHub) (fd : Int) :
    (h.TimeoutRemove fd).IsInTimeout fd = false := by
  unfold EventHub.TimeoutRemove
  rw [IsInTimeout_update]
  simp only [if_true]
  cases h.events.lookup fd <;> rfl

theorem Consistent_CreateEmpty (h : EventHub) (fd : Int) (ev : Event)
    (hnew : h.events.lookup fd = none) (hr : ev.where_kInReady = false)
    (ht : ev.where_kInTimeout = false) (hc : Consistent h) :
    Consistent { h with events := h.events.insert fd ev } := by
  have hir : h.IsInReady fd = false := by simp [EventHub.IsInReady, hnew]
  have hit : h.IsInTimeout fd = false := by simp [EventHub.IsInTimeout, hnew]
  refine ⟨hc.ready_nodup, hc.heap_nodup, ?_, ?_⟩
  · intro g
    have := hc.ready_flag g
    by_cases hg : g = fd
    · subst hg
      rw [hir] at this
      simp only [this, EventHub.IsInReady, Table.lookup_insert, hr]
    · simp only [EventHub.IsInReady, Table.lookup_insert_ne _ _ _ _ hg]
      exact this
  · intro g
    have := hc.heap_flag g
    by_cases hg : g = fd
    · subst hg
      rw [hit] at this
      simp only [this, EventHub.IsInTimeout, Table.lookup_insert, ht]
    · simp only [EventHub.IsInTimeout, Table.lookup_insert_ne _ _ _ _ hg]
      exact this

theorem Consistent_Destroy (h : EventHub) (fd : Int) (hr : h.IsInReady fd = false)
    (ht : h.IsInTimeout fd = false) (hc : Consistent h) :
    Consistent { h with events := h.events.erase fd } := by
  refine ⟨hc.ready_nodup, hc.heap_nodup, ?_, ?_⟩
  · intro g
    have := hc.ready_flag g
    by_cases hg : g = fd
    · subst hg
      rw [hr] at this
      simp only [this, EventHub.IsInReady, Table.lookup_erase]
    · simp only [EventHub.IsInReady, Table.lookup_erase_ne _ _ _ hg]
      exact this
  · intro g
    have := hc.heap_flag g
    by_cases hg : g = fd
    · subst hg
      rw [ht] at this
      simp only [this, EventHub.IsInTimeout, Table.lookup_erase]
    · simp only [EventHub.IsInTimeout, Table.lookup_erase_ne _ _ _ hg]
      exact this

theorem Consistent_Ready (h : EventHub) (timeout_period : Option Int) (now : Int)
    (hc : Consistent h) : Consistent (h.Ready timeout_period now).hub := by
  unfold EventHub.Ready
  cases hl : h.events.lookup h.current_fd_ with
  | none => exact hc
  | some ce =>
    have htr : h.events.lookup h.current_fd_ ≠ none := by simp [hl]
    simp only []
    have h1c : Consistent (if ce.read_cb_ ≠ none ∨ ce.write_cb_ ≠ none then
        if h.IsInReady h.current_fd_ = true then h else h.ReadyPush h.current_fd_
        else h) ∧
        (if ce.read_cb_ ≠ none ∨ ce.write_cb_ ≠ none then
        if h.IsInReady h.current_fd_ = true then h else h.ReadyPush h.current_fd_
        else h).events.lookup h.current_fd_ ≠ none := by
      split_ifs with hcb hin
      · exact ⟨hc, htr⟩
      · refine ⟨Consistent_ReadyPush h _ htr (by simpa using hin) hc, ?_⟩
        unfold EventHub.ReadyPush
        rw [update_tracked]
        exact htr
      · exact ⟨hc, htr⟩
    generalize (if ce.read_cb_ ≠ none ∨ ce.write_cb_ ≠ none then
        if h.IsInReady h.current_fd_ = true then h else h.ReadyPush h.current_fd_
        else h) = h1 at h1c
    cases timeout_period with
    | none => exact h1c.1
    | some period =>
      simp only [Result.hub]
      have h2c : Consistent (if h1.IsInTimeout h.current_fd_ = true then
          h1.TimeoutRemove h.current_fd_ else h1) ∧
          (if h1.IsInTimeout h.current_fd_ = true then
          h1.TimeoutRemove h.current_fd_ else h1).events.lookup h.current_fd_ ≠ none ∧
          (if h1.IsInTimeout h.current_fd_ = true then
          h1.TimeoutRemove h.current_fd_ else h1).IsInTimeout h.current_fd_ = false := by
        split_ifs with hin
        · refine ⟨Consistent_TimeoutRemove h1 _ h1c.1, ?_, IsInTimeout_TimeoutRemove h1 _⟩
          unfold EventHub.TimeoutRemove
          rw [update_tracked]
          exact h1c.2
        · exact ⟨h1c.1, h1c.2, by simpa using hin⟩
      generalize (if h1.IsInTimeout h.current_fd_ = true then
          h1.TimeoutRemove h.current_fd_ else h1) = h2 at h2c
      refine Consistent_TimeoutPush _ _ ?_ ?_
        (Consistent_update h2 _ _ (by intro _; rfl) (by intro _; rfl) h2c.1)
      · rw [update_tracked]
        exact h2c.2.1
      · rw [IsInTimeout_update_keep _ _ _ _ (by intro _; rfl)]
        exact h2c.2.2

/-- Every call of the builder surface keeps the flags and the queues in agreement,
whether it returns or throws. -/
theorem Consistent_Action (a : Action) (h : EventHub) (hc : Consistent h) :
    Consistent (a.run h).hub := by
  cases a with
  | CreateEmpty fd cb =>
    simp only [Action.run, EventHub.CreateEmpty, EventHub.SetCurrent]
    by_cases hfd : fd < 0
    · simp only [hfd, if_true]; exact hc
    · by_cases hcb : cb = none
      · simp only [hfd, hcb, if_true, if_false]; exact hc
      · by_cases hcont : h.events.contains fd = true
        · simp only [hfd, hcb, hcont, if_true, if_false]; exact hc
        · have hnew : h.events.lookup fd = none := by
            simpa [Table.contains] using hcont
          have hcont2 : h.events.contains fd = false := by simpa using hcont
          simp only [hfd, hcb, hcont2, if_false, Table.lookup_insert, Bool.false_eq_true,
            Result.hub]
          exact Consistent_frame { h with events := h.events.insert fd { error_cb_ := cb } } _
            rfl rfl (fun _ => rfl) (fun _ => rfl)
            (Consistent_CreateEmpty h fd { error_cb_ := cb } hnew rfl rfl hc)
  | SetCurrent fd =>
    simp only [Action.run, EventHub.SetCurrent]
    by_cases hfd : fd < 0
    · simp only [hfd, if_true]; exact hc
    · simp only [hfd, if_false]
      cases h.events.lookup fd with
      | none => exact hc
      | some ev =>
        simp only []
        split_ifs
        · exact hc
        · exact Consistent_frame h _ rfl rfl (fun _ => rfl) (fun _ => rfl) hc
  | OnRead cb =>
    simp only [Action.run, EventHub.OnRead]
    cases h.events.lookup h.current_fd_ with
    | none => exact hc
    | some _ => exact Consistent_update h _ _ (by intro _; rfl) (by intro _; rfl) hc
  | OnWrite cb =>
    simp only [Action.run, EventHub.OnWrite]
    cases h.events.lookup h.current_fd_ with
    | none => exact hc
    | some _ => exact Consistent_update h _ _ (by intro _; rfl) (by intro _; rfl) hc
  | WithData d =>
    simp only [Action.run, EventHub.WithData]
    cases h.events.lookup h.current_fd_ with
    | none => exact hc
    | some _ => exact Consistent_update h _ _ (by intro _; rfl) (by intro _; rfl) hc
  | Ready t now => exact Consistent_Ready h t now hc
  | Destroy =>
    simp only [Action.run, EventHub.Destroy]
    cases h.events.lookup h.current_fd_ with
    | none => exact hc
    | some _ =>
      simp only []
      split_ifs with hin
      · exact hc
      · simp only [not_or, Bool.not_eq_true] at hin
        exact Consistent_Destroy h _ hin.1 hin.2 hc

theorem Consistent_run_actions (acts : List Action) :
    ∀ h : EventHub, Consistent h → Consistent (run_actions acts h).hub := by
  induction acts with
  | nil => intro h hc; exact hc
  | cons a rest ih =>
    intro h hc
    have ha := Consistent_Action a h hc
    simp only [run_actions]
    cases hr : a.run h with
    | ok h1 => rw [hr] at ha; exact ih h1 ha
    | raised ex h1 => rw [hr] at ha; exact ha

theorem Consistent_sys_Add (os : OS) (h : EventHub) (fd : Int) (hc : Consistent h) :
    Consistent (EventHub.sys_Add os h fd).hub := by
  unfold EventHub.sys_Add KQueue.Add Epoll.Add
  cases h.sys_ev_op_ <;> simp only []
  · cases h.events.lookup fd with
    | none => exact Consistent_frame h _ rfl rfl (fun _ => rfl) (fun _ => rfl) hc
    | some ev =>
      simp only []
      split_ifs <;> exact Consistent_frame h _ rfl rfl (fun _ => rfl) (fun _ => rfl) hc
  · cases h.events.lookup fd with
    | none => exact Consistent_frame h _ rfl rfl (fun _ => rfl) (fun _ => rfl) hc
    | some ev =>
      simp only []
      split_ifs <;> exact Consistent_frame h _ rfl rfl (fun _ => rfl) (fun _ => rfl) hc

theorem Consistent_sys_Del (os : OS) (h : EventHub) (fd : Int) (hc : Consistent h) :
    Consistent (EventHub.sys_Del os h fd).hub := by
  unfold EventHub.sys_Del KQueue.Del Epoll.Del
  cases h.sys_ev_op_ <;> simp only []
  · cases h.events.lookup fd <;>
      exact Consistent_frame h _ rfl rfl (fun _ => rfl) (fun _ => rfl) hc
  · split_ifs <;> exact Consistent_frame h _ rfl rfl (fun _ => rfl) (fun _ => rfl) hc

theorem Consistent_ite_TimeoutRemove (h : EventHub) (fd : Int) (hc : Consistent h) :
    Consistent (if h.IsInTimeout fd = true then h.TimeoutRemove fd else h) := by
  split_ifs
  · exact Consistent_TimeoutRemove h fd hc
  · exact hc

/-- The registration loop keeps the flags and the queues in agreement. -/
theorem Consistent_Preprocess (os : OS) (n : Nat) :
    ∀ h : EventHub, Consistent h →
      Consistent (EventHub.PreprocessReadyEvents_loop os n h).hub := by
  induction n with
  | zero =>
    intro h hc
    unfold EventHub.PreprocessReadyEvents_loop
    split <;> exact hc
  | succ n ih =>
    intro h hc
    have key : ∀ r, EventHub.PreprocessReadyEvents_loop os (n + 1) h = r →
        Consistent r.hub := by
      intro r hr
      cases hq : h.ready_fds_ with
      | nil =>
        simp only [EventHub.PreprocessReadyEvents_loop, hq] at hr
        subst hr
        exact hc
      | cons fd rest =>
        simp only [EventHub.PreprocessReadyEvents_loop, hq] at hr
        have htr : h.events.lookup fd ≠ none :=
          IsInReady_tracked h fd ((hc.ready_flag fd).mp (by rw [hq]; exact List.mem_cons_self _ _))
        have hc2 := Consistent_ReadyPop h fd rest hq hc
        split at hr
        · rename_i hnone
          exact absurd hnone htr
        · generalize (({ h with ready_fds_ := rest } : EventHub).update fd
            (fun e => { e with where_kInReady := false })) = h2 at hr hc2
          split at hr
          · subst hr; exact hc2
          · split_ifs at hr
            · subst hr
              exact ih _ (Consistent_TimeoutRemove h2 fd hc2)
            · subst hr
              exact ih _ hc2
            · have hc3 := Consistent_sys_Add os _ fd
                (Consistent_update h2 fd (fun e => { e with is_locked := true })
                  (by intro _; rfl) (by intro _; rfl) hc2)
              split at hr
              · rename_i h4 hadd
                rw [hadd] at hc3
                subst hr
                exact ih _ hc3
              · rename_i h4 hadd
                rw [hadd] at hc3
                subst hr
                exact ih _ (Consistent_ActivePush _ fd
                  (Consistent_update _ fd _ (by intro _; rfl) (by intro _; rfl)
                    (Consistent_ite_TimeoutRemove h4 fd hc3)))
    exact key _ rfl

theorem Consistent_KQueue_report (evs : List (Int × Filter)) :
    ∀ h : EventHub, Consistent h → Consistent (KQueue.report evs h).hub := by
  induction evs with
  | nil => intro h hc; exact hc
  | cons r rest ih =>
    obtain ⟨ident, filter⟩ := r
    intro h hc
    simp only [KQueue.report]
    cases h.events.lookup ident with
    | none => exact hc
    | some ev =>
      simp only []
      apply ih
      have h1c : Consistent (match filter with
          | Filter.EVFILT_READ => h.update ident (fun e => { e with result_kRead := true })
          | Filter.EVFILT_WRITE => h.update ident (fun e => { e with result_kWrite := true })
          | Filter.other => h) := by
        cases filter
        · exact Consistent_update h _ _ (by intro _; rfl) (by intro _; rfl) hc
        · exact Consistent_update h _ _ (by intro _; rfl) (by intro _; rfl) hc
        · exact hc
      split_ifs
      · exact h1c
      · exact Consistent_ActivePush _ _ h1c

theorem Consistent_Epoll_report (evs : List EpollEvent) :
    ∀ h : EventHub, Consistent h → Consistent (Epoll.report evs h).hub := by
  induction evs with
  | nil => intro h hc; exact hc
  | cons ev rest ih =>
    intro h hc
    simp only [Epoll.report]
    cases h.events.lookup ev.fd with
    | none => exact hc
    | some _ =>
      simp only []
      apply ih
      apply Consistent_ActivePush
      split_ifs
      · exact Consistent_update _ _ _ (by intro _; rfl) (by intro _; rfl)
          (Consistent_update h _ _ (by intro _; rfl) (by intro _; rfl) hc)
      · exact Consistent_update h _ _ (by intro _; rfl) (by intro _; rfl) hc
      · exact Consistent_update h _ _ (by intro _; rfl) (by intro _; rfl) hc
      · exact hc

theorem Consistent_KQueue_Poll (os : OS) (h : EventHub) (hc : Consistent h) :
    Consistent (KQueue.Poll os h).hub := by
  unfold KQueue.Poll
  split_ifs
  · exact hc
  · cases os.kevents with
    | none => exact hc
    | some evs => exact Consistent_KQueue_report evs h hc

theorem Consistent_Epoll_Poll (os : OS) (h : EventHub) (hc : Consistent h) :
    Consistent (Epoll.Poll os h).hub := by
  unfold Epoll.Poll
  split_ifs
  · exact hc
  · cases os.epoll_events with
    | none => exact hc
    | some evs => exact Consistent_Epoll_report evs h hc

theorem Consistent_sys_Poll (os : OS) (h : EventHub) (w : Int) (hc : Consistent h) :
    Consistent (EventHub.sys_Poll os h w).hub := by
  have hc1 : Consistent ({ h with trace := h.trace ++ [Obs.poll w] } : EventHub) :=
    Consistent_frame h _ rfl rfl (fun _ => rfl) (fun _ => rfl) hc
  unfold EventHub.sys_Poll
  simp only []
  split
  · exact Consistent_KQueue_Poll os _ hc1
  · exact Consistent_Epoll_Poll os _ hc1

/-- The timeout loop keeps the flags and the queues in agreement. -/
theorem Consistent_CheckTimeout (os : OS) (n : Nat) :
    ∀ h : EventHub, Consistent h →
      Consistent (EventHub.CheckTimeoutEvents_loop os n h).hub := by
  induction n with
  | zero =>
    intro h hc
    unfold EventHub.CheckTimeoutEvents_loop
    split
    · exact hc
    · split
      · exact hc
      · split_ifs <;> exact hc
  | succ n ih =>
    intro h hc
    have key : ∀ r, EventHub.CheckTimeoutEvents_loop os (n + 1) h = r →
        Consistent r.hub := by
      intro r hr
      simp only [EventHub.CheckTimeoutEvents_loop] at hr
      split at hr
      · subst hr; exact hc
      · rename_i top htop
        split at hr
        · subst hr; exact hc
        · split_ifs at hr with hlater hact hcb
          · subst hr; exact hc
          · subst hr
            exact ih _ (Consistent_update _ top _ (by intro _; rfl) (by intro _; rfl)
              (Consistent_TimeoutPop h top htop hc))
          · have hd := Consistent_sys_Del os _ top (Consistent_TimeoutPop h top htop hc)
            split at hr
            · rename_i hdel
              rw [hdel] at hd
              subst hr
              exact hd
            · rename_i hdel
              rw [hdel] at hd
              subst hr
              exact ih _ (Consistent_ActivePush _ top
                (Consistent_update _ top _ (by intro _; rfl) (by intro _; rfl) hd))
          · simp only [] at hr
            subst hr
            exact ih _ (Consistent_ActivePush _ top
              (Consistent_update _ top _ (by intro _; rfl) (by intro _; rfl)
                (Consistent_TimeoutPop h top htop hc)))
    exact key _ rfl

theorem Consistent_guarded_call (prog : Program) (y : Int) (type : EventType)
    (guard : Event → Bool) (cb : Event → Option Nat) (h : EventHub) (hc : Consistent h) :
    Consistent (EventHub.guarded_call prog y type guard cb h).hub := by
  unfold EventHub.guarded_call
  cases h.events.lookup y with
  | none => exact hc
  | some ev =>
    by_cases hg : guard ev = true
    · simp only [hg, if_true]
      cases cb ev with
      | none => exact hc
      | some k =>
        simp only [invoke]
        have hr := Consistent_run_actions (prog k y type ev.data_)
          { h with trace := h.trace ++ [Obs.call k y type ev.data_] }
          (Consistent_frame h _ rfl rfl (fun _ => rfl) (fun _ => rfl) hc)
        cases hres : run_actions (prog k y type ev.data_)
            { h with trace := h.trace ++ [Obs.call k y type ev.data_] } with
        | ok h1 =>
          rw [hres] at hr
          simp only []
          split_ifs <;> exact hr
        | raised ex h1 =>
          rw [hres] at hr
          exact hr
    · simp only [hg]
      exact hc

theorem Consistent_guarded_call_eq (prog : Program) (y : Int) (type : EventType)
    (guard : Event → Bool) (cb : Event → Option Nat) (h : EventHub) (s : EventHub.Step)
    (heq : EventHub.guarded_call prog y type guard cb h = s) (hc : Consistent h) :
    Consistent s.hub := by
  subst heq
  exact Consistent_guarded_call prog y type guard cb h hc

theorem Consistent_dereg (c : Prop) [Decidable c] (os : OS) (h : EventHub) (y : Int)
    (r : Result) (heq : (if c then EventHub.sys_Del os h y else Result.ok h) = r)
    (hc : Consistent h) : Consistent r.hub := by
  subst heq
  split_ifs
  · exact Consistent_sys_Del os h y hc
  · exact hc

/-- The dispatch loop keeps the flags and the queues in agreement, whatever the
callbacks do. -/
theorem Consistent_Response (prog : Program) (os : OS) (n : Nat) :
    ∀ h : EventHub, Consistent h →
      Consistent (EventHub.ResponseActiveEvents_loop prog os n h).hub := by
  induction n with
  | zero =>
    intro h hc
    unfold EventHub.ResponseActiveEvents_loop
    split <;> exact hc
  | succ n ih =>
    intro h hc
    have key : ∀ r, EventHub.ResponseActiveEvents_loop prog os (n + 1) h = r →
        Consistent r.hub := by
      intro r hr
      cases ha : h.active_fds_ with
      | nil =>
        simp only [EventHub.ResponseActiveEvents_loop, ha] at hr
        subst hr
        exact hc
      | cons y rest =>
        simp only [EventHub.ResponseActiveEvents_loop, ha] at hr
        have hc1 : Consistent ({ h with active_fds_ := rest } : EventHub) :=
          Consistent_frame h _ rfl rfl (fun _ => rfl) (fun _ => rfl) hc
        generalize ({ h with active_fds_ := rest } : EventHub) = h1 at hr hc1
        split at hr
        · subst hr; exact hc1
        · have hc2 := Consistent_update h1 y (fun e => { e with where_kInActive := false })
            (by intro _; rfl) (by intro _; rfl) hc1
          generalize h1.update y (fun e => { e with where_kInActive := false }) = h2
            at hr hc2
          split at hr
          · subst hr; exact hc2
          · split at hr
            · rename_i hD
              have hf := Consistent_dereg _ os h2 y _ hD hc2
              subst hr
              exact hf
            · rename_i h3 hD
              have hf : Consistent h3 := Consistent_dereg _ os h2 y _ hD hc2
              have hp : Consistent ((if (h3.update y
                    (fun e => { e with read_cb_ := none, write_cb_ := none })).IsInTimeout y
                      = true then
                  (h3.update y
                    (fun e => { e with read_cb_ := none, write_cb_ := none })).TimeoutRemove y
                  else h3.update y
                    (fun e => { e with read_cb_ := none, write_cb_ := none })).update y
                  (fun e => { e with is_locked := false })) :=
                Consistent_update _ y _ (by intro _; rfl) (by intro _; rfl)
                  (Consistent_ite_TimeoutRemove _ y
                    (Consistent_update h3 y _ (by intro _; rfl) (by intro _; rfl) hf))
              split at hr
              · rename_i hG
                have hg := Consistent_guarded_call_eq prog y _ _ _ _ _ hG hp
                subst hr; exact hg
              · rename_i hG
                have hg := Consistent_guarded_call_eq prog y _ _ _ _ _ hG hp
                subst hr; exact hg
              · rename_i hG
                have hg := Consistent_guarded_call_eq prog y _ _ _ _ _ hG hp
                split at hr
                · rename_i hG2
                  have hg2 := Consistent_guarded_call_eq prog y _ _ _ _ _ hG2 hg
                  subst hr; exact hg2
                · rename_i hG2
                  have hg2 := Consistent_guarded_call_eq prog y _ _ _ _ _ hG2 hg
                  subst hr; exact hg2
                · rename_i hG2
                  have hg2 := Consistent_guarded_call_eq prog y _ _ _ _ _ hG2 hg
                  split at hr
                  · rename_i hG3
                    have hg3 := Consistent_guarded_call_eq prog y _ _ _ _ _ hG3 hg2
                    subst hr; exact hg3
                  · rename_i hG3
                    have hg3 := Consistent_guarded_call_eq prog y _ _ _ _ _ hG3 hg2
                    subst hr; exact hg3
                  · rename_i hG3
                    have hg3 := Consistent_guarded_call_eq prog y _ _ _ _ _ hG3 hg2
                    split at hr
                    · rename_i hG4
                      have hg4 := Consistent_guarded_call_eq prog y _ _ _ _ _ hG4 hg3
                      subst hr; exact hg4
                    · rename_i hG4
                      have hg4 := Consistent_guarded_call_eq prog y _ _ _ _ _ hG4 hg3
                      subst hr; exact hg4
                    · rename_i hG4
                      have hg4 := Consistent_guarded_call_eq prog y _ _ _ _ _ hG4 hg3
                      subst hr
                      exact ih _ (Consistent_update _ y _ (by intro _; rfl) (by intro _; rfl)
                        hg4)
    exact key _ rfl

/-- One `LoopOnce` keeps the flags and the queues in agreement, on both backends,
whatever the operating system answers and whatever the callbacks do, whether it returns
or throws. -/
theorem Consistent_LoopOnce (prog : Program) (os : OS) (h : EventHub) (can_block : Bool)
    (hc : Consistent h) : Consistent (h.LoopOnce prog os can_block).hub := by
  unfold EventHub.LoopOnce
  have h1c := Consistent_Preprocess os h.ready_fds_.length h hc
  unfold EventHub.PreprocessReadyEvents
  cases hp : EventHub.PreprocessReadyEvents_loop os h.ready_fds_.length h with
  | raised ex h1 => rw [hp] at h1c; exact h1c
  | ok h1 =>
    rw [hp] at h1c
    simp only [Result.andThen]
    cases (if can_block = true then EventHub.CalculateWaittingTime os h1 else Except.ok 0) with
    | error ex => exact h1c
    | ok w =>
      simp only []
      have h2c := Consistent_sys_Poll os h1 w h1c
      cases hpoll : EventHub.sys_Poll os h1 w with
      | raised ex h2 => rw [hpoll] at h2c; exact h2c
      | ok h2 =>
        rw [hpoll] at h2c
        simp only []
        have h3c := Consistent_CheckTimeout os h2.timeout_heap_.length h2 h2c
        unfold EventHub.CheckTimeoutEvents
        cases hct : EventHub.CheckTimeoutEvents_loop os h2.timeout_heap_.length h2 with
        | raised ex h3 => rw [hct] at h3c; exact h3c
        | ok h3 =>
          rw [hct] at h3c
          exact Consistent_Response prog os _ h3 h3c

theorem Consistent_initial (backend : Backend) : Consistent (EventHub.initial backend) :=
  ⟨List.nodup_nil, List.nodup_nil, fun g => by simp [EventHub.initial, EventHub.IsInReady],
    fun g => by simp [EventHub.initial, EventHub.IsInTimeout]⟩

/-- In every state reached from a fresh hub by calls of the public surface (builder calls
and `LoopOnce`, with any callbacks and any answers of the operating system, going on after
exceptions), a descriptor is in the registration queue exactly if its `kInReady` flag is
set and in the timeout heap exactly if its `kInTimeout` flag is set. -/
theorem Consistent_run_calls (prog : Program) (cs : List Call) :
    ∀ h : EventHub, Consistent h → Consistent (run_calls prog cs h) := by
  induction cs with
  | nil => intro h hc; exact hc
  | cons c rest ih =>
    intro h hc
    simp only [run_calls]
    apply ih
    cases c with
    | action a => exact Consistent_Action a h hc
    | LoopOnce os can_block => exact Consistent_LoopOnce prog os h can_block hc


/-! ## The dispatch queue and the flag `kInActive` under `KQueue::Poll` -/

theorem KQueue_report_step_agree (h : EventHub) (ident : Int) (filter : Filter)
    (rest : List (Int × Filter)) (e : Event) (ha : ActiveAgree h)
    (hg : h.events.lookup ident = some e) :
    ∃ h1, KQueue.report ((ident, filter) :: rest) h = KQueue.report rest h1 ∧
      ActiveAgree h1 ∧
      h1.active_fds_ = (if ident ∈ h.active_fds_ then h.active_fds_
                        else h.active_fds_ ++ [ident]) ∧
      (∀ x, x ≠ ident → h1.events.lookup x = h.events.lookup x) ∧
      h1.events.lookup ident = some (e.reported filter) := by
  have hflag : e.where_kInActive = true ↔ ident ∈ h.active_fds_ := by
    rw [ha.active_flag]
    simp [EventHub.IsInActive, hg]
  have hagree : ∀ e1 : Event, e1.where_kInActive = true → ∀ cnt tr,
      ActiveAgree
        { events := h.events.insert ident e1, current_fd_ := h.current_fd_,
          ready_fds_ := h.ready_fds_, timeout_heap_ := h.timeout_heap_,
          active_fds_ := (if e.where_kInActive = true then h.active_fds_
                          else h.active_fds_ ++ [ident]),
          sys_ev_op_ := h.sys_ev_op_, registered_event_count_ := cnt, trace := tr } := by
    intro e1 he1 cnt tr
    constructor
    · simp only []
      split
      · exact ha.active_nodup
      · rename_i hna
        exact List.nodup_append.mpr ⟨ha.active_nodup, List.nodup_singleton _,
          fun x hx hx2 => hna (hflag.mpr (by rw [List.mem_singleton] at hx2; exact hx2 ▸ hx))⟩
    · intro g
      simp only [EventHub.IsInActive, Table.lookup_insert_eq]
      by_cases hgi : g = ident
      · subst hgi
        simp only [if_true, he1, iff_true]
        split
        · rename_i hact; exact hflag.mp hact
        · simp
      · simp only [hgi, if_false]
        have := ha.active_flag g
        simp only [EventHub.IsInActive] at this
        rw [← this]
        split
        · rfl
        · simp [hgi]
  have hact : (if e.where_kInActive = true then h.active_fds_ else h.active_fds_ ++ [ident])
      = (if ident ∈ h.active_fds_ then h.active_fds_ else h.active_fds_ ++ [ident]) := by
    by_cases hm : ident ∈ h.active_fds_
    · simp [hm, hflag.mpr hm]
    · have : ¬ e.where_kInActive = true := fun hf => hm (hflag.mp hf)
      simp [hm, this]
  cases filter with
  | EVFILT_READ =>
    exact ⟨_, EventHub.report_step_read h ident rest e hg,
      hagree { e with result_kRead := true, where_kInActive := true } rfl _ _, hact,
      fun x hx => Table.lookup_insert_ne _ _ _ _ hx, by simp [Event.reported]⟩
  | EVFILT_WRITE =>
    exact ⟨_, EventHub.report_step_write h ident rest e hg,
      hagree { e with result_kWrite := true, where_kInActive := true } rfl _ _, hact,
      fun x hx => Table.lookup_insert_ne _ _ _ _ hx, by simp [Event.reported]⟩
  | other =>
    cases hact2 : e.where_kInActive with
    | true =>
      refine ⟨h, by rw [EventHub.report_step_other h ident rest e hg]; simp [hact2], ha, ?_,
        fun _ _ => rfl, ?_⟩
      · simp [hflag.mp hact2]
      · rw [hg]
        cases e
        simp_all [Event.reported]
    | false =>
      have h1 := hagree { e with where_kInActive := true } rfl h.registered_event_count_
        h.trace
      simp only [hact2] at h1 hact
      refine ⟨_, by rw [EventHub.report_step_other h ident rest e hg]; simp only [hact2]; rfl,
        h1, hact, fun x hx => Table.lookup_insert_ne _ _ _ _ hx, by simp [Event.reported]⟩

theorem KQueue_report_agree (evs : List (Int × Filter)) :
    ∀ h : EventHub, ActiveAgree h → (∀ r ∈ evs, h.events.lookup r.1 ≠ none) →
    ∃ h1, KQueue.report evs h = Result.ok h1 ∧ ActiveAgree h1 ∧
      h.active_fds_ <+: h1.active_fds_ ∧
      (∀ g, g ∈ h1.active_fds_ ↔ g ∈ h.active_fds_ ∨ g ∈ evs.map Prod.fst) ∧
      (∀ x, h1.events.lookup x = (h.events.lookup x).map (Event.polled x evs)) := by
  induction evs with
  | nil =>
    intro h ha _
    refine ⟨h, rfl, ha, List.prefix_refl _, by simp, ?_⟩
    intro x
    cases h.events.lookup x <;> simp [Event.polled]
  | cons r rest ih =>
    intro h ha htr
    obtain ⟨ident, filter⟩ := r
    obtain ⟨e, hg⟩ := Option.ne_none_iff_exists'.mp (htr (ident, filter) (by simp))
    obtain ⟨h1, hstep, ha1, hact1, hframe1, hid1⟩ :=
      KQueue_report_step_agree h ident filter rest e ha hg
    have htr1 : ∀ r ∈ rest, h1.events.lookup r.1 ≠ none := by
      intro r hr
      by_cases hri : r.1 = ident
      · rw [hri, hid1]; simp
      · rw [hframe1 r.1 hri]; exact htr r (List.mem_cons_of_mem _ hr)
    obtain ⟨h2, hrep, ha2, hpre2, hmem2, hlook2⟩ := ih h1 ha1 htr1
    have hpre1 : h.active_fds_ <+: h1.active_fds_ := by
      rw [hact1]
      split
      · exact List.prefix_refl _
      · exact List.prefix_append _ _
    have hmem1 : ∀ g, g ∈ h1.active_fds_ ↔ g ∈ h.active_fds_ ∨ g = ident := by
      intro g
      rw [hact1]
      split
      · rename_i hm
        exact ⟨fun hx => Or.inl hx, fun hx => hx.elim id (fun hgi => hgi ▸ hm)⟩
      · simp
    refine ⟨h2, by rw [hstep, hrep], ha2, hpre1.trans hpre2, ?_, ?_⟩
    · intro g
      rw [hmem2 g, hmem1 g]
      simp only [List.map_cons, List.mem_cons]
      tauto
    · intro x
      rw [hlook2 x]
      by_cases hx : x = ident
      · subst hx
        rw [hid1, hg]
        simp [Event.polled_cons]
      · have hx2 : ¬ ident = x := fun h => hx h.symm
        rw [hframe1 x hx]
        cases h.events.lookup x <;> simp [Event.polled_cons, hx2]


/-! ## What an iteration leaves alone -/

theorem adds_for_append (x : Int) (t1 t2 : List Obs) :
    adds_for x (t1 ++ t2) = adds_for x t1 ++ adds_for x t2 := by
  simp [adds_for]

theorem SameFor.refl (f : Int) (h : EventHub) : SameFor f h h :=
  ⟨rfl, rfl, Iff.rfl, rfl, rfl, rfl⟩

theorem SameFor.trans {f : Int} {h h1 h2 : EventHub} (a : SameFor f h h1)
    (b : SameFor f h1 h2) : SameFor f h h2 :=
  ⟨b.lookup.trans a.lookup, b.ready.trans a.ready, b.heap.trans a.heap,
    b.active.trans a.active, b.calls.trans a.calls, b.adds.trans a.adds⟩

theorem SameFor_update (f y : Int) (h : EventHub) (g : Event → Event) (hy : y ≠ f) :
    SameFor f h (h.update y g) := by
  refine ⟨?_, ?_, ?_, ?_, ?_, ?_⟩
  · rw [EventHub.update_lookup, if_neg (Ne.symm hy)]
  · rw [EventHub.update_ready_fds_]
  · rw [EventHub.update_timeout_heap_]
  · rw [EventHub.update_active_fds_]
  · rw [EventHub.update_trace]
  · rw [EventHub.update_trace]

theorem EventMinHeap.mem_Remove_of_ne (data : List Int) (fd x : Int) (hx : x ≠ fd) :
    x ∈ EventMinHeap.Remove data fd ↔ x ∈ data := by
  unfold EventMinHeap.Remove
  split
  · rw [(make_heap_perm _ _).mem_iff]
    exact List.mem_erase_of_ne hx
  · rfl

theorem EventMinHeap.mem_Pop_of_ne (events : Table) (data : List Int) (top x : Int)
    (ht : EventMinHeap.Top data = some top) (hx : x ≠ top) :
    x ∈ EventMinHeap.Pop events data ↔ x ∈ data := by
  have hlast : (pop_heap (stamp_greater events) data).getLast? = some top := by
    rw [pop_heap_getLast?]; exact ht
  have hperm := pop_heap_perm (stamp_greater events) data
  rw [← hperm.mem_iff]
  unfold EventMinHeap.Pop
  generalize pop_heap (stamp_greater events) data = l at hlast
  have hne : l ≠ [] := by
    intro h; rw [h] at hlast; simp at hlast
  have hl := List.dropLast_append_getLast hne
  have hlast2 : l.getLast hne = top := by
    rw [List.getLast?_eq_getLast _ hne] at hlast
    exact Option.some.inj hlast
  rw [hlast2] at hl
  constructor
  · intro h
    exact List.dropLast_subset _ h
  · intro h
    rw [← hl, List.mem_append, List.mem_singleton] at h
    exact h.resolve_right hx

theorem SameFor_TimeoutRemove (f y : Int) (h : EventHub) (hy : y ≠ f) :
    SameFor f h (h.TimeoutRemove y) := by
  unfold EventHub.TimeoutRemove
  have a : SameFor f h
      ({ h with timeout_heap_ := EventMinHeap.Remove h.timeout_heap_ y } : EventHub) :=
    ⟨rfl, rfl, EventMinHeap.mem_Remove_of_ne _ _ _ (Ne.symm hy), rfl, rfl, rfl⟩
  exact a.trans (SameFor_update f y _ _ hy)

theorem SameFor_ite_TimeoutRemove (f y : Int) (h : EventHub) (hy : y ≠ f) :
    SameFor f h (if h.IsInTimeout y = true then h.TimeoutRemove y else h) := by
  split
  · exact SameFor_TimeoutRemove f y h hy
  · exact SameFor.refl f h

theorem SameFor_ActivePush (f y : Int) (h : EventHub) (hy : y ≠ f) :
    SameFor f h (h.ActivePush y) := by
  unfold EventHub.ActivePush
  have a : SameFor f h ({ h with active_fds_ := h.active_fds_ ++ [y] } : EventHub) :=
    ⟨rfl, rfl, Iff.rfl, by simp [List.count_append, List.count_cons, hy], rfl, rfl⟩
  exact a.trans (SameFor_update f y _ _ hy)

theorem SameFor_sys_Add (os : OS) (f y : Int) (h : EventHub) (hy : y ≠ f) :
    SameFor f h (EventHub.sys_Add os h y).hub := by
  have hc : ∀ b, calls_for f (h.trace ++ [Obs.add y b]) = calls_for f h.trace := by
    intro b; simp [calls_for, Obs.is_call_for]
  have ha : ∀ b, adds_for f (h.trace ++ [Obs.add y b]) = adds_for f h.trace := by
    intro b; simp [adds_for, Obs.is_add_for, hy]
  unfold EventHub.sys_Add KQueue.Add Epoll.Add
  cases h.sys_ev_op_ <;> simp only []
  · cases h.events.lookup y with
    | none => exact ⟨rfl, rfl, Iff.rfl, rfl, hc _, ha _⟩
    | some ev =>
      simp only []
      split_ifs <;> exact ⟨rfl, rfl, Iff.rfl, rfl, hc _, ha _⟩
  · cases h.events.lookup y with
    | none => exact ⟨rfl, rfl, Iff.rfl, rfl, hc _, ha _⟩
    | some ev =>
      simp only []
      split_ifs <;> exact ⟨rfl, rfl, Iff.rfl, rfl, hc _, ha _⟩

theorem SameFor_sys_Del (os : OS) (f y : Int) (h : EventHub) :
    SameFor f h (EventHub.sys_Del os h y).hub := by
  have hc : ∀ b, calls_for f (h.trace ++ [Obs.del y b]) = calls_for f h.trace := by
    intro b; simp [calls_for, Obs.is_call_for]
  have ha : ∀ b, adds_for f (h.trace ++ [Obs.del y b]) = adds_for f h.trace := by
    intro b; simp [adds_for, Obs.is_add_for]
  unfold EventHub.sys_Del KQueue.Del Epoll.Del
  cases h.sys_ev_op_ <;> simp only []
  · cases h.events.lookup y <;> exact ⟨rfl, rfl, Iff.rfl, rfl, hc _, ha _⟩
  · split_ifs <;> exact ⟨rfl, rfl, Iff.rfl, rfl, hc _, ha _⟩

theorem SameFor_dereg (c : Prop) [Decidable c] (os : OS) (f y : Int) (h : EventHub)
    (r : Result) (heq : (if c then EventHub.sys_Del os h y else Result.ok h) = r) :
    SameFor f h r.hub := by
  subst heq
  split_ifs
  · exact SameFor_sys_Del os f y h
  · exact SameFor.refl f h


theorem TimeoutRemove_ready_fds_ (h : EventHub) (y : Int) :
    (h.TimeoutRemove y).ready_fds_ = h.ready_fds_ := by
  unfold EventHub.TimeoutRemove
  rw [EventHub.update_ready_fds_]

theorem ActivePush_ready_fds_ (h : EventHub) (y : Int) :
    (h.ActivePush y).ready_fds_ = h.ready_fds_ := by
  unfold EventHub.ActivePush
  rw [EventHub.update_ready_fds_]

theorem sys_Add_ready_fds_ (os : OS) (h : EventHub) (y : Int) :
    (EventHub.sys_Add os h y).hub.ready_fds_ = h.ready_fds_ := by
  unfold EventHub.sys_Add KQueue.Add Epoll.Add
  cases h.sys_ev_op_ <;> simp only []
  · cases h.events.lookup y with
    | none => rfl
    | some ev =>
      simp only []
      split_ifs <;> rfl
  · cases h.events.lookup y with
    | none => rfl
    | some ev =>
      simp only []
      split_ifs <;> rfl

theorem SameFor_ReadyPop (f y : Int) (h : EventHub) (rest : List Int)
    (hr : h.ready_fds_ = y :: rest) (hy : y ≠ f) :
    SameFor f h (({ h with ready_fds_ := rest } : EventHub).update y
      (fun e => { e with where_kInReady := false })) := by
  have a : SameFor f h ({ h with ready_fds_ := rest } : EventHub) :=
    ⟨rfl, by simp [hr, List.count_cons, hy], Iff.rfl, rfl, rfl, rfl⟩
  exact a.trans (SameFor_update f y _ _ hy)

/-- One iteration of the registration loop for a descriptor other than `f`. -/
theorem Preprocess_iter_same (os : OS) (n : Nat) (h : EventHub) (y : Int) (rest : List Int)
    (f : Int) (hr : h.ready_fds_ = y :: rest) (hy : y ≠ f) :
    (∃ h1, EventHub.PreprocessReadyEvents_loop os (n + 1) h =
        EventHub.PreprocessReadyEvents_loop os n h1 ∧
      h1.ready_fds_ = rest ∧ SameFor f h h1 ∧ (Consistent h → Consistent h1)) ∨
    (h.events.lookup y = none ∧
      SameFor f h (EventHub.PreprocessReadyEvents_loop os (n + 1) h).hub) := by
  have key : ∀ r, EventHub.PreprocessReadyEvents_loop os (n + 1) h = r →
      (∃ h1, r = EventHub.PreprocessReadyEvents_loop os n h1 ∧
        h1.ready_fds_ = rest ∧ SameFor f h h1 ∧ (Consistent h → Consistent h1)) ∨
      (h.events.lookup y = none ∧ SameFor f h r.hub) := by
    intro r hloop
    simp only [EventHub.PreprocessReadyEvents_loop, hr] at hloop
    split at hloop
    · rename_i hnone
      subst hloop
      exact Or.inr ⟨hnone,
        ⟨rfl, by simp [Result.hub, hr, List.count_cons, hy], Iff.rfl, rfl, rfl, rfl⟩⟩
    · rename_i e0 hsome
      have hs2 := SameFor_ReadyPop f y h rest hr hy
      have hc2 : Consistent h → Consistent (({ h with ready_fds_ := rest } : EventHub).update y
          (fun e => { e with where_kInReady := false })) :=
        fun hc => Consistent_ReadyPop h y rest hr hc
      have hr2 : (({ h with ready_fds_ := rest } : EventHub).update y
          (fun e => { e with where_kInReady := false })).ready_fds_ = rest := by
        rw [EventHub.update_ready_fds_]
      have ht2 : (({ h with ready_fds_ := rest } : EventHub).update y
          (fun e => { e with where_kInReady := false })).events.lookup y ≠ none := by
        rw [update_tracked]
        show h.events.lookup y ≠ none
        rw [hsome]; simp
      generalize (({ h with ready_fds_ := rest } : EventHub).update y
          (fun e => { e with where_kInReady := false })) = h2 at hloop hs2 hc2 hr2 ht2
      split at hloop
      · rename_i hnone
        exact absurd hnone ht2
      · split_ifs at hloop
        · exact Or.inl ⟨_, hloop.symm, by rw [TimeoutRemove_ready_fds_, hr2],
            hs2.trans (SameFor_TimeoutRemove f y h2 hy),
            fun hc => Consistent_TimeoutRemove h2 y (hc2 hc)⟩
        · exact Or.inl ⟨_, hloop.symm, hr2, hs2, hc2⟩
        · have hs3 := hs2.trans (SameFor_update f y h2 (fun e => { e with is_locked := true }) hy)
          have hc3 : Consistent h → Consistent (h2.update y
              (fun e => { e with is_locked := true })) :=
            fun hc => Consistent_update h2 y _ (by intro _; rfl) (by intro _; rfl) (hc2 hc)
          have hr3 : (h2.update y (fun e => { e with is_locked := true })).ready_fds_ = rest := by
            rw [EventHub.update_ready_fds_, hr2]
          generalize h2.update y (fun e => { e with is_locked := true }) = h3
            at hloop hs3 hc3 hr3
          have hs4 := hs3.trans (SameFor_sys_Add os f y h3 hy)
          have hc4 : Consistent h → Consistent (EventHub.sys_Add os h3 y).hub :=
            fun hc => Consistent_sys_Add os h3 y (hc3 hc)
          have hr4 : (EventHub.sys_Add os h3 y).hub.ready_fds_ = rest := by
            rw [sys_Add_ready_fds_, hr3]
          split at hloop
          · rename_i h4 hadd
            rw [hadd] at hs4 hc4 hr4
            exact Or.inl ⟨h4, hloop.symm, hr4, hs4, hc4⟩
          · rename_i h4 hadd
            rw [hadd] at hs4 hc4 hr4
            simp only [Result.hub] at hs4 hc4 hr4
            refine Or.inl ⟨_, hloop.symm, ?_, ?_, ?_⟩
            · rw [ActivePush_ready_fds_, EventHub.update_ready_fds_]
              split_ifs
              · rw [TimeoutRemove_ready_fds_, hr4]
              · exact hr4
            · exact ((hs4.trans (SameFor_ite_TimeoutRemove f y h4 hy)).trans
                (SameFor_update f y _ _ hy)).trans (SameFor_ActivePush f y _ hy)
            · intro hc
              exact Consistent_ActivePush _ y
                (Consistent_update _ y _ (by intro _; rfl) (by intro _; rfl)
                  (Consistent_ite_TimeoutRemove h4 y (hc4 hc)))
  exact key _ rfl

/-- The registration loop leaves alone a descriptor that is not in the registration
queue. -/
theorem Preprocess_same (os : OS) (f : Int) (n : Nat) :
    ∀ h : EventHub, f ∉ h.ready_fds_ →
      SameFor f h (EventHub.PreprocessReadyEvents_loop os n h).hub := by
  induction n with
  | zero =>
    intro h _
    unfold EventHub.PreprocessReadyEvents_loop
    split <;> exact SameFor.refl f h
  | succ n ih =>
    intro h hf
    cases hq : h.ready_fds_ with
    | nil =>
      simp only [EventHub.PreprocessReadyEvents_loop, hq]
      exact SameFor.refl f h
    | cons y rest =>
      rw [hq] at hf
      have hy : y ≠ f := fun hyf => hf (hyf ▸ List.mem_cons_self _ _)
      rcases Preprocess_iter_same os n h y rest f hq hy with ⟨h1, heq, hr1, hs1, _⟩ | ⟨_, hend⟩
      · rw [heq]
        exact hs1.trans (ih h1 (by rw [hr1]; exact fun hm => hf (List.mem_cons_of_mem _ hm)))
      · exact hend

/-- Under `Consistent` the registration loop returns normally. -/
theorem Preprocess_returns (os : OS) (n : Nat) :
    ∀ h : EventHub, Consistent h → h.ready_fds_.length ≤ n →
      ∃ h1, EventHub.PreprocessReadyEvents_loop os n h = Result.ok h1 := by
  induction n with
  | zero =>
    intro h _ hlen
    have hnil : h.ready_fds_ = [] := List.length_eq_zero.mp (Nat.le_zero.mp hlen)
    exact ⟨h, by simp [EventHub.PreprocessReadyEvents_loop, hnil]⟩
  | succ n ih =>
    intro h hc hlen
    cases hq : h.ready_fds_ with
    | nil => exact ⟨h, by simp [EventHub.PreprocessReadyEvents_loop, hq]⟩
    | cons y rest =>
      have hty : h.events.lookup y ≠ none :=
        IsInReady_tracked h y ((hc.ready_flag y).mp (by rw [hq]; exact List.mem_cons_self _ _))
      rcases Preprocess_iter_same os n h y rest (y + 1) hq (by omega) with
        ⟨h1, heq, hr1, _, hc1⟩ | ⟨hnone, _⟩
      · rw [heq]
        exact ih h1 (hc1 hc) (by rw [hr1]; rw [hq] at hlen; simpa using hlen)
      · exact absurd hnone hty


/-! ### The timeout phase -/

/-- One iteration of the timeout loop whose heap root is not `f`. -/
theorem CheckTimeout_iter_same (os : OS) (n : Nat) (h : EventHub) (top f : Int)
    (ht : EventMinHeap.Top h.timeout_heap_ = some top) (hy : top ≠ f) :
    (∃ h1, EventHub.CheckTimeoutEvents_loop os (n + 1) h =
        EventHub.CheckTimeoutEvents_loop os n h1 ∧ SameFor f h h1) ∨
    SameFor f h (EventHub.CheckTimeoutEvents_loop os (n + 1) h).hub := by
  have key : ∀ r, EventHub.CheckTimeoutEvents_loop os (n + 1) h = r →
      (∃ h1, r = EventHub.CheckTimeoutEvents_loop os n h1 ∧ SameFor f h h1) ∨
      SameFor f h r.hub := by
    intro r hloop
    simp only [EventHub.CheckTimeoutEvents_loop, ht] at hloop
    split at hloop
    · subst hloop
      exact Or.inr (SameFor.refl f h)
    · rename_i e0 hsome
      split_ifs at hloop with hlater hact hcb
      · subst hloop
        exact Or.inr (SameFor.refl f h)
      · have a : SameFor f h
            ({ h with timeout_heap_ := EventMinHeap.Pop h.events h.timeout_heap_ } : EventHub) :=
          ⟨rfl, rfl, EventMinHeap.mem_Pop_of_ne _ _ _ _ ht (Ne.symm hy), rfl, rfl, rfl⟩
        exact Or.inl ⟨_, hloop.symm,
          (a.trans (SameFor_update f top _ _ hy)).trans (SameFor_update f top _ _ hy)⟩
      · have a : SameFor f h
            ({ h with timeout_heap_ := EventMinHeap.Pop h.events h.timeout_heap_ } : EventHub) :=
          ⟨rfl, rfl, EventMinHeap.mem_Pop_of_ne _ _ _ _ ht (Ne.symm hy), rfl, rfl, rfl⟩
        have hs2 := a.trans (SameFor_update f top _
          (fun e => { e with where_kInTimeout := false }) hy)
        generalize (({ h with timeout_heap_ := EventMinHeap.Pop h.events h.timeout_heap_ } :
          EventHub).update top (fun e => { e with where_kInTimeout := false })) = h2
          at hloop hs2 hact
        have hs3 := hs2.trans (SameFor_sys_Del os f top h2)
        split at hloop
        · rename_i ex h3 hd
          rw [hd] at hs3
          subst hloop
          exact Or.inr hs3
        · rename_i h3 hd
          rw [hd] at hs3
          simp only [Result.hub] at hs3
          exact Or.inl ⟨_, hloop.symm,
            (hs3.trans (SameFor_update f top _ _ hy)).trans (SameFor_ActivePush f top _ hy)⟩
      · have a : SameFor f h
            ({ h with timeout_heap_ := EventMinHeap.Pop h.events h.timeout_heap_ } : EventHub) :=
          ⟨rfl, rfl, EventMinHeap.mem_Pop_of_ne _ _ _ _ ht (Ne.symm hy), rfl, rfl, rfl⟩
        simp only [] at hloop
        exact Or.inl ⟨_, hloop.symm,
          ((a.trans (SameFor_update f top _ _ hy)).trans (SameFor_update f top _ _ hy)).trans
            (SameFor_ActivePush f top _ hy)⟩
  exact key _ rfl

/-- The timeout loop leaves alone a descriptor that is not in the timeout heap. -/
theorem CheckTimeout_same (os : OS) (f : Int) (n : Nat) :
    ∀ h : EventHub, f ∉ h.timeout_heap_ →
      SameFor f h (EventHub.CheckTimeoutEvents_loop os n h).hub := by
  induction n with
  | zero =>
    intro h _
    unfold EventHub.CheckTimeoutEvents_loop
    split
    · exact SameFor.refl f h
    · split
      · exact SameFor.refl f h
      · split_ifs <;> exact SameFor.refl f h
  | succ n ih =>
    intro h hf
    cases ht : EventMinHeap.Top h.timeout_heap_ with
    | none =>
      simp only [EventHub.CheckTimeoutEvents_loop, ht]
      exact SameFor.refl f h
    | some top =>
      have hy : top ≠ f := fun hyf => hf (hyf ▸ EventMinHeap.Top_mem _ _ ht)
      rcases CheckTimeout_iter_same os n h top f ht hy with ⟨h1, heq, hs1⟩ | hend
      · rw [heq]
        exact hs1.trans (ih h1 (fun hm => hf (hs1.heap.mp hm)))
      · exact hend


/-! ### The poll -/

theorem lookup_update_proj {α : Type} (p : Event → α) (h : EventHub) (fd : Int)
    (fn : Event → Event) (hf : ∀ e, p (fn e) = p e) (g : Int) :
    ((h.update fd fn).events.lookup g).map p = (h.events.lookup g).map p := by
  rw [EventHub.update_lookup]
  split
  · rename_i hgf
    subst hgf
    cases h.events.lookup g <;> simp [hf]
  · rfl

/-- What every step of a poll keeps: the registration queue, the timeout heap, the trace,
and every property `p` of an event that does not depend on the readable, writable and
`kInActive` flags. -/
theorem poll_step_keeps {α : Type} (p : Event → α)
    (hA : ∀ e : Event, p { e with where_kInActive := true } = p e) (h : EventHub) (y : Int) :
    (∀ fn : Event → Event, (∀ e, p (fn e) = p e) →
      (h.update y fn).ready_fds_ = h.ready_fds_ ∧
      (h.update y fn).timeout_heap_ = h.timeout_heap_ ∧
      (h.update y fn).trace = h.trace ∧
      ∀ g, ((h.update y fn).events.lookup g).map p = (h.events.lookup g).map p) ∧
    ((h.ActivePush y).ready_fds_ = h.ready_fds_ ∧
      (h.ActivePush y).timeout_heap_ = h.timeout_heap_ ∧
      (h.ActivePush y).trace = h.trace ∧
      ∀ g, ((h.ActivePush y).events.lookup g).map p = (h.events.lookup g).map p) := by
  refine ⟨fun fn hfn => ⟨by simp, by simp, by simp, lookup_update_proj p h y fn hfn⟩, ?_⟩
  unfold EventHub.ActivePush
  exact ⟨by simp, by simp, by simp, lookup_update_proj p _ y _ hA⟩

theorem KQueue_report_keeps {α : Type} (p : Event → α)
    (hR : ∀ e : Event, p { e with result_kRead := true } = p e)
    (hW : ∀ e : Event, p { e with result_kWrite := true } = p e)
    (hA : ∀ e : Event, p { e with where_kInActive := true } = p e)
    (evs : List (Int × Filter)) :
    ∀ h : EventHub,
      (KQueue.report evs h).hub.ready_fds_ = h.ready_fds_ ∧
      (KQueue.report evs h).hub.timeout_heap_ = h.timeout_heap_ ∧
      (KQueue.report evs h).hub.trace = h.trace ∧
      ∀ g, ((KQueue.report evs h).hub.events.lookup g).map p = (h.events.lookup g).map p := by
  induction evs with
  | nil => intro h; exact ⟨rfl, rfl, rfl, fun _ => rfl⟩
  | cons r rest ih =>
    obtain ⟨ident, filter⟩ := r
    intro h
    simp only [KQueue.report]
    cases hl : h.events.lookup ident with
    | none => exact ⟨rfl, rfl, rfl, fun _ => rfl⟩
    | some ev =>
      simp only []
      have step : ∀ x : EventHub,
          (x.ready_fds_ = h.ready_fds_ ∧ x.timeout_heap_ = h.timeout_heap_ ∧
            x.trace = h.trace ∧
            ∀ g, (x.events.lookup g).map p = (h.events.lookup g).map p) →
          ((if x.IsInActive ident = true then x else x.ActivePush ident).ready_fds_ =
              h.ready_fds_ ∧
            (if x.IsInActive ident = true then x else x.ActivePush ident).timeout_heap_ =
              h.timeout_heap_ ∧
            (if x.IsInActive ident = true then x else x.ActivePush ident).trace = h.trace ∧
            ∀ g, ((if x.IsInActive ident = true then x else x.ActivePush ident).events.lookup
              g).map p = (h.events.lookup g).map p) := by
        intro x hx
        split_ifs
        · exact hx
        · obtain ⟨a, b, c, d⟩ := (poll_step_keeps p hA x ident).2
          exact ⟨a.trans hx.1, b.trans hx.2.1, c.trans hx.2.2.1,
            fun g => (d g).trans (hx.2.2.2 g)⟩
      have base : ∀ fn : Event → Event, (∀ e, p (fn e) = p e) →
          ((h.update ident fn).ready_fds_ = h.ready_fds_ ∧
            (h.update ident fn).timeout_heap_ = h.timeout_heap_ ∧
            (h.update ident fn).trace = h.trace ∧
            ∀ g, ((h.update ident fn).events.lookup g).map p = (h.events.lookup g).map p) :=
        (poll_step_keeps p hA h ident).1
      have fin : ∀ x : EventHub,
          (x.ready_fds_ = h.ready_fds_ ∧ x.timeout_heap_ = h.timeout_heap_ ∧
            x.trace = h.trace ∧
            ∀ g, (x.events.lookup g).map p = (h.events.lookup g).map p) →
          ((KQueue.report rest x).hub.ready_fds_ = h.ready_fds_ ∧
            (KQueue.report rest x).hub.timeout_heap_ = h.timeout_heap_ ∧
            (KQueue.report rest x).hub.trace = h.trace ∧
            ∀ g, ((KQueue.report rest x).hub.events.lookup g).map p =
              (h.events.lookup g).map p) := by
        intro x hx
        obtain ⟨a, b, c, d⟩ := ih x
        exact ⟨a.trans hx.1, b.trans hx.2.1, c.trans hx.2.2.1,
          fun g => (d g).trans (hx.2.2.2 g)⟩
      cases filter
      · exact fin _ (step _ (base _ hR))
      · exact fin _ (step _ (base _ hW))
      · exact fin _ (step _ ⟨rfl, rfl, rfl, fun _ => rfl⟩)

theorem Epoll_report_keeps {α : Type} (p : Event → α)
    (hR : ∀ e : Event, p { e with result_kRead := true } = p e)
    (hW : ∀ e : Event, p { e with result_kWrite := true } = p e)
    (hA : ∀ e : Event, p { e with where_kInActive := true } = p e)
    (evs : List EpollEvent) :
    ∀ h : EventHub,
      (Epoll.report evs h).hub.ready_fds_ = h.ready_fds_ ∧
      (Epoll.report evs h).hub.timeout_heap_ = h.timeout_heap_ ∧
      (Epoll.report evs h).hub.trace = h.trace ∧
      ∀ g, ((Epoll.report evs h).hub.events.lookup g).map p = (h.events.lookup g).map p := by
  induction evs with
  | nil => intro h; exact ⟨rfl, rfl, rfl, fun _ => rfl⟩
  | cons ev rest ih =>
    intro h
    simp only [Epoll.report]
    cases hl : h.events.lookup ev.fd with
    | none => exact ⟨rfl, rfl, rfl, fun _ => rfl⟩
    | some _ =>
      simp only []
      have upd : ∀ (x : EventHub) (c : Bool) (fn : Event → Event), (∀ e, p (fn e) = p e) →
          (x.ready_fds_ = h.ready_fds_ ∧ x.timeout_heap_ = h.timeout_heap_ ∧
            x.trace = h.trace ∧
            ∀ g, (x.events.lookup g).map p = (h.events.lookup g).map p) →
          ((if c = true then x.update ev.fd fn else x).ready_fds_ = h.ready_fds_ ∧
            (if c = true then x.update ev.fd fn else x).timeout_heap_ = h.timeout_heap_ ∧
            (if c = true then x.update ev.fd fn else x).trace = h.trace ∧
            ∀ g, ((if c = true then x.update ev.fd fn else x).events.lookup g).map p =
              (h.events.lookup g).map p) := by
        intro x c fn hfn hx
        split_ifs
        · obtain ⟨a, b, c, d⟩ := (poll_step_keeps p hA x ev.fd).1 fn hfn
          exact ⟨a.trans hx.1, b.trans hx.2.1, c.trans hx.2.2.1,
            fun g => (d g).trans (hx.2.2.2 g)⟩
        · exact hx
      have push : ∀ x : EventHub,
          (x.ready_fds_ = h.ready_fds_ ∧ x.timeout_heap_ = h.timeout_heap_ ∧
            x.trace = h.trace ∧
            ∀ g, (x.events.lookup g).map p = (h.events.lookup g).map p) →
          ((Epoll.report rest (x.ActivePush ev.fd)).hub.ready_fds_ = h.ready_fds_ ∧
            (Epoll.report rest (x.ActivePush ev.fd)).hub.timeout_heap_ = h.timeout_heap_ ∧
            (Epoll.report rest (x.ActivePush ev.fd)).hub.trace = h.trace ∧
            ∀ g, ((Epoll.report rest (x.ActivePush ev.fd)).hub.events.lookup g).map p =
              (h.events.lookup g).map p) := by
        intro x hx
        obtain ⟨a, b, c, d⟩ := ih (x.ActivePush ev.fd)
        obtain ⟨a1, b1, c1, d1⟩ := (poll_step_keeps p hA x ev.fd).2
        exact ⟨a.trans (a1.trans hx.1), b.trans (b1.trans hx.2.1),
          c.trans (c1.trans hx.2.2.1), fun g => (d g).trans ((d1 g).trans (hx.2.2.2 g))⟩
      exact push _ (upd _ _ _ hW (upd _ _ _ hR ⟨rfl, rfl, rfl, fun _ => rfl⟩))

/-- The poll keeps, on either backend and however it ends, the registration queue and
the timeout heap, adds only its own entry to the trace, and keeps every property `p` of
an event that does not depend on the readable, writable and `kInActive` flags. -/
theorem sys_Poll_keeps {α : Type} (p : Event → α)
    (hR : ∀ e : Event, p { e with result_kRead := true } = p e)
    (hW : ∀ e : Event, p { e with result_kWrite := true } = p e)
    (hA : ∀ e : Event, p { e with where_kInActive := true } = p e)
    (os : OS) (h : EventHub) (w : Int) :
    (EventHub.sys_Poll os h w).hub.ready_fds_ = h.ready_fds_ ∧
    (EventHub.sys_Poll os h w).hub.timeout_heap_ = h.timeout_heap_ ∧
    (EventHub.sys_Poll os h w).hub.trace = h.trace ++ [Obs.poll w] ∧
    ∀ g, ((EventHub.sys_Poll os h w).hub.events.lookup g).map p =
      (h.events.lookup g).map p := by
  unfold EventHub.sys_Poll
  simp only []
  cases hb : h.sys_ev_op_ with
  | KQueue =>
    simp only [KQueue.Poll]
    split_ifs
    · exact ⟨rfl, rfl, rfl, fun _ => rfl⟩
    · cases os.kevents with
      | none => exact ⟨rfl, rfl, rfl, fun _ => rfl⟩
      | some evs => exact KQueue_report_keeps p hR hW hA evs _
  | Epoll =>
    simp only [Epoll.Poll]
    split_ifs
    · exact ⟨rfl, rfl, rfl, fun _ => rfl⟩
    · cases os.epoll_events with
      | none => exact ⟨rfl, rfl, rfl, fun _ => rfl⟩
      | some evs => exact Epoll_report_keeps p hR hW hA evs _

theorem KQueue_report_same (f : Int) (evs : List (Int × Filter)) :
    ∀ h : EventHub, (∀ r ∈ evs, r.1 ≠ f) → SameFor f h (KQueue.report evs h).hub := by
  induction evs with
  | nil => intro h _; exact SameFor.refl f h
  | cons r rest ih =>
    obtain ⟨ident, filter⟩ := r
    intro h hne
    have hy : ident ≠ f := hne (ident, filter) (List.mem_cons_self _ _)
    have hrest : ∀ r ∈ rest, r.1 ≠ f := fun r hr => hne r (List.mem_cons_of_mem _ hr)
    simp only [KQueue.report]
    cases hl : h.events.lookup ident with
    | none => exact SameFor.refl f h
    | some ev =>
      simp only []
      have step : ∀ x : EventHub, SameFor f h x →
          SameFor f h (KQueue.report rest
            (if x.IsInActive ident = true then x else x.ActivePush ident)).hub := by
        intro x hx
        split_ifs
        · exact hx.trans (ih x hrest)
        · exact (hx.trans (SameFor_ActivePush f ident x hy)).trans (ih _ hrest)
      cases filter
      · exact step _ (SameFor_update f ident h _ hy)
      · exact step _ (SameFor_update f ident h _ hy)
      · exact step _ (SameFor.refl f h)

theorem Epoll_report_same (f : Int) (evs : List EpollEvent) :
    ∀ h : EventHub, (∀ ev ∈ evs, ev.fd ≠ f) → SameFor f h (Epoll.report evs h).hub := by
  induction evs with
  | nil => intro h _; exact SameFor.refl f h
  | cons ev rest ih =>
    intro h hne
    have hy : ev.fd ≠ f := hne ev (List.mem_cons_self _ _)
    have hrest : ∀ r ∈ rest, r.fd ≠ f := fun r hr => hne r (List.mem_cons_of_mem _ hr)
    simp only [Epoll.report]
    cases hl : h.events.lookup ev.fd with
    | none => exact SameFor.refl f h
    | some _ =>
      simp only []
      have upd : ∀ (x : EventHub) (c : Bool) (fn : Event → Event), SameFor f h x →
          SameFor f h (if c = true then x.update ev.fd fn else x) := by
        intro x c fn hx
        split_ifs
        · exact hx.trans (SameFor_update f ev.fd x fn hy)
        · exact hx
      exact ((upd _ _ _ (upd _ _ _ (SameFor.refl f h))).trans
        (SameFor_ActivePush f ev.fd _ hy)).trans (ih _ hrest)

theorem Poll_same (os : OS) (x : EventHub) (f : Int) (hrep : os.reports f = false) :
    SameFor f x (match x.sys_ev_op_ with
      | Backend.KQueue => KQueue.Poll os x
      | Backend.Epoll => Epoll.Poll os x).hub := by
  unfold OS.reports at hrep
  rw [Bool.or_eq_false_iff] at hrep
  cases x.sys_ev_op_ with
  | KQueue =>
    simp only [KQueue.Poll]
    split_ifs
    · exact SameFor.refl f x
    · cases hk : os.kevents with
      | none => exact SameFor.refl f x
      | some evs =>
        simp only []
        have hne : ∀ r ∈ evs, r.1 ≠ f := by
          intro r hr hrf
          have h1 := hrep.1
          rw [hk] at h1
          simp only [List.any_eq_false] at h1
          exact h1 r hr (by simp [hrf])
        exact KQueue_report_same f evs _ hne
  | Epoll =>
    simp only [Epoll.Poll]
    split_ifs
    · exact SameFor.refl f x
    · cases hk : os.epoll_events with
      | none => exact SameFor.refl f x
      | some evs =>
        simp only []
        have hne : ∀ r ∈ evs, r.fd ≠ f := by
          intro r hr hrf
          have h1 := hrep.2
          rw [hk] at h1
          simp only [List.any_eq_false] at h1
          exact h1 r hr (by simp [hrf])
        exact Epoll_report_same f evs _ hne

/-- A poll that does not report `f` leaves `f` alone. -/
theorem sys_Poll_same (os : OS) (h : EventHub) (w : Int) (f : Int)
    (hrep : os.reports f = false) : SameFor f h (EventHub.sys_Poll os h w).hub := by
  have a : SameFor f h ({ h with trace := h.trace ++ [Obs.poll w] } : EventHub) :=
    ⟨rfl, rfl, Iff.rfl, rfl, by simp [calls_for, Obs.is_call_for],
      by simp [adds_for, Obs.is_add_for]⟩
  exact a.trans (Poll_same os _ f hrep)


/-! ### The dispatch phase -/

theorem SameFor_guarded_call (prog : Program) (f y : Int) (hp : prog.leaves f)
    (hy : y ≠ f) (type : EventType) (guard : Event → Bool) (cb : Event → Option Nat)
    (h : EventHub) : SameFor f h (EventHub.guarded_call prog y type guard cb h).hub := by
  unfold EventHub.guarded_call
  cases hly : h.events.lookup y with
  | none => exact SameFor.refl f h
  | some ev =>
    by_cases hg : guard ev = true
    · simp only [hg, if_true]
      cases hk : cb ev with
      | none => exact SameFor.refl f h
      | some k =>
        simp only [invoke]
        have a : SameFor f h
            ({ h with trace := h.trace ++ [Obs.call k y type ev.data_] } : EventHub) :=
          ⟨rfl, rfl, Iff.rfl, rfl, by simp [calls_for, Obs.is_call_for, hy],
            by simp [adds_for, Obs.is_add_for]⟩
        have hr := a.trans (hp k y type ev.data_
          { h with trace := h.trace ++ [Obs.call k y type ev.data_] } hy)
        cases hres : run_actions (prog k y type ev.data_)
            { h with trace := h.trace ++ [Obs.call k y type ev.data_] } with
        | ok h1 =>
          rw [hres] at hr
          simp only []
          split_ifs <;> exact hr
        | raised ex h1 =>
          rw [hres] at hr
          exact hr
    · simp only [hg]
      exact SameFor.refl f h

theorem SameFor_guarded_call_eq (prog : Program) (f y : Int) (hp : prog.leaves f)
    (hy : y ≠ f) (type : EventType) (guard : Event → Bool) (cb : Event → Option Nat)
    (h : EventHub) (s : EventHub.Step)
    (heq : EventHub.guarded_call prog y type guard cb h = s) : SameFor f h s.hub := by
  subst heq
  exact SameFor_guarded_call prog f y hp hy type guard cb h

/-- One iteration of the dispatch loop for a descriptor other than `f`, with callbacks
that leave `f` alone. -/
theorem Response_iter_same (prog : Program) (os : OS) (f : Int) (hp : prog.leaves f)
    (n : Nat) (h : EventHub) (y : Int) (rest : List Int)
    (ha : h.active_fds_ = y :: rest) (hy : y ≠ f) :
    (∃ h1, EventHub.ResponseActiveEvents_loop prog os (n + 1) h =
        EventHub.ResponseActiveEvents_loop prog os n h1 ∧ SameFor f h h1) ∨
    SameFor f h (EventHub.ResponseActiveEvents_loop prog os (n + 1) h).hub := by
  have key : ∀ r, EventHub.ResponseActiveEvents_loop prog os (n + 1) h = r →
      (∃ h1, r = EventHub.ResponseActiveEvents_loop prog os n h1 ∧ SameFor f h h1) ∨
      SameFor f h r.hub := by
    intro r hr
    simp only [EventHub.ResponseActiveEvents_loop, ha] at hr
    have hs1 : SameFor f h ({ h with active_fds_ := rest } : EventHub) :=
      ⟨rfl, rfl, Iff.rfl, by simp [ha, List.count_cons, hy], rfl, rfl⟩
    generalize ({ h with active_fds_ := rest } : EventHub) = h1 at hr hs1
    split at hr
    · subst hr; exact Or.inr hs1
    · have hs2 := hs1.trans
        (SameFor_update f y h1 (fun e => { e with where_kInActive := false }) hy)
      generalize h1.update y (fun e => { e with where_kInActive := false }) = h2 at hr hs2
      split at hr
      · subst hr; exact Or.inr hs2
      · split at hr
        · rename_i hD
          have hf := hs2.trans (SameFor_dereg _ os f y h2 _ hD)
          subst hr
          exact Or.inr hf
        · rename_i h3 hD
          have hf := hs2.trans (SameFor_dereg _ os f y h2 _ hD)
          simp only [Result.hub] at hf
          have hp6 := ((hf.trans (SameFor_update f y h3
            (fun e => { e with read_cb_ := none, write_cb_ := none }) hy)).trans
            (SameFor_ite_TimeoutRemove f y _ hy)).trans
            (SameFor_update f y _ (fun e => { e with is_locked := false }) hy)
          split at hr
          · rename_i hG
            have hg := hp6.trans (SameFor_guarded_call_eq prog f y hp hy _ _ _ _ _ hG)
            subst hr
            exact Or.inr hg
          · rename_i hG
            have hg := hp6.trans (SameFor_guarded_call_eq prog f y hp hy _ _ _ _ _ hG)
            subst hr
            exact Or.inr hg
          · rename_i hG
            have hg := hp6.trans (SameFor_guarded_call_eq prog f y hp hy _ _ _ _ _ hG)
            simp only [EventHub.Step.hub] at hg
            split at hr
            · rename_i hG2
              have hg2 := hg.trans (SameFor_guarded_call_eq prog f y hp hy _ _ _ _ _ hG2)
              subst hr
              exact Or.inr hg2
            · rename_i hG2
              have hg2 := hg.trans (SameFor_guarded_call_eq prog f y hp hy _ _ _ _ _ hG2)
              subst hr
              exact Or.inr hg2
            · rename_i hG2
              have hg2 := hg.trans (SameFor_guarded_call_eq prog f y hp hy _ _ _ _ _ hG2)
              simp only [EventHub.Step.hub] at hg2
              split at hr
              · rename_i hG3
                have hg3 := hg2.trans (SameFor_guarded_call_eq prog f y hp hy _ _ _ _ _ hG3)
                subst hr
                exact Or.inr hg3
              · rename_i hG3
                have hg3 := hg2.trans (SameFor_guarded_call_eq prog f y hp hy _ _ _ _ _ hG3)
                subst hr
                exact Or.inr hg3
              · rename_i hG3
                have hg3 := hg2.trans (SameFor_guarded_call_eq prog f y hp hy _ _ _ _ _ hG3)
                simp only [EventHub.Step.hub] at hg3
                split at hr
                · rename_i hG4
                  have hg4 := hg3.trans
                    (SameFor_guarded_call_eq prog f y hp hy _ _ _ _ _ hG4)
                  subst hr
                  exact Or.inr hg4
                · rename_i hG4
                  have hg4 := hg3.trans
                    (SameFor_guarded_call_eq prog f y hp hy _ _ _ _ _ hG4)
                  subst hr
                  exact Or.inr hg4
                · rename_i hG4
                  have hg4 := hg3.trans
                    (SameFor_guarded_call_eq prog f y hp hy _ _ _ _ _ hG4)
                  simp only [EventHub.Step.hub] at hg4
                  exact Or.inl ⟨_, hr.symm, hg4.trans (SameFor_update f y _ _ hy)⟩
  exact key _ rfl

/-- The dispatch loop leaves alone a descriptor that is not in the dispatch queue, if the
callbacks of the dispatched descriptors do. -/
theorem Response_same (prog : Program) (os : OS) (f : Int) (hp : prog.leaves f) (n : Nat) :
    ∀ h : EventHub, f ∉ h.active_fds_ →
      SameFor f h (EventHub.ResponseActiveEvents_loop prog os n h).hub := by
  induction n with
  | zero =>
    intro h _
    unfold EventHub.ResponseActiveEvents_loop
    split <;> exact SameFor.refl f h
  | succ n ih =>
    intro h hf
    cases hq : h.active_fds_ with
    | nil =>
      simp only [EventHub.ResponseActiveEvents_loop, hq]
      exact SameFor.refl f h
    | cons y rest =>
      have hy : y ≠ f := fun hyf => hf (by rw [hq, hyf]; exact List.mem_cons_self _ _)
      rcases Response_iter_same prog os f hp n h y rest hq hy with ⟨h1, heq, hs1⟩ | hend
      · rw [heq]
        refine hs1.trans (ih h1 ?_)
        intro hm
        have hc := hs1.active
        rw [List.count_eq_zero_of_not_mem hf] at hc
        exact (List.count_eq_zero.mp hc) hm
      · exact hend

theorem spent_at_of_SameFor {f : Int} {h h1 : EventHub} (hs : SameFor f h h1)
    (hsp : h.spent_at f) : StaysSpent f h h1 := by
  refine ⟨⟨?_, ?_, ?_⟩, hs.calls, hs.adds⟩
  · rw [hs.lookup]; exact hsp.1
  · intro hm
    have hc := hs.ready
    rw [List.count_eq_zero_of_not_mem hsp.2.1] at hc
    exact (List.count_eq_zero.mp hc) hm
  · exact fun hm => hsp.2.2 (hs.heap.mp hm)

theorem StaysSpent.chain {f : Int} {h h1 h2 : EventHub} (a : StaysSpent f h h1)
    (b : StaysSpent f h1 h2) : StaysSpent f h h2 :=
  ⟨b.spent, b.calls.trans a.calls, b.adds.trans a.adds⟩

theorem StaysSpent.same (f : Int) (h : EventHub) (hsp : h.spent_at f) : StaysSpent f h h :=
  ⟨hsp, rfl, rfl⟩

/-- The dispatch of a spent descriptor invokes nothing and leaves it spent. -/
theorem Response_step_spent (prog : Program) (os : OS) (n : Nat) (h : EventHub) (f : Int)
    (rest : List Int) (e : Event) (ha : h.active_fds_ = f :: rest)
    (hg : h.events.lookup f = some e) (hsp : e.spent = true) :
    EventHub.ResponseActiveEvents_loop prog os (n + 1) h =
      EventHub.ResponseActiveEvents_loop prog os n
        { h with
          active_fds_ := rest
          events := h.events.insert f
            { e with where_kInActive := false, result_kWrite := false,
                     result_kRead := false } } := by
  simp only [Event.spent, Bool.and_eq_true, Option.isNone_iff_eq_none, Bool.not_eq_true,
    Bool.not_eq_eq_eq_not, Bool.not_true] at hsp
  obtain ⟨⟨⟨⟨⟨⟨hrd, hw⟩, hE⟩, hT⟩, hL⟩, hR⟩, hTo⟩ := hsp
  cases hW : e.result_kWrite <;> cases hRd : e.result_kRead <;>
    simp [EventHub.ResponseActiveEvents_loop, ha, hg, EventHub.update, hw, hrd, hTo, hW, hRd,
      hE, hT, hL, hR, EventHub.IsInTimeout, EventHub.guarded_call, Event.result_reset]


/-- The dispatch loop invokes nothing for a spent descriptor and leaves it spent, even
if the descriptor is in the dispatch queue. -/
theorem Response_spent (prog : Program) (os : OS) (f : Int) (hp : prog.leaves f) (n : Nat) :
    ∀ h : EventHub, h.spent_at f →
      StaysSpent f h (EventHub.ResponseActiveEvents_loop prog os n h).hub := by
  induction n with
  | zero =>
    intro h hsp
    unfold EventHub.ResponseActiveEvents_loop
    split <;> exact StaysSpent.same f h hsp
  | succ n ih =>
    intro h hsp
    cases hq : h.active_fds_ with
    | nil =>
      simp only [EventHub.ResponseActiveEvents_loop, hq]
      exact StaysSpent.same f h hsp
    | cons y rest =>
      by_cases hy : y = f
      · subst hy
        obtain ⟨h1, h2, h3⟩ := hsp
        cases hl : h.events.lookup y with
        | none => rw [hl] at h1; simp at h1
        | some e =>
          rw [hl] at h1
          simp only [Option.map_some', Option.some.injEq] at h1
          rw [Response_step_spent prog os n h y rest e hq hl h1]
          have hsp1 : StaysSpent y h
              ({ h with
                active_fds_ := rest
                events := h.events.insert y
                  { e with where_kInActive := false, result_kWrite := false,
                           result_kRead := false } } : EventHub) := by
            refine ⟨⟨?_, h2, h3⟩, rfl, rfl⟩
            simp only [Table.lookup_insert_eq, Option.map_some', Option.some.injEq]
            simpa [Event.spent] using h1
          exact hsp1.chain (ih _ hsp1.spent)
      · rcases Response_iter_same prog os f hp n h y rest hq hy with ⟨h1, heq, hs1⟩ | hend
        · rw [heq]
          have hsp1 := spent_at_of_SameFor hs1 hsp
          exact hsp1.chain (ih h1 hsp1.spent)
        · exact spent_at_of_SameFor hend hsp

/-! ### The whole iteration -/

/-- A property of the hub that holds however each phase ends holds when `LoopOnce`
returns or throws. -/
theorem LoopOnce_cases (prog : Program) (os : OS) (h : EventHub) (can_block : Bool)
    (P : EventHub → Prop)
    (h1 : P (h.PreprocessReadyEvents os).hub)
    (h2 : ∀ x w, h.PreprocessReadyEvents os = Result.ok x → P (EventHub.sys_Poll os x w).hub)
    (h3 : ∀ x w y, h.PreprocessReadyEvents os = Result.ok x →
      EventHub.sys_Poll os x w = Result.ok y → P (y.CheckTimeoutEvents os).hub)
    (h4 : ∀ x w y z, h.PreprocessReadyEvents os = Result.ok x →
      EventHub.sys_Poll os x w = Result.ok y → y.CheckTimeoutEvents os = Result.ok z →
      P (z.ResponseActiveEvents prog os).hub) :
    P (h.LoopOnce prog os can_block).hub := by
  unfold EventHub.LoopOnce
  cases hpre : h.PreprocessReadyEvents os with
  | raised ex x => rw [hpre] at h1; exact h1
  | ok x =>
    rw [hpre] at h1
    simp only [Result.andThen]
    cases hw : (if can_block = true then EventHub.CalculateWaittingTime os x
        else Except.ok 0) with
    | error ex => exact h1
    | ok w =>
      simp only []
      cases hpoll : EventHub.sys_Poll os x w with
      | raised ex y => have := h2 x w hpre; rw [hpoll] at this; exact this
      | ok y =>
        simp only []
        cases hct : y.CheckTimeoutEvents os with
        | raised ex z => have := h3 x w y hpre hpoll; rw [hct] at this; exact this
        | ok z =>
          simp only []
          exact h4 x w y z hpre hpoll hct

theorem not_mem_of_SameFor_ready {f : Int} {h h1 : EventHub} (hs : SameFor f h h1)
    (hf : f ∉ h.ready_fds_) : f ∉ h1.ready_fds_ := by
  intro hm
  have hc := hs.ready
  rw [List.count_eq_zero_of_not_mem hf] at hc
  exact (List.count_eq_zero.mp hc) hm

theorem not_mem_of_SameFor_active {f : Int} {h h1 : EventHub} (hs : SameFor f h h1)
    (hf : f ∉ h.active_fds_) : f ∉ h1.active_fds_ := by
  intro hm
  have hc := hs.active
  rw [List.count_eq_zero_of_not_mem hf] at hc
  exact (List.count_eq_zero.mp hc) hm

theorem PreprocessReadyEvents_same (os : OS) (f : Int) (h : EventHub)
    (hf : f ∉ h.ready_fds_) : SameFor f h (h.PreprocessReadyEvents os).hub :=
  Preprocess_same os f _ h hf

theorem CheckTimeoutEvents_same (os : OS) (f : Int) (h : EventHub)
    (hf : f ∉ h.timeout_heap_) : SameFor f h (h.CheckTimeoutEvents os).hub :=
  CheckTimeout_same os f _ h hf

theorem ResponseActiveEvents_same (prog : Program) (os : OS) (f : Int) (hp : prog.leaves f)
    (h : EventHub) (hf : f ∉ h.active_fds_) :
    SameFor f h (h.ResponseActiveEvents prog os).hub :=
  Response_same prog os f hp _ h hf

theorem ResponseActiveEvents_spent (prog : Program) (os : OS) (f : Int)
    (hp : prog.leaves f) (h : EventHub) (hsp : h.spent_at f) :
    StaysSpent f h (h.ResponseActiveEvents prog os).hub :=
  Response_spent prog os f hp _ h hsp

/-- An iteration whose poll does not report `f` leaves `f` alone if `f` is in none of
the three queues and the callbacks of the other descriptors leave it alone. -/
theorem LoopOnce_same (prog : Program) (os : OS) (h : EventHub) (can_block : Bool) (f : Int)
    (hp : prog.leaves f) (hrep : os.reports f = false) (hr : f ∉ h.ready_fds_)
    (ht : f ∉ h.timeout_heap_) (ha : f ∉ h.active_fds_) :
    SameFor f h (h.LoopOnce prog os can_block).hub := by
  have s1 : SameFor f h (h.PreprocessReadyEvents os).hub :=
    PreprocessReadyEvents_same os f h hr
  refine LoopOnce_cases prog os h can_block (SameFor f h) s1 ?_ ?_ ?_
  · intro x w hx
    rw [hx] at s1
    exact s1.trans (sys_Poll_same os x w f hrep)
  · intro x w y hx hy
    rw [hx] at s1
    have s2 := s1.trans (sys_Poll_same os x w f hrep)
    rw [hy] at s2
    exact s2.trans (CheckTimeoutEvents_same os f y (fun hm => ht (s2.heap.mp hm)))
  · intro x w y z hx hy hz
    rw [hx] at s1
    have s2 := s1.trans (sys_Poll_same os x w f hrep)
    rw [hy] at s2
    have s3 := s2.trans (CheckTimeoutEvents_same os f y (fun hm => ht (s2.heap.mp hm)))
    rw [hz] at s3
    exact s3.trans (ResponseActiveEvents_same prog os f hp z
      (not_mem_of_SameFor_active s3 ha))

theorem sys_Poll_spent (os : OS) (h : EventHub) (w : Int) (f : Int) (hsp : h.spent_at f) :
    StaysSpent f h (EventHub.sys_Poll os h w).hub := by
  obtain ⟨a, b, c, d⟩ := sys_Poll_keeps Event.spent (by intro e; rfl) (by intro e; rfl)
    (by intro e; rfl) os h w
  refine ⟨⟨?_, ?_, ?_⟩, ?_, ?_⟩
  · rw [d f]; exact hsp.1
  · rw [a]; exact hsp.2.1
  · rw [b]; exact hsp.2.2
  · rw [c]; simp [calls_for, Obs.is_call_for]
  · rw [c]; simp [adds_for, Obs.is_add_for]

/-- If the registration phase leaves `f` spent, the rest of the iteration invokes no
callback of `f`, does not register it and leaves it spent, whatever the poll reports. -/
theorem LoopOnce_spent_from (prog : Program) (os : OS) (h : EventHub) (can_block : Bool)
    (f : Int) (hp : prog.leaves f)
    (s1 : StaysSpent f h (h.PreprocessReadyEvents os).hub) :
    StaysSpent f h (h.LoopOnce prog os can_block).hub := by
  refine LoopOnce_cases prog os h can_block (StaysSpent f h) s1 ?_ ?_ ?_
  · intro x w hx
    rw [hx] at s1
    exact s1.chain (sys_Poll_spent os x w f s1.spent)
  · intro x w y hx hy
    rw [hx] at s1
    have s2 := s1.chain (sys_Poll_spent os x w f s1.spent)
    rw [hy] at s2
    exact s2.chain
      (spent_at_of_SameFor (CheckTimeoutEvents_same os f y s2.spent.2.2) s2.spent)
  · intro x w y z hx hy hz
    rw [hx] at s1
    have s2 := s1.chain (sys_Poll_spent os x w f s1.spent)
    rw [hy] at s2
    have s3 := s2.chain
      (spent_at_of_SameFor (CheckTimeoutEvents_same os f y s2.spent.2.2) s2.spent)
    rw [hz] at s3
    exact s3.chain (ResponseActiveEvents_spent prog os f hp z s3.spent)

/-- No iteration invokes a callback of a spent descriptor, registers it with the backend
or changes that it is spent, whatever the poll reports, if the callbacks of the other
descriptors leave it alone. -/
theorem LoopOnce_spent (prog : Program) (os : OS) (h : EventHub) (can_block : Bool) (f : Int)
    (hp : prog.leaves f) (hsp : h.spent_at f) :
    StaysSpent f h (h.LoopOnce prog os can_block).hub :=
  LoopOnce_spent_from prog os h can_block f hp
    (spent_at_of_SameFor (PreprocessReadyEvents_same os f h hsp.2.1) hsp)

/-- No later iteration invokes a callback of a spent descriptor. -/
theorem loops_spent (prog : Program) (f : Int) (hp : prog.leaves f)
    (its : List (OS × Bool)) :
    ∀ h : EventHub, h.spent_at f → StaysSpent f h (run_calls prog (loops its) h) := by
  induction its with
  | nil => intro h hsp; exact StaysSpent.same f h hsp
  | cons it rest ih =>
    intro h hsp
    have s1 := LoopOnce_spent prog it.1 h it.2 f hp hsp
    exact s1.chain (ih _ s1.spent)

theorem leaves_inert (f : Int) : Program.inert.leaves f := by
  intro k g t d h0 _
  exact SameFor.refl f h0

/-! ### The registration of one descriptor -/

/-- The registration loop works its way to a queued descriptor `f`, leaving `f` alone
until then. -/
theorem Preprocess_reach (os : OS) (f : Int) (post : List Int) (n : Nat) :
    ∀ (pre : List Int) (h : EventHub), h.ready_fds_ = pre ++ f :: post → f ∉ pre →
      Consistent h →
      ∃ h1, EventHub.PreprocessReadyEvents_loop os (pre.length + n) h =
          EventHub.PreprocessReadyEvents_loop os n h1 ∧
        h1.ready_fds_ = f :: post ∧ SameFor f h h1 ∧ Consistent h1 := by
  intro pre
  induction pre with
  | nil =>
    intro h hr _ hc
    refine ⟨h, ?_, by simpa using hr, SameFor.refl f h, hc⟩
    simp
  | cons y pre ih =>
    intro h hr hf hc
    have hy : y ≠ f := fun hyf => hf (hyf ▸ List.mem_cons_self _ _)
    have hq : h.ready_fds_ = y :: (pre ++ f :: post) := by simpa using hr
    have hty : h.events.lookup y ≠ none :=
      IsInReady_tracked h y ((hc.ready_flag y).mp (by rw [hq]; exact List.mem_cons_self _ _))
    have hlen : (y :: pre).length + n = (pre.length + n) + 1 := by
      simp only [List.length_cons]; omega
    rw [hlen]
    rcases Preprocess_iter_same os (pre.length + n) h y (pre ++ f :: post) f hq hy with
      ⟨h1, heq, hr1, hs1, hc1⟩ | ⟨hnone, _⟩
    · obtain ⟨h2, heq2, hr2, hs2, hc2⟩ :=
        ih h1 hr1 (fun hm => hf (List.mem_cons_of_mem _ hm)) (hc1 hc)
      exact ⟨h2, heq.trans heq2, hr2, hs1.trans hs2, hc2⟩
    · exact absurd hnone hty

/-- On a consistent hub the registration phase returns normally; it reaches every queued
descriptor `f` with `f` as it was, and after that iteration leaves `f` alone. -/
theorem PreprocessReadyEvents_at (os : OS) (f : Int) (h : EventHub) (hc : Consistent h)
    (hf : f ∈ h.ready_fds_) :
    ∃ (h1 hfin : EventHub) (post : List Int),
      h.PreprocessReadyEvents os = Result.ok hfin ∧ Consistent hfin ∧
      h1.ready_fds_ = f :: post ∧ SameFor f h h1 ∧ Consistent h1 ∧
      EventHub.PreprocessReadyEvents_loop os (post.length + 1) h1 = Result.ok hfin ∧
      ∀ h2, EventHub.PreprocessReadyEvents_loop os (post.length + 1) h1 =
          EventHub.PreprocessReadyEvents_loop os post.length h2 →
        h2.ready_fds_ = post → SameFor f h2 hfin := by
  obtain ⟨hfin, hret⟩ := Preprocess_returns os _ h hc (le_refl _)
  have hcf : Consistent hfin := by
    have := Consistent_Preprocess os h.ready_fds_.length h hc
    rw [hret] at this
    exact this
  obtain ⟨pre, post, hsplit⟩ := List.append_of_mem hf
  have hnd := hc.ready_nodup
  rw [hsplit] at hnd
  have hpre : f ∉ pre := by
    intro hm
    have := (List.nodup_append.mp hnd).2.2 hm (List.mem_cons_self _ _)
    exact this
  have hpost : f ∉ post := by
    have := (List.nodup_append.mp hnd).2.1
    exact (List.nodup_cons.mp this).1
  obtain ⟨h1, heq, hr1, hs1, hc1⟩ := Preprocess_reach os f post (post.length + 1) pre h
    hsplit hpre hc
  have hlen : h.ready_fds_.length = pre.length + (post.length + 1) := by
    rw [hsplit]; simp
  have hfin1 : EventHub.PreprocessReadyEvents_loop os (post.length + 1) h1 =
      Result.ok hfin := by
    rw [← heq, ← hlen]; exact hret
  refine ⟨h1, hfin, post, ?_, hcf, hr1, hs1, hc1, hfin1, ?_⟩
  · unfold EventHub.PreprocessReadyEvents; exact hret
  · intro h2 hstep hr2
    have := Preprocess_same os f post.length h2 (by rw [hr2]; exact hpost)
    rw [← hstep, hfin1] at this
    exact this


/-- The registration phase cancels a queued descriptor whose callbacks are both null. -/
theorem PreprocessReadyEvents_cancel (os : OS) (h : EventHub) (f : Int) (e : Event)
    (hc : Consistent h) (hf : f ∈ h.ready_fds_) (hl : h.events.lookup f = some e)
    (hcb : e.has_callback = false) :
    ∃ hfin, h.PreprocessReadyEvents os = Result.ok hfin ∧ Consistent hfin ∧
      hfin.events.lookup f =
        some { e with where_kInReady := false, where_kInTimeout := false } ∧
      f ∉ hfin.ready_fds_ ∧ f ∉ hfin.timeout_heap_ ∧
      hfin.active_fds_.count f = h.active_fds_.count f ∧
      calls_for f hfin.trace = calls_for f h.trace ∧
      adds_for f hfin.trace = adds_for f h.trace := by
  obtain ⟨h1, hfin, post, hret, hcf, hr1, hs1, hc1, hfin1, hrest⟩ :=
    PreprocessReadyEvents_at os f h hc hf
  have hl1 : h1.events.lookup f = some e := hs1.lookup.trans hl
  have hstep := EventHub.Preprocess_step_cancel os post.length h1 f post e hr1 hl1 hcb
  have hs2 := hrest _ hstep rfl
  have hnp : f ∉ post := by
    have := hc1.ready_nodup
    rw [hr1] at this
    exact (List.nodup_cons.mp this).1
  refine ⟨hfin, hret, hcf, ?_, ?_, ?_, ?_, ?_, ?_⟩
  · rw [hs2.lookup]
    simp [Table.lookup_insert_eq]
  · intro hm
    have hcnt := hs2.ready
    simp only [] at hcnt
    rw [List.count_eq_zero_of_not_mem hnp] at hcnt
    exact (List.count_eq_zero.mp hcnt) hm
  · intro hm
    have hm2 := hs2.heap.mp hm
    simp only [] at hm2
    split_ifs at hm2 with hto
    · exact EventMinHeap.not_mem_Remove _ _ hc1.heap_nodup hm2
    · have := (hc1.heap_flag f).mp hm2
      simp [EventHub.IsInTimeout, hl1] at this
      exact hto this
  · rw [hs2.active]
    exact hs1.active
  · rw [hs2.calls]
    exact hs1.calls
  · rw [hs2.adds]
    exact hs1.adds


theorem leaves_of_inert (prog : Program) (hinert : ∀ k g t d, prog k g t d = []) (f : Int) :
    prog.leaves f := by
  intro k g t d h0 _
  rw [hinert]
  exact SameFor.refl f h0

theorem idle_at_of_SameFor {f : Int} {e : Event} {h h1 : EventHub} (hs : SameFor f h h1)
    (hi : h.idle_at f e) : h1.idle_at f e :=
  ⟨hs.lookup.trans hi.1, not_mem_of_SameFor_ready hs hi.2.1,
    fun hm => hi.2.2.1 (hs.heap.mp hm), not_mem_of_SameFor_active hs hi.2.2.2⟩


namespace EventHub

/-- The registration of a queued descriptor with a callback whose `Add` succeeds, on
either backend. -/
theorem Preprocess_step_registered (os : OS) (n : Nat) (h : EventHub) (g : Int)
    (rest : List Int) (e : Event)
    (hr : h.ready_fds_ = g :: rest) (hg : h.events.lookup g = some e)
    (hcb : e.has_callback = true) (hk : KQueue.add_fails os g e = false)
    (hep : os.epoll_add_fails g = false) :
    PreprocessReadyEvents_loop os (n + 1) h = PreprocessReadyEvents_loop os n
      { h with
        ready_fds_ := rest
        registered_event_count_ := h.registered_event_count_ + 1
        trace := h.trace ++ [Obs.add g true]
        events := h.events.insert g
          { e with where_kInReady := false, is_locked := true } } := by
  simp only [Event.has_callback, KQueue.add_fails] at hcb hk
  cases hb : h.sys_ev_op_ <;> cases hw : e.write_cb_ <;> cases hrd : e.read_cb_ <;>
    simp_all [PreprocessReadyEvents_loop, update, sys_Add, KQueue.Add, Epoll.Add]

end EventHub

/-- If the registration phase returns with `f` neither in the timeout heap nor in the
dispatch queue, the rest of an iteration whose poll does not report `f` leaves `f`
alone. -/
theorem LoopOnce_same_from (prog : Program) (os : OS) (h : EventHub) (can_block : Bool)
    (f : Int) (hp : prog.leaves f) (hrep : os.reports f = false) (x : EventHub)
    (hx : h.PreprocessReadyEvents os = Result.ok x) (ht : f ∉ x.timeout_heap_)
    (ha : f ∉ x.active_fds_) : SameFor f x (h.LoopOnce prog os can_block).hub := by
  have s1 : SameFor f x (h.PreprocessReadyEvents os).hub := by
    rw [hx]; exact SameFor.refl f x
  refine LoopOnce_cases prog os h can_block (SameFor f x) s1 ?_ ?_ ?_
  · intro x1 w hx1
    rw [hx] at hx1
    cases hx1
    exact sys_Poll_same os x w f hrep
  · intro x1 w y hx1 hy
    rw [hx] at hx1
    cases hx1
    have s2 := sys_Poll_same os x w f hrep
    rw [hy] at s2
    exact s2.trans (CheckTimeoutEvents_same os f y (fun hm => ht (s2.heap.mp hm)))
  · intro x1 w y z hx1 hy hz
    rw [hx] at hx1
    cases hx1
    have s2 := sys_Poll_same os x w f hrep
    rw [hy] at s2
    have s3 := s2.trans (CheckTimeoutEvents_same os f y (fun hm => ht (s2.heap.mp hm)))
    rw [hz] at s3
    exact s3.trans (ResponseActiveEvents_same prog os f hp z
      (not_mem_of_SameFor_active s3 ha))



/-! ### Callbacks that select another descriptor -/

theorem SameFor_ReadyPush (f y : Int) (h : EventHub) (hy : y ≠ f) :
    SameFor f h (h.ReadyPush y) := by
  unfold EventHub.ReadyPush
  have a : SameFor f h ({ h with ready_fds_ := h.ready_fds_ ++ [y] } : EventHub) :=
    ⟨rfl, by simp [List.count_append, List.count_cons, hy], Iff.rfl, rfl, rfl, rfl⟩
  exact a.trans (SameFor_update f y _ _ hy)

theorem SameFor_TimeoutPush (f y : Int) (h : EventHub) (hy : y ≠ f) :
    SameFor f h (h.TimeoutPush y) := by
  unfold EventHub.TimeoutPush
  have a : SameFor f h
      ({ h with timeout_heap_ := EventMinHeap.Push h.events h.timeout_heap_ y } :
        EventHub) :=
    ⟨rfl, rfl, by
      show f ∈ EventMinHeap.Push h.events h.timeout_heap_ y ↔ f ∈ h.timeout_heap_
      rw [EventMinHeap.mem_Push]
      constructor
      · rintro (hm | hm)
        · exact hm
        · exact absurd hm.symm hy
      · exact Or.inl, rfl, rfl, rfl⟩
  exact a.trans (SameFor_update f y _ _ hy)

theorem SameFor_SetCurrent (f g : Int) (h : EventHub) :
    SameFor f h (h.SetCurrent g).hub := by
  unfold EventHub.SetCurrent
  split_ifs
  · exact SameFor.refl f h
  · split
    · exact SameFor.refl f h
    · split_ifs
      · exact SameFor.refl f h
      · exact ⟨rfl, rfl, Iff.rfl, rfl, rfl, rfl⟩

theorem SetCurrent_current_fd_ (g : Int) (h h1 : EventHub)
    (hr : h.SetCurrent g = Result.ok h1) : h1.current_fd_ = g := by
  unfold EventHub.SetCurrent at hr
  split_ifs at hr
  split at hr
  · cases hr
  · split_ifs at hr
    cases hr
    rfl

theorem SetCurrent_raised_current_fd_ (g : Int) (h : EventHub) :
    (h.SetCurrent g).hub.current_fd_ = h.current_fd_ ∨
    (h.SetCurrent g).hub.current_fd_ = g := by
  unfold EventHub.SetCurrent
  split_ifs
  · exact Or.inl rfl
  · split
    · exact Or.inl rfl
    · split_ifs
      · exact Or.inl rfl
      · exact Or.inr rfl

/-- A public call that does not select `f`, made while another descriptor is selected,
leaves `f` alone and leaves another descriptor selected. -/
theorem SameFor_Action (a : Action) (f : Int) (h : EventHub) (ha : a.avoids f = true)
    (hcur : h.current_fd_ ≠ f) :
    SameFor f h (a.run h).hub ∧ (a.run h).hub.current_fd_ ≠ f := by
  cases a with
  | SetCurrent g =>
    have hg : g ≠ f := by simpa [Action.avoids] using ha
    refine ⟨SameFor_SetCurrent f g h, ?_⟩
    rcases SetCurrent_raised_current_fd_ g h with hc | hc
    · show (h.SetCurrent g).hub.current_fd_ ≠ f
      rw [hc]; exact hcur
    · show (h.SetCurrent g).hub.current_fd_ ≠ f
      rw [hc]; exact hg
  | CreateEmpty g cb =>
    have hg : g ≠ f := by simpa [Action.avoids] using ha
    simp only [Action.run, EventHub.CreateEmpty]
    split_ifs
    · exact ⟨SameFor.refl f h, hcur⟩
    · exact ⟨SameFor.refl f h, hcur⟩
    · exact ⟨SameFor.refl f h, hcur⟩
    · have a1 : SameFor f h
          ({ h with events := h.events.insert g { error_cb_ := cb } } : EventHub) :=
        ⟨Table.lookup_insert_ne _ _ _ _ (Ne.symm hg), rfl, Iff.rfl, rfl, rfl, rfl⟩
      refine ⟨a1.trans (SameFor_SetCurrent f g _), ?_⟩
      rcases SetCurrent_raised_current_fd_ g
        ({ h with events := h.events.insert g { error_cb_ := cb } } : EventHub) with hc | hc
      · rw [hc]; exact hcur
      · rw [hc]; exact hg
  | OnRead cb =>
    simp only [Action.run, EventHub.OnRead]
    split
    · exact ⟨SameFor.refl f h, hcur⟩
    · exact ⟨SameFor_update f _ h _ hcur, by simpa [Result.hub] using hcur⟩
  | OnWrite cb =>
    simp only [Action.run, EventHub.OnWrite]
    split
    · exact ⟨SameFor.refl f h, hcur⟩
    · exact ⟨SameFor_update f _ h _ hcur, by simpa [Result.hub] using hcur⟩
  | WithData d =>
    simp only [Action.run, EventHub.WithData]
    split
    · exact ⟨SameFor.refl f h, hcur⟩
    · exact ⟨SameFor_update f _ h _ hcur, by simpa [Result.hub] using hcur⟩
  | Ready t now =>
    simp only [Action.run, EventHub.Ready]
    cases h.events.lookup h.current_fd_ with
    | none => exact ⟨SameFor.refl f h, hcur⟩
    | some ce =>
      simp only []
      have s1 : ∀ c : Prop, ∀ _ : Decidable c,
          SameFor f h (if c then
            (if h.IsInReady h.current_fd_ = true then h else h.ReadyPush h.current_fd_)
            else h) ∧
          (if c then
            (if h.IsInReady h.current_fd_ = true then h else h.ReadyPush h.current_fd_)
            else h).current_fd_ = h.current_fd_ := by
        intro c _
        split_ifs
        · exact ⟨SameFor.refl f h, rfl⟩
        · exact ⟨SameFor_ReadyPush f _ h hcur, by simp [EventHub.ReadyPush]⟩
        · exact ⟨SameFor.refl f h, rfl⟩
      obtain ⟨s1a, s1b⟩ := s1 (ce.read_cb_ ≠ none ∨ ce.write_cb_ ≠ none) inferInstance
      generalize (if ce.read_cb_ ≠ none ∨ ce.write_cb_ ≠ none then
        (if h.IsInReady h.current_fd_ = true then h else h.ReadyPush h.current_fd_)
        else h) = h1 at s1a s1b
      cases t with
      | none => exact ⟨s1a, by rw [show (Result.ok h1).hub = h1 from rfl, s1b]; exact hcur⟩
      | some period =>
        simp only [Result.hub]
        refine ⟨((s1a.trans (SameFor_ite_TimeoutRemove f _ h1 hcur)).trans
          (SameFor_update f _ _ _ hcur)).trans (SameFor_TimeoutPush f _ _ hcur), ?_⟩
        simp only [EventHub.TimeoutPush, EventHub.update_current_fd_]
        split_ifs
        · simp only [EventHub.TimeoutRemove, EventHub.update_current_fd_, s1b]
          exact hcur
        · rw [s1b]; exact hcur
  | Destroy =>
    simp only [Action.run, EventHub.Destroy]
    split
    · exact ⟨SameFor.refl f h, hcur⟩
    · split_ifs
      · exact ⟨SameFor.refl f h, hcur⟩
      · exact ⟨⟨Table.lookup_erase_ne _ _ _ (Ne.symm hcur), rfl, Iff.rfl, rfl, rfl, rfl⟩,
          hcur⟩

theorem SameFor_run_actions (f : Int) (acts : List Action) :
    ∀ h : EventHub, (∀ b ∈ acts, b.avoids f = true) → h.current_fd_ ≠ f →
      SameFor f h (run_actions acts h).hub := by
  induction acts with
  | nil => intro h _ _; exact SameFor.refl f h
  | cons a rest ih =>
    intro h hav hcur
    obtain ⟨s1, c1⟩ := SameFor_Action a f h (hav a (List.mem_cons_self _ _)) hcur
    simp only [run_actions]
    cases hr : a.run h with
    | ok h1 =>
      rw [hr] at s1 c1
      simp only [Result.andThen]
      exact s1.trans (ih h1 (fun b hb => hav b (List.mem_cons_of_mem _ hb)) c1)
    | raised ex h1 =>
      rw [hr] at s1
      exact s1

/-- A callback whose first call selects a descriptor other than `f`, and which never
selects `f` afterwards, leaves `f` alone. -/
theorem SameFor_selecting (f : Int) (a : Action) (acts : List Action) (h : EventHub)
    (ha : a.selects_other f = true) (hacts : ∀ b ∈ acts, b.avoids f = true) :
    SameFor f h (run_actions (a :: acts) h).hub := by
  simp only [run_actions]
  cases a with
  | SetCurrent g =>
    have hg : g ≠ f := by simpa [Action.selects_other] using ha
    have s1 := SameFor_SetCurrent f g h
    cases hr : (Action.SetCurrent g).run h with
    | ok h1 =>
      have hr2 : h.SetCurrent g = Result.ok h1 := hr
      rw [hr2] at s1
      simp only [Result.andThen]
      exact s1.trans (SameFor_run_actions f acts h1 hacts
        (by rw [SetCurrent_current_fd_ g h h1 hr2]; exact hg))
    | raised ex h1 =>
      have hr2 : h.SetCurrent g = Result.raised ex h1 := hr
      rw [hr2] at s1
      exact s1
  | CreateEmpty g cb =>
    have hg : g ≠ f := by simpa [Action.selects_other] using ha
    cases hr : (Action.CreateEmpty g cb).run h with
    | ok h1 =>
      simp only [Result.andThen]
      have hr2 : h.CreateEmpty g cb = Result.ok h1 := hr
      have hcur1 : h1.current_fd_ = g := by
        unfold EventHub.CreateEmpty at hr2
        split_ifs at hr2
        exact SetCurrent_current_fd_ g _ h1 hr2
      have s1 : SameFor f h h1 := by
        unfold EventHub.CreateEmpty at hr2
        split_ifs at hr2
        have a1 : SameFor f h
            ({ h with events := h.events.insert g { error_cb_ := cb } } : EventHub) :=
          ⟨Table.lookup_insert_ne _ _ _ _ (Ne.symm hg), rfl, Iff.rfl, rfl, rfl, rfl⟩
        have a2 := a1.trans (SameFor_SetCurrent f g _)
        rw [hr2] at a2
        exact a2
      exact s1.trans (SameFor_run_actions f acts h1 hacts (by rw [hcur1]; exact hg))
    | raised ex h1 =>
      have hr2 : h.CreateEmpty g cb = Result.raised ex h1 := hr
      simp only [Result.andThen, Result.hub]
      unfold EventHub.CreateEmpty at hr2
      split_ifs at hr2
      · cases hr2; exact SameFor.refl f h
      · cases hr2; exact SameFor.refl f h
      · cases hr2; exact SameFor.refl f h
      · have a1 : SameFor f h
            ({ h with events := h.events.insert g { error_cb_ := cb } } : EventHub) :=
          ⟨Table.lookup_insert_ne _ _ _ _ (Ne.symm hg), rfl, Iff.rfl, rfl, rfl, rfl⟩
        have a2 := a1.trans (SameFor_SetCurrent f g _)
        rw [hr2] at a2
        exact a2
  | OnRead cb => simp [Action.selects_other] at ha
  | OnWrite cb => simp [Action.selects_other] at ha
  | WithData d => simp [Action.selects_other] at ha
  | Ready t now => simp [Action.selects_other] at ha
  | Destroy => simp [Action.selects_other] at ha

/-- A program leaves `f` alone if every callback of another descriptor either makes no
call or first selects a descriptor other than `f` and never selects `f`. -/
theorem leaves_of_selecting (prog : Program) (f : Int)
    (hp : ∀ k g t d, g ≠ f → prog k g t d = [] ∨
      ∃ a acts, prog k g t d = a :: acts ∧ a.selects_other f = true ∧
        ∀ b ∈ acts, b.avoids f = true) : prog.leaves f := by
  intro k g t d h0 hg
  rcases hp k g t d hg with hnil | ⟨a, acts, hcons, ha, hacts⟩
  · rw [hnil]; exact SameFor.refl f h0
  · rw [hcons]; exact SameFor_selecting f a acts h0 ha hacts

theorem prog_rearm_leaves (f : Int) : prog_rearm.leaves f := by
  apply leaves_of_selecting
  intro k g t d hg
  by_cases hk : k = 51
  · refine Or.inr ⟨Action.SetCurrent g,
      [Action.OnRead (some 51), Action.OnWrite none, Action.Ready none 0],
      by simp [prog_rearm, hk], ?_, ?_⟩
    · simp [Action.selects_other, hg]
    · intro b hb
      simp only [List.mem_cons, List.mem_singleton, List.not_mem_nil, or_false] at hb
      rcases hb with rfl | rfl | rfl <;> rfl
  · exact Or.inl (by simp [prog_rearm, hk])

theorem prog_rearm_keeps (g : Int) (hg : 0 ≤ g) : prog_rearm.keeps g := by
  intro k t d h0 e0 hl hun
  have hng : ¬ g < 0 := not_lt.mpr hg
  by_cases hk : k = 51
  · cases hrd : e0.where_kInReady <;>
      simp [prog_rearm, hk, run_actions, Action.run, EventHub.SetCurrent, EventHub.OnRead,
        EventHub.OnWrite, EventHub.Ready, EventHub.IsInReady, EventHub.ReadyPush,
        EventHub.update, Result.andThen, hl, hun, hng, hrd, Event.pending]
  · exact ⟨h0, e0, by simp [prog_rearm, hk, run_actions], hl, hun, rfl⟩


/-! ### Callbacks that keep their descriptor -/

theorem Action_trace (a : Action) (h : EventHub) : (a.run h).hub.trace = h.trace := by
  cases a with
  | CreateEmpty fd cb =>
    simp only [Action.run, EventHub.CreateEmpty, EventHub.SetCurrent]
    split_ifs <;> try rfl
    all_goals (simp only [Table.lookup_insert]; split_ifs <;> rfl)
  | SetCurrent fd =>
    simp only [Action.run, EventHub.SetCurrent]
    split_ifs <;> try rfl
    all_goals (split <;> try rfl)
    all_goals (split_ifs <;> rfl)
  | OnRead cb =>
    simp only [Action.run, EventHub.OnRead]
    split <;> simp [Result.hub]
  | OnWrite cb =>
    simp only [Action.run, EventHub.OnWrite]
    split <;> simp [Result.hub]
  | WithData d =>
    simp only [Action.run, EventHub.WithData]
    split <;> simp [Result.hub]
  | Ready t now =>
    simp only [Action.run, EventHub.Ready]
    cases h.events.lookup h.current_fd_ with
    | none => rfl
    | some ce =>
      cases t with
      | none =>
        simp only [Result.hub]
        split_ifs <;> simp [EventHub.ReadyPush]
      | some period =>
        simp only [Result.hub]
        split_ifs <;> simp [EventHub.ReadyPush, EventHub.TimeoutPush, EventHub.TimeoutRemove]
  | Destroy =>
    simp only [Action.run, EventHub.Destroy]
    split
    · rfl
    · split_ifs <;> rfl

theorem run_actions_trace (acts : List Action) :
    ∀ h : EventHub, (run_actions acts h).hub.trace = h.trace ∧
      (run_actions acts h).hub.active_fds_ = h.active_fds_ := by
  induction acts with
  | nil => intro h; exact ⟨rfl, rfl⟩
  | cons a rest ih =>
    intro h
    have ht := Action_trace a h
    have haa := Action_active_fds_ a h
    simp only [run_actions]
    cases hr : a.run h with
    | ok h1 =>
      rw [hr] at ht haa
      simp only [Result.andThen]
      exact ⟨(ih h1).1.trans ht, (ih h1).2.trans haa⟩
    | raised ex h1 =>
      rw [hr] at ht haa
      exact ⟨ht, haa⟩

/-- One guarded callback invocation for a descriptor whose callbacks keep it. -/
theorem guarded_call_keeps (prog : Program) (g : Int) (hk : prog.keeps g)
    (type : EventType) (guard : Event → Bool) (cb : Event → Option Nat) (h : EventHub)
    (e e0 : Event) (s : EventHub.Step)
    (heq : EventHub.guarded_call prog g type guard cb h = s)
    (hl : h.events.lookup g = some e0) (hun : e0.is_locked = false)
    (hpend : e0.pending = e.pending) (hc : guard e0 = true → cb e0 ≠ none) :
    ∃ h1 e1, s = EventHub.Step.next h1 ∧ h1.events.lookup g = some e1 ∧
      e1.is_locked = false ∧ e1.pending = e.pending ∧
      h1.trace = h.trace ++
        (if guard e0 = true then call_of (cb e0) g type e.data_ else []) ∧
      h1.active_fds_ = h.active_fds_ := by
  subst heq
  have hdata : e0.data_ = e.data_ := by
    have := congrArg (fun p => p.2.2.2.2.2) hpend
    exact this
  unfold EventHub.guarded_call
  rw [hl]
  by_cases hg : guard e0 = true
  · simp only [hg, if_true]
    obtain ⟨k, hcb⟩ := Option.ne_none_iff_exists'.mp (hc hg)
    rw [hcb]
    simp only [invoke]
    obtain ⟨h1, e1, hrun, hl1, hun1, hp1⟩ := hk k type e0.data_
      { h with trace := h.trace ++ [Obs.call k g type e0.data_] } e0 hl hun
    have htr := run_actions_trace (prog k g type e0.data_)
      { h with trace := h.trace ++ [Obs.call k g type e0.data_] }
    rw [hrun] at htr
    rw [hrun]
    simp only [Table.contains, hl1, Option.isSome_some, if_true]
    refine ⟨h1, e1, rfl, hl1, hun1, hp1.trans hpend, ?_, htr.2⟩
    have h1t : h1.trace = h.trace ++ [Obs.call k g type e0.data_] := htr.1
    rw [h1t, hdata]
    rfl
  · simp only [hg]
    refine ⟨h, e0, rfl, hl, hun, hpend, ?_, rfl⟩
    simp

/-- The deregistration at the start of a dispatch, when it does not throw. -/
theorem dereg_ok (os : OS) (h : EventHub) (g : Int) (e : Event) (c : Prop) [Decidable c]
    (hl : h.events.lookup g = some e)
    (hdel : h.sys_ev_op_ = Backend.Epoll → c → os.epoll_del_fails g = false) :
    ∃ h3, (if c then EventHub.sys_Del os h g else Result.ok h) = Result.ok h3 ∧
      h3.events = h.events ∧ h3.active_fds_ = h.active_fds_ ∧
      h3.timeout_heap_ = h.timeout_heap_ ∧ calls h3.trace = calls h.trace := by
  by_cases hc : c
  · rw [if_pos hc]
    unfold EventHub.sys_Del KQueue.Del Epoll.Del
    cases hb : h.sys_ev_op_ with
    | KQueue =>
      simp only [hl]
      exact ⟨_, rfl, rfl, rfl, rfl, by simp [calls, Obs.is_call]⟩
    | Epoll =>
      simp only [hdel hb hc]
      exact ⟨_, rfl, rfl, rfl, rfl, by simp [calls, Obs.is_call]⟩
  · rw [if_neg hc]
    exact ⟨h, rfl, rfl, rfl, rfl, rfl⟩


theorem pending_eq {e1 e : Event} (hp : e1.pending = e.pending) :
    e1.result_kWrite = e.result_kWrite ∧ e1.result_kRead = e.result_kRead ∧
    e1.result_kError = e.result_kError ∧ e1.result_kTimeout = e.result_kTimeout ∧
    e1.error_cb_ = e.error_cb_ ∧ e1.data_ = e.data_ := by
  simpa [Event.pending] using hp

theorem dereg_ok_eq (os : OS) (h : EventHub) (g : Int) (e : Event) (c : Prop) [Decidable c]
    (r : Result) (heq : (if c then EventHub.sys_Del os h g else Result.ok h) = r)
    (hl : h.events.lookup g = some e)
    (hdel : h.sys_ev_op_ = Backend.Epoll → c → os.epoll_del_fails g = false) :
    ∃ h3, r = Result.ok h3 ∧
      h3.events = h.events ∧ h3.active_fds_ = h.active_fds_ ∧
      h3.timeout_heap_ = h.timeout_heap_ ∧ calls h3.trace = calls h.trace := by
  subst heq
  exact dereg_ok os h g e c hl hdel

/-- The event of `g` when the first callback of its dispatch is about to run. -/
theorem prologue_lookup (h3 : EventHub) (g : Int) (a : Event)
    (hl : h3.events.lookup g = some a) :
    ∃ e6, ((if (h3.update g (fun e => { e with read_cb_ := none, write_cb_ := none })).IsInTimeout
          g = true
        then (h3.update g (fun e => { e with read_cb_ := none, write_cb_ := none })).TimeoutRemove g
        else h3.update g (fun e => { e with read_cb_ := none, write_cb_ := none })).update g
          (fun e => { e with is_locked := false })).events.lookup g = some e6 ∧
      e6.is_locked = false ∧ e6.pending = a.pending ∧
      ((if (h3.update g (fun e => { e with read_cb_ := none, write_cb_ := none })).IsInTimeout
          g = true
        then (h3.update g (fun e => { e with read_cb_ := none, write_cb_ := none })).TimeoutRemove g
        else h3.update g (fun e => { e with read_cb_ := none, write_cb_ := none })).update g
          (fun e => { e with is_locked := false })).active_fds_ = h3.active_fds_ ∧
      ((if (h3.update g (fun e => { e with read_cb_ := none, write_cb_ := none })).IsInTimeout
          g = true
        then (h3.update g (fun e => { e with read_cb_ := none, write_cb_ := none })).TimeoutRemove g
        else h3.update g (fun e => { e with read_cb_ := none, write_cb_ := none })).update g
          (fun e => { e with is_locked := false })).trace = h3.trace := by
  by_cases hto : (h3.update g
      (fun e => { e with read_cb_ := none, write_cb_ := none })).IsInTimeout g = true
  · rw [if_pos hto]
    refine ⟨{ a with read_cb_ := none, write_cb_ := none, where_kInTimeout := false,
                     is_locked := false }, ?_, ?_, ?_, ?_, ?_⟩
    · simp only [EventHub.update_lookup, EventHub.TimeoutRemove, hl, if_true, Option.map_some']
    · rfl
    · rfl
    · simp [EventHub.TimeoutRemove]
    · simp [EventHub.TimeoutRemove]
  · rw [if_neg hto]
    refine ⟨{ a with read_cb_ := none, write_cb_ := none, is_locked := false },
      ?_, ?_, ?_, ?_, ?_⟩
    · simp only [EventHub.update_lookup, hl, if_true, Option.map_some']
    · rfl
    · rfl
    · simp
    · simp


theorem Event.with_ready_self (e : Event) (b : Bool) (hb : e.where_kInReady = b) :
    ({ e with where_kInReady := b } : Event) = e := by
  cases e
  simp only [] at hb
  simp [hb]


/-! ## The heap algorithms keep the heap order -/

theorem swap_getD_right (data : List Int) (i j : Nat) (hj : j < data.length) :
    (swap data i j).getD j 0 = data.getD i 0 := by
  unfold swap
  simp [List.getD, List.getElem?_set_self, hj]

theorem swap_getD_left (data : List Int) (i j : Nat) (hi : i < data.length)
    (hj : j < data.length) : (swap data i j).getD i 0 = data.getD j 0 := by
  by_cases hij : i = j
  · subst hij; exact swap_getD_right data i i hj
  · unfold swap
    simp only [List.getD_eq_getElem?_getD]
    rw [List.getElem?_set_ne (Ne.symm hij), List.getElem?_set_self hi]
    rfl

theorem swap_getD_ne (data : List Int) (i j k : Nat) (hi : k ≠ i) (hj : k ≠ j) :
    (swap data i j).getD k 0 = data.getD k 0 := by
  simp only [List.getD_eq_getElem?_getD]
  rw [swap_getElem?_of_ne data i j k hi hj]

theorem sift_up_length (comp : Int → Int → Bool) (fuel : Nat) (data : List Int)
    (hole : Nat) (hh : hole < data.length) :
    (sift_up comp fuel data hole).length = data.length :=
  (sift_up_perm comp fuel data hole hh).length_eq

/-- The swap of `sift_up` moves the hole to the parent. -/
theorem but_up_swap (key : Int → Int) (len : Nat) (data : List Int) (hole : Nat)
    (hlen : len = data.length) (h0 : hole ≠ 0) (hh : hole < len)
    (hlt : key (data.getD hole 0) < key (data.getD ((hole - 1) / 2) 0))
    (hb : heap_ordered_but_up key len data hole) :
    heap_ordered_but_up key len (swap data ((hole - 1) / 2) hole) ((hole - 1) / 2) := by
  obtain ⟨hb1, hb2⟩ := hb
  have hp : (hole - 1) / 2 < data.length := by omega
  have hhd : hole < data.length := by omega
  have hph : (hole - 1) / 2 ≠ hole := by omega
  have gp : (swap data ((hole - 1) / 2) hole).getD ((hole - 1) / 2) 0 = data.getD hole 0 :=
    swap_getD_left data _ _ hp hhd
  have gh : (swap data ((hole - 1) / 2) hole).getD hole 0 = data.getD ((hole - 1) / 2) 0 :=
    swap_getD_right data _ _ hhd
  refine ⟨?_, ?_⟩
  · intro i hi0 hil hip
    by_cases hih : i = hole
    · subst hih
      rw [gp, gh]
      exact le_of_lt hlt
    · rw [swap_getD_ne data _ _ i hip hih]
      by_cases hpi : (i - 1) / 2 = hole
      · rw [hpi, gh]
        exact hb2 (by omega) i hi0 hil hpi
      · by_cases hpp : (i - 1) / 2 = (hole - 1) / 2
        · rw [hpp, gp]
          have := hb1 i hi0 hil hih
          rw [hpp] at this
          exact le_trans (le_of_lt hlt) this
        · rw [swap_getD_ne data _ _ _ hpp hpi]
          exact hb1 i hi0 hil hih
  · intro hp0 c hc0 hcl hcp
    have hpp1 : ((hole - 1) / 2 - 1) / 2 ≠ (hole - 1) / 2 := by omega
    have hpp2 : ((hole - 1) / 2 - 1) / 2 ≠ hole := by omega
    rw [swap_getD_ne data _ _ _ hpp1 hpp2]
    have hpar := hb1 ((hole - 1) / 2) hp0 (by omega) hph
    by_cases hch : c = hole
    · subst hch
      rw [gh]
      exact hpar
    · have hcp2 : c ≠ (hole - 1) / 2 := by omega
      rw [swap_getD_ne data _ _ c hcp2 hch]
      have := hb1 c hc0 hcl hch
      rw [hcp] at this
      exact le_trans hpar this

theorem sift_up_ordered (key : Int → Int) (comp : Int → Int → Bool)
    (hcomp : ∀ l r, comp l r = decide (key r < key l)) (fuel : Nat) :
    ∀ (data : List Int) (hole : Nat), hole < fuel → hole < data.length →
      heap_ordered_but_up key data.length data hole →
      heap_ordered key data.length (sift_up comp fuel data hole) := by
  induction fuel with
  | zero => intro data hole hf; omega
  | succ n ih =>
    intro data hole hf hh hb
    simp only [sift_up]
    by_cases h0 : hole = 0
    · simp only [h0, if_true]
      intro i hi0 hil
      exact hb.1 i hi0 hil (by omega)
    · simp only [h0, if_false]
      by_cases hc : comp (data.getD ((hole - 1) / 2) 0) (data.getD hole 0) = true
      · simp only [hc, if_true]
        rw [hcomp] at hc
        have hlt : key (data.getD hole 0) < key (data.getD ((hole - 1) / 2) 0) := by
          simpa using hc
        have hsw := but_up_swap key data.length data hole rfl h0 hh hlt hb
        have := ih (swap data ((hole - 1) / 2) hole) ((hole - 1) / 2) (by omega)
          (by rw [swap_length]; omega) (by rw [swap_length]; exact hsw)
        rw [swap_length] at this
        exact this
      · simp only [hc]
        rw [hcomp] at hc
        have hle : key (data.getD ((hole - 1) / 2) 0) ≤ key (data.getD hole 0) := by
          simpa using hc
        intro i hi0 hil
        by_cases hih : i = hole
        · subst hih; exact hle
        · exact hb.1 i hi0 hil hih

/-- The child chosen by `sift_down` has the least key among the children. -/
theorem larger_child_spec (key : Int → Int) (comp : Int → Int → Bool)
    (hcomp : ∀ l r, comp l r = decide (key r < key l)) (len : Nat) (data : List Int)
    (start : Nat) (h : ¬ len ≤ 2 * start + 1) :
    (larger_child comp len data start = 2 * start + 1 ∨
      larger_child comp len data start = 2 * start + 2) ∧
    larger_child comp len data start < len ∧
    ∀ d, d < len → (d = 2 * start + 1 ∨ d = 2 * start + 2) →
      key (data.getD (larger_child comp len data start) 0) ≤ key (data.getD d 0) := by
  unfold larger_child
  by_cases hc : 2 * start + 2 < len ∧
      comp (data.getD (2 * start + 1) 0) (data.getD (2 * start + 2) 0) = true
  · rw [if_pos hc]
    obtain ⟨hc1, hc2⟩ := hc
    rw [hcomp] at hc2
    have hlt : key (data.getD (2 * start + 2) 0) < key (data.getD (2 * start + 1) 0) := by
      simpa using hc2
    refine ⟨Or.inr rfl, hc1, ?_⟩
    rintro d _ (hd | hd)
    · rw [hd]; exact le_of_lt hlt
    · rw [hd]
  · rw [if_neg hc]
    refine ⟨Or.inl rfl, by omega, ?_⟩
    rintro d hdl (hd | hd)
    · rw [hd]
    · rw [hd]
      rw [hd] at hdl
      have : ¬ comp (data.getD (2 * start + 1) 0) (data.getD (2 * start + 2) 0) = true :=
        fun hx => hc ⟨hdl, hx⟩
      rw [hcomp] at this
      simpa using this

/-- The swap of `sift_down` moves the hole to the chosen child. -/
theorem but_down_swap (key : Int → Int) (len : Nat) (data : List Int) (start c : Nat)
    (hlen : len ≤ data.length) (hc : c = 2 * start + 1 ∨ c = 2 * start + 2) (hcl : c < len)
    (hmin : ∀ d, d < len → (d = 2 * start + 1 ∨ d = 2 * start + 2) →
      key (data.getD c 0) ≤ key (data.getD d 0))
    (hle : key (data.getD c 0) ≤ key (data.getD start 0))
    (hb : heap_ordered_but_down key len data start) :
    heap_ordered_but_down key len (swap data start c) c := by
  obtain ⟨hb1, hb2⟩ := hb
  have hs : start < data.length := by omega
  have hcd : c < data.length := by omega
  have hsc : start ≠ c := by omega
  have gs : (swap data start c).getD start 0 = data.getD c 0 :=
    swap_getD_left data _ _ hs hcd
  have gc : (swap data start c).getD c 0 = data.getD start 0 :=
    swap_getD_right data _ _ hcd
  have hpc : (c - 1) / 2 = start := by omega
  refine ⟨?_, ?_⟩
  · intro i hi0 hil hip
    by_cases hic : i = c
    · subst hic
      rw [hpc, gs, gc]
      exact hle
    · by_cases his : i = start
      · subst his
        have hi0' : 0 < i := hi0
        have hpi1 : (i - 1) / 2 ≠ i := by omega
        have hpi2 : (i - 1) / 2 ≠ c := by omega
        rw [gs, swap_getD_ne data _ _ _ hpi1 hpi2]
        exact hb2 hi0' c (by omega) hcl hpc
      · rw [swap_getD_ne data _ _ i his hic]
        by_cases hpi : (i - 1) / 2 = start
        · rw [hpi, gs]
          exact hmin i hil (by omega)
        · rw [swap_getD_ne data _ _ _ hpi hip]
          exact hb1 i hi0 hil hpi
  · intro _ d hd0 hdl hdp
    rw [hpc, gs]
    have hds : d ≠ start := by omega
    have hdc : d ≠ c := by omega
    rw [swap_getD_ne data _ _ d hds hdc]
    have := hb1 d hd0 hdl (by omega)
    rw [hdp] at this
    exact this

theorem sift_down_ordered (key : Int → Int) (comp : Int → Int → Bool)
    (hcomp : ∀ l r, comp l r = decide (key r < key l)) (len : Nat) (fuel : Nat) :
    ∀ (data : List Int) (start : Nat), len ≤ data.length → len ≤ start + fuel →
      heap_ordered_but_down key len data start →
      heap_ordered key len (sift_down comp fuel len data start) := by
  induction fuel with
  | zero =>
    intro data start _ hf hb
    simp only [sift_down]
    intro i hi0 hil
    exact hb.1 i hi0 hil (by omega)
  | succ n ih =>
    intro data start hlen hf hb
    simp only [sift_down]
    by_cases h1 : len ≤ 2 * start + 1
    · simp only [h1, if_true]
      intro i hi0 hil
      exact hb.1 i hi0 hil (by omega)
    · simp only [h1, if_false]
      obtain ⟨hc, hcl, hmin⟩ := larger_child_spec key comp hcomp len data start h1
      by_cases hcmp : comp (data.getD (larger_child comp len data start) 0)
          (data.getD start 0) = true
      · simp only [hcmp, if_true]
        rw [hcomp] at hcmp
        have hlt : key (data.getD start 0) <
            key (data.getD (larger_child comp len data start) 0) := by simpa using hcmp
        intro i hi0 hil
        by_cases hpi : (i - 1) / 2 = start
        · rw [hpi]
          exact le_trans (le_of_lt hlt) (hmin i hil (by omega))
        · exact hb.1 i hi0 hil hpi
      · simp only [hcmp]
        rw [hcomp] at hcmp
        have hle : key (data.getD (larger_child comp len data start) 0) ≤
            key (data.getD start 0) := by simpa using hcmp
        have hsw := but_down_swap key len data start _ hlen hc hcl hmin hle hb
        exact ih _ _ (by rw [swap_length]; exact hlen) (by omega) hsw

theorem heap_ordered_root (key : Int → Int) (len : Nat) (data : List Int)
    (ho : heap_ordered key len data) :
    ∀ i, i < len → key (data.getD 0 0) ≤ key (data.getD i 0) := by
  intro i
  induction i using Nat.strong_induction_on with
  | _ i ih =>
    intro hil
    by_cases hi0 : i = 0
    · subst hi0; exact le_refl _
    · exact le_trans (ih ((i - 1) / 2) (by omega) (by omega)) (ho i (by omega) hil)


theorem stamp_greater_eq (events : Table) (l r : Int) :
    stamp_greater events l r = decide (stamp events r < stamp events l) := rfl

namespace EventMinHeap

theorem length_Push (events : Table) (data : List Int) (fd : Int) :
    (Push events data fd).length = data.length + 1 := by
  simp [Push, (push_heap_perm (stamp_greater events) (data ++ [fd])).length_eq]

/-- The method `Push` keeps the heap order. -/
theorem Push_ordered (events : Table) (data : List Int) (fd : Int)
    (ho : heap_ordered (stamp events) data.length data) :
    heap_ordered (stamp events) (data.length + 1) (Push events data fd) := by
  unfold Push push_heap
  have hl : (data ++ [fd]).length = data.length + 1 := by simp
  have hb : heap_ordered_but_up (stamp events) (data ++ [fd]).length (data ++ [fd])
      ((data ++ [fd]).length - 1) := by
    rw [hl]
    refine ⟨?_, ?_⟩
    · intro i hi0 hil hne
      have hi : i < data.length := by omega
      have hp : (i - 1) / 2 < data.length := by omega
      rw [List.getD_append _ _ _ _ hi, List.getD_append _ _ _ _ hp]
      exact ho i hi0 hi
    · intro h0 c hc0 hcl hcp
      omega
  have := sift_up_ordered (stamp events) (stamp_greater events) (stamp_greater_eq events)
    (data ++ [fd]).length (data ++ [fd]) ((data ++ [fd]).length - 1) (by rw [hl]; omega)
    (by rw [hl]; omega) hb
  rw [hl]
  rw [hl] at this
  exact this

theorem getD_dropLast (l : List Int) (i : Nat) (hi : i < l.length - 1) :
    l.dropLast.getD i 0 = l.getD i 0 := by
  simp only [List.getD_eq_getElem?_getD]
  rw [List.dropLast_eq_take, List.getElem?_take_of_lt hi]

/-- The method `Pop` keeps the heap order. -/
theorem Pop_ordered (events : Table) (data : List Int)
    (ho : heap_ordered (stamp events) data.length data) :
    heap_ordered (stamp events) (data.length - 1) (Pop events data) := by
  unfold Pop pop_heap
  by_cases hlen : data.length ≤ 1
  · intro i hi0 hil
    omega
  · rw [if_neg hlen]
    have hsl : (swap data 0 (data.length - 1)).length = data.length := swap_length _ _ _
    have hb : heap_ordered_but_down (stamp events) (data.length - 1)
        (swap data 0 (data.length - 1)) 0 := by
      refine ⟨?_, ?_⟩
      · intro i hi0 hil hp
        rw [swap_getD_ne data _ _ i (by omega) (by omega),
          swap_getD_ne data _ _ _ hp (by omega)]
        exact ho i hi0 (by omega)
      · intro h0
        omega
    have hs := sift_down_ordered (stamp events) (stamp_greater events)
      (stamp_greater_eq events) (data.length - 1) data.length
      (swap data 0 (data.length - 1)) 0 (by rw [hsl]; omega) (by omega) hb
    have hlen2 : (sift_down (stamp_greater events) data.length (data.length - 1)
        (swap data 0 (data.length - 1)) 0).length = data.length := by
      rw [(sift_down_perm _ _ _ _ _ (by rw [hsl]; omega)).length_eq, hsl]
    intro i hi0 hil
    rw [getD_dropLast _ i (by rw [hlen2]; exact hil),
      getD_dropLast _ _ (by rw [hlen2]; omega)]
    exact hs i hi0 hil

theorem push_all_append (events : Table) (fds : List Int) (fd : Int) :
    push_all events (fds ++ [fd]) = Push events (push_all events fds) fd := by
  simp [push_all, List.foldl_append]

/-- Pushing any descriptors onto an empty heap gives a heap in heap order that holds
exactly the pushed descriptors. -/
theorem push_all_spec (events : Table) (fds : List Int) :
    (push_all events fds).Perm fds ∧
    heap_ordered (stamp events) (push_all events fds).length (push_all events fds) := by
  induction fds using List.reverseRecOn with
  | nil =>
    refine ⟨List.Perm.refl _, ?_⟩
    intro i hi0 hil
    simp [push_all] at hil
  | append_singleton fds fd ih =>
    rw [push_all_append]
    refine ⟨?_, ?_⟩
    · unfold Push
      exact (push_heap_perm _ _).trans (List.Perm.append_right _ ih.1)
    · rw [length_Push]
      exact Push_ordered events _ fd ih.2

theorem mem_drain (events : Table) (n : Nat) :
    ∀ (data : List Int) (x : Int), x ∈ drain events n data → x ∈ data := by
  induction n with
  | zero => intro data x hx; simp [drain] at hx
  | succ n ih =>
    intro data x hx
    simp only [drain] at hx
    cases ht : Top data with
    | none => rw [ht] at hx; simp at hx
    | some top =>
      rw [ht] at hx
      simp only [List.mem_cons] at hx
      rcases hx with hx | hx
      · rw [hx]; exact Top_mem _ _ ht
      · exact mem_of_mem_Pop events data x (ih _ x hx)

/-- The descriptor read by `Top()` followed by the heap after `Pop()` is the heap. -/
theorem Top_cons_Pop_perm (events : Table) (data : List Int) (top : Int)
    (ht : Top data = some top) : (top :: Pop events data).Perm data := by
  have hp := pop_heap_perm (stamp_greater events) data
  have hlast : (pop_heap (stamp_greater events) data).getLast? = some top := by
    rw [pop_heap_getLast?]; exact ht
  have hsplit : pop_heap (stamp_greater events) data =
      (pop_heap (stamp_greater events) data).dropLast ++ [top] := by
    have hne : pop_heap (stamp_greater events) data ≠ [] := by
      intro hnil
      rw [hnil] at hlast
      simp at hlast
    have := List.dropLast_append_getLast hne
    rw [List.getLast?_eq_getLast _ hne] at hlast
    rw [Option.some.inj hlast] at this
    exact this.symm
  unfold Pop
  have h1 : (top :: (pop_heap (stamp_greater events) data).dropLast).Perm
      ((pop_heap (stamp_greater events) data).dropLast ++ [top]) :=
    (List.perm_append_singleton top _).symm
  rw [← hsplit] at h1
  exact h1.trans hp

theorem drain_perm (events : Table) (n : Nat) :
    ∀ data : List Int, data.length ≤ n → (drain events n data).Perm data := by
  induction n with
  | zero =>
    intro data hl
    have : data = [] := List.length_eq_zero.mp (Nat.le_zero.mp hl)
    subst this
    exact List.Perm.refl _
  | succ n ih =>
    intro data hl
    simp only [drain]
    cases ht : Top data with
    | none =>
      cases data with
      | nil => exact List.Perm.refl _
      | cons x rest => simp [Top] at ht
    | some top =>
      simp only []
      have h1 := ih (Pop events data) (by rw [length_Pop]; omega)
      exact (List.Perm.cons top h1).trans (Top_cons_Pop_perm events data top ht)

theorem drain_sorted (events : Table) (n : Nat) :
    ∀ data : List Int, heap_ordered (stamp events) data.length data →
      (drain events n data).Pairwise (fun a b => stamp events a ≤ stamp events b) := by
  induction n with
  | zero => intro data _; exact List.Pairwise.nil
  | succ n ih =>
    intro data ho
    simp only [drain]
    cases ht : Top data with
    | none => exact List.Pairwise.nil
    | some top =>
      simp only []
      refine List.Pairwise.cons ?_ ?_
      · intro b hb
        have hbd : b ∈ data := mem_of_mem_Pop events data b (mem_drain events n _ b hb)
        obtain ⟨i, hi, hib⟩ := List.getElem_of_mem hbd
        have hroot := heap_ordered_root (stamp events) data.length data ho i hi
        have h0 : data.getD 0 0 = top := by
          cases data with
          | nil => simp [Top] at ht
          | cons x rest =>
            simp only [Top, List.head?_cons, Option.some.injEq] at ht
            simp [ht]
        have hi2 : data.getD i 0 = b := by
          simp [List.getD_eq_getElem?_getD, List.getElem?_eq_getElem hi, hib]
        rw [h0, hi2] at hroot
        exact hroot
      · have := ih (Pop events data) (by
          rw [length_Pop]
          exact Pop_ordered events data ho)
        exact this

theorem length_iterate_Pop (events : Table) (k : Nat) :
    ∀ data : List Int, ((Pop events)^[k] data).length = data.length - k := by
  induction k with
  | zero => intro data; rfl
  | succ k ih =>
    intro data
    rw [Function.iterate_succ_apply, ih, length_Pop]
    omega

end EventMinHeap


/-! ## The wait passed to the poll, and the table lookups of the timeout loop -/

theorem Consistent.heap_tracked {h : EventHub} (hc : Consistent h) (g : Int)
    (hg : g ∈ h.timeout_heap_) : h.events.lookup g ≠ none :=
  IsInTimeout_tracked h g ((hc.heap_flag g).mp hg)

theorem Consistent.ready_tracked {h : EventHub} (hc : Consistent h) (g : Int)
    (hg : g ∈ h.ready_fds_) : h.events.lookup g ≠ none :=
  IsInReady_tracked h g ((hc.ready_flag g).mp hg)

theorem stamp_of_lookup (events : Table) (fd : Int) (e : Event)
    (hl : events.lookup fd = some e) : stamp events fd = e.timeout_stamp_ := by
  simp [stamp, hl]

/-- With the root of the heap tracked, the wait of `LoopOnce` is `wait_bound`. -/
theorem CalculateWaittingTime_eq (os : OS) (h : EventHub) (can_block : Bool)
    (htop : ∀ top, EventMinHeap.Top h.timeout_heap_ = some top →
      h.events.lookup top ≠ none) :
    (if can_block = true then EventHub.CalculateWaittingTime os h else Except.ok 0)
      = Except.ok (wait_bound h can_block os.now_wait) := by
  cases can_block with
  | false => simp [wait_bound]
  | true =>
    simp only [if_true, EventHub.CalculateWaittingTime, wait_bound]
    cases ht : EventMinHeap.Top h.timeout_heap_ with
    | none => rfl
    | some top =>
      cases hl : h.events.lookup top with
      | none => exact absurd hl (htop top ht)
      | some ev =>
        simp only [stamp_of_lookup _ _ _ hl]
        split_ifs with hle <;> simp [hl, hle]

theorem wait_bound_nonneg (h : EventHub) (can_block : Bool) (now : Int) :
    0 ≤ wait_bound h can_block now := by
  unfold wait_bound
  split_ifs
  · split
    · exact le_refl 0
    · split_ifs with hle
      · exact le_refl 0
      · rw [Int.tdiv_eq_ediv (by omega) (by decide)]
        exact Int.ediv_nonneg (by omega) (by decide)
  · exact le_refl 0

/-- The wait is the remaining time rounded down to whole seconds. -/
theorem wait_bound_floor (h : EventHub) (now : Int) (top : Int)
    (ht : EventMinHeap.Top h.timeout_heap_ = some top) (hlt : now < stamp h.events top) :
    wait_bound h true now * ticks_per_second ≤ stamp h.events top - now ∧
    stamp h.events top - now < (wait_bound h true now + 1) * ticks_per_second := by
  have hnle : ¬ stamp h.events top ≤ now := by omega
  simp only [wait_bound, if_true, ht, hnle, if_false]
  rw [Int.tdiv_eq_ediv (by omega) (by decide)]
  simp only [ticks_per_second]
  omega

theorem sys_Del_in_range (os : OS) (h : EventHub) (fd : Int)
    (htr : h.events.lookup fd ≠ none) :
    (EventHub.sys_Del os h fd).exception ≠ some Exception.out_of_range := by
  unfold EventHub.sys_Del KQueue.Del Epoll.Del
  cases h.sys_ev_op_ <;> simp only []
  · cases hl : h.events.lookup fd with
    | none => exact absurd hl htr
    | some e => simp [Result.exception]
  · split_ifs <;> simp [Result.exception]

/-- The timeout loop finds every descriptor it looks up: it does not end with the
exception of `events.at`. -/
theorem CheckTimeout_in_range (os : OS) (n : Nat) :
    ∀ h : EventHub, Consistent h →
      (EventHub.CheckTimeoutEvents_loop os n h).exception ≠ some Exception.out_of_range := by
  induction n with
  | zero =>
    intro h hc
    unfold EventHub.CheckTimeoutEvents_loop
    split
    · simp [Result.exception]
    · rename_i top htop
      split
      · rename_i hnone
        exact absurd hnone (hc.heap_tracked top (EventMinHeap.Top_mem _ _ htop))
      · split_ifs <;> simp [Result.exception]
  | succ n ih =>
    intro h hc
    have key : ∀ r, EventHub.CheckTimeoutEvents_loop os (n + 1) h = r →
        r.exception ≠ some Exception.out_of_range := by
      intro r hr
      simp only [EventHub.CheckTimeoutEvents_loop] at hr
      split at hr
      · subst hr; simp [Result.exception]
      · rename_i top htop
        split at hr
        · rename_i hnone
          exact absurd hnone (hc.heap_tracked top (EventMinHeap.Top_mem _ _ htop))
        · split_ifs at hr with hlater hact hcb
          · subst hr; simp [Result.exception]
          · subst hr
            exact ih _ (Consistent_update _ top _ (by intro _; rfl) (by intro _; rfl)
              (Consistent_TimeoutPop h top htop hc))
          · have hd := Consistent_sys_Del os _ top (Consistent_TimeoutPop h top htop hc)
            have hx := sys_Del_in_range os
              (({ h with timeout_heap_ := EventMinHeap.Pop h.events h.timeout_heap_ } :
                EventHub).update top (fun e => { e with where_kInTimeout := false })) top
              ((update_tracked _ _ _ _).mpr
                (hc.heap_tracked top (EventMinHeap.Top_mem _ _ htop)))
            split at hr
            · rename_i hdel
              rw [hdel] at hx
              subst hr
              exact hx
            · rename_i hdel
              rw [hdel] at hd
              subst hr
              exact ih _ (Consistent_ActivePush _ top
                (Consistent_update _ top _ (by intro _; rfl) (by intro _; rfl) hd))
          · simp only [] at hr
            subst hr
            exact ih _ (Consistent_ActivePush _ top
              (Consistent_update _ top _ (by intro _; rfl) (by intro _; rfl)
                (Consistent_TimeoutPop h top htop hc)))
    exact key _ rfl

/-! ## The state a dispatch leaves its descriptor in -/

theorem respects_inert (g : Int) : Program.inert.respects g := by
  intro k t d h0
  exact SameFor.refl g h0

theorem prog_accept_respects (g : Int) (hg : g ≠ 6) : prog_accept.respects g := by
  intro k t d h0
  by_cases hk : k = 51
  · have hp : prog_accept k g t d =
        Action.CreateEmpty 6 (some 60) :: [Action.OnRead (some 61), Action.Ready none 0] := by
      simp [prog_accept, hk]
    rw [hp]
    refine SameFor_selecting g _ _ h0 ?_ ?_
    · simp [Action.selects_other, Ne.symm hg]
    · intro b hb
      simp only [List.mem_cons, List.mem_singleton, List.not_mem_nil, or_false] at hb
      rcases hb with rfl | rfl <;> rfl
  · have hp : prog_accept k g t d = [] := by simp [prog_accept, hk]
    rw [hp]
    exact SameFor.refl g h0

theorem prog_accept_leaves (f : Int) (hf : f ≠ 6) : prog_accept.leaves f := by
  apply leaves_of_selecting
  intro k g t d _
  by_cases hk : k = 51
  · refine Or.inr ⟨Action.CreateEmpty 6 (some 60),
      [Action.OnRead (some 61), Action.Ready none 0], by simp [prog_accept, hk], ?_, ?_⟩
    · simp [Action.selects_other, Ne.symm hf]
    · intro b hb
      simp only [List.mem_cons, List.mem_singleton, List.not_mem_nil, or_false] at hb
      rcases hb with rfl | rfl <;> rfl
  · exact Or.inl (by simp [prog_accept, hk])

/-- One guarded callback invocation for a descriptor whose callbacks respect it: the
event is as before, and the invocation either returns to the dispatch or throws. -/
theorem guarded_call_respects (prog : Program) (g : Int) (hk : prog.respects g)
    (type : EventType) (guard : Event → Bool) (cb : Event → Option Nat) (h : EventHub)
    (e0 : Event) (s : EventHub.Step)
    (heq : EventHub.guarded_call prog g type guard cb h = s)
    (hl : h.events.lookup g = some e0) :
    s.hub.events.lookup g = some e0 ∧
      s.hub.active_fds_.count g = h.active_fds_.count g ∧
      ((∃ h1, s = EventHub.Step.next h1) ∨ ∃ ex h1, s = EventHub.Step.raised ex h1) := by
  subst heq
  unfold EventHub.guarded_call
  rw [hl]
  by_cases hg : guard e0 = true
  · simp only [hg, if_true]
    cases hcb : cb e0 with
    | none =>
      simp only [invoke]
      exact ⟨hl, rfl, Or.inr ⟨_, _, rfl⟩⟩
    | some k =>
      simp only [invoke]
      have hs := hk k type e0.data_
        { h with trace := h.trace ++ [Obs.call k g type e0.data_] }
      cases hrun : run_actions (prog k g type e0.data_)
          { h with trace := h.trace ++ [Obs.call k g type e0.data_] } with
      | raised ex h1 =>
        rw [hrun] at hs
        exact ⟨hs.lookup.trans hl, hs.active, Or.inr ⟨ex, h1, rfl⟩⟩
      | ok h1 =>
        rw [hrun] at hs
        have hl1 : h1.events.lookup g = some e0 := hs.lookup.trans hl
        simp only [Table.contains, hl1, Option.isSome_some, if_true]
        exact ⟨hl1, hs.active, Or.inl ⟨h1, rfl⟩⟩
  · simp only [hg]
    exact ⟨hl, rfl, Or.inl ⟨h, rfl⟩⟩

/-- The event of `g` when the first callback of its dispatch is about to run. -/
theorem prologue_event (h3 : EventHub) (g : Int) (a : Event)
    (hl : h3.events.lookup g = some a) :
    ((if (h3.update g (fun e => { e with read_cb_ := none, write_cb_ := none })).IsInTimeout
          g = true
        then (h3.update g (fun e => { e with read_cb_ := none, write_cb_ := none })).TimeoutRemove g
        else h3.update g (fun e => { e with read_cb_ := none, write_cb_ := none })).update g
          (fun e => { e with is_locked := false })).events.lookup g =
      some { a with read_cb_ := none, write_cb_ := none, where_kInTimeout := false,
                    is_locked := false } ∧
    ((if (h3.update g (fun e => { e with read_cb_ := none, write_cb_ := none })).IsInTimeout
          g = true
        then (h3.update g (fun e => { e with read_cb_ := none, write_cb_ := none })).TimeoutRemove g
        else h3.update g (fun e => { e with read_cb_ := none, write_cb_ := none })).update g
          (fun e => { e with is_locked := false })).active_fds_ = h3.active_fds_ := by
  by_cases hto : (h3.update g
      (fun e => { e with read_cb_ := none, write_cb_ := none })).IsInTimeout g = true
  · rw [if_pos hto]
    refine ⟨?_, ?_⟩
    · simp only [EventHub.update_lookup, EventHub.TimeoutRemove, hl, if_true, Option.map_some']
    · simp [EventHub.TimeoutRemove]
  · rw [if_neg hto]
    have hf : a.where_kInTimeout = false := by
      simp only [EventHub.IsInTimeout, EventHub.update_lookup, hl, if_true,
        Option.map_some'] at hto
      simpa using hto
    refine ⟨?_, ?_⟩
    · simp only [EventHub.update_lookup, hl, if_true, Option.map_some']
      cases a
      simp only [] at hf
      simp [hf]
    · simp

/-- The iteration of the dispatch loop for a descriptor whose callbacks respect it:
either the loop goes on with the rest of the queue, the event being the dispatched one,
or one of the callbacks threw and the exception ends the loop, the event being the one
in the middle of its dispatch. -/
theorem Response_step_respects (prog : Program) (os : OS) (n : Nat) (h : EventHub)
    (g : Int) (rest : List Int) (e : Event) (hk : prog.respects g)
    (ha : h.active_fds_ = g :: rest) (hg : h.events.lookup g = some e)
    (hdel : h.sys_ev_op_ = Backend.Epoll → e.write_cb_ ≠ none ∨ e.read_cb_ ≠ none →
      os.epoll_del_fails g = false) :
    (∃ h1, EventHub.ResponseActiveEvents_loop prog os (n + 1) h =
        EventHub.ResponseActiveEvents_loop prog os n h1 ∧
      h1.active_fds_.count g = rest.count g ∧
      h1.events.lookup g = some e.dispatched) ∨
    (∃ ex h1, EventHub.ResponseActiveEvents_loop prog os (n + 1) h = Result.raised ex h1 ∧
      h1.active_fds_.count g = rest.count g ∧
      h1.events.lookup g = some e.dispatching) := by
  have key : ∀ r, EventHub.ResponseActiveEvents_loop prog os (n + 1) h = r →
      (∃ h1, r = EventHub.ResponseActiveEvents_loop prog os n h1 ∧
        h1.active_fds_.count g = rest.count g ∧
        h1.events.lookup g = some e.dispatched) ∨
      (∃ ex h1, r = Result.raised ex h1 ∧
        h1.active_fds_.count g = rest.count g ∧
        h1.events.lookup g = some e.dispatching) := by
    intro r hr
    simp only [EventHub.ResponseActiveEvents_loop, ha] at hr
    have hl1 : ({ h with active_fds_ := rest } : EventHub).events.lookup g = some e := hg
    have ha1 : ({ h with active_fds_ := rest } : EventHub).active_fds_ = rest := rfl
    have hb1 : ({ h with active_fds_ := rest } : EventHub).sys_ev_op_ = h.sys_ev_op_ := rfl
    generalize ({ h with active_fds_ := rest } : EventHub) = h1 at hr hl1 ha1 hb1
    split at hr
    · rename_i hnone
      rw [hg] at hnone
      cases hnone
    · have hl2 : (h1.update g (fun e => { e with where_kInActive := false })).events.lookup g =
          some { e with where_kInActive := false } := by
        simp only [EventHub.update_lookup, hl1, if_true, Option.map_some']
      have ha2 : (h1.update g (fun e => { e with where_kInActive := false })).active_fds_ =
          rest := by rw [EventHub.update_active_fds_]; exact ha1
      have hb2 : (h1.update g (fun e => { e with where_kInActive := false })).sys_ev_op_ =
          h.sys_ev_op_ := by rw [EventHub.update_sys_ev_op_]; exact hb1
      generalize h1.update g (fun e => { e with where_kInActive := false }) = h2
        at hr hl2 ha2 hb2
      split at hr
      · rename_i hnone
        rw [hl2] at hnone
        cases hnone
      · rename_i cur hcur
        have hce : cur = { e with where_kInActive := false } := by
          rw [hl2] at hcur
          exact (Option.some.inj hcur).symm
        subst hce
        split at hr
        · rename_i ex h3 hD
          obtain ⟨h3', hd, _⟩ := dereg_ok_eq os h2 g _ _ _ hD hl2
            (fun hb hc => hdel (hb2 ▸ hb) hc)
          cases hd
        · rename_i h3 hD
          obtain ⟨h3', hd, hev3, hact3, _, _⟩ := dereg_ok_eq os h2 g _ _ _ hD hl2
            (fun hb hc => hdel (hb2 ▸ hb) hc)
          cases hd
          have hl3 : h3.events.lookup g = some { e with where_kInActive := false } := by
            rw [hev3]; exact hl2
          obtain ⟨hl6, hact6⟩ := prologue_event h3 g _ hl3
          have hc6 : ∀ c : Nat, c = h3.active_fds_.count g → c = rest.count g := by
            intro c hc
            rw [hc, hact3, ha2]
          split at hr
          · rename_i ex h7 hG
            obtain ⟨hl7, hact7, _⟩ := guarded_call_respects prog g hk _ _ _ _ _ _ hG hl6
            exact Or.inr ⟨ex, h7, hr.symm, hc6 _ (hact7.trans (by rw [hact6])), hl7⟩
          · rename_i hG
            obtain ⟨_, _, hs⟩ := guarded_call_respects prog g hk _ _ _ _ _ _ hG hl6
            rcases hs with ⟨_, hs⟩ | ⟨_, _, hs⟩ <;> cases hs
          · rename_i h7 hG
            obtain ⟨hl7, hact7, _⟩ := guarded_call_respects prog g hk _ _ _ _ _ _ hG hl6
            have hl7 : h7.events.lookup g = _ := hl7
            have hact7 : h7.active_fds_.count g = _ := hact7
            split at hr
            · rename_i ex h8 hG2
              obtain ⟨hl8, hact8, _⟩ := guarded_call_respects prog g hk _ _ _ _ _ _ hG2 hl7
              exact Or.inr ⟨ex, h8, hr.symm,
                hc6 _ (hact8.trans (hact7.trans (by rw [hact6]))), hl8⟩
            · rename_i hG2
              obtain ⟨_, _, hs⟩ := guarded_call_respects prog g hk _ _ _ _ _ _ hG2 hl7
              rcases hs with ⟨_, hs⟩ | ⟨_, _, hs⟩ <;> cases hs
            · rename_i h8 hG2
              obtain ⟨hl8, hact8, _⟩ := guarded_call_respects prog g hk _ _ _ _ _ _ hG2 hl7
              have hl8 : h8.events.lookup g = _ := hl8
              have hact8 : h8.active_fds_.count g = _ := hact8
              split at hr
              · rename_i ex h9 hG3
                obtain ⟨hl9, hact9, _⟩ := guarded_call_respects prog g hk _ _ _ _ _ _ hG3
                  hl8
                exact Or.inr ⟨ex, h9, hr.symm,
                  hc6 _ (hact9.trans (hact8.trans (hact7.trans (by rw [hact6])))), hl9⟩
              · rename_i hG3
                obtain ⟨_, _, hs⟩ := guarded_call_respects prog g hk _ _ _ _ _ _ hG3 hl8
                rcases hs with ⟨_, hs⟩ | ⟨_, _, hs⟩ <;> cases hs
              · rename_i h9 hG3
                obtain ⟨hl9, hact9, _⟩ := guarded_call_respects prog g hk _ _ _ _ _ _ hG3
                  hl8
                have hl9 : h9.events.lookup g = _ := hl9
                have hact9 : h9.active_fds_.count g = _ := hact9
                split at hr
                · rename_i ex h10 hG4
                  obtain ⟨hl10, hact10, _⟩ := guarded_call_respects prog g hk _ _ _ _ _ _
                    hG4 hl9
                  exact Or.inr ⟨ex, h10, hr.symm,
                    hc6 _ (hact10.trans (hact9.trans (hact8.trans (hact7.trans
                      (by rw [hact6]))))), hl10⟩
                · rename_i hG4
                  obtain ⟨_, _, hs⟩ := guarded_call_respects prog g hk _ _ _ _ _ _ hG4 hl9
                  rcases hs with ⟨_, hs⟩ | ⟨_, _, hs⟩ <;> cases hs
                · rename_i h10 hG4
                  obtain ⟨hl10, hact10, _⟩ := guarded_call_respects prog g hk _ _ _ _ _ _
                    hG4 hl9
                  have hl10 : h10.events.lookup g = _ := hl10
                  have hact10 : h10.active_fds_.count g = _ := hact10
                  refine Or.inl ⟨_, hr.symm, ?_, ?_⟩
                  · rw [EventHub.update_active_fds_]
                    exact hc6 _ (hact10.trans (hact9.trans (hact8.trans (hact7.trans
                      (by rw [hact6])))))
                  · simp only [EventHub.update_lookup, hl10, if_true, Option.map_some']
                    rfl
  exact key _ rfl

/-! ## The timeout loop on a heap in deadline order -/

namespace EventHub

/-- The iteration of the timeout loop that pops an expired root not yet awaiting
dispatch, on either backend, when the deregistration does not throw. -/
theorem CheckTimeout_step_push_any (os : OS) (n : Nat) (h : EventHub) (top : Int)
    (e : Event) (ht : EventMinHeap.Top h.timeout_heap_ = some top)
    (hg : h.events.lookup top = some e) (hexp : e.timeout_stamp_ ≤ os.now_check)
    (ha : e.where_kInActive = false)
    (hdel : h.sys_ev_op_ = Backend.Epoll → os.epoll_del_fails top = false) :
    CheckTimeoutEvents_loop os (n + 1) h = CheckTimeoutEvents_loop os n
      { h with
        timeout_heap_ := EventMinHeap.Pop h.events h.timeout_heap_
        registered_event_count_ :=
          if e.has_callback = true then h.registered_event_count_ - 1
          else h.registered_event_count_
        trace := if e.has_callback = true then h.trace ++ [Obs.del top true] else h.trace
        active_fds_ := h.active_fds_ ++ [top]
        events := h.events.insert top
          { e with where_kInTimeout := false, where_kInActive := true,
                   result_kWrite := false, result_kRead := false,
                   result_kTimeout := true, result_kError := false } } := by
  have hor : h.sys_ev_op_ = Backend.KQueue ∨ h.sys_ev_op_ = Backend.Epoll := by
    cases h.sys_ev_op_ <;> simp
  rcases hor with hb | hb
  · exact CheckTimeout_step_push os n h top e hb ht hg hexp ha
  · have hnl : ¬ os.now_check < e.timeout_stamp_ := not_lt.mpr hexp
    have hd := hdel hb
    cases hw : e.write_cb_ <;> cases hrd : e.read_cb_ <;>
      simp [CheckTimeoutEvents_loop, ht, hg, hnl, update, IsInActive, ha, Event.result_reset,
        hw, hrd, Event.has_callback, sys_Del, Epoll.Del, hb, hd, ActivePush]

end EventHub

/-- What one iteration of the timeout loop that pops an expired root leaves. -/
theorem CheckTimeout_iter (os : OS) (n : Nat) (h : EventHub) (top : Int) (e : Event)
    (ht : EventMinHeap.Top h.timeout_heap_ = some top) (hg : h.events.lookup top = some e)
    (hexp : e.timeout_stamp_ ≤ os.now_check)
    (hdel : h.sys_ev_op_ = Backend.Epoll → os.epoll_del_fails top = false) :
    ∃ h1, EventHub.CheckTimeoutEvents_loop os (n + 1) h =
        EventHub.CheckTimeoutEvents_loop os n h1 ∧
      h1.timeout_heap_ = EventMinHeap.Pop h.events h.timeout_heap_ ∧
      h1.ready_fds_ = h.ready_fds_ ∧ h1.sys_ev_op_ = h.sys_ev_op_ ∧
      (∀ x, x ≠ top → h1.events.lookup x = h.events.lookup x) ∧
      h1.events.lookup top = some
        { e with where_kInTimeout := false, where_kInActive := true,
                 result_kWrite := false, result_kRead := false,
                 result_kTimeout := true, result_kError := false } ∧
      (∀ x ∈ h.active_fds_, x ∈ h1.active_fds_) ∧
      (e.where_kInActive = false → top ∈ h1.active_fds_) := by
  cases ha : e.where_kInActive with
  | true =>
    refine ⟨_, EventHub.CheckTimeout_step_active os n h top e ht hg hexp ha, rfl, rfl, rfl,
      ?_, ?_, fun x hx => hx, fun hf => by cases hf⟩
    · intro x hx
      simp [Table.lookup_insert_eq, hx]
    · simp only [Table.lookup_insert_eq, if_true]
      cases e
      simp only [] at ha
      simp [ha]
  | false =>
    refine ⟨_, EventHub.CheckTimeout_step_push_any os n h top e ht hg hexp ha hdel, rfl, rfl,
      rfl, ?_, ?_, fun x hx => List.mem_append_left _ hx, fun _ => by simp⟩
    · intro x hx
      simp [Table.lookup_insert_eq, hx]
    · simp [Table.lookup_insert_eq]

/-- The root of a heap in deadline order has the least deadline. -/
theorem heap_root_least (key : Int → Int) (data : List Int) (top x : Int)
    (ho : heap_ordered key data.length data) (ht : EventMinHeap.Top data = some top)
    (hx : x ∈ data) : key top ≤ key x := by
  obtain ⟨i, hi, hxi⟩ := List.mem_iff_getElem.mp hx
  have h0 : data.getD 0 0 = top := by
    cases data with
    | nil => simp [EventMinHeap.Top] at ht
    | cons y rest =>
      simp only [EventMinHeap.Top, List.head?_cons, Option.some.injEq] at ht
      simp [ht]
  have hgi : data.getD i 0 = x := by
    simp [List.getD_eq_getElem?_getD, List.getElem?_eq_getElem hi, hxi]
  have := heap_ordered_root key data.length data ho i hi
  rw [h0, hgi] at this
  exact this

/-- The hub after one iteration of the timeout loop that pops the root. -/
theorem Consistent_popped (h h1 : EventHub) (top : Int) (e e1 : Event) (hc : Consistent h)
    (ht : EventMinHeap.Top h.timeout_heap_ = some top)
    (hg : h.events.lookup top = some e)
    (hheap : h1.timeout_heap_ = EventMinHeap.Pop h.events h.timeout_heap_)
    (hready : h1.ready_fds_ = h.ready_fds_)
    (hother : ∀ x, x ≠ top → h1.events.lookup x = h.events.lookup x)
    (htop : h1.events.lookup top = some e1) (hr : e1.where_kInReady = e.where_kInReady)
    (hto : e1.where_kInTimeout = false) : Consistent h1 := by
  refine ⟨?_, ?_, ?_, ?_⟩
  · rw [hready]; exact hc.ready_nodup
  · rw [hheap]; exact EventMinHeap.nodup_Pop _ _ hc.heap_nodup
  · intro g
    rw [hready, hc.ready_flag g]
    by_cases hgt : g = top
    · subst hgt
      simp [EventHub.IsInReady, htop, hg, hr]
    · simp [EventHub.IsInReady, hother g hgt]
  · intro g
    rw [hheap, EventMinHeap.mem_Pop _ _ top _ hc.heap_nodup ht]
    by_cases hgt : g = top
    · subst hgt
      simp [EventHub.IsInTimeout, htop, hto]
    · rw [hc.heap_flag g]
      simp [EventHub.IsInTimeout, hother g hgt, hgt]

theorem stamp_congr (t t1 : Table) (top : Int) (e e1 : Event)
    (hg : t.lookup top = some e) (htop : t1.lookup top = some e1)
    (hs : e1.timeout_stamp_ = e.timeout_stamp_)
    (hother : ∀ x, x ≠ top → t1.lookup x = t.lookup x) : stamp t1 = stamp t := by
  funext x
  by_cases hx : x = top
  · subst hx
    simp [stamp, hg, htop, hs]
  · simp [stamp, hother x hx]

/-- On a heap in deadline order the timeout loop returns, leaves in the heap only
descriptors whose deadline has not passed, with their events as before, and every
descriptor it removed had a passed deadline, has its `kInTimeout` flag cleared, the
timed-out flag set alone, and is in the dispatch queue. -/
theorem CheckTimeout_drained (os : OS) (n : Nat) :
    ∀ h : EventHub, Consistent h →
      (∀ g e, h.events.lookup g = some e → e.where_kInActive = true → g ∈ h.active_fds_) →
      heap_ordered (stamp h.events) h.timeout_heap_.length h.timeout_heap_ →
      h.timeout_heap_.length ≤ n →
      (h.sys_ev_op_ = Backend.Epoll → ∀ g ∈ h.timeout_heap_, os.epoll_del_fails g = false) →
      ∃ h1, EventHub.CheckTimeoutEvents_loop os n h = Result.ok h1 ∧
        (∀ x ∈ h1.timeout_heap_, x ∈ h.timeout_heap_ ∧ os.now_check < stamp h1.events x ∧
          h1.events.lookup x = h.events.lookup x) ∧
        (∀ x ∈ h.timeout_heap_, x ∉ h1.timeout_heap_ →
          ∃ e, h.events.lookup x = some e ∧ e.timeout_stamp_ ≤ os.now_check ∧
            h1.events.lookup x = some
              { e with where_kInTimeout := false, where_kInActive := true,
                       result_kWrite := false, result_kRead := false,
                       result_kTimeout := true, result_kError := false } ∧
            x ∈ h1.active_fds_) ∧
        (∀ x, x ∉ h.timeout_heap_ → h1.events.lookup x = h.events.lookup x) ∧
        (∀ x ∈ h.active_fds_, x ∈ h1.active_fds_) := by
  induction n with
  | zero =>
    intro h _ _ _ hlen _
    have hh : h.timeout_heap_ = [] := List.length_eq_zero.mp (by omega)
    refine ⟨h, EventHub.CheckTimeout_stop_empty os 0 h hh, ?_, ?_, fun _ _ => rfl,
      fun _ hx => hx⟩
    · intro x hx; rw [hh] at hx; cases hx
    · intro x hx; rw [hh] at hx; cases hx
  | succ n ih =>
    intro h hc hflag ho hlen hdel
    cases ht : EventMinHeap.Top h.timeout_heap_ with
    | none =>
      have hh : h.timeout_heap_ = [] := by
        cases hq : h.timeout_heap_ with
        | nil => rfl
        | cons y rest => rw [hq] at ht; simp [EventMinHeap.Top] at ht
      refine ⟨h, EventHub.CheckTimeout_stop_empty os _ h hh, ?_, ?_, fun _ _ => rfl,
        fun _ hx => hx⟩
      · intro x hx; rw [hh] at hx; cases hx
      · intro x hx; rw [hh] at hx; cases hx
    | some top =>
      have htm : top ∈ h.timeout_heap_ := EventMinHeap.Top_mem _ _ ht
      obtain ⟨e, hg⟩ := Option.ne_none_iff_exists'.mp (hc.heap_tracked top htm)
      by_cases hlater : os.now_check < e.timeout_stamp_
      · refine ⟨h, EventHub.CheckTimeout_stop_later os _ h top e ht hg hlater, ?_, ?_,
          fun _ _ => rfl, fun _ hx => hx⟩
        · intro x hx
          refine ⟨hx, ?_, rfl⟩
          have hle := heap_root_least (stamp h.events) h.timeout_heap_ top x ho ht hx
          rw [stamp_of_lookup _ _ _ hg] at hle
          omega
        · intro x hx hnx
          exact absurd hx hnx
      · have hexp : e.timeout_stamp_ ≤ os.now_check := not_lt.mp hlater
        obtain ⟨h', hstep, hheap, hready, hback, hother, htop, hact, hpush⟩ :=
          CheckTimeout_iter os n h top e ht hg hexp (fun hb => hdel hb top htm)
        have hc' : Consistent h' :=
          Consistent_popped h h' top e _ hc ht hg hheap hready hother htop rfl rfl
        have htopact : top ∈ h'.active_fds_ := by
          cases ha : e.where_kInActive with
          | true => exact hact top (hflag top e hg ha)
          | false => exact hpush ha
        have hflag' : ∀ g e1, h'.events.lookup g = some e1 → e1.where_kInActive = true →
            g ∈ h'.active_fds_ := by
          intro g e1 hl1 ha1
          by_cases hgt : g = top
          · rw [hgt]; exact htopact
          · rw [hother g hgt] at hl1
            exact hact g (hflag g e1 hl1 ha1)
        have hst : stamp h'.events = stamp h.events :=
          stamp_congr h.events h'.events top e _ hg htop rfl hother
        have hlen' : h'.timeout_heap_.length = h.timeout_heap_.length - 1 := by
          rw [hheap, EventMinHeap.length_Pop]
        have ho' : heap_ordered (stamp h'.events) h'.timeout_heap_.length h'.timeout_heap_ := by
          rw [hst, hlen', hheap]
          exact EventMinHeap.Pop_ordered h.events h.timeout_heap_ ho
        have hdel' : h'.sys_ev_op_ = Backend.Epoll →
            ∀ g ∈ h'.timeout_heap_, os.epoll_del_fails g = false := by
          intro hb g hgm
          rw [hheap] at hgm
          exact hdel (hback ▸ hb) g (EventMinHeap.mem_of_mem_Pop _ _ _ hgm)
        obtain ⟨h1, hrun, hin, hout, hframe, hact1⟩ :=
          ih h' hc' hflag' ho' (by omega) hdel'
        have hnt : top ∉ h'.timeout_heap_ := by
          rw [hheap]
          exact EventMinHeap.Top_not_mem_Pop _ _ _ hc.heap_nodup ht
        refine ⟨h1, hstep.trans hrun, ?_, ?_, ?_, fun x hx => hact1 x (hact x hx)⟩
        · intro x hx
          obtain ⟨hx', hlt, hl⟩ := hin x hx
          rw [hheap, EventMinHeap.mem_Pop _ _ top _ hc.heap_nodup ht] at hx'
          exact ⟨hx'.1, hlt, hl.trans (hother x hx'.2)⟩
        · intro x hx hnx
          by_cases hxt : x = top
          · subst hxt
            exact ⟨e, hg, hexp, (hframe x hnt).trans htop, hact1 x htopact⟩
          · have hx' : x ∈ h'.timeout_heap_ := by
              rw [hheap, EventMinHeap.mem_Pop _ _ top _ hc.heap_nodup ht]
              exact ⟨hx, hxt⟩
            obtain ⟨e2, hl2, hexp2, hl1, ha1⟩ := hout x hx' hnx
            exact ⟨e2, (hother x hxt) ▸ hl2, hexp2, hl1, ha1⟩
        · intro x hx
          have hxt : x ≠ top := fun hxt => hx (hxt ▸ htm)
          have hx' : x ∉ h'.timeout_heap_ := by
            rw [hheap]
            exact fun hm => hx (EventMinHeap.mem_of_mem_Pop _ _ _ hm)
          exact (hframe x hx').trans (hother x hxt)

/-! ## What an iteration leaves of a timer-only descriptor -/

theorem dels_for_append (x : Int) (t1 t2 : List Obs) :
    dels_for x (t1 ++ t2) = dels_for x t1 ++ dels_for x t2 := by
  simp [dels_for]

theorem StaysTimer.start (f : Int) (h : EventHub)
    (ht : (h.events.lookup f).map Event.timer = some true) : StaysTimer f h h :=
  ⟨ht, rfl, rfl⟩

theorem StaysTimer.step {f : Int} {h h1 h2 : EventHub} (a : StaysTimer f h h1)
    (b : StaysTimer f h1 h2) : StaysTimer f h h2 :=
  ⟨b.timer, b.adds.trans a.adds, b.dels.trans a.dels⟩

theorem StaysTimer_frame (f : Int) (h h1 : EventHub) (hev : h1.events = h.events)
    (htr : h1.trace = h.trace) (ht : (h.events.lookup f).map Event.timer = some true) :
    StaysTimer f h h1 :=
  ⟨by rw [hev]; exact ht, by rw [htr], by rw [htr]⟩

/-- An assignment to an event that keeps a timer-only event timer-only. -/
theorem StaysTimer_update (f y : Int) (h : EventHub) (g : Event → Event)
    (hmono : ∀ e : Event, e.timer = true → (g e).timer = true)
    (ht : (h.events.lookup f).map Event.timer = some true) :
    StaysTimer f h (h.update y g) := by
  refine ⟨?_, by rw [EventHub.update_trace], by rw [EventHub.update_trace]⟩
  rw [EventHub.update_lookup]
  split
  · rename_i hfy
    subst hfy
    cases hl : h.events.lookup f with
    | none => rw [hl] at ht; simp at ht
    | some e =>
      rw [hl] at ht
      simp only [Option.map_some', Option.some.injEq] at ht
      simp [hmono e ht]
  · exact ht

theorem StaysTimer_update_ne (f y : Int) (h : EventHub) (g : Event → Event) (hy : y ≠ f)
    (ht : (h.events.lookup f).map Event.timer = some true) :
    StaysTimer f h (h.update y g) := by
  refine ⟨?_, by rw [EventHub.update_trace], by rw [EventHub.update_trace]⟩
  rw [EventHub.update_lookup, if_neg (Ne.symm hy)]
  exact ht

theorem StaysTimer_TimeoutRemove (f y : Int) (h : EventHub)
    (ht : (h.events.lookup f).map Event.timer = some true) :
    StaysTimer f h (h.TimeoutRemove y) := by
  unfold EventHub.TimeoutRemove
  exact (StaysTimer_frame f h
    ({ h with timeout_heap_ := EventMinHeap.Remove h.timeout_heap_ y } : EventHub) rfl rfl
    ht).step (StaysTimer_update f y _ _ (by intro e he; exact he) ht)

theorem StaysTimer_ite_TimeoutRemove (f y : Int) (h : EventHub)
    (ht : (h.events.lookup f).map Event.timer = some true) :
    StaysTimer f h (if h.IsInTimeout y = true then h.TimeoutRemove y else h) := by
  split_ifs
  · exact StaysTimer_TimeoutRemove f y h ht
  · exact StaysTimer.start f h ht

theorem StaysTimer_ActivePush (f y : Int) (h : EventHub)
    (ht : (h.events.lookup f).map Event.timer = some true) :
    StaysTimer f h (h.ActivePush y) := by
  unfold EventHub.ActivePush
  exact (StaysTimer_frame f h
    ({ h with active_fds_ := h.active_fds_ ++ [y] } : EventHub) rfl rfl
    ht).step (StaysTimer_update f y _ _ (by intro e he; exact he) ht)

theorem StaysTimer_sys_Add (os : OS) (f y : Int) (h : EventHub) (hy : y ≠ f)
    (ht : (h.events.lookup f).map Event.timer = some true) :
    StaysTimer f h (EventHub.sys_Add os h y).hub := by
  have ha : ∀ b, adds_for f (h.trace ++ [Obs.add y b]) = adds_for f h.trace := by
    intro b; simp [adds_for, Obs.is_add_for, hy]
  have hd : ∀ b, dels_for f (h.trace ++ [Obs.add y b]) = dels_for f h.trace := by
    intro b; simp [dels_for, Obs.is_del_for]
  unfold EventHub.sys_Add KQueue.Add Epoll.Add
  cases h.sys_ev_op_ <;> simp only []
  · cases h.events.lookup y with
    | none => exact ⟨ht, ha _, hd _⟩
    | some ev =>
      simp only []
      split_ifs <;> exact ⟨ht, ha _, hd _⟩
  · cases h.events.lookup y with
    | none => exact ⟨ht, ha _, hd _⟩
    | some ev =>
      simp only []
      split_ifs <;> exact ⟨ht, ha _, hd _⟩

theorem StaysTimer_sys_Del (os : OS) (f y : Int) (h : EventHub) (hy : y ≠ f)
    (ht : (h.events.lookup f).map Event.timer = some true) :
    StaysTimer f h (EventHub.sys_Del os h y).hub := by
  have ha : ∀ b, adds_for f (h.trace ++ [Obs.del y b]) = adds_for f h.trace := by
    intro b; simp [adds_for, Obs.is_add_for]
  have hd : ∀ b, dels_for f (h.trace ++ [Obs.del y b]) = dels_for f h.trace := by
    intro b; simp [dels_for, Obs.is_del_for, hy]
  unfold EventHub.sys_Del KQueue.Del Epoll.Del
  cases h.sys_ev_op_ <;> simp only []
  · cases h.events.lookup y <;> exact ⟨ht, ha _, hd _⟩
  · split_ifs <;> exact ⟨ht, ha _, hd _⟩

/-- A descriptor whose event has a read or a write callback is not the timer-only one. -/
theorem ne_of_callback (f y : Int) (h : EventHub) (cur : Event)
    (ht : (h.events.lookup f).map Event.timer = some true)
    (hcur : h.events.lookup y = some cur)
    (hcb : ¬ (cur.write_cb_ = none ∧ cur.read_cb_ = none)) : y ≠ f := by
  intro hyf
  subst hyf
  rw [hcur] at ht
  simp only [Option.map_some', Option.some.injEq, Event.timer, Bool.and_eq_true,
    Option.isNone_iff_eq_none] at ht
  exact hcb ⟨ht.1.1.2, ht.1.1.1⟩

theorem StaysTimer_dereg (c : Prop) [Decidable c] (os : OS) (f y : Int) (h : EventHub)
    (r : Result) (heq : (if c then EventHub.sys_Del os h y else Result.ok h) = r)
    (hc : c → y ≠ f) (ht : (h.events.lookup f).map Event.timer = some true) :
    StaysTimer f h r.hub := by
  subst heq
  split_ifs with hcc
  · exact StaysTimer_sys_Del os f y h (hc hcc) ht
  · exact StaysTimer.start f h ht

/-- One guarded callback invocation, with callbacks that leave `f` alone. -/
theorem StaysTimer_guarded_call (prog : Program) (f y : Int)
    (hresp : ∀ k g t d h0, SameFor f h0 (run_actions (prog k g t d) h0).hub)
    (type : EventType) (guard : Event → Bool) (cb : Event → Option Nat) (h : EventHub)
    (s : EventHub.Step) (heq : EventHub.guarded_call prog y type guard cb h = s)
    (ht : (h.events.lookup f).map Event.timer = some true) : StaysTimer f h s.hub := by
  subst heq
  unfold EventHub.guarded_call
  cases hly : h.events.lookup y with
  | none => exact StaysTimer.start f h ht
  | some ev =>
    by_cases hg : guard ev = true
    · simp only [hg, if_true]
      cases hk : cb ev with
      | none => exact StaysTimer.start f h ht
      | some k =>
        simp only [invoke]
        have hs := hresp k y type ev.data_
          { h with trace := h.trace ++ [Obs.call k y type ev.data_] }
        have htr := (run_actions_trace (prog k y type ev.data_)
          { h with trace := h.trace ++ [Obs.call k y type ev.data_] }).1
        have hfin : StaysTimer f h (run_actions (prog k y type ev.data_)
            { h with trace := h.trace ++ [Obs.call k y type ev.data_] }).hub := by
          refine ⟨?_, ?_, ?_⟩
          · rw [hs.lookup]; exact ht
          · rw [htr]; simp [adds_for, Obs.is_add_for]
          · rw [htr]; simp [dels_for, Obs.is_del_for]
        cases hres : run_actions (prog k y type ev.data_)
            { h with trace := h.trace ++ [Obs.call k y type ev.data_] } with
        | ok h1 =>
          rw [hres] at hfin
          simp only []
          split_ifs <;> exact hfin
        | raised ex h1 =>
          rw [hres] at hfin
          exact hfin
    · simp only [hg]
      exact StaysTimer.start f h ht

/-- The registration loop calls neither `Add` nor `Del` for a timer-only descriptor and
leaves it timer-only. -/
theorem Preprocess_timer (os : OS) (f : Int) (n : Nat) :
    ∀ h : EventHub, (h.events.lookup f).map Event.timer = some true →
      StaysTimer f h (EventHub.PreprocessReadyEvents_loop os n h).hub := by
  induction n with
  | zero =>
    intro h ht
    unfold EventHub.PreprocessReadyEvents_loop
    split <;> exact StaysTimer.start f h ht
  | succ n ih =>
    intro h ht
    have key : ∀ r, EventHub.PreprocessReadyEvents_loop os (n + 1) h = r →
        StaysTimer f h r.hub := by
      intro r hloop
      simp only [EventHub.PreprocessReadyEvents_loop] at hloop
      split at hloop
      · subst hloop; exact StaysTimer.start f h ht
      · rename_i y rest hq
        have s1 : StaysTimer f h ({ h with ready_fds_ := rest } : EventHub) :=
          StaysTimer_frame f h _ rfl rfl ht
        generalize ({ h with ready_fds_ := rest } : EventHub) = h1 at hloop s1
        split at hloop
        · subst hloop; exact s1
        · have s2 := s1.step (StaysTimer_update f y h1
            (fun e => { e with where_kInReady := false })
            (by intro e he; simp only [Event.timer] at he ⊢; simp_all) s1.timer)
          generalize h1.update y (fun e => { e with where_kInReady := false }) = h2
            at hloop s2
          split at hloop
          · subst hloop; exact s2
          · rename_i cur hcur
            split_ifs at hloop with hnocb hto
            · subst hloop
              have s3 := s2.step (StaysTimer_TimeoutRemove f y h2 s2.timer)
              exact s3.step (ih _ s3.timer)
            · subst hloop
              exact s2.step (ih _ s2.timer)
            · have hy : y ≠ f := ne_of_callback f y h2 cur s2.timer hcur hnocb
              have s3 := s2.step (StaysTimer_update_ne f y h2
                (fun e => { e with is_locked := true }) hy s2.timer)
              generalize h2.update y (fun e => { e with is_locked := true }) = h3
                at hloop s3
              have s4 := s3.step (StaysTimer_sys_Add os f y h3 hy s3.timer)
              split at hloop
              · rename_i h4 hadd
                rw [hadd] at s4
                subst hloop
                exact s4.step (ih _ s4.timer)
              · rename_i h4 hadd
                rw [hadd] at s4
                simp only [Result.hub] at s4
                subst hloop
                have s5 := s4.step (StaysTimer_ite_TimeoutRemove f y h4 s4.timer)
                have s6 := s5.step (StaysTimer_update_ne f y _
                  (fun e => { e.result_reset with result_kError := true }) hy s5.timer)
                have s7 := s6.step (StaysTimer_ActivePush f y _ s6.timer)
                exact s7.step (ih _ s7.timer)
    exact key _ rfl

/-- The timeout loop calls neither `Add` nor `Del` for a timer-only descriptor and leaves
it timer-only. -/
theorem CheckTimeout_timer (os : OS) (f : Int) (n : Nat) :
    ∀ h : EventHub, (h.events.lookup f).map Event.timer = some true →
      StaysTimer f h (EventHub.CheckTimeoutEvents_loop os n h).hub := by
  induction n with
  | zero =>
    intro h ht
    unfold EventHub.CheckTimeoutEvents_loop
    split
    · exact StaysTimer.start f h ht
    · split
      · exact StaysTimer.start f h ht
      · split_ifs <;> exact StaysTimer.start f h ht
  | succ n ih =>
    intro h ht
    have key : ∀ r, EventHub.CheckTimeoutEvents_loop os (n + 1) h = r →
        StaysTimer f h r.hub := by
      intro r hloop
      simp only [EventHub.CheckTimeoutEvents_loop] at hloop
      split at hloop
      · subst hloop; exact StaysTimer.start f h ht
      · rename_i top htop
        split at hloop
        · subst hloop; exact StaysTimer.start f h ht
        · rename_i cur hcur
          have s1 : StaysTimer f h
              ({ h with timeout_heap_ := EventMinHeap.Pop h.events h.timeout_heap_ } :
                EventHub) := StaysTimer_frame f h _ rfl rfl ht
          have s2 := s1.step (StaysTimer_update f top _
            (fun e => { e with where_kInTimeout := false }) (by intro e he; exact he)
            s1.timer)
          split_ifs at hloop with hlater hact hcb
          · subst hloop; exact StaysTimer.start f h ht
          · subst hloop
            have s3 := s2.step (StaysTimer_update f top _
              (fun e => { e.result_reset with result_kTimeout := true })
              (by intro e he; exact he) s2.timer)
            exact s3.step (ih _ s3.timer)
          · have hy : top ≠ f := ne_of_callback f top h cur ht hcur
              (by intro hn; rcases hcb with hr | hw
                  · exact hr hn.2
                  · exact hw hn.1)
            have s3 := s2.step (StaysTimer_sys_Del os f top _ hy s2.timer)
            split at hloop
            · rename_i ex h3 hd
              rw [hd] at s3
              subst hloop
              exact s3
            · rename_i h3 hd
              rw [hd] at s3
              simp only [Result.hub] at s3
              subst hloop
              have s4 := s3.step (StaysTimer_update f top _
                (fun e => { e.result_reset with result_kTimeout := true })
                (by intro e he; exact he) s3.timer)
              have s5 := s4.step (StaysTimer_ActivePush f top _ s4.timer)
              exact s5.step (ih _ s5.timer)
          · simp only [] at hloop
            subst hloop
            have s4 := s2.step (StaysTimer_update f top _
              (fun e => { e.result_reset with result_kTimeout := true })
              (by intro e he; exact he) s2.timer)
            have s5 := s4.step (StaysTimer_ActivePush f top _ s4.timer)
            exact s5.step (ih _ s5.timer)
    exact key _ rfl

/-- The dispatch loop calls neither `Add` nor `Del` for a timer-only descriptor and leaves
it timer-only, if the callbacks leave it alone. -/
theorem Response_timer (prog : Program) (os : OS) (f : Int)
    (hresp : ∀ k g t d h0, SameFor f h0 (run_actions (prog k g t d) h0).hub) (n : Nat) :
    ∀ h : EventHub, (h.events.lookup f).map Event.timer = some true →
      StaysTimer f h (EventHub.ResponseActiveEvents_loop prog os n h).hub := by
  induction n with
  | zero =>
    intro h ht
    unfold EventHub.ResponseActiveEvents_loop
    split <;> exact StaysTimer.start f h ht
  | succ n ih =>
    intro h ht
    have key : ∀ r, EventHub.ResponseActiveEvents_loop prog os (n + 1) h = r →
        StaysTimer f h r.hub := by
      intro r hr
      simp only [EventHub.ResponseActiveEvents_loop] at hr
      split at hr
      · subst hr; exact StaysTimer.start f h ht
      · rename_i y rest hq
        have s1 : StaysTimer f h ({ h with active_fds_ := rest } : EventHub) :=
          StaysTimer_frame f h _ rfl rfl ht
        generalize ({ h with active_fds_ := rest } : EventHub) = h1 at hr s1
        split at hr
        · subst hr; exact s1
        · have s2 := s1.step (StaysTimer_update f y h1
            (fun e => { e with where_kInActive := false }) (by intro e he; exact he)
            s1.timer)
          generalize h1.update y (fun e => { e with where_kInActive := false }) = h2
            at hr s2
          split at hr
          · subst hr; exact s2
          · rename_i cur hcur
            have hyc : (cur.write_cb_ ≠ none ∨ cur.read_cb_ ≠ none) → y ≠ f := by
              intro hcb
              exact ne_of_callback f y h2 cur s2.timer hcur
                (by intro hn; rcases hcb with hw | hr
                    · exact hw hn.1
                    · exact hr hn.2)
            split at hr
            · rename_i ex h3 hD
              have s3 := s2.step (StaysTimer_dereg _ os f y h2 _ hD hyc s2.timer)
              subst hr
              exact s3
            · rename_i h3 hD
              have s3 := s2.step (StaysTimer_dereg _ os f y h2 _ hD hyc s2.timer)
              simp only [Result.hub] at s3
              have s4 := s3.step (StaysTimer_update f y h3
                (fun e => { e with read_cb_ := none, write_cb_ := none })
                (by intro e he; simp only [Event.timer] at he ⊢; simp_all) s3.timer)
              have s5 := s4.step (StaysTimer_ite_TimeoutRemove f y _ s4.timer)
              have s6 := s5.step (StaysTimer_update f y _
                (fun e => { e with is_locked := false })
                (by intro e he; simp only [Event.timer] at he ⊢; simp_all) s5.timer)
              split at hr
              · rename_i hG
                have g1 := s6.step (StaysTimer_guarded_call prog f y hresp _ _ _ _ _ hG
                  s6.timer)
                subst hr
                exact g1
              · rename_i hG
                have g1 := s6.step (StaysTimer_guarded_call prog f y hresp _ _ _ _ _ hG
                  s6.timer)
                subst hr
                exact g1
              · rename_i hG
                have g1 := s6.step (StaysTimer_guarded_call prog f y hresp _ _ _ _ _ hG
                  s6.timer)
                simp only [EventHub.Step.hub] at g1
                split at hr
                · rename_i hG2
                  have g2 := g1.step (StaysTimer_guarded_call prog f y hresp _ _ _ _ _ hG2
                    g1.timer)
                  subst hr
                  exact g2
                · rename_i hG2
                  have g2 := g1.step (StaysTimer_guarded_call prog f y hresp _ _ _ _ _ hG2
                    g1.timer)
                  subst hr
                  exact g2
                · rename_i hG2
                  have g2 := g1.step (StaysTimer_guarded_call prog f y hresp _ _ _ _ _ hG2
                    g1.timer)
                  simp only [EventHub.Step.hub] at g2
                  split at hr
                  · rename_i hG3
                    have g3 := g2.step (StaysTimer_guarded_call prog f y hresp _ _ _ _ _
                      hG3 g2.timer)
                    subst hr
                    exact g3
                  · rename_i hG3
                    have g3 := g2.step (StaysTimer_guarded_call prog f y hresp _ _ _ _ _
                      hG3 g2.timer)
                    subst hr
                    exact g3
                  · rename_i hG3
                    have g3 := g2.step (StaysTimer_guarded_call prog f y hresp _ _ _ _ _
                      hG3 g2.timer)
                    simp only [EventHub.Step.hub] at g3
                    split at hr
                    · rename_i hG4
                      have g4 := g3.step (StaysTimer_guarded_call prog f y hresp _ _ _ _ _
                        hG4 g3.timer)
                      subst hr
                      exact g4
                    · rename_i hG4
                      have g4 := g3.step (StaysTimer_guarded_call prog f y hresp _ _ _ _ _
                        hG4 g3.timer)
                      subst hr
                      exact g4
                    · rename_i hG4
                      have g4 := g3.step (StaysTimer_guarded_call prog f y hresp _ _ _ _ _
                        hG4 g3.timer)
                      simp only [EventHub.Step.hub] at g4
                      subst hr
                      have g5 := g4.step (StaysTimer_update f y _
                        (fun e => e.result_reset) (by intro e he; exact he) g4.timer)
                      exact g5.step (ih _ g5.timer)
    exact key _ rfl

theorem sys_Poll_timer (os : OS) (h : EventHub) (w : Int) (f : Int)
    (ht : (h.events.lookup f).map Event.timer = some true) :
    StaysTimer f h (EventHub.sys_Poll os h w).hub := by
  obtain ⟨_, _, htr, hp⟩ := sys_Poll_keeps Event.timer (fun _ => rfl) (fun _ => rfl)
    (fun _ => rfl) os h w
  refine ⟨(hp f).trans ht, ?_, ?_⟩
  · rw [htr]; simp [adds_for, Obs.is_add_for]
  · rw [htr]; simp [dels_for, Obs.is_del_for]

theorem PreprocessReadyEvents_timer (os : OS) (f : Int) (h : EventHub)
    (ht : (h.events.lookup f).map Event.timer = some true) :
    StaysTimer f h (h.PreprocessReadyEvents os).hub :=
  Preprocess_timer os f _ h ht

theorem CheckTimeoutEvents_timer (os : OS) (f : Int) (h : EventHub)
    (ht : (h.events.lookup f).map Event.timer = some true) :
    StaysTimer f h (h.CheckTimeoutEvents os).hub :=
  CheckTimeout_timer os f _ h ht

theorem ResponseActiveEvents_timer (prog : Program) (os : OS) (f : Int)
    (hresp : ∀ k g t d h0, SameFor f h0 (run_actions (prog k g t d) h0).hub)
    (h : EventHub) (ht : (h.events.lookup f).map Event.timer = some true) :
    StaysTimer f h (h.ResponseActiveEvents prog os).hub :=
  Response_timer prog os f hresp _ h ht

/-- An iteration calls neither `Add` nor `Del` for a timer-only descriptor and leaves it
timer-only (so unlocked), if the callbacks leave it alone; however the iteration ends. -/
theorem LoopOnce_timer (prog : Program) (os : OS) (h : EventHub) (can_block : Bool)
    (f : Int) (hresp : ∀ k g t d h0, SameFor f h0 (run_actions (prog k g t d) h0).hub)
    (ht : (h.events.lookup f).map Event.timer = some true) :
    StaysTimer f h (h.LoopOnce prog os can_block).hub := by
  have s1 : StaysTimer f h (h.PreprocessReadyEvents os).hub :=
    PreprocessReadyEvents_timer os f h ht
  refine LoopOnce_cases prog os h can_block (StaysTimer f h) s1 ?_ ?_ ?_
  · intro x w hx
    rw [hx] at s1
    exact s1.step (sys_Poll_timer os x w f s1.timer)
  · intro x w y hx hy
    rw [hx] at s1
    have s2 := s1.step (sys_Poll_timer os x w f s1.timer)
    rw [hy] at s2
    exact s2.step (CheckTimeoutEvents_timer os f y s2.timer)
  · intro x w y z hx hy hz
    rw [hx] at s1
    have s2 := s1.step (sys_Poll_timer os x w f s1.timer)
    rw [hy] at s2
    have s3 := s2.step (CheckTimeoutEvents_timer os f y s2.timer)
    rw [hz] at s3
    exact s3.step (ResponseActiveEvents_timer prog os f hresp z s3.timer)

/-- No sequence of iterations calls `Add` or `Del` for a timer-only descriptor or locks
it, if the callbacks leave it alone. -/
theorem loops_timer (prog : Program) (f : Int)
    (hresp : ∀ k g t d h0, SameFor f h0 (run_actions (prog k g t d) h0).hub)
    (its : List (OS × Bool)) :
    ∀ h : EventHub, (h.events.lookup f).map Event.timer = some true →
      StaysTimer f h (run_calls prog (loops its) h) := by
  induction its with
  | nil => intro h ht; exact StaysTimer.start f h ht
  | cons it rest ih =>
    intro h ht
    have s1 := LoopOnce_timer prog it.1 h it.2 f hresp ht
    exact s1.step (ih _ s1.timer)

/-! ## Arming and firing a timer-only descriptor -/

/-- `Ready(d)` on a selected descriptor without read and write callback: the descriptor is
put in the timeout heap with the deadline computed from `now` and `d`; nothing is enqueued
for registration. -/
theorem Ready_timer (h : EventHub) (d now : Int) (e : Event)
    (hl : h.events.lookup h.current_fd_ = some e) (hrd : e.read_cb_ = none)
    (hwr : e.write_cb_ = none) :
    ∃ h1, h.Ready (some d) now = Result.ok h1 ∧
      h1.ready_fds_ = h.ready_fds_ ∧ h1.active_fds_ = h.active_fds_ ∧
      h1.trace = h.trace ∧ h.current_fd_ ∈ h1.timeout_heap_ ∧
      h1.events.lookup h.current_fd_ = some
        { e with where_kInTimeout := true, timeout_stamp_ := deadline_of now d } ∧
      (∀ g, g ≠ h.current_fd_ → h1.events.lookup g = h.events.lookup g) := by
  have hR : h.Ready (some d) now = Result.ok
      (((if h.IsInTimeout h.current_fd_ = true then h.TimeoutRemove h.current_fd_
          else h).update h.current_fd_
        (fun e => { e with timeout_stamp_ := deadline_of now d })).TimeoutPush
        h.current_fd_) := by
    simp [EventHub.Ready, hl, hrd, hwr]
  refine ⟨_, hR, ?_, ?_, ?_, ?_, ?_, ?_⟩
  · split_ifs <;> simp [EventHub.TimeoutPush, EventHub.TimeoutRemove]
  · split_ifs <;> simp [EventHub.TimeoutPush, EventHub.TimeoutRemove]
  · split_ifs <;> simp [EventHub.TimeoutPush, EventHub.TimeoutRemove]
  · simp [EventHub.TimeoutPush, EventHub.update_timeout_heap_, EventMinHeap.mem_Push]
  · split_ifs <;>
      simp [EventHub.TimeoutPush, EventHub.TimeoutRemove, EventHub.update_lookup, hl]
  · intro g hg
    split_ifs <;>
      simp [EventHub.TimeoutPush, EventHub.TimeoutRemove, EventHub.update_lookup, hg]

/-- On the kqueue backend, with callbacks that do not call into the hub, an empty
registration queue and a heap in deadline order: an iteration whose clock reading in
`CheckTimeoutEvents` is at or after the deadline of a heap member `f` without read and
write callback, and whose poll does not report `f`, returns normally, invokes the error
callback of `f` once with kind Timeout and nothing else for `f`, and leaves `f`
dispatched and out of the heap. -/
theorem LoopOnce_fires (prog : Program) (hinert : ∀ k g t d, prog k g t d = []) (os : OS)
    (can_block : Bool) (evs : List (Int × Filter)) (h : EventHub) (f : Int) (e : Event)
    (x : Nat) (hs : Sound h) (hc : Consistent h) (hcount : 0 ≤ h.registered_event_count_)
    (hk : os.kevents = some evs) (hevs : ∀ r ∈ evs, h.events.lookup r.1 ≠ none)
    (hrep : f ∉ evs.map Prod.fst) (hready : h.ready_fds_ = [])
    (ho : heap_ordered (stamp h.events) h.timeout_heap_.length h.timeout_heap_)
    (hf : f ∈ h.timeout_heap_) (hl : h.events.lookup f = some e)
    (hrd : e.read_cb_ = none) (hwr : e.write_cb_ = none) (hx : e.error_cb_ = some x)
    (hexp : e.timeout_stamp_ ≤ os.now_check) :
    ∃ h4, h.LoopOnce prog os can_block = Result.ok h4 ∧
      calls_for f h4.trace =
        calls_for f h.trace ++ [Obs.call x f EventType.kTimeout e.data_] ∧
      h4.events.lookup f = some e.dispatched ∧ f ∉ h4.timeout_heap_ := by
  have hp := EventHub.PreprocessReadyEvents_nil os h hready
  obtain ⟨w, hw⟩ := LoopOnce_tail prog os can_block h h hp (fun top ht =>
    hs.heap_tracked top (EventMinHeap.Top_mem _ _ ht))
  -- poll
  obtain ⟨h2, hpoll, hs2, hr2, hh2, _, ht2, hact2, hlook2, hcnt2⟩ :=
    sys_Poll_spec os w evs h hs hcount hk hevs
  have hc2 : Consistent h2 := by
    have := Consistent_sys_Poll os h w hc
    rw [hpoll] at this
    exact this
  have hf2 : h2.events.lookup f = some e := by
    rw [hlook2 f, hl]
    simp [Event.polled_of_not_mem f evs e hrep]
  have hst2 : stamp h2.events = stamp h.events := by
    funext g
    simp only [stamp, hlook2 g]
    cases h.events.lookup g with
    | none => rfl
    | some eg => simp [Event.polled_eq]
  have ho2 : heap_ordered (stamp h2.events) h2.timeout_heap_.length h2.timeout_heap_ := by
    rw [hst2, hh2]; exact ho
  -- timeouts
  obtain ⟨h3, hcheck, hin3, hout3, _, _⟩ :=
    CheckTimeout_drained os h2.timeout_heap_.length h2 hc2 hs2.active_flag ho2 (le_refl _)
      (fun hb => absurd (hs2.kqueue.symm.trans hb) (by decide))
  obtain ⟨h3', hcheck', hs3, _, hcalls3, _, _, _, _, _⟩ :=
    CheckTimeout_spec os h2.timeout_heap_.length h2 (le_refl _) hs2
  have h33 : h3' = h3 := by
    rw [hcheck] at hcheck'
    exact (Result.ok.inj hcheck').symm
  subst h33
  have hfn3 : f ∉ h3'.timeout_heap_ := by
    intro hm
    obtain ⟨_, hlt, hsame⟩ := hin3 f hm
    rw [stamp_of_lookup _ _ e (hsame.trans hf2)] at hlt
    omega
  obtain ⟨e2, he2, _, hf3, hfa3⟩ := hout3 f (by rw [hh2]; exact hf) hfn3
  have hee : e2 = e := by
    rw [hf2] at he2
    exact (Option.some.inj he2).symm
  subst hee
  -- dispatch
  obtain ⟨h4, hresp, _, _, _, hheap4, _, hcalls4, _, hdisp4⟩ :=
    Response_spec prog hinert os h3'.active_fds_.length h3' (le_refl _) hs3
  have hloop : h.LoopOnce prog os can_block = Result.ok h4 := by
    rw [hw, hpoll]
    simp only [Result.andThen]
    rw [show EventHub.CheckTimeoutEvents os h2 = Result.ok h3' from hcheck]
    exact hresp
  refine ⟨h4, hloop, ?_, ?_, fun hm => hfn3 (hheap4 f hm)⟩
  · rw [hcalls4 f, if_pos hfa3, hf3, hcalls3 f, ht2, calls_for_append]
    simp [calls_for, Obs.is_call_for, dispatch_calls, call_of, hx, hrd, hwr]
  · rw [hdisp4 f hfa3, hf3]
    rfl

/-! ## The postcondition of `Ready` -/

/-- The postcondition of `Ready`.  On a consistent hub whose selected descriptor `fd` is
tracked with the event `e`, `Ready(t)` returns normally.  It appends `fd` to the
registration queue if and only if `e` has a read or a write callback and `fd` is not
already in that queue, so that with a callback `fd` is in the queue exactly once
afterwards.  If a duration `p` is given, `fd` is afterwards in the timeout heap exactly
once, flagged `kInTimeout`, with the deadline computed from `now` and `p`, and the heap holds
the same other descriptors as before; if none is given, the heap and the deadline are
unchanged.  No other event, and nothing else of the hub, is changed. -/
theorem Ready_spec (h : EventHub) (t : Option Int) (now : Int) (e : Event)
    (hc : Consistent h) (hl : h.events.lookup h.current_fd_ = some e) :
    ∃ h1, h.Ready t now = Result.ok h1 ∧
      h1.ready_fds_ =
        (if e.has_callback = true ∧ h.current_fd_ ∉ h.ready_fds_ then
          h.ready_fds_ ++ [h.current_fd_]
        else h.ready_fds_) ∧
      (e.has_callback = true → h1.ready_fds_.count h.current_fd_ = 1) ∧
      h1.events.lookup h.current_fd_ = some
        { e with
          where_kInReady := e.where_kInReady || e.has_callback
          where_kInTimeout := e.where_kInTimeout || t.isSome
          timeout_stamp_ :=
            match t with
            | some p => deadline_of now p
            | none => e.timeout_stamp_ } ∧
      (∀ p, t = some p → h1.timeout_heap_.count h.current_fd_ = 1 ∧
        ∀ g, g ≠ h.current_fd_ → (g ∈ h1.timeout_heap_ ↔ g ∈ h.timeout_heap_)) ∧
      (t = none → h1.timeout_heap_ = h.timeout_heap_) ∧
      (∀ g, g ≠ h.current_fd_ → h1.events.lookup g = h.events.lookup g) ∧
      h1.active_fds_ = h.active_fds_ ∧ h1.current_fd_ = h.current_fd_ ∧
      h1.trace = h.trace ∧ Consistent h1 := by
  have hflag : h.current_fd_ ∈ h.ready_fds_ ↔ e.where_kInReady = true := by
    rw [hc.ready_flag]
    simp [EventHub.IsInReady, hl]
  have hheapflag : h.current_fd_ ∈ h.timeout_heap_ ↔ e.where_kInTimeout = true := by
    rw [hc.heap_flag]
    simp [EventHub.IsInTimeout, hl]
  have hcons := Consistent_Ready h t now hc
  -- the registration queue
  obtain ⟨hA, hAdef, hAr, hAl, hAh, hAo, hAa, hAc, hAt⟩ :
      ∃ hA : EventHub,
        hA = (if e.read_cb_ ≠ none ∨ e.write_cb_ ≠ none then
            (if h.IsInReady h.current_fd_ = true then h else h.ReadyPush h.current_fd_)
          else h) ∧
        hA.ready_fds_ =
          (if e.has_callback = true ∧ h.current_fd_ ∉ h.ready_fds_ then
            h.ready_fds_ ++ [h.current_fd_]
          else h.ready_fds_) ∧
        hA.events.lookup h.current_fd_ = some
          { e with where_kInReady := e.where_kInReady || e.has_callback } ∧
        hA.timeout_heap_ = h.timeout_heap_ ∧
        (∀ g, g ≠ h.current_fd_ → hA.events.lookup g = h.events.lookup g) ∧
        hA.active_fds_ = h.active_fds_ ∧ hA.current_fd_ = h.current_fd_ ∧
        hA.trace = h.trace := by
    have hIs : h.IsInReady h.current_fd_ = e.where_kInReady := by
      simp [EventHub.IsInReady, hl]
    have hcbiff : (e.read_cb_ ≠ none ∨ e.write_cb_ ≠ none) ↔ e.has_callback = true := by
      cases hrd : e.read_cb_ <;> cases hwr : e.write_cb_ <;>
        simp [Event.has_callback, hrd, hwr]
    refine ⟨_, rfl, ?_, ?_, ?_, ?_, ?_, ?_, ?_⟩
    · by_cases hcb : e.has_callback = true
      · rw [if_pos (hcbiff.mpr hcb), hIs]
        by_cases hr : e.where_kInReady = true
        · rw [if_pos hr, if_neg (fun hx => hx.2 (hflag.mpr hr))]
        · rw [if_neg hr, if_pos ⟨hcb, fun hm => hr (hflag.mp hm)⟩]
          simp [EventHub.ReadyPush]
      · rw [if_neg (fun hx => hcb (hcbiff.mp hx)), if_neg (fun hx => hcb hx.1)]
    · by_cases hcb : e.has_callback = true
      · rw [if_pos (hcbiff.mpr hcb), hIs]
        by_cases hr : e.where_kInReady = true
        · rw [if_pos hr, hl, Event.with_ready_self e _ (by simp [hr])]
        · rw [if_neg hr]
          simp [EventHub.ReadyPush, EventHub.update_lookup, hl, hcb]
      · rw [if_neg (fun hx => hcb (hcbiff.mp hx)), hl]
        simp only [Bool.not_eq_true] at hcb
        rw [Event.with_ready_self e _ (by simp [hcb])]
    · split_ifs <;> simp [EventHub.ReadyPush]
    · intro g hg
      split_ifs
      · rfl
      · simp [EventHub.ReadyPush, EventHub.update_lookup, hg]
      · rfl
    · split_ifs <;> simp [EventHub.ReadyPush]
    · split_ifs <;> simp [EventHub.ReadyPush]
    · split_ifs <;> simp [EventHub.ReadyPush]
  have hcount : e.has_callback = true → hA.ready_fds_.count h.current_fd_ = 1 := by
    intro hcb
    rw [hAr]
    by_cases hm : h.current_fd_ ∈ h.ready_fds_
    · rw [if_neg (fun hx => hx.2 hm)]
      exact List.count_eq_one_of_mem hc.ready_nodup hm
    · rw [if_pos ⟨hcb, hm⟩]
      simp [List.count_append, List.count_eq_zero_of_not_mem hm]
  cases t with
  | none =>
    have hR : h.Ready none now = Result.ok hA := by
      simp only [EventHub.Ready, hl]
      rw [hAdef]
    rw [hR] at hcons
    refine ⟨hA, hR, hAr, hcount, ?_, ?_, fun _ => hAh, hAo, hAa, hAc, hAt, hcons⟩
    · rw [hAl]; simp
    · intro p hp; cases hp
  | some p =>
    have hR : h.Ready (some p) now = Result.ok
        (((if hA.IsInTimeout h.current_fd_ = true then hA.TimeoutRemove h.current_fd_
            else hA).update h.current_fd_
          (fun e => { e with timeout_stamp_ := deadline_of now p })).TimeoutPush
          h.current_fd_) := by
      simp only [EventHub.Ready, hl]
      rw [hAdef]
    rw [hR] at hcons
    have hAflag : hA.IsInTimeout h.current_fd_ = e.where_kInTimeout := by
      simp [EventHub.IsInTimeout, hAl]
    have hnd : h.timeout_heap_.Nodup := hc.heap_nodup
    -- the heap before the push
    have hB : ∀ g, g ∈ (if hA.IsInTimeout h.current_fd_ = true then
          hA.TimeoutRemove h.current_fd_ else hA).timeout_heap_ ↔
        g ∈ h.timeout_heap_ ∧ g ≠ h.current_fd_ := by
      intro g
      rw [hAflag]
      by_cases hto : e.where_kInTimeout = true
      · rw [if_pos hto]
        simp only [EventHub.TimeoutRemove, EventHub.update_timeout_heap_, hAh]
        exact EventMinHeap.mem_Remove _ _ _ hnd
      · rw [if_neg hto, hAh]
        constructor
        · intro hg
          refine ⟨hg, fun hgc => hto (hheapflag.mp (hgc ▸ hg))⟩
        · exact fun hg => hg.1
    have hBn : (if hA.IsInTimeout h.current_fd_ = true then
          hA.TimeoutRemove h.current_fd_ else hA).timeout_heap_.Nodup := by
      split_ifs
      · simp only [EventHub.TimeoutRemove, EventHub.update_timeout_heap_, hAh]
        exact EventMinHeap.nodup_Remove _ _ hnd
      · rw [hAh]; exact hnd
    have hBl : (if hA.IsInTimeout h.current_fd_ = true then
          hA.TimeoutRemove h.current_fd_ else hA).events.lookup h.current_fd_ = some
        { e with where_kInReady := e.where_kInReady || e.has_callback,
                 where_kInTimeout := false } := by
      rw [hAflag]
      by_cases hto : e.where_kInTimeout = true
      · rw [if_pos hto]
        simp [EventHub.TimeoutRemove, EventHub.update_lookup, hAl]
      · rw [if_neg hto, hAl]
        simp only [Bool.not_eq_true] at hto
        simp [← hto]
    have hBo : ∀ g, g ≠ h.current_fd_ → (if hA.IsInTimeout h.current_fd_ = true then
          hA.TimeoutRemove h.current_fd_ else hA).events.lookup g = h.events.lookup g := by
      intro g hg
      split_ifs
      · simp [EventHub.TimeoutRemove, EventHub.update_lookup, hg, hAo g hg]
      · exact hAo g hg
    have hBf : (if hA.IsInTimeout h.current_fd_ = true then
          hA.TimeoutRemove h.current_fd_ else hA).ready_fds_ = hA.ready_fds_ ∧
        (if hA.IsInTimeout h.current_fd_ = true then
          hA.TimeoutRemove h.current_fd_ else hA).active_fds_ = hA.active_fds_ ∧
        (if hA.IsInTimeout h.current_fd_ = true then
          hA.TimeoutRemove h.current_fd_ else hA).current_fd_ = hA.current_fd_ ∧
        (if hA.IsInTimeout h.current_fd_ = true then
          hA.TimeoutRemove h.current_fd_ else hA).trace = hA.trace := by
      split_ifs <;> simp [EventHub.TimeoutRemove]
    generalize (if hA.IsInTimeout h.current_fd_ = true then
      hA.TimeoutRemove h.current_fd_ else hA) = hB' at hR hcons hB hBn hBl hBo hBf
    have hmem : ∀ g, g ∈ ((hB'.update h.current_fd_
          (fun e => { e with timeout_stamp_ := deadline_of now p })).TimeoutPush
          h.current_fd_).timeout_heap_ ↔
        (g ∈ h.timeout_heap_ ∧ g ≠ h.current_fd_) ∨ g = h.current_fd_ := by
      intro g
      simp only [EventHub.TimeoutPush, EventHub.update_timeout_heap_]
      rw [EventMinHeap.mem_Push, hB g]
    refine ⟨_, hR, ?_, ?_, ?_, ?_, ?_, ?_, ?_, ?_, ?_, hcons⟩
    · simp only [EventHub.TimeoutPush, EventHub.update_ready_fds_]
      rw [hBf.1, hAr]
    · intro hcb
      simp only [EventHub.TimeoutPush, EventHub.update_ready_fds_]
      rw [hBf.1]
      exact hcount hcb
    · simp [EventHub.TimeoutPush, EventHub.update_lookup, hBl]
    · intro q hq
      refine ⟨?_, ?_⟩
      · apply List.count_eq_one_of_mem
        · simp only [EventHub.TimeoutPush, EventHub.update_timeout_heap_]
          exact EventMinHeap.nodup_Push _ _ _ hBn (fun hm => ((hB _).mp hm).2 rfl)
        · exact (hmem _).mpr (Or.inr rfl)
      · intro g hg
        rw [hmem g]
        constructor
        · rintro (hm | hm)
          · exact hm.1
          · exact absurd hm hg
        · exact fun hm => Or.inl ⟨hm, hg⟩
    · intro hn; cases hn
    · intro g hg
      simp [EventHub.TimeoutPush, EventHub.update_lookup, hg, hBo g hg]
    · simp only [EventHub.TimeoutPush, EventHub.update_active_fds_]
      rw [hBf.2.1, hAa]
    · simp only [EventHub.TimeoutPush, EventHub.update_current_fd_]
      rw [hBf.2.2.1, hAc]
    · simp only [EventHub.TimeoutPush, EventHub.update_trace]
      rw [hBf.2.2.2, hAt]

/-! ## Callbacks that re-arm their descriptor -/

theorem Event.configured_keeps (cfg : List Action) :
    ∀ e : Event, (e.configured cfg).pending = e.pending ∧
      (e.configured cfg).is_locked = e.is_locked ∧
      (e.configured cfg).where_kInReady = e.where_kInReady ∧
      (e.configured cfg).where_kInTimeout = e.where_kInTimeout ∧
      (e.configured cfg).where_kInActive = e.where_kInActive ∧
      (e.configured cfg).timeout_stamp_ = e.timeout_stamp_ := by
  induction cfg with
  | nil => intro e; exact ⟨rfl, rfl, rfl, rfl, rfl, rfl⟩
  | cons a rest ih =>
    intro e
    cases a with
    | OnRead cb => exact ih { e with read_cb_ := cb }
    | OnWrite cb => exact ih { e with write_cb_ := cb }
    | CreateEmpty fd cb => exact ih e
    | SetCurrent fd => exact ih e
    | WithData d => exact ih e
    | Ready t now => exact ih e
    | Destroy => exact ih e

theorem Rearm.event_keeps (r : Rearm) (e : Event) :
    (r.event e).pending = e.pending ∧ (r.event e).is_locked = e.is_locked ∧
      (r.event e).where_kInActive = e.where_kInActive := by
  obtain ⟨a, b, _, _, c, _⟩ := Event.configured_keeps r.cfg e
  exact ⟨a, b, c⟩

theorem Event.after_keeps (p : Option Rearm) (b : Bool) (e : Event) :
    (e.after p b).pending = e.pending ∧ (e.after p b).is_locked = e.is_locked ∧
      (e.after p b).where_kInActive = e.where_kInActive := by
  cases b with
  | false => cases p <;> exact ⟨rfl, rfl, rfl⟩
  | true =>
    cases p with
    | none => exact ⟨rfl, rfl, rfl⟩
    | some r => exact Rearm.event_keeps r e

theorem run_actions_append (xs ys : List Action) :
    ∀ h : EventHub, run_actions (xs ++ ys) h = (run_actions xs h).andThen (run_actions ys) := by
  induction xs with
  | nil => intro h; rfl
  | cons a rest ih =>
    intro h
    simp only [List.cons_append, run_actions]
    cases a.run h with
    | ok h1 => simp only [Result.andThen]; exact ih h1
    | raised ex h1 => rfl

/-- The calls `OnRead` and `OnWrite` of a callback on the selected descriptor. -/
theorem run_configuration (cfg : List Action) :
    ∀ (h : EventHub) (e0 : Event), Consistent h →
      h.events.lookup h.current_fd_ = some e0 →
      (∀ a ∈ cfg, a.sets_callback = true) →
      ∃ h1, run_actions cfg h = Result.ok h1 ∧ Consistent h1 ∧
        h1.current_fd_ = h.current_fd_ ∧
        h1.events.lookup h.current_fd_ = some (e0.configured cfg) := by
  induction cfg with
  | nil => intro h e0 hc hl _; exact ⟨h, rfl, hc, rfl, hl⟩
  | cons a rest ih =>
    intro h e0 hc hl hcfg
    have ha := hcfg a (List.mem_cons_self _ _)
    have hrest : ∀ b ∈ rest, b.sets_callback = true :=
      fun b hb => hcfg b (List.mem_cons_of_mem _ hb)
    cases a with
    | OnRead cb =>
      have hrun : (Action.OnRead cb).run h =
          Result.ok (h.update h.current_fd_ (fun e => { e with read_cb_ := cb })) := by
        simp [Action.run, EventHub.OnRead, hl]
      obtain ⟨h1, hr1, hc1, hcur1, hl1⟩ :=
        ih (h.update h.current_fd_ (fun e => { e with read_cb_ := cb }))
          { e0 with read_cb_ := cb }
          (Consistent_update h _ _ (fun _ => rfl) (fun _ => rfl) hc)
          (by simp [hl]) hrest
      refine ⟨h1, ?_, hc1, ?_, ?_⟩
      · simp only [run_actions, hrun, Result.andThen]; exact hr1
      · simpa using hcur1
      · simpa using hl1
    | OnWrite cb =>
      have hrun : (Action.OnWrite cb).run h =
          Result.ok (h.update h.current_fd_ (fun e => { e with write_cb_ := cb })) := by
        simp [Action.run, EventHub.OnWrite, hl]
      obtain ⟨h1, hr1, hc1, hcur1, hl1⟩ :=
        ih (h.update h.current_fd_ (fun e => { e with write_cb_ := cb }))
          { e0 with write_cb_ := cb }
          (Consistent_update h _ _ (fun _ => rfl) (fun _ => rfl) hc)
          (by simp [hl]) hrest
      refine ⟨h1, ?_, hc1, ?_, ?_⟩
      · simp only [run_actions, hrun, Result.andThen]; exact hr1
      · simpa using hcur1
      · simpa using hl1
    | CreateEmpty fd cb => simp [Action.sets_callback] at ha
    | SetCurrent fd => simp [Action.sets_callback] at ha
    | WithData d => simp [Action.sets_callback] at ha
    | Ready t now => simp [Action.sets_callback] at ha
    | Destroy => simp [Action.sets_callback] at ha

/-- A re-arming callback, run while its descriptor is tracked and unlocked, returns
normally and leaves the descriptor with the event that `Rearm.event` describes. -/
theorem rearm_run (r : Rearm) (f : Int) (h : EventHub) (e0 : Event) (hf0 : 0 ≤ f)
    (hc : Consistent h) (hl : h.events.lookup f = some e0) (hun : e0.is_locked = false)
    (hcfg : ∀ a ∈ r.cfg, a.sets_callback = true) :
    ∃ h1, run_actions (r.body f) h = Result.ok h1 ∧ Consistent h1 ∧
      h1.events.lookup f = some (r.event e0) := by
  have hset : (Action.SetCurrent f).run h = Result.ok { h with current_fd_ := f } := by
    simp [Action.run, EventHub.SetCurrent, not_lt.mpr hf0, hl, hun]
  have hc0 : Consistent ({ h with current_fd_ := f } : EventHub) :=
    Consistent_frame h _ rfl rfl (fun _ => rfl) (fun _ => rfl) hc
  obtain ⟨h1, hr1, hc1, hcur1, hl1⟩ :=
    run_configuration r.cfg { h with current_fd_ := f } e0 hc0 hl hcfg
  have hl1' : h1.events.lookup h1.current_fd_ = some (e0.configured r.cfg) := by
    rw [hcur1]; exact hl1
  obtain ⟨h2, hr2, _, _, hl2, _, _, _, _, _, _, hc2⟩ :=
    Ready_spec h1 r.timeout r.now (e0.configured r.cfg) hc1 hl1'
  refine ⟨h2, ?_, hc2, ?_⟩
  · simp only [Rearm.body, run_actions, hset, Result.andThen]
    rw [run_actions_append, hr1]
    simp only [Result.andThen, run_actions]
    change (h1.Ready r.timeout r.now).andThen (run_actions []) = Result.ok h2
    rw [hr2]
    rfl
  · have hcur : h1.current_fd_ = f := hcur1
    rw [hcur] at hl2
    exact hl2

/-- One guarded callback invocation for a descriptor whose callback behaves as `p`
says. -/
theorem guarded_call_plan (prog : Program) (f : Int) (hf0 : 0 ≤ f) (type : EventType)
    (guard : Event → Bool) (cb : Event → Option Nat) (h : EventHub) (e0 : Event)
    (s : EventHub.Step) (p : Option Rearm)
    (heq : EventHub.guarded_call prog f type guard cb h = s)
    (hc : Consistent h) (hl : h.events.lookup f = some e0) (hun : e0.is_locked = false)
    (hcb : guard e0 = true →
      ∃ k, cb e0 = some k ∧ prog k f type e0.data_ = calls_of_plan p f)
    (hcfg : ∀ r, p = some r → ∀ a ∈ r.cfg, a.sets_callback = true) :
    ∃ h1, s = EventHub.Step.next h1 ∧ Consistent h1 ∧
      h1.events.lookup f = some (e0.after p (guard e0)) ∧
      h1.trace = h.trace ++
        (if guard e0 = true then call_of (cb e0) f type e0.data_ else []) ∧
      h1.active_fds_ = h.active_fds_ := by
  subst heq
  unfold EventHub.guarded_call
  rw [hl]
  by_cases hg : guard e0 = true
  · simp only [hg, if_true]
    obtain ⟨k, hk, hprog⟩ := hcb hg
    rw [hk]
    simp only [invoke, hprog, call_of]
    have hc0 : Consistent
        ({ h with trace := h.trace ++ [Obs.call k f type e0.data_] } : EventHub) :=
      Consistent_frame h _ rfl rfl (fun _ => rfl) (fun _ => rfl) hc
    have htr := run_actions_trace (calls_of_plan p f)
      { h with trace := h.trace ++ [Obs.call k f type e0.data_] }
    cases p with
    | none =>
      simp only [calls_of_plan, run_actions, Table.contains, hl, Option.isSome_some, if_true]
      exact ⟨_, rfl, hc0, hl, rfl, rfl⟩
    | some r =>
      obtain ⟨h1, hr1, hc1, hl1⟩ := rearm_run r f
        { h with trace := h.trace ++ [Obs.call k f type e0.data_] } e0 hf0 hc0 hl hun
        (hcfg r rfl)
      simp only [calls_of_plan] at htr ⊢
      rw [hr1] at htr
      rw [hr1]
      simp only [Table.contains, hl1, Option.isSome_some, if_true]
      exact ⟨h1, rfl, hc1, hl1, htr.1, htr.2⟩
  · simp only [hg]
    have hgf : guard e0 = false := by simpa using hg
    refine ⟨h, rfl, hc, ?_, by simp, rfl⟩
    rw [hl]
    cases p <;> rfl

/-! ## The dispatch of a descriptor whose callbacks re-arm it -/

theorem adds_for_call_of (x g : Int) (cb : Option Nat) (type : EventType)
    (d : Option Nat) : adds_for x (call_of cb g type d) = [] := by
  cases cb <;> simp [call_of, adds_for, Obs.is_add_for]

theorem calls_for_call_of_self (g : Int) (cb : Option Nat) (type : EventType)
    (d : Option Nat) : calls_for g (call_of cb g type d) = call_of cb g type d := by
  cases cb <;> simp [call_of, calls_for, Obs.is_call_for]

theorem calls_for_guarded (f : Int) (e : Event) :
    calls_for f
      ((if (e.write_cb_.isSome && e.result_kWrite) = true then
          call_of e.write_cb_ f EventType.kWrite e.data_ else []) ++
       (if (e.read_cb_.isSome && e.result_kRead) = true then
          call_of e.read_cb_ f EventType.kRead e.data_ else []) ++
       (if e.result_kError = true then
          call_of e.error_cb_ f EventType.kError e.data_ else []) ++
       (if e.result_kTimeout = true then
          call_of e.error_cb_ f EventType.kTimeout e.data_ else [])) =
      dispatch_calls f e := by
  obtain ⟨l, r, t, a, d, w, rd, tm, er, wcb, rcb, ecb, st⟩ := e
  cases wcb <;> cases rcb <;> cases ecb <;> cases w <;> cases rd <;> cases er <;>
    cases tm <;> simp [dispatch_calls, call_of, calls_for, Obs.is_call_for]

theorem adds_for_guarded (f : Int) (e : Event) :
    adds_for f
      ((if (e.write_cb_.isSome && e.result_kWrite) = true then
          call_of e.write_cb_ f EventType.kWrite e.data_ else []) ++
       (if (e.read_cb_.isSome && e.result_kRead) = true then
          call_of e.read_cb_ f EventType.kRead e.data_ else []) ++
       (if e.result_kError = true then
          call_of e.error_cb_ f EventType.kError e.data_ else []) ++
       (if e.result_kTimeout = true then
          call_of e.error_cb_ f EventType.kTimeout e.data_ else [])) = [] := by
  obtain ⟨l, r, t, a, d, w, rd, tm, er, wcb, rcb, ecb, st⟩ := e
  cases wcb <;> cases rcb <;> cases ecb <;> cases w <;> cases rd <;> cases er <;>
    cases tm <;> simp [call_of, adds_for, Obs.is_add_for]

theorem prologue_consistent (h3 : EventHub) (g : Int) (hc : Consistent h3) :
    Consistent ((if (h3.update g (fun e => { e with read_cb_ := none, write_cb_ := none })).IsInTimeout
          g = true
        then (h3.update g (fun e => { e with read_cb_ := none, write_cb_ := none })).TimeoutRemove g
        else h3.update g (fun e => { e with read_cb_ := none, write_cb_ := none })).update g
          (fun e => { e with is_locked := false })) :=
  Consistent_update _ _ _ (fun _ => rfl) (fun _ => rfl)
    (Consistent_ite_TimeoutRemove _ g
      (Consistent_update h3 _ _ (fun _ => rfl) (fun _ => rfl) hc))

/-- The iteration of the dispatch loop for a descriptor whose callbacks behave as `pw`,
`pr`, `pe` and `pt` say: the loop goes on with the rest of the queue, the event is the
re-armed one, and the callbacks invoked are those of the pending flags. -/
theorem Response_step_plan (prog : Program) (os : OS) (n : Nat) (h : EventHub) (f : Int)
    (rest : List Int) (e : Event) (pw pr pe pt : Option Rearm)
    (hc : Consistent h) (hf0 : 0 ≤ f)
    (ha : h.active_fds_ = f :: rest) (hg : h.events.lookup f = some e)
    (hx : e.error_cb_ ≠ none)
    (hw : ∀ k, e.write_cb_ = some k → e.result_kWrite = true →
      prog k f EventType.kWrite e.data_ = calls_of_plan pw f)
    (hr : ∀ k, e.read_cb_ = some k → e.result_kRead = true →
      prog k f EventType.kRead e.data_ = calls_of_plan pr f)
    (hE : ∀ k, e.error_cb_ = some k → e.result_kError = true →
      prog k f EventType.kError e.data_ = calls_of_plan pe f)
    (hT : ∀ k, e.error_cb_ = some k → e.result_kTimeout = true →
      prog k f EventType.kTimeout e.data_ = calls_of_plan pt f)
    (hcfg : ∀ p, p = pw ∨ p = pr ∨ p = pe ∨ p = pt →
      ∀ r, p = some r → ∀ a ∈ r.cfg, a.sets_callback = true)
    (hdel : h.sys_ev_op_ = Backend.Epoll → e.write_cb_ ≠ none ∨ e.read_cb_ ≠ none →
      os.epoll_del_fails f = false) :
    ∃ h1, EventHub.ResponseActiveEvents_loop prog os (n + 1) h =
        EventHub.ResponseActiveEvents_loop prog os n h1 ∧
      Consistent h1 ∧ h1.active_fds_ = rest ∧
      h1.events.lookup f = some (e.rearmed pw pr pe pt) ∧
      calls_for f h1.trace = calls_for f h.trace ++ dispatch_calls f e ∧
      adds_for f h1.trace = adds_for f h.trace := by
  have key : ∀ r, EventHub.ResponseActiveEvents_loop prog os (n + 1) h = r →
      ∃ h1, r = EventHub.ResponseActiveEvents_loop prog os n h1 ∧
        Consistent h1 ∧ h1.active_fds_ = rest ∧
        h1.events.lookup f = some (e.rearmed pw pr pe pt) ∧
        calls_for f h1.trace = calls_for f h.trace ++ dispatch_calls f e ∧
        adds_for f h1.trace = adds_for f h.trace := by
    intro r hr0
    simp only [EventHub.ResponseActiveEvents_loop, ha] at hr0
    have hl1 : ({ h with active_fds_ := rest } : EventHub).events.lookup f = some e := hg
    have ha1 : ({ h with active_fds_ := rest } : EventHub).active_fds_ = rest := rfl
    have ht1 : ({ h with active_fds_ := rest } : EventHub).trace = h.trace := rfl
    have hb1 : ({ h with active_fds_ := rest } : EventHub).sys_ev_op_ = h.sys_ev_op_ := rfl
    have hc1 : Consistent ({ h with active_fds_ := rest } : EventHub) :=
      Consistent_frame h _ rfl rfl (fun _ => rfl) (fun _ => rfl) hc
    generalize ({ h with active_fds_ := rest } : EventHub) = h1 at hr0 hl1 ha1 ht1 hb1 hc1
    split at hr0
    · rename_i hnone
      rw [hg] at hnone
      cases hnone
    · have hl2 : (h1.update f (fun e => { e with where_kInActive := false })).events.lookup f =
          some { e with where_kInActive := false } := by
        simp only [EventHub.update_lookup, hl1, if_true, Option.map_some']
      have ha2 : (h1.update f (fun e => { e with where_kInActive := false })).active_fds_ =
          rest := by rw [EventHub.update_active_fds_]; exact ha1
      have ht2 : (h1.update f (fun e => { e with where_kInActive := false })).trace =
          h.trace := by rw [EventHub.update_trace]; exact ht1
      have hb2 : (h1.update f (fun e => { e with where_kInActive := false })).sys_ev_op_ =
          h.sys_ev_op_ := by rw [EventHub.update_sys_ev_op_]; exact hb1
      have hc2 : Consistent (h1.update f (fun e => { e with where_kInActive := false })) :=
        Consistent_update h1 _ _ (fun _ => rfl) (fun _ => rfl) hc1
      generalize h1.update f (fun e => { e with where_kInActive := false }) = h2
        at hr0 hl2 ha2 ht2 hb2 hc2
      split at hr0
      · rename_i hnone
        rw [hl2] at hnone
        cases hnone
      · rename_i cur hcur
        have hce : cur = { e with where_kInActive := false } := by
          rw [hl2] at hcur
          exact (Option.some.inj hcur).symm
        subst hce
        split at hr0
        · rename_i ex h3 hD
          obtain ⟨h3', hd, _⟩ := dereg_ok_eq os h2 f _ _ _ hD hl2
            (fun hb hcc => hdel (hb2 ▸ hb) hcc)
          cases hd
        · rename_i h3 hD
          have hs3 : SameFor f h2 h3 := SameFor_dereg _ os f f h2 _ hD
          have hc3 : Consistent h3 := Consistent_dereg _ os h2 f _ hD hc2
          obtain ⟨h3', hd, hev3, hact3, _, _⟩ := dereg_ok_eq os h2 f _ _ _ hD hl2
            (fun hb hcc => hdel (hb2 ▸ hb) hcc)
          cases hd
          have hl3 : h3.events.lookup f = some { e with where_kInActive := false } := by
            rw [hev3]; exact hl2
          obtain ⟨hl6, hact6⟩ := prologue_event h3 f _ hl3
          obtain ⟨_, _, _, _, _, htr6⟩ := prologue_lookup h3 f _ hl3
          have hc6 := prologue_consistent h3 f hc3
          have hcbW : (e.write_cb_.isSome && e.result_kWrite) = true →
              ∃ k, e.write_cb_ = some k ∧
                prog k f EventType.kWrite e.data_ = calls_of_plan pw f := by
            intro hgd
            simp only [Bool.and_eq_true, Option.isSome_iff_exists] at hgd
            obtain ⟨⟨k, hk⟩, hfl⟩ := hgd
            exact ⟨k, hk, hw k hk hfl⟩
          have hcbR : (e.read_cb_.isSome && e.result_kRead) = true →
              ∃ k, e.read_cb_ = some k ∧
                prog k f EventType.kRead e.data_ = calls_of_plan pr f := by
            intro hgd
            simp only [Bool.and_eq_true, Option.isSome_iff_exists] at hgd
            obtain ⟨⟨k, hk⟩, hfl⟩ := hgd
            exact ⟨k, hk, hr k hk hfl⟩
          have hcbE : e.result_kError = true →
              ∃ k, e.error_cb_ = some k ∧
                prog k f EventType.kError e.data_ = calls_of_plan pe f := by
            intro hgd
            obtain ⟨k, hk⟩ := Option.ne_none_iff_exists'.mp hx
            exact ⟨k, hk, hE k hk hgd⟩
          have hcbT : e.result_kTimeout = true →
              ∃ k, e.error_cb_ = some k ∧
                prog k f EventType.kTimeout e.data_ = calls_of_plan pt f := by
            intro hgd
            obtain ⟨k, hk⟩ := Option.ne_none_iff_exists'.mp hx
            exact ⟨k, hk, hT k hk hgd⟩
          have hk7 := Event.after_keeps pw (e.write_cb_.isSome && e.result_kWrite)
            e.dispatching
          have hp7 : (e.dispatching.after pw (e.write_cb_.isSome && e.result_kWrite)).pending =
              e.pending := hk7.1
          have hq7 := pending_eq hp7
          have hk8 := Event.after_keeps pr (e.read_cb_.isSome && e.result_kRead)
            (e.dispatching.after pw (e.write_cb_.isSome && e.result_kWrite))
          have hq8 := pending_eq (hk8.1.trans hp7)
          have hun8 := hk8.2.1.trans hk7.2.1
          have hk9 := Event.after_keeps pe e.result_kError
            ((e.dispatching.after pw (e.write_cb_.isSome && e.result_kWrite)).after pr
              (e.read_cb_.isSome && e.result_kRead))
          have hq9 := pending_eq (hk9.1.trans (hk8.1.trans hp7))
          have hun9 := hk9.2.1.trans hun8
          have hgW : ∀ s, EventHub.guarded_call prog f EventType.kWrite
              (fun e1 => e.write_cb_.isSome && e1.result_kWrite) (fun _ => e.write_cb_)
              _ = s → _ :=
            fun s hG => guarded_call_plan prog f hf0 _ _ _ _ e.dispatching s pw hG hc6 hl6
              rfl hcbW (hcfg pw (Or.inl rfl))
          -- the write callback
          split at hr0
          · rename_i hG
            obtain ⟨_, hs, _⟩ := hgW _ hG
            cases hs
          · rename_i hG
            obtain ⟨_, hs, _⟩ := hgW _ hG
            cases hs
          · rename_i h7 hG
            obtain ⟨h7', hs, hc7, hl7, htr7, hact7⟩ := hgW _ hG
            cases hs
            have hl7 : h7.events.lookup f = some (e.dispatching.after pw
                (e.write_cb_.isSome && e.result_kWrite)) := hl7
            have htr7 : h7.trace = _ ++
                (if (e.write_cb_.isSome && e.result_kWrite) = true then
                  call_of e.write_cb_ f EventType.kWrite e.data_ else []) := htr7
            have hgR : ∀ s, EventHub.guarded_call prog f EventType.kRead
                (fun e1 => e.read_cb_.isSome && e1.result_kRead) (fun _ => e.read_cb_)
                h7 = s → _ :=
              fun s hG => guarded_call_plan prog f hf0 _ _ _ _ _ s pr hG hc7 hl7
                hk7.2.1
                (by
                  intro hgd
                  rw [hq7.2.2.2.2.2]
                  exact hcbR (by rw [← hq7.2.1]; exact hgd))
                (hcfg pr (Or.inr (Or.inl rfl)))
            -- the read callback
            split at hr0
            · rename_i hG2
              obtain ⟨_, hs, _⟩ := hgR _ hG2
              cases hs
            · rename_i hG2
              obtain ⟨_, hs, _⟩ := hgR _ hG2
              cases hs
            · rename_i h8 hG2
              obtain ⟨h8', hs, hc8, hl8, htr8, hact8⟩ := hgR _ hG2
              cases hs
              rw [hq7.2.1] at hl8
              rw [hq7.2.1, hq7.2.2.2.2.2] at htr8
              have htr8 : h8.trace = h7.trace ++
                  (if (e.read_cb_.isSome && e.result_kRead) = true then
                    call_of e.read_cb_ f EventType.kRead e.data_ else []) := htr8
              have hgE : ∀ s, EventHub.guarded_call prog f EventType.kError
                  (fun e1 => e1.result_kError) (fun e1 => e1.error_cb_) h8 = s → _ :=
                fun s hG => guarded_call_plan prog f hf0 _ _ _ _ _ s pe hG hc8 hl8 hun8
                  (by
                    intro hgd
                    rw [hq8.2.2.2.2.2, hq8.2.2.2.2.1]
                    exact hcbE (by rw [← hq8.2.2.1]; exact hgd))
                  (hcfg pe (Or.inr (Or.inr (Or.inl rfl))))
              -- the error callback, kind Error
              split at hr0
              · rename_i hG3
                obtain ⟨_, hs, _⟩ := hgE _ hG3
                cases hs
              · rename_i hG3
                obtain ⟨_, hs, _⟩ := hgE _ hG3
                cases hs
              · rename_i h9 hG3
                obtain ⟨h9', hs, hc9, hl9, htr9, hact9⟩ := hgE _ hG3
                cases hs
                rw [hq8.2.2.1] at hl9
                rw [hq8.2.2.1, hq8.2.2.2.2.2, hq8.2.2.2.2.1] at htr9
                have htr9 : h9.trace = h8.trace ++
                    (if e.result_kError = true then
                      call_of e.error_cb_ f EventType.kError e.data_ else []) := htr9
                have hgT : ∀ s, EventHub.guarded_call prog f EventType.kTimeout
                    (fun e1 => e1.result_kTimeout) (fun e1 => e1.error_cb_) h9 = s → _ :=
                  fun s hG => guarded_call_plan prog f hf0 _ _ _ _ _ s pt hG hc9 hl9 hun9
                    (by
                      intro hgd
                      rw [hq9.2.2.2.2.2, hq9.2.2.2.2.1]
                      exact hcbT (by rw [← hq9.2.2.2.1]; exact hgd))
                    (hcfg pt (Or.inr (Or.inr (Or.inr rfl))))
                -- the error callback, kind Timeout
                split at hr0
                · rename_i hG4
                  obtain ⟨_, hs, _⟩ := hgT _ hG4
                  cases hs
                · rename_i hG4
                  obtain ⟨_, hs, _⟩ := hgT _ hG4
                  cases hs
                · rename_i h10 hG4
                  obtain ⟨h10', hs, hc10, hl10, htr10, hact10⟩ := hgT _ hG4
                  cases hs
                  rw [hq9.2.2.2.1] at hl10
                  rw [hq9.2.2.2.1, hq9.2.2.2.2.2, hq9.2.2.2.2.1] at htr10
                  have htr10 : h10.trace = h9.trace ++
                      (if e.result_kTimeout = true then
                        call_of e.error_cb_ f EventType.kTimeout e.data_ else []) := htr10
                  have htrace : h10.trace = h3.trace ++
                      ((if (e.write_cb_.isSome && e.result_kWrite) = true then
                          call_of e.write_cb_ f EventType.kWrite e.data_ else []) ++
                       (if (e.read_cb_.isSome && e.result_kRead) = true then
                          call_of e.read_cb_ f EventType.kRead e.data_ else []) ++
                       (if e.result_kError = true then
                          call_of e.error_cb_ f EventType.kError e.data_ else []) ++
                       (if e.result_kTimeout = true then
                          call_of e.error_cb_ f EventType.kTimeout e.data_ else [])) := by
                    rw [htr10, htr9, htr8, htr7, htr6]
                    simp only [List.append_assoc]
                  refine ⟨_, hr0.symm, ?_, ?_, ?_, ?_, ?_⟩
                  · exact Consistent_update h10 _ _ (fun _ => rfl) (fun _ => rfl) hc10
                  · rw [EventHub.update_active_fds_, hact10, hact9, hact8, hact7, hact6,
                      hact3, ha2]
                  · simp only [EventHub.update_lookup, hl10, if_true, Option.map_some']
                    rfl
                  · rw [EventHub.update_trace, htrace, calls_for_append, hs3.calls, ht2,
                      calls_for_guarded]
                  · rw [EventHub.update_trace, htrace, adds_for_append, hs3.adds, ht2,
                      adds_for_guarded, List.append_nil]
  exact key _ rfl

/-! ## A descriptor that waits for its deadline -/

/-- The timeout loop leaves alone a descriptor whose deadline is after the clock
reading. -/
theorem CheckTimeout_waiting (os : OS) (f : Int) (n : Nat) :
    ∀ (h : EventHub) (e : Event), h.events.lookup f = some e →
      os.now_check < e.timeout_stamp_ →
      SameFor f h (EventHub.CheckTimeoutEvents_loop os n h).hub := by
  induction n with
  | zero =>
    intro h _ _ _
    unfold EventHub.CheckTimeoutEvents_loop
    split
    · exact SameFor.refl f h
    · split
      · exact SameFor.refl f h
      · split_ifs <;> exact SameFor.refl f h
  | succ n ih =>
    intro h e hl hlater
    cases ht : EventMinHeap.Top h.timeout_heap_ with
    | none =>
      simp only [EventHub.CheckTimeoutEvents_loop, ht]
      exact SameFor.refl f h
    | some top =>
      by_cases hy : top = f
      · subst hy
        rw [EventHub.CheckTimeout_stop_later os _ h top e ht hl hlater]
        exact SameFor.refl top h
      · rcases CheckTimeout_iter_same os n h top f ht hy with ⟨h1, heq, hs1⟩ | hend
        · rw [heq]
          exact hs1.trans (ih h1 e (hs1.lookup.trans hl) hlater)
        · exact hend

theorem CheckTimeoutEvents_waiting (os : OS) (f : Int) (h : EventHub) (e : Event)
    (hl : h.events.lookup f = some e)
    (ht : f ∈ h.timeout_heap_ → os.now_check < e.timeout_stamp_) :
    SameFor f h (h.CheckTimeoutEvents os).hub := by
  by_cases hm : f ∈ h.timeout_heap_
  · exact CheckTimeout_waiting os f _ h e hl (ht hm)
  · exact CheckTimeoutEvents_same os f h hm

/-- If the registration phase returns with `f` not in the dispatch queue and, if it is in
the timeout heap, with a deadline after the clock reading, the rest of an iteration whose
poll does not report `f` leaves `f` alone. -/
theorem LoopOnce_waiting_from (prog : Program) (os : OS) (h : EventHub) (can_block : Bool)
    (f : Int) (hp : prog.leaves f) (hrep : os.reports f = false) (x : EventHub) (e : Event)
    (hx : h.PreprocessReadyEvents os = Result.ok x) (hl : x.events.lookup f = some e)
    (ht : f ∈ x.timeout_heap_ → os.now_check < e.timeout_stamp_)
    (ha : f ∉ x.active_fds_) : SameFor f x (h.LoopOnce prog os can_block).hub := by
  have s1 : SameFor f x (h.PreprocessReadyEvents os).hub := by
    rw [hx]; exact SameFor.refl f x
  refine LoopOnce_cases prog os h can_block (SameFor f x) s1 ?_ ?_ ?_
  · intro x1 w hx1
    rw [hx] at hx1
    cases hx1
    exact sys_Poll_same os x w f hrep
  · intro x1 w y hx1 hy
    rw [hx] at hx1
    cases hx1
    have s2 := sys_Poll_same os x w f hrep
    rw [hy] at s2
    exact s2.trans (CheckTimeoutEvents_waiting os f y e (s2.lookup.trans hl)
      (fun hm => ht (s2.heap.mp hm)))
  · intro x1 w y z hx1 hy hz
    rw [hx] at hx1
    cases hx1
    have s2 := sys_Poll_same os x w f hrep
    rw [hy] at s2
    have s3 := s2.trans (CheckTimeoutEvents_waiting os f y e (s2.lookup.trans hl)
      (fun hm => ht (s2.heap.mp hm)))
    rw [hz] at s3
    exact s3.trans (ResponseActiveEvents_same prog os f hp z
      (not_mem_of_SameFor_active s3 ha))

theorem prog_echo_leaves (f : Int) : prog_echo.leaves f := by
  apply leaves_of_selecting
  intro k g t d hg
  by_cases hk : k = 51
  · refine Or.inr ⟨Action.SetCurrent g, [Action.OnWrite (some 52), Action.Ready none 0],
      by simp [prog_echo, hk], ?_, ?_⟩
    · simp [Action.selects_other, hg]
    · intro b hb
      simp only [List.mem_cons, List.mem_singleton, List.not_mem_nil, or_false] at hb
      rcases hb with rfl | rfl <;> rfl
  · by_cases hk2 : k = 52
    · refine Or.inr ⟨Action.SetCurrent g,
        [Action.OnRead (some 51), Action.Ready (some 10) (1 * ticks_per_second)],
        by simp [prog_echo, hk2], ?_, ?_⟩
      · simp [Action.selects_other, hg]
      · intro b hb
        simp only [List.mem_cons, List.mem_singleton, List.not_mem_nil, or_false] at hb
        rcases hb with rfl | rfl <;> rfl
    · exact Or.inl (by simp [prog_echo, hk, hk2])

theorem prog_chat_leaves (f : Int) : prog_chat.leaves f := by
  apply leaves_of_selecting
  intro k g t d hg
  by_cases hk : k = 51 ∨ k = 52
  · refine Or.inr ⟨Action.SetCurrent g,
      [Action.OnRead (some 51), Action.OnWrite (some 52), Action.Ready none 0],
      by simp [prog_chat, hk], ?_, ?_⟩
    · simp [Action.selects_other, hg]
    · intro b hb
      simp only [List.mem_cons, List.mem_singleton, List.not_mem_nil, or_false] at hb
      rcases hb with rfl | rfl | rfl <;> rfl
  · exact Or.inl (by simp [prog_chat, hk])

/-! ## What a poll does to one descriptor, on either backend -/

theorem sys_Add_backend (os : OS) (h : EventHub) (fd : Int) :
    (EventHub.sys_Add os h fd).hub.sys_ev_op_ = h.sys_ev_op_ := by
  have hk : (KQueue.Add os h fd).hub.sys_ev_op_ = h.sys_ev_op_ := by
    unfold KQueue.Add
    split
    · rfl
    · split_ifs <;> rfl
  have he : (Epoll.Add os h fd).hub.sys_ev_op_ = h.sys_ev_op_ := by
    unfold Epoll.Add
    split
    · rfl
    · split_ifs <;> rfl
  have hw : ∀ r : Result, r.hub.sys_ev_op_ = h.sys_ev_op_ →
      (match r with
        | Result.ok h1 => Result.ok { h1 with trace := h1.trace ++ [Obs.add fd true] }
        | Result.raised e h1 =>
          Result.raised e { h1 with trace := h1.trace ++ [Obs.add fd false] }).hub.sys_ev_op_ =
        h.sys_ev_op_ := by
    intro r hr
    cases r <;> exact hr
  unfold EventHub.sys_Add
  apply hw
  split
  · exact hk
  · exact he

theorem sys_Add_ok_backend (os : OS) (h h4 : EventHub) (fd : Int)
    (hadd : EventHub.sys_Add os h fd = Result.ok h4) : h4.sys_ev_op_ = h.sys_ev_op_ := by
  have hb := sys_Add_backend os h fd
  rw [hadd] at hb
  exact hb

theorem sys_Add_raised_backend (os : OS) (h h4 : EventHub) (fd : Int) (ex : Exception)
    (hadd : EventHub.sys_Add os h fd = Result.raised ex h4) :
    h4.sys_ev_op_ = h.sys_ev_op_ := by
  have hb := sys_Add_backend os h fd
  rw [hadd] at hb
  exact hb

/-- The registration loop does not change the backend. -/
theorem Preprocess_backend (os : OS) (n : Nat) :
    ∀ h : EventHub, (EventHub.PreprocessReadyEvents_loop os n h).hub.sys_ev_op_ =
      h.sys_ev_op_ := by
  induction n with
  | zero =>
    intro h
    unfold EventHub.PreprocessReadyEvents_loop
    split <;> rfl
  | succ n ih =>
    intro h
    have key : ∀ r, EventHub.PreprocessReadyEvents_loop os (n + 1) h = r →
        r.hub.sys_ev_op_ = h.sys_ev_op_ := by
      intro r hr
      simp only [EventHub.PreprocessReadyEvents_loop] at hr
      split at hr
      · subst hr; rfl
      · rename_i fd rest hq
        split at hr
        · subst hr; rfl
        · split at hr
          · subst hr; simp [Result.hub]
          · split_ifs at hr with hcb hto
            · subst hr
              rw [ih]
              simp [EventHub.TimeoutRemove]
            · subst hr
              rw [ih]
              simp
            · split at hr
              · rename_i h4 hadd
                have hb := sys_Add_ok_backend os _ h4 fd hadd
                subst hr
                rw [ih, hb]
                simp
              · rename_i ex h4 hadd
                have hb := sys_Add_raised_backend os _ h4 fd ex hadd
                subst hr
                rw [ih]
                simp only [EventHub.ActivePush, EventHub.update_sys_ev_op_]
                split_ifs <;> simp [EventHub.TimeoutRemove, hb]
    exact key _ rfl

theorem PreprocessReadyEvents_backend (os : OS) (h x : EventHub)
    (hx : h.PreprocessReadyEvents os = Result.ok x) : x.sys_ev_op_ = h.sys_ev_op_ := by
  have hb := Preprocess_backend os h.ready_fds_.length h
  unfold EventHub.PreprocessReadyEvents at hx
  rw [hx] at hb
  exact hb

theorem Event.epolled_cons (x : Int) (ev : EpollEvent) (rest : List EpollEvent)
    (e : Event) :
    Event.epolled x (ev :: rest) e =
      Event.epolled x rest
        (if ev.fd = x then
          { e with where_kInActive := true
                   result_kRead := e.result_kRead || ev.epollin
                   result_kWrite := e.result_kWrite || ev.epollout }
        else e) := rfl

theorem Event.epolled_eq (x : Int) (evs : List EpollEvent) (e : Event) :
    Event.epolled x evs e =
      e.notified (evs.any (fun ev => decide (ev.fd = x)))
        (evs.any (fun ev => decide (ev.fd = x) && ev.epollin))
        (evs.any (fun ev => decide (ev.fd = x) && ev.epollout)) := by
  induction evs generalizing e with
  | nil => simp [Event.epolled, Event.notified]
  | cons ev rest ih =>
    rw [Event.epolled_cons, ih]
    by_cases hx : ev.fd = x
    · simp [hx, Event.notified, Bool.or_assoc]
    · simp [hx, Event.notified]

theorem Event.polled_notified (x : Int) (evs : List (Int × Filter)) (e : Event) :
    Event.polled x evs e =
      e.notified (evs.any (fun r => decide (r.1 = x)))
        (decide ((x, Filter.EVFILT_READ) ∈ evs))
        (decide ((x, Filter.EVFILT_WRITE) ∈ evs)) := by
  rw [Event.polled_eq]
  have hany : (evs.any (fun r => decide (r.1 = x))) = decide (x ∈ evs.map Prod.fst) := by
    rw [Bool.eq_iff_iff]
    simp only [List.any_eq_true, decide_eq_true_eq, List.mem_map]
  rw [hany]
  rfl

theorem kqueue_flag_other (X : EventHub) (ident f : Int) (filter : Filter)
    (hx : ident ≠ f) :
    (match filter with
      | Filter.EVFILT_READ => X.update ident (fun e => { e with result_kRead := true })
      | Filter.EVFILT_WRITE => X.update ident (fun e => { e with result_kWrite := true })
      | Filter.other => X).events.lookup f = X.events.lookup f ∧
    (match filter with
      | Filter.EVFILT_READ => X.update ident (fun e => { e with result_kRead := true })
      | Filter.EVFILT_WRITE => X.update ident (fun e => { e with result_kWrite := true })
      | Filter.other => X).active_fds_ = X.active_fds_ := by
  have hx2 : ¬ f = ident := fun hh => hx hh.symm
  cases filter <;> simp [hx2]

theorem kqueue_flag_self (X : EventHub) (f : Int) (filter : Filter) (e : Event)
    (hl : X.events.lookup f = some e) :
    (match filter with
      | Filter.EVFILT_READ => X.update f (fun e => { e with result_kRead := true })
      | Filter.EVFILT_WRITE => X.update f (fun e => { e with result_kWrite := true })
      | Filter.other => X).events.lookup f =
      some { e with result_kRead := e.result_kRead || decide (filter = Filter.EVFILT_READ)
                    result_kWrite :=
                      e.result_kWrite || decide (filter = Filter.EVFILT_WRITE) } ∧
    (match filter with
      | Filter.EVFILT_READ => X.update f (fun e => { e with result_kRead := true })
      | Filter.EVFILT_WRITE => X.update f (fun e => { e with result_kWrite := true })
      | Filter.other => X).active_fds_ = X.active_fds_ := by
  obtain ⟨l, r, t, a, d, w, rd, tm, er, wcb, rcb, ecb, st⟩ := e
  cases filter <;> simp [hl]

theorem kqueue_push_other (X : EventHub) (ident f : Int) (hx : ident ≠ f) :
    (if X.IsInActive ident = true then X else X.ActivePush ident).events.lookup f =
      X.events.lookup f ∧
    (if X.IsInActive ident = true then X else X.ActivePush ident).active_fds_.count f =
      X.active_fds_.count f := by
  have hx2 : ¬ f = ident := fun hh => hx hh.symm
  split_ifs
  · exact ⟨rfl, rfl⟩
  · simp [EventHub.ActivePush, hx2, hx, List.count_append]

theorem kqueue_push_self (X : EventHub) (f : Int) (e : Event)
    (hl : X.events.lookup f = some e)
    (hcount : X.active_fds_.count f = (if e.where_kInActive = true then 1 else 0)) :
    (if X.IsInActive f = true then X else X.ActivePush f).events.lookup f =
      some { e with where_kInActive := true } ∧
    (if X.IsInActive f = true then X else X.ActivePush f).active_fds_.count f = 1 := by
  obtain ⟨l, r, t, a, d, w, rd, tm, er, wcb, rcb, ecb, st⟩ := e
  cases a <;> simp_all [EventHub.IsInActive, EventHub.ActivePush, List.count_append]

theorem kqueue_step_other (h : EventHub) (ident f : Int) (filter : Filter)
    (hx : ident ≠ f) :
    (if (match filter with
          | Filter.EVFILT_READ => h.update ident (fun e => { e with result_kRead := true })
          | Filter.EVFILT_WRITE => h.update ident (fun e => { e with result_kWrite := true })
          | Filter.other => h).IsInActive ident = true
      then (match filter with
          | Filter.EVFILT_READ => h.update ident (fun e => { e with result_kRead := true })
          | Filter.EVFILT_WRITE => h.update ident (fun e => { e with result_kWrite := true })
          | Filter.other => h)
      else (match filter with
          | Filter.EVFILT_READ => h.update ident (fun e => { e with result_kRead := true })
          | Filter.EVFILT_WRITE => h.update ident (fun e => { e with result_kWrite := true })
          | Filter.other => h).ActivePush ident).events.lookup f = h.events.lookup f ∧
    (if (match filter with
          | Filter.EVFILT_READ => h.update ident (fun e => { e with result_kRead := true })
          | Filter.EVFILT_WRITE => h.update ident (fun e => { e with result_kWrite := true })
          | Filter.other => h).IsInActive ident = true
      then (match filter with
          | Filter.EVFILT_READ => h.update ident (fun e => { e with result_kRead := true })
          | Filter.EVFILT_WRITE => h.update ident (fun e => { e with result_kWrite := true })
          | Filter.other => h)
      else (match filter with
          | Filter.EVFILT_READ => h.update ident (fun e => { e with result_kRead := true })
          | Filter.EVFILT_WRITE => h.update ident (fun e => { e with result_kWrite := true })
          | Filter.other => h).ActivePush ident).active_fds_.count f =
      h.active_fds_.count f := by
  have hpush := kqueue_push_other
    (match filter with
      | Filter.EVFILT_READ => h.update ident (fun e => { e with result_kRead := true })
      | Filter.EVFILT_WRITE => h.update ident (fun e => { e with result_kWrite := true })
      | Filter.other => h) ident f hx
  have hflag := kqueue_flag_other h ident f filter hx
  exact ⟨hpush.1.trans hflag.1, hpush.2.trans (congrArg (List.count f) hflag.2)⟩

/-- The loop of `KQueue::Poll` on one descriptor: its event gets the flags of the filters
it is reported with, and it is in the dispatch queue once if it is flagged `kInActive`. -/
theorem KQueue_report_at (f : Int) (evs : List (Int × Filter)) :
    ∀ (h h2 : EventHub) (e : Event), h.events.lookup f = some e →
      h.active_fds_.count f = (if e.where_kInActive = true then 1 else 0) →
      KQueue.report evs h = Result.ok h2 →
      h2.events.lookup f = some (Event.polled f evs e) ∧
      h2.active_fds_.count f =
        (if (Event.polled f evs e).where_kInActive = true then 1 else 0) := by
  induction evs with
  | nil =>
    intro h h2 e hl hcount hrep
    simp only [KQueue.report, Result.ok.injEq] at hrep
    subst hrep
    exact ⟨hl, hcount⟩
  | cons r rest ih =>
    intro h h2 e hl hcount hrep
    obtain ⟨ident, filter⟩ := r
    rw [Event.polled_cons]
    simp only [KQueue.report] at hrep
    split at hrep
    · cases hrep
    · by_cases hx : ident = f
      · subst hx
        rw [if_pos rfl]
        obtain ⟨hl1, ha1⟩ := kqueue_flag_self h ident filter e hl
        obtain ⟨hl2, hc2⟩ := kqueue_push_self _ ident _ hl1 (by rw [ha1]; exact hcount)
        exact ih _ h2 (e.reported filter) hl2 hc2 hrep
      · rw [if_neg hx]
        obtain ⟨hl2, hc2⟩ := kqueue_step_other h ident f filter hx
        exact ih _ h2 e (hl2.trans hl) (hc2.trans hcount) hrep

theorem epoll_flag_other (X : EventHub) (fd : Int) (ein eout : Bool) (f : Int)
    (hx : fd ≠ f) :
    (((if eout = true then
        (if ein = true then X.update fd (fun e => { e with result_kRead := true })
          else X).update fd (fun e => { e with result_kWrite := true })
      else (if ein = true then
          X.update fd (fun e => { e with result_kRead := true })
        else X)).ActivePush fd).events.lookup f = X.events.lookup f) ∧
    (((if eout = true then
        (if ein = true then X.update fd (fun e => { e with result_kRead := true })
          else X).update fd (fun e => { e with result_kWrite := true })
      else (if ein = true then
          X.update fd (fun e => { e with result_kRead := true })
        else X)).ActivePush fd).active_fds_.count f = X.active_fds_.count f) := by
  have hx2 : ¬ f = fd := fun hh => hx hh.symm
  cases ein <;> cases eout <;>
    simp [EventHub.ActivePush, hx2, hx, List.count_append]

theorem epoll_flag_self (X : EventHub) (fd : Int) (ein eout : Bool) (e : Event)
    (hl : X.events.lookup fd = some e) :
    (((if eout = true then
        (if ein = true then X.update fd (fun e => { e with result_kRead := true })
          else X).update fd (fun e => { e with result_kWrite := true })
      else (if ein = true then
          X.update fd (fun e => { e with result_kRead := true })
        else X)).ActivePush fd).events.lookup fd =
      some { e with where_kInActive := true
                    result_kRead := e.result_kRead || ein
                    result_kWrite := e.result_kWrite || eout }) ∧
    (((if eout = true then
        (if ein = true then X.update fd (fun e => { e with result_kRead := true })
          else X).update fd (fun e => { e with result_kWrite := true })
      else (if ein = true then
          X.update fd (fun e => { e with result_kRead := true })
        else X)).ActivePush fd).active_fds_.count fd =
      X.active_fds_.count fd + 1) := by
  obtain ⟨l, r, t, a, d, w, rd, tm, er, wcb, rcb, ecb, st⟩ := e
  cases ein <;> cases eout <;>
    simp [EventHub.ActivePush, hl, List.count_append]

/-- The loop of `Epoll::Poll` on one descriptor: its event gets the flags it is reported
with, and it is pushed on the dispatch queue once for every time it is named. -/
theorem Epoll_report_at (f : Int) (evs : List EpollEvent) :
    ∀ (h h2 : EventHub) (e : Event), h.events.lookup f = some e →
      Epoll.report evs h = Result.ok h2 →
      h2.events.lookup f = some (Event.epolled f evs e) ∧
      h2.active_fds_.count f =
        h.active_fds_.count f + (evs.filter (fun ev => decide (ev.fd = f))).length := by
  induction evs with
  | nil =>
    intro h h2 e hl hrep
    simp only [Epoll.report, Result.ok.injEq] at hrep
    subst hrep
    exact ⟨hl, by simp⟩
  | cons ev rest ih =>
    intro h h2 e hl hrep
    obtain ⟨fd, ein, eout⟩ := ev
    rw [Event.epolled_cons]
    simp only [Epoll.report] at hrep
    split at hrep
    · cases hrep
    · by_cases hx : fd = f
      · subst hx
        rw [if_pos rfl]
        obtain ⟨hl1, hc1⟩ := epoll_flag_self h fd ein eout e hl
        obtain ⟨a, b⟩ := ih _ h2 _ hl1 hrep
        refine ⟨a, ?_⟩
        rw [b, hc1]
        simp
        omega
      · rw [if_neg hx]
        obtain ⟨hl1, hc1⟩ := epoll_flag_other h fd ein eout f hx
        obtain ⟨a, b⟩ := ih _ h2 _ (hl1.trans hl) hrep
        refine ⟨a, ?_⟩
        rw [b, hc1]
        simp [hx]

theorem filter_length_of_any_false (evs : List EpollEvent) (f : Int)
    (hany : evs.any (fun ev => decide (ev.fd = f)) = false) :
    (evs.filter (fun ev => decide (ev.fd = f))).length = 0 := by
  rw [List.length_eq_zero, List.filter_eq_nil_iff]
  intro ev hev
  rw [List.any_eq_false] at hany
  exact hany ev hev

theorem filter_length_of_any_true (evs : List EpollEvent) (f : Int)
    (hany : evs.any (fun ev => decide (ev.fd = f)) = true) :
    0 < (evs.filter (fun ev => decide (ev.fd = f))).length := by
  rw [List.any_eq_true] at hany
  obtain ⟨ev, hev, hp⟩ := hany
  exact List.length_pos_of_mem (List.mem_filter.mpr ⟨hev, hp⟩)

/-- A poll that returns normally, seen from one descriptor that was not awaiting dispatch:
its event gets the flags it is reported with, and it is in the dispatch queue, once, exactly
if the poll names it. -/
theorem sys_Poll_at (os : OS) (h h2 : EventHub) (w : Int) (f : Int) (e : Event)
    (hl : h.events.lookup f = some e) (hA : e.where_kInActive = false)
    (hna : f ∉ h.active_fds_)
    (hone : ∀ evs, os.epoll_events = some evs →
      (evs.filter (fun ev => decide (ev.fd = f))).length ≤ 1)
    (hpoll : EventHub.sys_Poll os h w = Result.ok h2) :
    h2.events.lookup f = some (e.notified (os.names h.sys_ev_op_ f)
      (os.readable h.sys_ev_op_ f) (os.writable h.sys_ev_op_ f)) ∧
    h2.active_fds_.count f = (if os.names h.sys_ev_op_ f = true then 1 else 0) := by
  have hcount0 : h.active_fds_.count f = 0 := List.count_eq_zero_of_not_mem hna
  unfold EventHub.sys_Poll at hpoll
  simp only [] at hpoll
  have hlX : ({ h with trace := h.trace ++ [Obs.poll w] } : EventHub).events.lookup f =
      some e := hl
  have hcX : ({ h with trace := h.trace ++ [Obs.poll w] } : EventHub).active_fds_.count f =
      0 := hcount0
  generalize ({ h with trace := h.trace ++ [Obs.poll w] } : EventHub) = X at hpoll hlX hcX
  cases hb : h.sys_ev_op_ with
  | KQueue =>
    rw [hb] at hpoll
    simp only [KQueue.Poll] at hpoll
    split_ifs at hpoll
    cases hk : os.kevents with
    | none => simp [hk] at hpoll
    | some evs =>
      simp only [hk] at hpoll
      obtain ⟨a, b⟩ := KQueue_report_at f evs X h2 e hlX
        (by rw [hA]; simpa using hcX) hpoll
      rw [Event.polled_notified] at a b
      simp only [OS.names, OS.readable, OS.writable, hk]
      refine ⟨a, ?_⟩
      rw [b]
      simp only [Event.notified, hA, Bool.false_or]
  | Epoll =>
    rw [hb] at hpoll
    simp only [Epoll.Poll] at hpoll
    split_ifs at hpoll
    cases hk : os.epoll_events with
    | none => simp [hk] at hpoll
    | some evs =>
      simp only [hk] at hpoll
      obtain ⟨a, b⟩ := Epoll_report_at f evs X h2 e hlX hpoll
      rw [Event.epolled_eq] at a
      simp only [OS.names, OS.readable, OS.writable, hk]
      refine ⟨a, ?_⟩
      rw [b, hcX]
      simp only [Nat.zero_add]
      cases hany : evs.any (fun ev => decide (ev.fd = f)) with
      | false =>
        rw [filter_length_of_any_false evs f hany]
        simp
      | true =>
        have h1 := filter_length_of_any_true evs f hany
        have h2' := hone evs hk
        simp
        omega

theorem not_named (os : OS) (backend : Backend) (f : Int)
    (hn : os.names backend f = false) :
    os.readable backend f = false ∧ os.writable backend f = false := by
  cases backend with
  | KQueue =>
    simp only [OS.names, OS.readable, OS.writable] at hn ⊢
    cases hk : os.kevents with
    | none => simp
    | some evs =>
      rw [hk] at hn
      simp only [List.any_eq_false, decide_eq_true_eq] at hn
      simp only [decide_eq_false_iff_not]
      exact ⟨fun hm => hn _ hm rfl, fun hm => hn _ hm rfl⟩
  | Epoll =>
    simp only [OS.names, OS.readable, OS.writable] at hn ⊢
    cases hk : os.epoll_events with
    | none => simp
    | some evs =>
      rw [hk] at hn
      simp only [List.any_eq_false, decide_eq_true_eq] at hn
      simp only [List.any_eq_false, Bool.and_eq_true, decide_eq_true_eq, not_and]
      exact ⟨fun ev hev hfd => absurd hfd (hn ev hev),
        fun ev hev hfd => absurd hfd (hn ev hev)⟩

theorem names_of_reports (os : OS) (backend : Backend) (f : Int)
    (hrep : os.reports f = false) : os.names backend f = false := by
  unfold OS.reports at hrep
  rw [Bool.or_eq_false_iff] at hrep
  cases backend with
  | KQueue => exact hrep.1
  | Epoll => exact hrep.2

/-! ## The dispatch of one descriptor of the queue -/

/-- The dispatch loop works its way to a descriptor `f` that is in the queue once, leaving
`f` alone until then, or ends before it reaches `f`. -/
theorem Response_reach (prog : Program) (os : OS) (f : Int) (hp : prog.leaves f) (n : Nat) :
    ∀ h : EventHub, h.active_fds_.count f = 1 →
      (∃ (m : Nat) (h1 : EventHub) (rest : List Int),
        EventHub.ResponseActiveEvents_loop prog os n h =
          EventHub.ResponseActiveEvents_loop prog os (m + 1) h1 ∧
        h1.active_fds_ = f :: rest ∧ f ∉ rest ∧ SameFor f h h1) ∨
      (SameFor f h (EventHub.ResponseActiveEvents_loop prog os n h).hub) := by
  induction n with
  | zero =>
    intro h _
    refine Or.inr ?_
    unfold EventHub.ResponseActiveEvents_loop
    split <;> exact SameFor.refl f h
  | succ n ih =>
    intro h hcount
    cases hq : h.active_fds_ with
    | nil =>
      refine Or.inr ?_
      simp only [EventHub.ResponseActiveEvents_loop, hq]
      exact SameFor.refl f h
    | cons y rest =>
      by_cases hy : y = f
      · subst hy
        refine Or.inl ⟨n, h, rest, rfl, hq, ?_, SameFor.refl y h⟩
        intro hm
        rw [hq, List.count_cons_self] at hcount
        have := List.count_pos_iff.mpr hm
        omega
      · rcases Response_iter_same prog os f hp n h y rest hq hy with ⟨h1, heq, hs1⟩ | hend
        · have hc1 : h1.active_fds_.count f = 1 := hs1.active.trans hcount
          rcases ih h1 hc1 with ⟨m, h2, rest2, heq2, ha2, hn2, hs2⟩ | hend2
          · exact Or.inl ⟨m, h2, rest2, heq.trans heq2, ha2, hn2, hs1.trans hs2⟩
          · refine Or.inr ?_
            rw [heq]
            exact hs1.trans hend2
        · exact Or.inr hend

/-- The iteration of the dispatch loop for a descriptor whose callbacks keep it: the loop
goes on with the rest of the queue, and the callbacks invoked are those of the pending
flags, in order, each once. -/
theorem Response_step_keeps (prog : Program) (os : OS) (n : Nat) (h : EventHub) (g : Int)
    (rest : List Int) (e : Event) (hk : prog.keeps g)
    (ha : h.active_fds_ = g :: rest) (hg : h.events.lookup g = some e)
    (hx : e.result_kError = true ∨ e.result_kTimeout = true → e.error_cb_ ≠ none)
    (hdel : h.sys_ev_op_ = Backend.Epoll → e.write_cb_ ≠ none ∨ e.read_cb_ ≠ none →
      os.epoll_del_fails g = false) :
    ∃ h1, EventHub.ResponseActiveEvents_loop prog os (n + 1) h =
        EventHub.ResponseActiveEvents_loop prog os n h1 ∧
      h1.active_fds_ = rest ∧
      calls_for g h1.trace = calls_for g h.trace ++ dispatch_calls g e := by
  have key : ∀ r, EventHub.ResponseActiveEvents_loop prog os (n + 1) h = r →
      ∃ h1, r = EventHub.ResponseActiveEvents_loop prog os n h1 ∧
        h1.active_fds_ = rest ∧
        calls_for g h1.trace = calls_for g h.trace ++ dispatch_calls g e := by
    intro r hr
    simp only [EventHub.ResponseActiveEvents_loop, ha] at hr
    have hl1 : ({ h with active_fds_ := rest } : EventHub).events.lookup g = some e := hg
    have ha1 : ({ h with active_fds_ := rest } : EventHub).active_fds_ = rest := rfl
    have ht1 : ({ h with active_fds_ := rest } : EventHub).trace = h.trace := rfl
    have hb1 : ({ h with active_fds_ := rest } : EventHub).sys_ev_op_ = h.sys_ev_op_ := rfl
    generalize ({ h with active_fds_ := rest } : EventHub) = h1 at hr hl1 ha1 ht1 hb1
    split at hr
    · rename_i hnone
      rw [hg] at hnone
      cases hnone
    · have hl2 : (h1.update g (fun e => { e with where_kInActive := false })).events.lookup g =
          some { e with where_kInActive := false } := by
        simp only [EventHub.update_lookup, hl1, if_true, Option.map_some']
      have ha2 : (h1.update g (fun e => { e with where_kInActive := false })).active_fds_ =
          rest := by rw [EventHub.update_active_fds_]; exact ha1
      have ht2 : (h1.update g (fun e => { e with where_kInActive := false })).trace =
          h.trace := by rw [EventHub.update_trace]; exact ht1
      have hb2 : (h1.update g (fun e => { e with where_kInActive := false })).sys_ev_op_ =
          h.sys_ev_op_ := by rw [EventHub.update_sys_ev_op_]; exact hb1
      generalize h1.update g (fun e => { e with where_kInActive := false }) = h2
        at hr hl2 ha2 ht2 hb2
      split at hr
      · rename_i hnone
        rw [hl2] at hnone
        cases hnone
      · rename_i cur hcur
        have hce : cur = { e with where_kInActive := false } := by
          rw [hl2] at hcur
          exact (Option.some.inj hcur).symm
        subst hce
        split at hr
        · rename_i ex h3 hD
          obtain ⟨h3', hd, _⟩ := dereg_ok_eq os h2 g _ _ _ hD hl2
            (fun hb hc => hdel (hb2 ▸ hb) hc)
          cases hd
        · rename_i h3 hD
          have hs3 : SameFor g h2 h3 := SameFor_dereg _ os g g h2 _ hD
          obtain ⟨h3', hd, hev3, hact3, _, _⟩ := dereg_ok_eq os h2 g _ _ _ hD hl2
            (fun hb hc => hdel (hb2 ▸ hb) hc)
          cases hd
          have hl3 : h3.events.lookup g = some { e with where_kInActive := false } := by
            rw [hev3]; exact hl2
          obtain ⟨e6, hl6, hun6, hp6, hact6, htr6⟩ := prologue_lookup h3 g _ hl3
          have hp6e : e6.pending = e.pending := hp6
          have hq6 := pending_eq hp6e
          have hcW : ∀ e0 : Event, (e.write_cb_.isSome && e0.result_kWrite) = true →
              e.write_cb_ ≠ none := by
            intro e0 hgd
            simp only [Bool.and_eq_true] at hgd
            exact Option.isSome_iff_ne_none.mp hgd.1
          have hcR : ∀ e0 : Event, (e.read_cb_.isSome && e0.result_kRead) = true →
              e.read_cb_ ≠ none := by
            intro e0 hgd
            simp only [Bool.and_eq_true] at hgd
            exact Option.isSome_iff_ne_none.mp hgd.1
          split at hr
          · rename_i hG
            obtain ⟨_, _, hs, _⟩ := guarded_call_keeps prog g hk _ _ _ _ e e6 _ hG hl6 hun6
              hp6e (hcW e6)
            cases hs
          · rename_i hG
            obtain ⟨_, _, hs, _⟩ := guarded_call_keeps prog g hk _ _ _ _ e e6 _ hG hl6 hun6
              hp6e (hcW e6)
            cases hs
          · rename_i h7 hG
            obtain ⟨h7', e7, hs, hl7, hun7, hp7, htr7, hact7⟩ :=
              guarded_call_keeps prog g hk _ _ _ _ e e6 _ hG hl6 hun6 hp6e (hcW e6)
            cases hs
            have hq7 := pending_eq hp7
            split at hr
            · rename_i hG2
              obtain ⟨_, _, hs, _⟩ := guarded_call_keeps prog g hk _ _ _ _ e e7 _ hG2 hl7
                hun7 hp7 (hcR e7)
              cases hs
            · rename_i hG2
              obtain ⟨_, _, hs, _⟩ := guarded_call_keeps prog g hk _ _ _ _ e e7 _ hG2 hl7
                hun7 hp7 (hcR e7)
              cases hs
            · rename_i h8 hG2
              obtain ⟨h8', e8, hs, hl8, hun8, hp8, htr8, hact8⟩ :=
                guarded_call_keeps prog g hk _ _ _ _ e e7 _ hG2 hl7 hun7 hp7 (hcR e7)
              cases hs
              have hq8 := pending_eq hp8
              split at hr
              · rename_i hG3
                obtain ⟨_, _, hs, _⟩ := guarded_call_keeps prog g hk _ _ _ _ e e8 _ hG3 hl8
                  hun8 hp8 (by
                    intro hgd
                    rw [hq8.2.2.2.2.1]
                    exact hx (Or.inl (by rw [← hq8.2.2.1]; exact hgd)))
                cases hs
              · rename_i hG3
                obtain ⟨_, _, hs, _⟩ := guarded_call_keeps prog g hk _ _ _ _ e e8 _ hG3 hl8
                  hun8 hp8 (by
                    intro hgd
                    rw [hq8.2.2.2.2.1]
                    exact hx (Or.inl (by rw [← hq8.2.2.1]; exact hgd)))
                cases hs
              · rename_i h9 hG3
                obtain ⟨h9', e9, hs, hl9, hun9, hp9, htr9, hact9⟩ :=
                  guarded_call_keeps prog g hk _ _ _ _ e e8 _ hG3 hl8 hun8 hp8 (by
                    intro hgd
                    rw [hq8.2.2.2.2.1]
                    exact hx (Or.inl (by rw [← hq8.2.2.1]; exact hgd)))
                cases hs
                have hq9 := pending_eq hp9
                split at hr
                · rename_i hG4
                  obtain ⟨_, _, hs, _⟩ := guarded_call_keeps prog g hk _ _ _ _ e e9 _ hG4
                    hl9 hun9 hp9 (by
                      intro hgd
                      rw [hq9.2.2.2.2.1]
                      exact hx (Or.inr (by rw [← hq9.2.2.2.1]; exact hgd)))
                  cases hs
                · rename_i hG4
                  obtain ⟨_, _, hs, _⟩ := guarded_call_keeps prog g hk _ _ _ _ e e9 _ hG4
                    hl9 hun9 hp9 (by
                      intro hgd
                      rw [hq9.2.2.2.2.1]
                      exact hx (Or.inr (by rw [← hq9.2.2.2.1]; exact hgd)))
                  cases hs
                · rename_i h10 hG4
                  obtain ⟨h10', e10, hs, hl10, hun10, hp10, htr10, hact10⟩ :=
                    guarded_call_keeps prog g hk _ _ _ _ e e9 _ hG4 hl9 hun9 hp9 (by
                      intro hgd
                      rw [hq9.2.2.2.2.1]
                      exact hx (Or.inr (by rw [← hq9.2.2.2.1]; exact hgd)))
                  cases hs
                  refine ⟨_, hr.symm, ?_, ?_⟩
                  · rw [EventHub.update_active_fds_, hact10, hact9, hact8, hact7, hact6,
                      hact3, ha2]
                  · rw [EventHub.update_trace, htr10, htr9, htr8, htr7, htr6]
                    simp only [calls_for_append]
                    rw [hs3.calls, ht2, hq6.1, hq7.2.1, hq8.2.2.1, hq9.2.2.2.1, hq8.2.2.2.2.1,
                      hq9.2.2.2.2.1]
                    simp only [← calls_for_append, List.append_assoc]
                    rw [calls_for_append, ← calls_for_guarded g e]
                    simp only [List.append_assoc]
  exact key _ rfl

/-! ## One iteration, seen from a descriptor that is armed without a timeout -/

theorem dispatch_calls_notified (os : OS) (backend : Backend) (f : Int) (e : Event)
    (hW : e.result_kWrite = false) (hR : e.result_kRead = false)
    (hE : e.result_kError = false) (hT : e.result_kTimeout = false) :
    dispatch_calls f (e.notified (os.names backend f) (os.readable backend f)
      (os.writable backend f)) = reported_calls os backend f e := by
  simp [dispatch_calls, reported_calls, Event.notified, hW, hR, hE, hT]

/-- The registration phase for a descriptor that was armed by `Ready()` without a timeout:
if it awaits registration and `Add` succeeds it is locked and registered, and if it was
registered before it is left as it is. -/
theorem Preprocess_armed (os : OS) (h : EventHub) (f : Int) (e : Event)
    (hc : Consistent h) (hl : h.events.lookup f = some e) (hcb : e.has_callback = true)
    (hstate : f ∈ h.ready_fds_ ∨ e.is_locked = true)
    (hadd : f ∈ h.ready_fds_ →
      KQueue.add_fails os f e = false ∧ os.epoll_add_fails f = false)
    (hnh : f ∉ h.timeout_heap_) (hna : f ∉ h.active_fds_) :
    ∃ x, h.PreprocessReadyEvents os = Result.ok x ∧ Consistent x ∧
      x.events.lookup f = some { e with where_kInReady := false, is_locked := true } ∧
      f ∉ x.ready_fds_ ∧ f ∉ x.timeout_heap_ ∧ f ∉ x.active_fds_ ∧
      calls_for f x.trace = calls_for f h.trace ∧
      adds_for f x.trace =
        adds_for f h.trace ++ (if f ∈ h.ready_fds_ then [Obs.add f true] else []) ∧
      x.sys_ev_op_ = h.sys_ev_op_ := by
  by_cases hr : f ∈ h.ready_fds_
  · obtain ⟨h1, hfin, post, hret, hcf, hr1, hs1, hc1, hfin1, hrest⟩ :=
      PreprocessReadyEvents_at os f h hc hr
    have hl1 := hs1.lookup.trans hl
    have hreg := EventHub.Preprocess_step_registered os post.length h1 f post e hr1 hl1
      hcb (hadd hr).1 (hadd hr).2
    have hs3 := hrest _ hreg rfl
    have hlf : hfin.events.lookup f =
        some { e with where_kInReady := false, is_locked := true } := by
      rw [hs3.lookup]
      simp [Table.lookup_insert_eq]
    refine ⟨hfin, hret, hcf, hlf, ?_, ?_, ?_, ?_, ?_,
      PreprocessReadyEvents_backend os h hfin hret⟩
    · intro hm
      have hflag := (hcf.ready_flag f).mp hm
      simp [EventHub.IsInReady, hlf] at hflag
    · intro hm
      exact hnh (hs1.heap.mp (hs3.heap.mp hm))
    · intro hm
      have hcnt := hs3.active
      simp only [] at hcnt
      rw [hs1.active, List.count_eq_zero_of_not_mem hna] at hcnt
      exact (List.count_eq_zero.mp hcnt) hm
    · rw [hs3.calls]
      simp only [calls_for_append]
      rw [hs1.calls]
      simp [calls_for, Obs.is_call_for]
    · rw [hs3.adds, if_pos hr]
      simp only [adds_for_append]
      rw [hs1.adds]
      simp [adds_for, Obs.is_add_for]
  · obtain ⟨x, hx⟩ := Preprocess_returns os _ h hc (le_refl _)
    have hx2 : h.PreprocessReadyEvents os = Result.ok x := hx
    have hs := PreprocessReadyEvents_same os f h hr
    rw [hx2] at hs
    have hcx : Consistent x := by
      have := Consistent_Preprocess os h.ready_fds_.length h hc
      rw [hx] at this
      exact this
    have hlock : e.is_locked = true := by
      rcases hstate with hm | hlk
      · exact absurd hm hr
      · exact hlk
    have hready : e.where_kInReady = false := by
      have hflag := (hc.ready_flag f).not.mp hr
      simpa [EventHub.IsInReady, hl] using hflag
    have he : ({ e with where_kInReady := false, is_locked := true } : Event) = e := by
      obtain ⟨l, r, t, a, d, w, rd, tm, er, wcb, rcb, ecb, st⟩ := e
      simp only [] at hlock hready
      simp [hlock, hready]
    refine ⟨x, hx2, hcx, ?_, not_mem_of_SameFor_ready hs hr, fun hm => hnh (hs.heap.mp hm),
      not_mem_of_SameFor_active hs hna, hs.calls, ?_,
      PreprocessReadyEvents_backend os h x hx2⟩
    · rw [he]
      exact hs.lookup.trans hl
    · rw [if_neg hr, List.append_nil]
      exact hs.adds

theorem sys_Poll_trace (os : OS) (h : EventHub) (w : Int) :
    (EventHub.sys_Poll os h w).hub.ready_fds_ = h.ready_fds_ ∧
    (EventHub.sys_Poll os h w).hub.timeout_heap_ = h.timeout_heap_ ∧
    (EventHub.sys_Poll os h w).hub.trace = h.trace ++ [Obs.poll w] := by
  obtain ⟨a, b, c, _⟩ := sys_Poll_keeps (fun _ : Event => ()) (fun _ => rfl) (fun _ => rfl)
    (fun _ => rfl) os h w
  exact ⟨a, b, c⟩

theorem calls_for_poll (f : Int) (t : List Obs) (w : Int) :
    calls_for f (t ++ [Obs.poll w]) = calls_for f t := by
  simp [calls_for, Obs.is_call_for]

/-- After the registration phase left `f` registered, waiting for the backend without a
timeout: the callbacks that the rest of the iteration invokes for `f` are none, or those of
the directions the poll reports, each once; and they are the latter if the iteration
returns normally and does not leave `f` in the dispatch queue. -/
theorem LoopOnce_reported_from (prog : Program) (os : OS) (h : EventHub)
    (can_block : Bool) (f : Int) (hp : prog.leaves f) (hk : prog.keeps f)
    (x : EventHub) (e1 : Event)
    (hx : h.PreprocessReadyEvents os = Result.ok x) (hl : x.events.lookup f = some e1)
    (hA : e1.where_kInActive = false)
    (hW : e1.result_kWrite = false) (hR : e1.result_kRead = false)
    (hE : e1.result_kError = false) (hT : e1.result_kTimeout = false)
    (hnh : f ∉ x.timeout_heap_) (hna : f ∉ x.active_fds_)
    (hdel : os.epoll_del_fails f = false)
    (hone : ∀ evs, os.epoll_events = some evs →
      (evs.filter (fun ev => decide (ev.fd = f))).length ≤ 1) :
    ∃ l, calls_for f (h.LoopOnce prog os can_block).hub.trace = calls_for f x.trace ++ l ∧
      (l = [] ∨ l = reported_calls os x.sys_ev_op_ f e1) ∧
      ((h.LoopOnce prog os can_block).exception = none →
        f ∉ (h.LoopOnce prog os can_block).hub.active_fds_ →
        l = reported_calls os x.sys_ev_op_ f e1) := by
  have hnone : ∀ (r : Result), calls_for f r.hub.trace = calls_for f x.trace →
      r.exception ≠ none ∨ f ∈ r.hub.active_fds_ →
      ∃ l, calls_for f r.hub.trace = calls_for f x.trace ++ l ∧
        (l = [] ∨ l = reported_calls os x.sys_ev_op_ f e1) ∧
        (r.exception = none → f ∉ r.hub.active_fds_ →
          l = reported_calls os x.sys_ev_op_ f e1) := by
    intro r hcalls hbad
    refine ⟨[], by rw [hcalls, List.append_nil], Or.inl rfl, ?_⟩
    intro hn hnot
    rcases hbad with hb | hb
    · exact absurd hn hb
    · exact absurd hb hnot
  unfold EventHub.LoopOnce
  rw [hx]
  simp only [Result.andThen]
  cases hw : (if can_block = true then EventHub.CalculateWaittingTime os x
      else Except.ok 0) with
  | error ex =>
    exact hnone (Result.raised ex x) rfl (Or.inl (by simp [Result.exception]))
  | ok w =>
    simp only []
    obtain ⟨hpr, hph, hpt⟩ := sys_Poll_trace os x w
    cases hpoll : EventHub.sys_Poll os x w with
    | raised ex y =>
      rw [hpoll] at hpt
      refine hnone (Result.raised ex y) ?_ (Or.inl (by simp [Result.exception]))
      show calls_for f y.trace = _
      rw [show y.trace = x.trace ++ [Obs.poll w] from hpt, calls_for_poll]
    | ok y =>
      rw [hpoll] at hpr hph hpt
      have hty : y.trace = x.trace ++ [Obs.poll w] := hpt
      have hhy : y.timeout_heap_ = x.timeout_heap_ := hph
      obtain ⟨hly, hcy⟩ := sys_Poll_at os x y w f e1 hl hA hna hone hpoll
      have hcalls_y : calls_for f y.trace = calls_for f x.trace := by
        rw [hty, calls_for_poll]
      have s3 := CheckTimeoutEvents_same os f y (by rw [hhy]; exact hnh)
      simp only []
      cases hct : y.CheckTimeoutEvents os with
      | raised ex z =>
        rw [hct] at s3
        exact hnone (Result.raised ex z) (s3.calls.trans hcalls_y)
          (Or.inl (by simp [Result.exception]))
      | ok z =>
        rw [hct] at s3
        have hlz : z.events.lookup f = some (e1.notified (os.names x.sys_ev_op_ f)
            (os.readable x.sys_ev_op_ f) (os.writable x.sys_ev_op_ f)) :=
          s3.lookup.trans hly
        have hcz : z.active_fds_.count f =
            (if os.names x.sys_ev_op_ f = true then 1 else 0) := s3.active.trans hcy
        have hcalls_z : calls_for f z.trace = calls_for f x.trace :=
          s3.calls.trans hcalls_y
        simp only []
        cases hn : os.names x.sys_ev_op_ f with
        | false =>
          rw [hn] at hcz
          have hnot : f ∉ z.active_fds_ := List.count_eq_zero.mp (by simpa using hcz)
          have s4 := ResponseActiveEvents_same prog os f hp z hnot
          obtain ⟨hrd, hwr⟩ := not_named os x.sys_ev_op_ f hn
          refine ⟨[], by rw [s4.calls, hcalls_z, List.append_nil], Or.inl rfl, ?_⟩
          intro _ _
          simp [reported_calls, hrd, hwr]
        | true =>
          rw [hn] at hcz
          have hcz1 : z.active_fds_.count f = 1 := by simpa using hcz
          unfold EventHub.ResponseActiveEvents
          rcases Response_reach prog os f hp z.active_fds_.length z hcz1 with
            ⟨m, h1, rest, heq, ha1, hnr, hs1⟩ | hend
          · obtain ⟨h2, heq2, ha2, hcalls2⟩ := Response_step_keeps prog os m h1 f rest _ hk
              ha1 (hs1.lookup.trans hlz)
              (by
                intro hflag
                simp [Event.notified, hE, hT] at hflag)
              (fun _ _ => hdel)
            have s4 := Response_same prog os f hp m h2 (by rw [ha2]; exact hnr)
            rw [heq, heq2]
            refine ⟨reported_calls os x.sys_ev_op_ f e1, ?_, Or.inr rfl, fun _ _ => rfl⟩
            rw [s4.calls, hcalls2, hs1.calls, hcalls_z, hn,
              ← dispatch_calls_notified os x.sys_ev_op_ f e1 hW hR hE hT, hn]
          · refine hnone _ (hend.calls.trans hcalls_z) (Or.inr ?_)
            apply List.count_pos_iff.mp
            rw [hend.active, hcz1]
            exact Nat.one_pos

/-- After the registration phase left `f` registered, waiting for the backend without a
timeout: if the poll names `f`, the callbacks of `f` do not reconfigure it, and the
iteration returns normally without leaving `f` in the dispatch queue, then `f` was
dispatched and is left with the event of a dispatched descriptor. -/
theorem LoopOnce_dispatched_from (prog : Program) (os : OS) (h : EventHub)
    (can_block : Bool) (f : Int) (hp : prog.leaves f) (hk : prog.respects f)
    (x : EventHub) (e1 : Event)
    (hx : h.PreprocessReadyEvents os = Result.ok x) (hl : x.events.lookup f = some e1)
    (hA : e1.where_kInActive = false)
    (hnh : f ∉ x.timeout_heap_) (hna : f ∉ x.active_fds_)
    (hdel : os.epoll_del_fails f = false)
    (hone : ∀ evs, os.epoll_events = some evs →
      (evs.filter (fun ev => decide (ev.fd = f))).length ≤ 1)
    (hn : os.names x.sys_ev_op_ f = true)
    (hret : (h.LoopOnce prog os can_block).exception = none)
    (hout : f ∉ (h.LoopOnce prog os can_block).hub.active_fds_) :
    (h.LoopOnce prog os can_block).hub.events.lookup f = some e1.dispatched := by
  revert hret hout
  unfold EventHub.LoopOnce
  rw [hx]
  simp only [Result.andThen]
  cases hw : (if can_block = true then EventHub.CalculateWaittingTime os x
      else Except.ok 0) with
  | error ex =>
    intro hret
    simp [Result.exception] at hret
  | ok w =>
    simp only []
    obtain ⟨hpr, hph, hpt⟩ := sys_Poll_trace os x w
    cases hpoll : EventHub.sys_Poll os x w with
    | raised ex y =>
      intro hret
      simp [Result.exception] at hret
    | ok y =>
      rw [hpoll] at hph
      have hhy : y.timeout_heap_ = x.timeout_heap_ := hph
      obtain ⟨hly, hcy⟩ := sys_Poll_at os x y w f e1 hl hA hna hone hpoll
      have s3 := CheckTimeoutEvents_same os f y (by rw [hhy]; exact hnh)
      simp only []
      cases hct : y.CheckTimeoutEvents os with
      | raised ex z =>
        intro hret
        simp [Result.exception] at hret
      | ok z =>
        rw [hct] at s3
        simp only []
        have hlz : z.events.lookup f = some (e1.notified (os.names x.sys_ev_op_ f)
            (os.readable x.sys_ev_op_ f) (os.writable x.sys_ev_op_ f)) :=
          s3.lookup.trans hly
        have hcz1 : z.active_fds_.count f = 1 := by
          have := s3.active.trans hcy
          rw [hn] at this
          simpa using this
        unfold EventHub.ResponseActiveEvents
        rcases Response_reach prog os f hp z.active_fds_.length z hcz1 with
          ⟨m, h1, rest, heq, ha1, hnr, hs1⟩ | hend
        · rw [heq]
          rcases Response_step_respects prog os m h1 f rest _ hk ha1 (hs1.lookup.trans hlz)
              (fun _ _ => hdel) with ⟨h2, heq2, hc2, hl2⟩ | ⟨ex, h2, heq2, _, _⟩
          · rw [heq2]
            intro _ _
            have hnot2 : f ∉ h2.active_fds_ := by
              rw [List.count_eq_zero_of_not_mem hnr] at hc2
              exact List.count_eq_zero.mp hc2
            have s4 := Response_same prog os f hp m h2 hnot2
            rw [s4.lookup, hl2]
            rfl
          · rw [heq2]
            intro hret
            simp [Result.exception] at hret
        · intro _ hout
          exfalso
          apply hout
          apply List.count_pos_iff.mp
          rw [hend.active, hcz1]
          exact Nat.one_pos
/-! ## Claims on the builder surface -/

/-- C7. `CreateEmpty(fd, cb)` throws `invalid_argument` when `fd < 0` or, failing that, when
`cb` is null; it throws the already-exists `logic_error` when (the arguments being valid)
`fd` is in the table; in every other case it returns.  A throw leaves the hub unchanged.
On return the table has one more entry, the entry of `fd` is a fresh event (unlocked, no
membership flag, no result flag, no read or write callback, no data, error callback `cb`),
every other entry, the queues, the heap and the backend are untouched, and `fd` is the
selected descriptor. -/
theorem C7_CreateEmpty_raises_iff (h : EventHub) (fd : Int) (cb : Option Nat) :
    (fd < 0 → h.CreateEmpty fd cb = Result.raised Exception.invalid_argument_fd h) ∧
    (0 ≤ fd → cb = none →
      h.CreateEmpty fd cb = Result.raised Exception.invalid_argument_error_cb h) ∧
    (0 ≤ fd → cb ≠ none → h.events.contains fd = true →
      h.CreateEmpty fd cb = Result.raised Exception.logic_error_already_exists h) ∧
    (0 ≤ fd → cb ≠ none → h.events.contains fd = false →
      ∃ h1, h.CreateEmpty fd cb = Result.ok h1 ∧
        h1.events.lookup fd = some
          { is_locked := false, where_kInReady := false, where_kInTimeout := false,
            where_kInActive := false, data_ := none, result_kWrite := false,
            result_kRead := false, result_kTimeout := false, result_kError := false,
            write_cb_ := none, read_cb_ := none, error_cb_ := cb, timeout_stamp_ := 0 } ∧
        (∀ g, g ≠ fd → h1.events.lookup g = h.events.lookup g) ∧
        h1.EventsCount = h.EventsCount + 1 ∧
        h1.current_fd_ = fd ∧
        h1.ready_fds_ = h.ready_fds_ ∧ h1.timeout_heap_ = h.timeout_heap_ ∧
        h1.active_fds_ = h.active_fds_ ∧ h1.sys_ev_op_ = h.sys_ev_op_ ∧
        h1.registered_event_count_ = h.registered_event_count_ ∧ h1.trace = h.trace) := by
  refine ⟨?_, ?_, ?_, ?_⟩
  · intro hfd
    simp [EventHub.CreateEmpty, hfd]
  · intro hfd hcb
    simp [EventHub.CreateEmpty, not_lt.mpr hfd, hcb]
  · intro hfd hcb hin
    simp [EventHub.CreateEmpty, not_lt.mpr hfd, hcb, hin]
  · intro hfd hcb hin
    have hnone : h.events.lookup fd = none := by
      simpa [Table.contains] using hin
    refine ⟨{ h with events := h.events.insert fd { error_cb_ := cb }, current_fd_ := fd },
      ?_, ?_, ?_, ?_, rfl, rfl, rfl, rfl, rfl, rfl, rfl⟩
    · simp [EventHub.CreateEmpty, EventHub.SetCurrent, not_lt.mpr hfd, hcb, hin]
    · simp
    · intro g hg
      simp [Table.lookup_insert_ne _ fd g _ hg]
    · simp [EventHub.EventsCount, Table.size_insert _ fd _ hnone]

/-- C6. With the selected descriptor in the table, `Destroy()` throws if and only if the
descriptor's `kInReady` or `kInTimeout` flag is set; in every state reached from a fresh
hub by public calls that is: if and only if the descriptor is in the registration queue
or in the timeout heap.  The exception is the `logic_error` of `Destroy` and the hub is
unchanged.  When it returns, exactly that entry is gone: lookups of the descriptor fail,
`EventsCount` has dropped by one, and every other entry and every other member of the hub
is as before. -/
theorem C6_Destroy_raises_iff (h : EventHub) (ev : Event)
    (hsel : h.events.lookup h.current_fd_ = some ev) :
    ((h.Destroy).exception ≠ none ↔
      (ev.where_kInReady = true ∨ ev.where_kInTimeout = true)) ∧
    ((h.Destroy).exception ≠ none →
      h.Destroy = Result.raised Exception.logic_error_ready_or_timeout h) ∧
    ((h.Destroy).exception = none →
      ∃ h1, h.Destroy = Result.ok h1 ∧
        h1.events.lookup h.current_fd_ = none ∧
        h1.events.contains h.current_fd_ = false ∧
        (∀ cb, h1.OnRead cb = Result.raised Exception.out_of_range h1) ∧
        (0 ≤ h.current_fd_ →
          h1.SetCurrent h.current_fd_ = Result.raised Exception.logic_error_not_exists h1) ∧
        h1.EventsCount + 1 = h.EventsCount ∧
        (∀ g, g ≠ h.current_fd_ → h1.events.lookup g = h.events.lookup g) ∧
        h1.current_fd_ = h.current_fd_ ∧
        h1.ready_fds_ = h.ready_fds_ ∧ h1.timeout_heap_ = h.timeout_heap_ ∧
        h1.active_fds_ = h.active_fds_ ∧ h1.sys_ev_op_ = h.sys_ev_op_ ∧
        h1.registered_event_count_ = h.registered_event_count_ ∧ h1.trace = h.trace) ∧
    (∀ (prog : Program) (backend : Backend) (cs : List Call),
      h = run_calls prog cs (EventHub.initial backend) →
      ((h.Destroy).exception ≠ none ↔
        (h.current_fd_ ∈ h.ready_fds_ ∨ h.current_fd_ ∈ h.timeout_heap_))) := by
  have hmem : ∀ (prog : Program) (backend : Backend) (cs : List Call),
      h = run_calls prog cs (EventHub.initial backend) →
      ((h.current_fd_ ∈ h.ready_fds_ ∨ h.current_fd_ ∈ h.timeout_heap_) ↔
        (ev.where_kInReady = true ∨ ev.where_kInTimeout = true)) := by
    intro prog backend cs hreach
    have hc : Consistent h := by
      rw [hreach]
      exact Consistent_run_calls prog cs _ (Consistent_initial backend)
    rw [hc.ready_flag, hc.heap_flag]
    simp [EventHub.IsInReady, EventHub.IsInTimeout, hsel]
  by_cases hflag : ev.where_kInReady = true ∨ ev.where_kInTimeout = true
  · have hd : h.Destroy = Result.raised Exception.logic_error_ready_or_timeout h := by
      simp [EventHub.Destroy, hsel, EventHub.IsInReady, EventHub.IsInTimeout, hflag]
    refine ⟨by simp [hd, Result.exception, hflag], by simp [hd, Result.exception],
      by simp [hd, Result.exception], ?_⟩
    intro prog backend cs hreach
    rw [hmem prog backend cs hreach]
    simp [hd, Result.exception, hflag]
  · have hd : h.Destroy = Result.ok { h with events := h.events.erase h.current_fd_ } := by
      simp [EventHub.Destroy, hsel, EventHub.IsInReady, EventHub.IsInTimeout, hflag]
    refine ⟨by simp [hd, Result.exception, hflag], by simp [hd, Result.exception], ?_,
      fun prog backend cs hreach => by
        rw [hmem prog backend cs hreach]; simp [hd, Result.exception, hflag]⟩
    intro _
    refine ⟨_, hd, by simp, by simp [Table.contains], ?_, ?_, ?_, ?_, rfl, rfl, rfl, rfl,
      rfl, rfl, rfl⟩
    · intro cb
      simp [EventHub.OnRead]
    · intro hfd
      simp [EventHub.SetCurrent, not_lt.mpr hfd]
    · simp [EventHub.EventsCount, Table.size_erase _ _ (by simp [hsel] : h.events.lookup h.current_fd_ ≠ none)]
    · intro g hg
      simp [Table.lookup_erase_ne _ _ g hg]

/-- What `Destroy()` does test: it removes the selected descriptor from the table only if
that descriptor is neither awaiting registration nor in the timeout heap: its `kInReady`
and `kInTimeout` flags are clear, and in every state reached from a fresh hub by public
calls it is neither in the registration queue nor in the timeout heap. -/
theorem Destroy_only_if_not_ready_nor_timeout (h h1 : EventHub) (ev : Event)
    (hsel : h.events.lookup h.current_fd_ = some ev)
    (hd : h.Destroy = Result.ok h1) :
    ev.where_kInReady = false ∧ ev.where_kInTimeout = false ∧
      h1.events.lookup h.current_fd_ = none ∧
      (∀ (prog : Program) (backend : Backend) (cs : List Call),
        h = run_calls prog cs (EventHub.initial backend) →
        h.current_fd_ ∉ h.ready_fds_ ∧ h.current_fd_ ∉ h.timeout_heap_) := by
  by_cases hflag : ev.where_kInReady = true ∨ ev.where_kInTimeout = true
  · simp [EventHub.Destroy, hsel, EventHub.IsInReady, EventHub.IsInTimeout, hflag] at hd
  · have hflag2 := hflag
    simp only [not_or, Bool.not_eq_true] at hflag2
    simp only [EventHub.Destroy, hsel, EventHub.IsInReady, EventHub.IsInTimeout, hflag,
      if_false, Result.ok.injEq] at hd
    subst hd
    refine ⟨hflag2.1, hflag2.2, by simp, ?_⟩
    intro prog backend cs hreach
    have hc : Consistent h := by
      rw [hreach]
      exact Consistent_run_calls prog cs _ (Consistent_initial backend)
    rw [hc.ready_flag, hc.heap_flag]
    simp [EventHub.IsInReady, EventHub.IsInTimeout, hsel, hflag2.1, hflag2.2]

/-- C8 (amended). `SetCurrent(fd)` throws `invalid_argument` if `fd < 0`; otherwise the
not-exists `logic_error` if `fd` is not in the table; otherwise the locked `logic_error`
if the event of `fd` is locked; otherwise it returns and its only effect is that `fd` is
the selected descriptor.  A throw changes nothing.  Hence it never succeeds for a
descriptor whose event is locked, also when the call is made from a callback.  The lock
lasts: a locked descriptor `fd` that is not the selected one is left as it is, and
unselected, by every call of the builder surface, so a sequence of such calls (the body of
a callback) that contains `SetCurrent(fd)` throws; the dispatch loop leaves it as it is
until the dispatch of `fd` itself begins, whatever the callbacks of the descriptors
dispatched before do; and on a sound hub `PreprocessReadyEvents`, the poll and
`CheckTimeoutEvents` keep a locked descriptor locked. -/
theorem C8_SetCurrent_raises_iff (h : EventHub) (fd : Int) :
    (fd < 0 → h.SetCurrent fd = Result.raised Exception.invalid_argument_fd h) ∧
    (0 ≤ fd → h.events.lookup fd = none →
      h.SetCurrent fd = Result.raised Exception.logic_error_not_exists h) ∧
    (∀ ev, 0 ≤ fd → h.events.lookup fd = some ev → ev.is_locked = true →
      h.SetCurrent fd = Result.raised Exception.logic_error_locked h ∧
      (Action.SetCurrent fd).run h = Result.raised Exception.logic_error_locked h) ∧
    (∀ ev, 0 ≤ fd → h.events.lookup fd = some ev → ev.is_locked = false →
      h.SetCurrent fd = Result.ok { h with current_fd_ := fd }) ∧
    (∀ ev, h.shields fd ev → ev.is_locked = true →
      (∀ a : Action, (a.run h).hub.shields fd ev) ∧
      (∀ acts rest : List Action,
        (run_actions (acts ++ Action.SetCurrent fd :: rest) h).exception ≠ none) ∧
      (∀ (prog : Program) (os : OS) (n : Nat) (pre post : List Int),
        h.active_fds_ = pre ++ fd :: post → fd ∉ pre →
        (∃ hm m, EventHub.ResponseActiveEvents_loop prog os n h =
            EventHub.ResponseActiveEvents_loop prog os m hm ∧
          hm.active_fds_ = fd :: post ∧ hm.shields fd ev) ∨
        (EventHub.ResponseActiveEvents_loop prog os n h).hub.shields fd ev) ∧
      (∀ (prog : Program) (os : OS), fd ∉ h.active_fds_ →
        (h.ResponseActiveEvents prog os).hub.shields fd ev)) ∧
    (∀ ev, h.events.lookup fd = some ev → ev.is_locked = true →
      (∀ os h1, Sound h → h.PreprocessReadyEvents os = Result.ok h1 →
        ∃ e1, h1.events.lookup fd = some e1 ∧ e1.is_locked = true) ∧
      (∀ os w h1, h.sys_Poll os w = Result.ok h1 →
        ∃ e1, h1.events.lookup fd = some e1 ∧ e1.is_locked = true) ∧
      (∀ os h1, Sound h → h.CheckTimeoutEvents os = Result.ok h1 →
        ∃ e1, h1.events.lookup fd = some e1 ∧ e1.is_locked = true)) := by
  have of_map : ∀ (h1 : EventHub) (ev : Event), h.events.lookup fd = some ev →
      ev.is_locked = true →
      (h1.events.lookup fd).map Event.is_locked = (h.events.lookup fd).map Event.is_locked →
      ∃ e1, h1.events.lookup fd = some e1 ∧ e1.is_locked = true := by
    intro h1 ev hev hl hm
    rw [hev] at hm
    cases h1l : h1.events.lookup fd with
    | none => rw [h1l] at hm; simp at hm
    | some e1 =>
      rw [h1l] at hm
      simp only [Option.map_some', Option.some.injEq] at hm
      exact ⟨e1, rfl, hm.trans hl⟩
  refine ⟨?_, ?_, ?_, ?_, ?_, ?_⟩
  · intro hfd
    simp [EventHub.SetCurrent, hfd]
  · intro hfd hl
    simp [EventHub.SetCurrent, not_lt.mpr hfd, hl]
  · intro ev hfd hl hlock
    simp [Action.run, EventHub.SetCurrent, not_lt.mpr hfd, hl, hlock]
  · intro ev hfd hl hlock
    simp [EventHub.SetCurrent, not_lt.mpr hfd, hl, hlock]
  · intro ev hs hl
    exact ⟨fun a => Action_frame_locked a h fd ev hs.1 hl hs.2,
      fun acts rest => run_actions_SetCurrent_locked fd ev hl acts rest h hs,
      fun prog os n pre post ha hpre =>
        Response_shields_until prog os fd ev hl post pre n h ha hpre hs,
      fun prog os hact => Response_shields prog os fd ev hl _ h hs hact⟩
  · intro ev hev hl
    refine ⟨?_, ?_, ?_⟩
    · intro os h1 hsound hp
      exact Preprocess_keeps_locked os _ h h1 (le_refl _) hsound hp fd ev hev hl
    · intro os w h1 hp
      exact of_map h1 ev hev hl (sys_Poll_keeps_locks os h h1 w hp fd)
    · intro os h1 hsound hp
      exact of_map h1 ev hev hl
        (CheckTimeout_keeps_locks os _ h h1 (le_refl _) hsound hp fd)


/-- C6 (witness): the theorem at `scenario_created`, where `Destroy()` returns, and at
`scenario_rearm`, where the selected descriptor 3 is in the registration queue and
`Destroy()` throws. -/
theorem C6_Destroy_raises_iff_witness :
    scenario_created.events.lookup scenario_created.current_fd_ =
      some { error_cb_ := some 30 } ∧
    (scenario_created.Destroy.exception ≠ none ↔
      (({ error_cb_ := some 30 } : Event).where_kInReady = true ∨
        ({ error_cb_ := some 30 } : Event).where_kInTimeout = true)) ∧
    scenario_rearm.current_fd_ ∈ scenario_rearm.ready_fds_ ∧
    scenario_rearm.Destroy.exception ≠ none :=
  ⟨by decide,
   (C6_Destroy_raises_iff scenario_created { error_cb_ := some 30 } (by decide)).1,
   by decide,
   ((C6_Destroy_raises_iff scenario_rearm
      { where_kInReady := true, where_kInTimeout := true, read_cb_ := some 31,
        error_cb_ := some 30, timeout_stamp_ := 40000000 } (by decide)).2.2.2
      Program.inert Backend.KQueue
      [Call.action (Action.CreateEmpty 1 (some 10)), Call.action (Action.OnRead (some 11)),
       Call.action (Action.Ready (some 10) 0),
       Call.action (Action.CreateEmpty 2 (some 20)), Call.action (Action.OnRead (some 21)),
       Call.action (Action.Ready (some 20) 0),
       Call.action (Action.CreateEmpty 3 (some 30)), Call.action (Action.OnRead (some 31)),
       Call.action (Action.Ready (some 30) 0),
       Call.action (Action.Ready (some 40) 0)] rfl).mpr (Or.inl (by decide))⟩

/-- The guard of `Destroy()` at `scenario_created`. -/
theorem Destroy_only_if_not_ready_nor_timeout_example :
    scenario_created.events.lookup scenario_created.current_fd_ =
      some { error_cb_ := some 30 } ∧
    scenario_created.Destroy = Result.ok scenario_created.Destroy.hub ∧
    (({ error_cb_ := some 30 } : Event).where_kInReady = false ∧
      ({ error_cb_ := some 30 } : Event).where_kInTimeout = false ∧
      scenario_created.Destroy.hub.events.lookup scenario_created.current_fd_ = none ∧
      (∀ (prog : Program) (backend : Backend) (cs : List Call),
        scenario_created = run_calls prog cs (EventHub.initial backend) →
        scenario_created.current_fd_ ∉ scenario_created.ready_fds_ ∧
        scenario_created.current_fd_ ∉ scenario_created.timeout_heap_)) :=
  ⟨by decide, by decide,
   Destroy_only_if_not_ready_nor_timeout scenario_created scenario_created.Destroy.hub
     { error_cb_ := some 30 } (by decide) (by decide)⟩

/-- C8 (witness): the theorem at `scenario_race`, where descriptor 5 is locked and
descriptor 7 is the selected one. -/
theorem C8_SetCurrent_raises_iff_witness :
    scenario_race.SetCurrent 5 =
      Result.raised Exception.logic_error_locked scenario_race ∧
    (∀ a : Action, (a.run scenario_race).hub.shields 5
      { is_locked := true, where_kInTimeout := true, read_cb_ := some 51,
        error_cb_ := some 50, timeout_stamp_ := 2000000 }) :=
  ⟨((C8_SetCurrent_raises_iff scenario_race 5).2.2.1
      { is_locked := true, where_kInTimeout := true, read_cb_ := some 51,
        error_cb_ := some 50, timeout_stamp_ := 2000000 }
      (by decide) (by decide) (by decide)).1,
   ((C8_SetCurrent_raises_iff scenario_race 5).2.2.2.2.1
      { is_locked := true, where_kInTimeout := true, read_cb_ := some 51,
        error_cb_ := some 50, timeout_stamp_ := 2000000 }
      (by decide) (by decide)).1⟩

/-- C7 (witness): the theorem at the fresh hub and at `scenario_created`: a negative
descriptor and a null callback are refused, a tracked descriptor is refused, and a valid
untracked one is created and selected. -/
theorem C7_CreateEmpty_raises_iff_witness :
    (EventHub.initial Backend.KQueue).CreateEmpty (-1) (some 50) =
      Result.raised Exception.invalid_argument_fd (EventHub.initial Backend.KQueue) ∧
    (EventHub.initial Backend.KQueue).CreateEmpty 5 none =
      Result.raised Exception.invalid_argument_error_cb (EventHub.initial Backend.KQueue) ∧
    scenario_created.CreateEmpty 3 (some 31) =
      Result.raised Exception.logic_error_already_exists scenario_created ∧
    (∃ h1, (EventHub.initial Backend.KQueue).CreateEmpty 5 (some 50) = Result.ok h1 ∧
      h1.EventsCount = (EventHub.initial Backend.KQueue).EventsCount + 1 ∧
      h1.current_fd_ = 5) :=
  ⟨(C7_CreateEmpty_raises_iff (EventHub.initial Backend.KQueue) (-1) (some 50)).1
      (by decide),
   (C7_CreateEmpty_raises_iff (EventHub.initial Backend.KQueue) 5 none).2.1
      (by decide) rfl,
   (C7_CreateEmpty_raises_iff scenario_created 3 (some 31)).2.2.1
      (by decide) (by decide) (by decide),
   match (C7_CreateEmpty_raises_iff (EventHub.initial Backend.KQueue) 5 (some 50)).2.2.2
      (by decide) (by decide) (by decide) with
   | ⟨h1, hok, _, _, hcount, hcur, _⟩ => ⟨h1, hok, hcount, hcur⟩⟩

/-! ## Claims settled on concrete runs -/

/-- C1. After `Remove`, the root of the timeout heap need not have the least deadline:
removing 3 from the heap `[1, 2, 3]` rebuilds it with `operator<` on descriptors, giving
`[2, 1]`.  In the run `scenario_rearm` the heap ends as `[2, 1, 3]`: `Top()` is descriptor
2 (deadline 20 s) while member 1 has deadline 10 s. -/
theorem C1_Remove_breaks_heap_root :
    EventMinHeap.Remove [1, 2, 3] 3 = [2, 1] ∧
    scenario_rearm.timeout_heap_ = [2, 1, 3] ∧
    EventMinHeap.Top scenario_rearm.timeout_heap_ = some 2 ∧
    1 ∈ scenario_rearm.timeout_heap_ ∧
    stamp scenario_rearm.events 2 = 20 * ticks_per_second ∧
    stamp scenario_rearm.events 1 = 10 * ticks_per_second ∧
    stamp scenario_rearm.events 1 < stamp scenario_rearm.events 2 := by
  decide

/-- C2. `OnRead`, `OnWrite` and `WithData` do not test the lock: in `scenario_armed`
descriptor 5 is locked and still selected, and each of the three calls returns normally
and changes the read callback, the write callback or the data of the locked event. -/
theorem C2_reconfiguration_of_locked_descriptor :
    scenario_armed.current_fd_ = 5 ∧
    (scenario_armed.events.lookup 5).map
      (fun e => (e.is_locked, e.read_cb_, e.write_cb_, e.data_)) =
        some (true, some 51, none, none) ∧
    (scenario_armed.OnRead none).exception = none ∧
    ((scenario_armed.OnRead none).hub.events.lookup 5).map
      (fun e => (e.is_locked, e.read_cb_)) = some (true, none) ∧
    (scenario_armed.OnWrite (some 52)).exception = none ∧
    ((scenario_armed.OnWrite (some 52)).hub.events.lookup 5).map
      (fun e => (e.is_locked, e.write_cb_)) = some (true, some 52) ∧
    (scenario_armed.WithData (some 9)).exception = none ∧
    ((scenario_armed.WithData (some 9)).hub.events.lookup 5).map
      (fun e => (e.is_locked, e.data_)) = some (true, some 9) := by
  decide

/-- C3 (counterexample). In `scenario_race` both 5 and 7 are registered; in the next
iteration the poll reports both readable and the deadline of 5 has passed.  Descriptor 5's
error callback is invoked with kind Timeout and its read callback is not invoked. -/
theorem C3_race_counterexample :
    calls (scenario_race.LoopOnce Program.inert os_race true).hub.trace =
      [Obs.call 50 5 EventType.kTimeout none, Obs.call 71 7 EventType.kRead none] ∧
    Obs.call 51 5 EventType.kRead none ∉
      (scenario_race.LoopOnce Program.inert os_race true).hub.trace ∧
    Obs.call 50 5 EventType.kTimeout none ∈
      (scenario_race.LoopOnce Program.inert os_race true).hub.trace := by
  decide

/-- C5. In `scenario_armed` descriptor 5 was selected by `CreateEmpty`, armed, and then
locked and registered with the backend by `LoopOnce`; it is still the selected descriptor.
`SetCurrent(5)` refuses it as locked, but `Destroy()`, which does not test the lock,
returns normally and removes it from the table while it stays registered with the
backend.  When the backend then reports 5 readable, `KQueue::Poll` looks it up with
`events.at` and `LoopOnce` ends with `out_of_range`. -/
theorem C5_Destroy_of_locked_descriptor :
    scenario_armed.current_fd_ = 5 ∧
    (scenario_armed.events.lookup 5).map (fun e => e.is_locked) = some true ∧
    scenario_armed.trace = [Obs.add 5 true, Obs.poll 0] ∧
    scenario_armed.SetCurrent 5 =
      Result.raised Exception.logic_error_locked scenario_armed ∧
    scenario_armed.Destroy.exception = none ∧
    scenario_armed.events.contains 5 = true ∧
    scenario_armed.Destroy.hub.events.contains 5 = false ∧
    scenario_armed.Destroy.hub.registered_event_count_ = 1 ∧
    scenario_armed.Destroy.hub.trace = [Obs.add 5 true, Obs.poll 0] ∧
    (scenario_armed.Destroy.hub.LoopOnce Program.inert os_five_readable true).exception =
      some Exception.out_of_range := by
  decide

/-- C8 (counterexample). Descriptor -1 is not in the table of a fresh hub, and
`SetCurrent(-1)` throws `invalid_argument`, not the not-exists `logic_error`. -/
theorem C8_SetCurrent_negative_counterexample :
    (EventHub.initial Backend.KQueue).events.lookup (-1) = none ∧
    (EventHub.initial Backend.KQueue).SetCurrent (-1) =
      Result.raised Exception.invalid_argument_fd (EventHub.initial Backend.KQueue) ∧
    (EventHub.initial Backend.KQueue).SetCurrent (-1) ≠
      Result.raised Exception.logic_error_not_exists (EventHub.initial Backend.KQueue) := by
  decide

/-- C9. In `scenario_rearm` descriptor 1 has deadline 10 s and descriptor 2 has deadline
20 s, and neither is ever reported ready.  The iteration at 15 s invokes no callback
although the deadline of 1 has passed, and the iteration at 25 s invokes the error
callback of 2 with kind Timeout before that of 1. -/
theorem C9_later_deadline_fires_first :
    stamp scenario_rearm.events 1 = 10 * ticks_per_second ∧
    stamp scenario_rearm.events 2 = 20 * ticks_per_second ∧
    calls (run_calls Program.inert [Call.LoopOnce (quiet_at 15) true] scenario_rearm).trace
      = [] ∧
    calls (run_calls Program.inert
        [Call.LoopOnce (quiet_at 15) true, Call.LoopOnce (quiet_at 25) true]
        scenario_rearm).trace =
      [Obs.call 20 2 EventType.kTimeout none, Obs.call 10 1 EventType.kTimeout none] := by
  decide

/-- C4. In `scenario_half_registered` (kqueue) descriptor 9 has a read and a write
callback.  `KQueue::Add` registers its write filter and throws on its read filter without
removing the write filter, while descriptor 4 is registered; the poll of the same
iteration reports 9 writable.  The iteration returns normally and invokes the write
callback of 9 with kind Write before its error callback with kind Error.  In
`scenario_bad_handle_epoll` (epoll) the registration of descriptor 9, which has a read
callback only, fails; the `Del(9)` of `ResponseActiveEvents` throws, `LoopOnce` raises and
the error callback of 9 is not invoked. -/
theorem C4_half_registration :
    KQueue.add_fails os_half_registered 9
      { where_kInReady := true, read_cb_ := some 91, write_cb_ := some 92,
        error_cb_ := some 90 } = true ∧
    (scenario_half_registered.LoopOnce Program.inert os_half_registered true).exception
      = none ∧
    Obs.add 9 false ∈
      (scenario_half_registered.LoopOnce Program.inert os_half_registered true).hub.trace ∧
    Obs.add 4 true ∈
      (scenario_half_registered.LoopOnce Program.inert os_half_registered true).hub.trace ∧
    calls_for 9
        (scenario_half_registered.LoopOnce Program.inert os_half_registered true).hub.trace =
      [Obs.call 92 9 EventType.kWrite none, Obs.call 90 9 EventType.kError none] ∧
    (scenario_half_registered.LoopOnce Program.inert os_half_registered true).hub.trace =
      [Obs.add 9 false, Obs.add 4 true, Obs.poll 0, Obs.del 9 true,
       Obs.call 92 9 EventType.kWrite none, Obs.call 90 9 EventType.kError none] ∧
    scenario_bad_handle_epoll.sys_ev_op_ = Backend.Epoll ∧
    (scenario_bad_handle_epoll.LoopOnce Program.inert os_bad_handle_epoll true).exception =
      some Exception.runtime_error_del ∧
    (scenario_bad_handle_epoll.LoopOnce Program.inert os_bad_handle_epoll true).hub.trace =
      [Obs.add 9 false, Obs.add 4 true, Obs.poll 0, Obs.del 9 false] := by
  decide

/-! ## The race between readiness and timeout -/

/-- C3 (amended). Let the hub be sound (KQueue backend) with nothing awaiting
registration, and let `a ≠ b` be tracked descriptors, `a` the root of the timeout heap
(whatever its read and write callbacks), `b` with a read callback, without a timeout and
without pending result flags.  If in one
`LoopOnce` the poll reports `a` and `b` readable (among any other tracked descriptors) and
the deadline of `a` has passed when `CheckTimeoutEvents` runs, then the iteration returns
normally and dispatches `a` and `b` exactly once each: the only callback invoked for `a`
is its error callback with kind Timeout (its read callback is not invoked: the timeout
replaces the pending readiness), and the only callback invoked for `b` is its read
callback with kind Read.  No callback calls into the hub. -/
theorem C3_race_timeout_replaces_read
    (prog : Program) (os : OS) (h : EventHub) (can_block : Bool) (a b : Int)
    (ea eb : Event) (rb xa : Nat) (evs : List (Int × Filter))
    (hinert : ∀ k g t d, prog k g t d = [])
    (hs : Sound h) (hcount : 0 ≤ h.registered_event_count_)
    (hready : h.ready_fds_ = [])
    (hab : a ≠ b)
    (hea : h.events.lookup a = some ea) (heb : h.events.lookup b = some eb)
    (hxa : ea.error_cb_ = some xa)
    (hrb : eb.read_cb_ = some rb)
    (htop : EventMinHeap.Top h.timeout_heap_ = some a)
    (hexp : ea.timeout_stamp_ ≤ os.now_check)
    (hbh : b ∉ h.timeout_heap_)
    (hbw : eb.result_kWrite = false) (hbe : eb.result_kError = false)
    (hbt : eb.result_kTimeout = false)
    (hk : os.kevents = some evs) (hevs : ∀ r ∈ evs, h.events.lookup r.1 ≠ none)
    (hpa : (a, Filter.EVFILT_READ) ∈ evs) (hpb : (b, Filter.EVFILT_READ) ∈ evs)
    (hpbw : (b, Filter.EVFILT_WRITE) ∉ evs) :
    ∃ h1, h.LoopOnce prog os can_block = Result.ok h1 ∧
      calls_for a h1.trace =
        calls_for a h.trace ++ [Obs.call xa a EventType.kTimeout ea.data_] ∧
      calls_for b h1.trace =
        calls_for b h.trace ++ [Obs.call rb b EventType.kRead eb.data_] ∧
      h1.active_fds_ = [] ∧ a ∉ h1.timeout_heap_ := by
  obtain ⟨w, hw⟩ := LoopOnce_tail prog os can_block h h
    (EventHub.PreprocessReadyEvents_nil os h hready)
    (fun top ht => hs.heap_tracked top (EventMinHeap.Top_mem _ _ ht))
  -- poll
  obtain ⟨h2, hpoll, hs2, _, hh2, _, ht2, _, hlook2, _⟩ :=
    sys_Poll_spec os w evs h hs hcount hk hevs
  have ha2 : h2.events.lookup a = some (Event.polled a evs ea) := by rw [hlook2 a, hea]; rfl
  have hb2 : h2.events.lookup b = some (Event.polled b evs eb) := by rw [hlook2 b, heb]; rfl
  have hamem : a ∈ evs.map Prod.fst := List.mem_map_of_mem Prod.fst hpa
  have hbmem : b ∈ evs.map Prod.fst := List.mem_map_of_mem Prod.fst hpb
  -- timeouts: the first iteration pops `a`
  have htop2 : EventMinHeap.Top h2.timeout_heap_ = some a := by rw [hh2]; exact htop
  have hexp2 : (Event.polled a evs ea).timeout_stamp_ ≤ os.now_check := by
    rw [Event.polled_eq]; exact hexp
  obtain ⟨n, hn⟩ : ∃ n, h2.timeout_heap_.length = n + 1 := by
    cases hl : h2.timeout_heap_ with
    | nil => rw [hl] at htop2; simp [EventMinHeap.Top] at htop2
    | cons x rest => exact ⟨rest.length, rfl⟩
  obtain ⟨h2', hstep, hs2', _, hh2', hcalls2', _, hact2', hframe2', ha2', _⟩ :=
    CheckTimeout_step os n h2 a _ hs2 htop2 ha2 hexp2
  have hanot : a ∉ h2'.timeout_heap_ := by
    rw [hh2']; exact EventMinHeap.Top_not_mem_Pop _ _ _ hs2.heap_nodup htop2
  obtain ⟨h3, hcheck, hs3, _, hcalls3, _, hheap3, hact3, hframe3, _⟩ :=
    CheckTimeout_spec os n h2' (by rw [hh2', EventMinHeap.length_Pop]; omega) hs2'
  have hcheck3 : EventHub.CheckTimeoutEvents os h2 = Result.ok h3 := by
    unfold EventHub.CheckTimeoutEvents
    rw [hn, hstep, hcheck]
  have ha3 := (hframe3 a hanot).1.trans ha2'
  have hbnot2 : b ∉ h2.timeout_heap_ := by rw [hh2]; exact hbh
  have hbnot : b ∉ h2'.timeout_heap_ := by
    rw [hh2']; exact fun hm => hbnot2 (EventMinHeap.mem_of_mem_Pop _ _ _ hm)
  have hb3 := ((hframe3 b hbnot).1.trans (hframe2' b (Ne.symm hab)).1).trans hb2
  -- dispatch
  obtain ⟨h4, hresp, _, ha4, _, hheap4, _, hcalls4, _, _⟩ :=
    Response_spec prog hinert os h3.active_fds_.length h3 (le_refl _) hs3
  have haact : a ∈ h3.active_fds_ := hs3.active_flag a _ ha3 rfl
  have hbact : b ∈ h3.active_fds_ := by
    refine hs3.active_flag b _ hb3 ?_
    rw [Event.polled_eq]; simp [hbmem]
  have hcalls_pre : ∀ x, calls_for x h3.trace = calls_for x h.trace := by
    intro x
    rw [hcalls3 x, hcalls2' x, ht2, calls_for_append]
    simp [calls_for, Obs.is_call_for]
  refine ⟨h4, ?_, ?_, ?_, ha4, ?_⟩
  · rw [hw, hpoll]
    simp only [Result.andThen]
    rw [hcheck3]
    exact hresp
  · rw [hcalls4 a, hcalls_pre a, if_pos haact, ha3]
    simp [dispatch_calls, call_of, Event.polled_eq, hxa]
  · rw [hcalls4 b, hcalls_pre b, if_pos hbact, hb3]
    simp [dispatch_calls, call_of, Event.polled_eq, hrb, hpb, hpbw, hbw, hbe, hbt]
  · exact fun hm => hanot (hheap3 a (hheap4 a hm))

/-- C3 (witness): the amended theorem at `scenario_race` and `os_race`. -/
theorem C3_race_timeout_replaces_read_witness :
    ∃ h1, scenario_race.LoopOnce Program.inert os_race true = Result.ok h1 ∧
      calls_for 5 h1.trace =
        calls_for 5 scenario_race.trace ++ [Obs.call 50 5 EventType.kTimeout none] ∧
      calls_for 7 h1.trace =
        calls_for 7 scenario_race.trace ++ [Obs.call 71 7 EventType.kRead none] ∧
      h1.active_fds_ = [] ∧ 5 ∉ h1.timeout_heap_ :=
  C3_race_timeout_replaces_read Program.inert os_race scenario_race true 5 7
    { is_locked := true, where_kInTimeout := true, read_cb_ := some 51, error_cb_ := some 50,
      timeout_stamp_ := 2 * ticks_per_second }
    { is_locked := true, read_cb_ := some 71, error_cb_ := some 70 }
    71 50 [(5, Filter.EVFILT_READ), (7, Filter.EVFILT_READ)] (fun _ _ _ _ => rfl)
    (Sound_of_checks scenario_race (by decide) (by decide) (by decide) (by decide)
      (by decide) (by decide) (by decide))
    (by decide) (by decide) (by decide) (by decide) (by decide) (by decide) (by decide)
    (by decide) (by decide) (by decide) (by decide) (by decide) (by decide) (by decide)
    (by decide) (by decide) (by decide) (by decide)

/-! ## The timeout scenario -/

theorem Pending_of_create (prog : Program) (fd : Int) (e r : Nat) (data : Option Nat)
    (d t0 : Int) (hfd : 0 ≤ fd) :
    Pending fd r e data (deadline_of t0 d)
      (run_calls prog
        [Call.action (Action.CreateEmpty fd (some e)), Call.action (Action.OnRead (some r)),
         Call.action (Action.WithData data), Call.action (Action.Ready (some d) t0)]
        (EventHub.initial Backend.KQueue)) ∧
    (run_calls prog
        [Call.action (Action.CreateEmpty fd (some e)), Call.action (Action.OnRead (some r)),
         Call.action (Action.WithData data), Call.action (Action.Ready (some d) t0)]
        (EventHub.initial Backend.KQueue)).trace = [] := by
  have hnl : ¬ fd < 0 := not_lt.mpr hfd
  simp [Pending, run_calls, Call.run, Action.run, EventHub.initial, EventHub.CreateEmpty,
    EventHub.SetCurrent, EventHub.OnRead, EventHub.WithData, EventHub.Ready, hnl,
    Table.contains, Result.hub, EventHub.IsInReady, EventHub.ReadyPush,
    EventHub.IsInTimeout, EventHub.TimeoutPush, EventMinHeap.Push, push_heap, sift_up]

theorem Preprocess_Pending (os : OS) (fd : Int) (e r : Nat) (data : Option Nat)
    (deadline : Int) (h : EventHub) (hs : Pending fd r e data deadline h)
    (hadd : os.kevent_add_fails fd Filter.EVFILT_READ = false) :
    ∃ h1, EventHub.PreprocessReadyEvents os h = Result.ok h1 ∧
      Armed fd r e data deadline h1 ∧ calls h1.trace = calls h.trace := by
  obtain ⟨hkq, hcnt, hready, hheap, hactive, hev⟩ := hs
  simp [EventHub.PreprocessReadyEvents, EventHub.PreprocessReadyEvents_loop, hready, hev,
    EventHub.sys_Add, KQueue.Add, hkq, hadd, Armed, hcnt, hheap, hactive, calls, Obs.is_call]

theorem tail_Armed (prog : Program) (os : OS) (w : Int) (fd : Int)
    (e r : Nat) (data : Option Nat) (deadline : Int) (h : EventHub)
    (hs : Armed fd r e data deadline h)
    (hk : os.kevents = some [])
    (hinert : prog e fd EventType.kTimeout data = []) :
    (os.now_check < deadline →
      ∃ h3, ((EventHub.sys_Poll os h w).andThen fun h2 =>
          (EventHub.CheckTimeoutEvents os h2).andThen fun h3 =>
            EventHub.ResponseActiveEvents prog os h3) = Result.ok h3 ∧
        Armed fd r e data deadline h3 ∧ calls h3.trace = calls h.trace) ∧
    (deadline ≤ os.now_check →
      ∃ h3, ((EventHub.sys_Poll os h w).andThen fun h2 =>
          (EventHub.CheckTimeoutEvents os h2).andThen fun h3 =>
            EventHub.ResponseActiveEvents prog os h3) = Result.ok h3 ∧
        Fired h3 ∧ calls h3.trace = calls h.trace ++ [Obs.call e fd EventType.kTimeout data]) := by
  obtain ⟨hkq, hcnt, hready, hheap, hactive, hev⟩ := hs
  constructor
  · intro hlt
    simp [EventHub.sys_Poll, KQueue.Poll, KQueue.report, EventHub.CheckTimeoutEvents,
      EventHub.CheckTimeoutEvents_loop, EventHub.ResponseActiveEvents,
      EventHub.ResponseActiveEvents_loop, Result.andThen, EventMinHeap.Top,
      hev, hk, hcnt, hkq, hready, hactive, hheap, hlt, Armed, calls, Obs.is_call]
  · intro hle
    have hnl : ¬ os.now_check < deadline := not_lt.mpr hle
    simp [EventHub.sys_Poll, KQueue.Poll, KQueue.report, EventHub.CheckTimeoutEvents,
      EventHub.CheckTimeoutEvents_loop, EventHub.ResponseActiveEvents,
      EventHub.ResponseActiveEvents_loop, Result.andThen, EventMinHeap.Top,
      hev, hk, hcnt, hkq, hready, hactive, hheap, hnl, Fired, calls, Obs.is_call,
      EventHub.IsInActive, EventHub.ActivePush,
      EventMinHeap.Pop, pop_heap, EventHub.IsInTimeout, EventHub.TimeoutRemove,
      EventHub.sys_Del, KQueue.Del, EventHub.guarded_call,
      invoke, run_actions, hinert, Event.result_reset, Table.contains, EventMinHeap.Remove]

theorem LoopOnce_Pending_or_Armed (prog : Program) (os : OS) (can_block : Bool) (fd : Int)
    (e r : Nat) (data : Option Nat) (deadline : Int) (h : EventHub)
    (hs : Pending fd r e data deadline h ∨ Armed fd r e data deadline h)
    (hk : os.kevents = some []) (hadd : os.kevent_add_fails fd Filter.EVFILT_READ = false)
    (hinert : prog e fd EventType.kTimeout data = []) :
    (os.now_check < deadline →
      Armed fd r e data deadline (h.LoopOnce prog os can_block).hub ∧
      calls (h.LoopOnce prog os can_block).hub.trace = calls h.trace) ∧
    (deadline ≤ os.now_check →
      Fired (h.LoopOnce prog os can_block).hub ∧
      calls (h.LoopOnce prog os can_block).hub.trace =
        calls h.trace ++ [Obs.call e fd EventType.kTimeout data]) := by
  have key : ∃ h1, EventHub.PreprocessReadyEvents os h = Result.ok h1 ∧
      Armed fd r e data deadline h1 ∧ calls h1.trace = calls h.trace := by
    rcases hs with hs | hs
    · exact Preprocess_Pending os fd e r data deadline h hs hadd
    · exact ⟨h, EventHub.PreprocessReadyEvents_nil os h hs.2.2.1, hs, rfl⟩
  obtain ⟨h1, hp, harmed, hcalls⟩ := key
  obtain ⟨w, hw⟩ := LoopOnce_tail prog os can_block h h1 hp (by
    intro top htop
    rw [harmed.2.2.2.1] at htop
    simp only [EventMinHeap.Top, List.head?_cons, Option.some.injEq] at htop
    subst htop
    simp [harmed.2.2.2.2.2])
  have ht := tail_Armed prog os w fd e r data deadline h1 harmed hk hinert
  constructor
  · intro hlt
    obtain ⟨h3, h3eq, h3s, h3c⟩ := ht.1 hlt
    rw [hw, h3eq]
    exact ⟨h3s, by simpa [Result.hub, hcalls] using h3c⟩
  · intro hle
    obtain ⟨h3, h3eq, h3s, h3c⟩ := ht.2 hle
    rw [hw, h3eq]
    exact ⟨h3s, by simpa [Result.hub, hcalls] using h3c⟩

theorem LoopOnce_Fired (prog : Program) (os : OS) (can_block : Bool) (h : EventHub)
    (hs : Fired h) :
    Fired (h.LoopOnce prog os can_block).hub ∧
      calls (h.LoopOnce prog os can_block).hub.trace = calls h.trace := by
  obtain ⟨hkq, hcnt, hready, hheap, hactive⟩ := hs
  obtain ⟨w, hw⟩ := LoopOnce_tail prog os can_block h h
    (EventHub.PreprocessReadyEvents_nil os h hready) (by
      intro top htop
      simp [hheap, EventMinHeap.Top] at htop)
  rw [hw]
  simp [EventHub.sys_Poll, KQueue.Poll, Result.andThen, hkq, hcnt, Result.hub, Fired,
    hready, hheap, hactive, calls, Obs.is_call]

theorem loops_early (prog : Program) (fd : Int) (e r : Nat) (data : Option Nat)
    (deadline : Int) (hinert : prog e fd EventType.kTimeout data = [])
    (its : List (OS × Bool)) :
    ∀ h : EventHub, (Pending fd r e data deadline h ∨ Armed fd r e data deadline h) →
      (∀ it ∈ its, it.1.kevents = some [] ∧
        it.1.kevent_add_fails fd Filter.EVFILT_READ = false ∧ it.1.now_check < deadline) →
      (Pending fd r e data deadline (run_calls prog (loops its) h) ∨
        Armed fd r e data deadline (run_calls prog (loops its) h)) ∧
      calls (run_calls prog (loops its) h).trace = calls h.trace := by
  induction its with
  | nil => intro h hs _; exact ⟨hs, rfl⟩
  | cons it rest ih =>
    intro h hs hq
    obtain ⟨hk, hadd, hlt⟩ := hq it (List.mem_cons_self _ _)
    have hstep := (LoopOnce_Pending_or_Armed prog it.1 it.2 fd e r data deadline h hs hk hadd
      hinert).1 hlt
    have hrest := ih (h.LoopOnce prog it.1 it.2).hub (Or.inr hstep.1)
      (fun x hx => hq x (List.mem_cons_of_mem _ hx))
    simp only [loops, List.map_cons, run_calls, Call.run] at hrest ⊢
    exact ⟨hrest.1, hrest.2.trans hstep.2⟩

theorem loops_fired (prog : Program) (its : List (OS × Bool)) :
    ∀ h : EventHub, Fired h →
      Fired (run_calls prog (loops its) h) ∧
      calls (run_calls prog (loops its) h).trace = calls h.trace := by
  induction its with
  | nil => intro h hs; exact ⟨hs, rfl⟩
  | cons it rest ih =>
    intro h hs
    have hstep := LoopOnce_Fired prog it.1 it.2 h hs
    have hrest := ih (h.LoopOnce prog it.1 it.2).hub hstep.1
    simp only [loops, List.map_cons, run_calls, Call.run] at hrest ⊢
    exact ⟨hrest.1, hrest.2.trans hstep.2⟩

theorem run_calls_append (prog : Program) (xs ys : List Call) (h : EventHub) :
    run_calls prog (xs ++ ys) h = run_calls prog ys (run_calls prog xs h) := by
  induction xs generalizing h with
  | nil => rfl
  | cons x rest ih => exact ih (x.run prog h).hub

theorem run_calls_loops_one (prog : Program) (it : OS × Bool) (h : EventHub) :
    run_calls prog (loops [it]) h = (h.LoopOnce prog it.1 it.2).hub := rfl

/-- The timeout scenario on the KQueue backend.  On a fresh hub create descriptor `fd` with
error callback `e`, give it the read callback `r` (and data `data`), and arm it at time `t0`
with `Ready(d)`.  Run any iterations `pre`, then `it`, then `post`, in none of which the
backend reports anything, where `CheckTimeoutEvents` reads the clock before the stored
deadline `deadline_of t0 d` in every iteration of `pre` and at or after it in `it`.  Then
no callback at all is invoked during `pre`; `it` invokes exactly one callback, the error
callback of `fd` with kind Timeout (never the read callback); and `post` invokes no
callback.  The error callback is assumed not to call into the hub. -/
theorem timeout_fires_once (prog : Program) (fd : Int) (e r : Nat)
    (data : Option Nat) (d t0 : Int) (pre post : List (OS × Bool)) (it : OS × Bool)
    (hfd : 0 ≤ fd)
    (hinert : prog e fd EventType.kTimeout data = [])
    (hquiet : ∀ x ∈ pre ++ it :: post, x.1.kevents = some [] ∧
      x.1.kevent_add_fails fd Filter.EVFILT_READ = false)
    (hpre : ∀ x ∈ pre, x.1.now_check < deadline_of t0 d)
    (hit : deadline_of t0 d ≤ it.1.now_check) :
    calls (run_calls prog
      ([Call.action (Action.CreateEmpty fd (some e)), Call.action (Action.OnRead (some r)),
        Call.action (Action.WithData data), Call.action (Action.Ready (some d) t0)]
        ++ loops pre) (EventHub.initial Backend.KQueue)).trace = [] ∧
    calls (run_calls prog
      ([Call.action (Action.CreateEmpty fd (some e)), Call.action (Action.OnRead (some r)),
        Call.action (Action.WithData data), Call.action (Action.Ready (some d) t0)]
        ++ loops pre ++ loops [it]) (EventHub.initial Backend.KQueue)).trace =
      [Obs.call e fd EventType.kTimeout data] ∧
    calls (run_calls prog
      ([Call.action (Action.CreateEmpty fd (some e)), Call.action (Action.OnRead (some r)),
        Call.action (Action.WithData data), Call.action (Action.Ready (some d) t0)]
        ++ loops pre ++ loops [it] ++ loops post) (EventHub.initial Backend.KQueue)).trace =
      [Obs.call e fd EventType.kTimeout data] := by
  obtain ⟨hpend, htrace⟩ := Pending_of_create prog fd e r data d t0 hfd
  have hearly := loops_early prog fd e r data (deadline_of t0 d) hinert pre _
    (Or.inl hpend) (fun x hx =>
      ⟨(hquiet x (List.mem_append_left _ hx)).1, (hquiet x (List.mem_append_left _ hx)).2,
        hpre x hx⟩)
  have hitq := hquiet it (List.mem_append_right _ (List.mem_cons_self _ _))
  have hstep := (LoopOnce_Pending_or_Armed prog it.1 it.2 fd e r data
    (deadline_of t0 d) _ hearly.1 hitq.1 hitq.2 hinert).2 hit
  have hlate := loops_fired prog post _ hstep.1
  have h0 : calls (run_calls prog
      [Call.action (Action.CreateEmpty fd (some e)), Call.action (Action.OnRead (some r)),
        Call.action (Action.WithData data), Call.action (Action.Ready (some d) t0)]
      (EventHub.initial Backend.KQueue)).trace = [] := by
    rw [htrace]; rfl
  refine ⟨?_, ?_, ?_⟩
  · rw [run_calls_append, hearly.2, h0]
  · rw [run_calls_append, run_calls_append, run_calls_loops_one, hstep.2, hearly.2, h0]
    rfl
  · rw [run_calls_append, run_calls_append, run_calls_append, run_calls_loops_one, hlate.2,
      hstep.2, hearly.2, h0]
    rfl

/-- The timeout scenario on the KQueue backend for descriptor 5 armed at time 0 with a
timeout of 2 s; iterations at 0 s and 1 s, then at 2 s, then at 3 s. -/
theorem timeout_fires_once_example :
    calls (run_calls Program.inert
      ([Call.action (Action.CreateEmpty 5 (some 50)), Call.action (Action.OnRead (some 51)),
        Call.action (Action.WithData none), Call.action (Action.Ready (some 2) 0)]
        ++ loops [(quiet_at 0, true), (quiet_at 1, true)])
      (EventHub.initial Backend.KQueue)).trace = [] ∧
    calls (run_calls Program.inert
      ([Call.action (Action.CreateEmpty 5 (some 50)), Call.action (Action.OnRead (some 51)),
        Call.action (Action.WithData none), Call.action (Action.Ready (some 2) 0)]
        ++ loops [(quiet_at 0, true), (quiet_at 1, true)] ++ loops [(quiet_at 2, true)])
      (EventHub.initial Backend.KQueue)).trace =
      [Obs.call 50 5 EventType.kTimeout none] ∧
    calls (run_calls Program.inert
      ([Call.action (Action.CreateEmpty 5 (some 50)), Call.action (Action.OnRead (some 51)),
        Call.action (Action.WithData none), Call.action (Action.Ready (some 2) 0)]
        ++ loops [(quiet_at 0, true), (quiet_at 1, true)] ++ loops [(quiet_at 2, true)]
        ++ loops [(quiet_at 3, true)])
      (EventHub.initial Backend.KQueue)).trace =
      [Obs.call 50 5 EventType.kTimeout none] :=
  timeout_fires_once Program.inert 5 50 51 none 2 0
    [(quiet_at 0, true), (quiet_at 1, true)] [(quiet_at 3, true)] (quiet_at 2, true)
    (by decide) rfl
    (by simp [quiet_at])
    (by decide)
    (by decide)


theorem LoopOnce_answers_self (prog : Program) (os : OS) (h : EventHub) (can_block : Bool) :
    h.LoopOnce_answers prog os os can_block = h.LoopOnce prog os can_block := rfl

/-- C10. The timeout scenario on the epoll backend: descriptor 5 is created with error
callback 50 and read callback 51 and armed at time 0 with `Ready(2 s)`; the iteration at
0 s registers it (one successful `Add`, a poll of 2 s) and invokes nothing.  In the
iteration at 2 s nothing is reported; `CheckTimeoutEvents` pops the descriptor and deletes
it from the backend, and `ResponseActiveEvents` deletes it a second time, for which
`epoll_ctl` fails: `LoopOnce` raises the exception of `Epoll::Del` and the error callback
is not invoked, in that iteration or in any later one (the descriptor stays locked, flagged
Timeout, with its callbacks, and the epoll instance is empty).  On the KQueue backend,
where `Del` does not throw, the same calls invoke the error callback once with kind
Timeout in the iteration at 2 s and nothing before or after. -/
theorem C10_timeout_lost_on_epoll :
    scenario_timeout_epoll.trace = [Obs.add 5 true, Obs.poll 2] ∧
    scenario_timeout_epoll.registered_event_count_ = 1 ∧
    stamp scenario_timeout_epoll.events 5 = 0 + 2 * ticks_per_second ∧
    (scenario_timeout_epoll.LoopOnce_answers Program.inert (quiet_at 2) os_five_deleted
      true).exception = some Exception.runtime_error_del ∧
    (scenario_timeout_epoll.LoopOnce_answers Program.inert (quiet_at 2) os_five_deleted
      true).hub.trace =
      [Obs.add 5 true, Obs.poll 2, Obs.poll 0, Obs.del 5 true, Obs.del 5 false] ∧
    calls (scenario_timeout_epoll.LoopOnce_answers Program.inert (quiet_at 2)
      os_five_deleted true).hub.trace = [] ∧
    (scenario_timeout_epoll.LoopOnce_answers Program.inert (quiet_at 2) os_five_deleted
      true).hub.registered_event_count_ = 0 ∧
    (scenario_timeout_epoll.LoopOnce_answers Program.inert (quiet_at 2) os_five_deleted
      true).hub.events.lookup 5 =
      some { read_cb_ := some 51, error_cb_ := some 50, is_locked := true,
             result_kTimeout := true, timeout_stamp_ := 2 * ticks_per_second } ∧
    (scenario_timeout_epoll.LoopOnce_answers Program.inert (quiet_at 2) os_five_deleted
      true).hub.active_fds_ = [] ∧
    calls (run_calls Program.inert
      (loops [(epoll_empty_at 3, true), (epoll_empty_at 4, true)])
      (scenario_timeout_epoll.LoopOnce_answers Program.inert (quiet_at 2) os_five_deleted
        true).hub).trace = [] ∧
    calls (run_calls Program.inert
      (loops [(quiet_at 3, true), (quiet_at 4, true)])
      (scenario_timeout_epoll.LoopOnce_answers Program.inert (quiet_at 2) os_five_deleted
        true).hub).trace = [] ∧
    calls (run_calls Program.inert
      [Call.action (Action.CreateEmpty 5 (some 50)), Call.action (Action.OnRead (some 51)),
       Call.action (Action.Ready (some 2) 0), Call.LoopOnce (quiet_at 0) true,
       Call.LoopOnce (quiet_at 1) true]
      (EventHub.initial Backend.KQueue)).trace = [] ∧
    calls (run_calls Program.inert
      [Call.action (Action.CreateEmpty 5 (some 50)), Call.action (Action.OnRead (some 51)),
       Call.action (Action.Ready (some 2) 0), Call.LoopOnce (quiet_at 0) true,
       Call.LoopOnce (quiet_at 1) true, Call.LoopOnce (quiet_at 2) true,
       Call.LoopOnce (quiet_at 3) true]
      (EventHub.initial Backend.KQueue)).trace = [Obs.call 50 5 EventType.kTimeout none] := by
  decide
/-! ## Registration failure -/

/-- Registration failure on the kqueue backend.  Let the hub be sound (KQueue backend, queued descriptors tracked, error
callbacks set) and let descriptor `f`, with a read or write callback, be in the
registration queue.  If `KQueue::Add` throws for `f` in a `LoopOnce` whose poll succeeds
and reports only tracked descriptors, and no callback calls into the hub, then that
`LoopOnce` returns normally; `f` is out of the timeout heap with its `kInTimeout` flag
clear; the callbacks invoked for `f` are its write callback if the poll reports `f`
writable, then its read callback if the poll reports `f` readable, then its error
callback, once, with kind Error; so when the poll reports `f` neither readable nor
writable the only callback invoked for `f` is the error callback.  Both queues are
drained; and every other descriptor `g` of the registration queue with a callback whose
`Add` succeeds has been registered (`Add(g)` returned) and, if the poll reports it, has
been dispatched: it is unlocked with its callbacks and result flags cleared, and when it
has no timeout the callbacks invoked for it are exactly those of its reported directions
and pending flags. -/
theorem registration_failure
    (prog : Program) (os : OS) (h : EventHub) (can_block : Bool) (f : Int) (ef : Event)
    (xe : Nat) (evs : List (Int × Filter))
    (hinert : ∀ k g t d, prog k g t d = [])
    (hs : Sound h)
    (hcount : 0 ≤ h.registered_event_count_)
    (hf : f ∈ h.ready_fds_) (hef : h.events.lookup f = some ef)
    (hxe : ef.error_cb_ = some xe)
    (hfh : f ∈ h.timeout_heap_ → ef.where_kInTimeout = true)
    (hfail : KQueue.add_fails os f ef = true)
    (hk : os.kevents = some evs)
    (hevs : ∀ r ∈ evs, h.events.lookup r.1 ≠ none) :
    ∃ h1, h.LoopOnce prog os can_block = Result.ok h1 ∧
      calls_for f h1.trace =
        calls_for f h.trace ++
          ((if (f, Filter.EVFILT_WRITE) ∈ evs then
              call_of ef.write_cb_ f EventType.kWrite ef.data_ else []) ++
           (if (f, Filter.EVFILT_READ) ∈ evs then
              call_of ef.read_cb_ f EventType.kRead ef.data_ else []) ++
           [Obs.call xe f EventType.kError ef.data_]) ∧
      ((f, Filter.EVFILT_WRITE) ∉ evs → (f, Filter.EVFILT_READ) ∉ evs →
        calls_for f h1.trace =
          calls_for f h.trace ++ [Obs.call xe f EventType.kError ef.data_]) ∧
      f ∉ h1.timeout_heap_ ∧
      h1.events.lookup f = some ({ ef with where_kInReady := false }).dispatched ∧
      h1.ready_fds_ = [] ∧ h1.active_fds_ = [] ∧
      (∀ g e, g ∈ h.ready_fds_ → h.events.lookup g = some e → e.has_callback = true →
        KQueue.add_fails os g e = false →
        Obs.add g true ∈ h1.trace ∧
        (g ∈ evs.map Prod.fst →
          h1.events.lookup g = some ({ e with where_kInReady := false }).dispatched ∧
          (g ∉ h.timeout_heap_ →
            calls_for g h1.trace =
              calls_for g h.trace ++ dispatch_calls g (Event.polled g evs e)))) := by
  -- registration
  obtain ⟨h1, hp, hs1, hr1, hc1, hcalls1, htr1, hheap1, hdom1, hframe1, hfail1, hok1⟩ :=
    Preprocess_spec os h.ready_fds_.length h (le_refl _) hs
  obtain ⟨hf1, hfheap1, _⟩ := hfail1 f ef hf hef hfail
  have hfnot1 : f ∉ h1.timeout_heap_ := by
    cases hto : ef.where_kInTimeout with
    | true => exact hfheap1 hto
    | false =>
      intro hm
      have := hfh (hheap1 f hm)
      rw [hto] at this
      exact absurd this (by simp)
  obtain ⟨w, hw⟩ := LoopOnce_tail prog os can_block h h1 hp (fun top ht =>
    hs1.heap_tracked top (EventMinHeap.Top_mem _ _ ht))
  -- poll
  obtain ⟨h2, hpoll, hs2, hr2, hh2, _, ht2, hact2, hlook2, _⟩ :=
    sys_Poll_spec os w evs h1 hs1 (le_trans hcount hc1) hk
      (fun r hr => hdom1 r.1 (hevs r hr))
  have hf2 : h2.events.lookup f = some (Event.polled f evs
      { ef with where_kInReady := false, is_locked := true, where_kInTimeout := false,
                where_kInActive := true, result_kWrite := false, result_kRead := false,
                result_kTimeout := false, result_kError := true }) := by
    rw [hlook2 f, hf1]
    rfl
  -- timeouts
  obtain ⟨h3, hcheck, hs3, hr3, hcalls3, htr3, hheap3, hact3, hframe3, hdisp3⟩ :=
    CheckTimeout_spec os h2.timeout_heap_.length h2 (le_refl _) hs2
  have hf3 := (hframe3 f (by rw [hh2]; exact hfnot1)).1.trans hf2
  -- dispatch
  obtain ⟨h4, hresp, _, ha4, hr4, hheap4, htr4, hcalls4, _, hdisp4⟩ :=
    Response_spec prog hinert os h3.active_fds_.length h3 (le_refl _) hs3
  have hfact3 : f ∈ h3.active_fds_ :=
    hs3.active_flag f _ hf3 (by rw [Event.polled_eq]; rfl)
  have hcalls_pre : ∀ x, calls_for x h3.trace = calls_for x h.trace := by
    intro x
    rw [hcalls3 x, ht2, calls_for_append, hcalls1 x]
    simp [calls_for, Obs.is_call_for]
  have hcallsf : calls_for f h4.trace =
      calls_for f h.trace ++
        ((if (f, Filter.EVFILT_WRITE) ∈ evs then
            call_of ef.write_cb_ f EventType.kWrite ef.data_ else []) ++
         (if (f, Filter.EVFILT_READ) ∈ evs then
            call_of ef.read_cb_ f EventType.kRead ef.data_ else []) ++
         [Obs.call xe f EventType.kError ef.data_]) := by
    rw [hcalls4 f, hcalls_pre f, if_pos hfact3, hf3, Event.polled_eq]
    simp [dispatch_calls, call_of, hxe]
  refine ⟨h4, ?_, hcallsf, ?_, ?_, ?_, ?_, ha4, ?_⟩
  · rw [hw, hpoll]
    simp only [Result.andThen]
    rw [show EventHub.CheckTimeoutEvents os h2 = Result.ok h3 from hcheck]
    exact hresp
  · intro hwr hrd
    rw [hcallsf]
    simp [hwr, hrd]
  · intro hm
    have := hheap3 f (hheap4 f hm)
    rw [hh2] at this
    exact hfnot1 this
  · rw [hdisp4 f hfact3, hf3]
    simp only [Option.map_some', Event.polled_dispatched]
    rfl
  · rw [hr4, hr3, hr2, hr1]
  · intro g e hg hge hcb hnf
    obtain ⟨hg1, _, hadd1⟩ := hok1 g e hg hge hcb hnf
    refine ⟨htr4 _ (htr3 _ (by rw [ht2]; exact List.mem_append_left _ hadd1)), ?_⟩
    intro hgev
    have hg2 : h2.events.lookup g = some
        (Event.polled g evs { e with where_kInReady := false, is_locked := true }) := by
      rw [hlook2 g, hg1]; rfl
    have hgact2 : g ∈ h2.active_fds_ := by
      refine hs2.active_flag g _ hg2 ?_
      rw [Event.polled_eq]
      simp [hgev]
    have hgact3 : g ∈ h3.active_fds_ := hact3 g hgact2
    refine ⟨?_, ?_⟩
    · rw [hdisp4 g hgact3, hdisp3 g, hg2]
      simp only [Option.map_some', Event.polled_dispatched]
      rfl
    · intro hgh
      have hgh2 : g ∉ h2.timeout_heap_ := by
        rw [hh2]; exact fun hm => hgh (hheap1 g hm)
      have hg3 := (hframe3 g hgh2).1.trans hg2
      rw [hcalls4 g, hcalls_pre g, if_pos hgact3, hg3]
      simp [dispatch_calls_polled_registered]

/-- Registration failure on the kqueue backend of a descriptor with a read callback only:
descriptor 9 fails to register while descriptor 4, queued in the same iteration, is
registered, reported readable and dispatched. -/
theorem registration_failure_example :
    ∃ h1, scenario_bad_handle.LoopOnce Program.inert os_bad_handle true = Result.ok h1 ∧
      calls_for 9 h1.trace =
        calls_for 9 scenario_bad_handle.trace ++
          ((if (9, Filter.EVFILT_WRITE) ∈ [((4 : Int), Filter.EVFILT_READ)] then
              call_of none 9 EventType.kWrite none else []) ++
           (if (9, Filter.EVFILT_READ) ∈ [((4 : Int), Filter.EVFILT_READ)] then
              call_of (some 91) 9 EventType.kRead none else []) ++
           [Obs.call 90 9 EventType.kError none]) ∧
      ((9, Filter.EVFILT_WRITE) ∉ [((4 : Int), Filter.EVFILT_READ)] →
        (9, Filter.EVFILT_READ) ∉ [((4 : Int), Filter.EVFILT_READ)] →
        calls_for 9 h1.trace =
          calls_for 9 scenario_bad_handle.trace ++ [Obs.call 90 9 EventType.kError none]) ∧
      9 ∉ h1.timeout_heap_ ∧
      h1.events.lookup 9 = some
        ({ ({ where_kInReady := true, read_cb_ := some 91, error_cb_ := some 90 } : Event)
            with where_kInReady := false }).dispatched ∧
      h1.ready_fds_ = [] ∧ h1.active_fds_ = [] ∧
      (∀ g e, g ∈ scenario_bad_handle.ready_fds_ →
        scenario_bad_handle.events.lookup g = some e → e.has_callback = true →
        KQueue.add_fails os_bad_handle g e = false →
        Obs.add g true ∈ h1.trace ∧
        (g ∈ [(4, Filter.EVFILT_READ)].map Prod.fst →
          h1.events.lookup g = some ({ e with where_kInReady := false }).dispatched ∧
          (g ∉ scenario_bad_handle.timeout_heap_ →
            calls_for g h1.trace = calls_for g scenario_bad_handle.trace ++
              dispatch_calls g (Event.polled g [(4, Filter.EVFILT_READ)] e)))) :=
  registration_failure Program.inert os_bad_handle scenario_bad_handle true 9
    { where_kInReady := true, read_cb_ := some 91, error_cb_ := some 90 } 90
    [(4, Filter.EVFILT_READ)] (fun _ _ _ _ => rfl)
    (Sound_of_checks scenario_bad_handle (by decide) (by decide) (by decide) (by decide)
      (by decide) (by decide) (by decide))
    (by decide) (by decide) (by decide) (by decide) (by decide) (by decide) (by decide)
    (by decide)

/-! ## Claims on the backends -/

/-- C11. `KQueue::Del` returns normally for every tracked descriptor, whatever `kevent`
answers, but `Epoll::Del` throws `runtime_error` whenever `epoll_ctl` fails.  In
`scenario_bad_handle_epoll` the registration of descriptor 9 fails, so 9 is dispatched
without being registered: the `Del(9)` of `ResponseActiveEvents` throws, the exception
leaves `LoopOnce`, and no callback is invoked. -/
theorem C11_Epoll_Del_throws :
    (∀ (h : EventHub) (fd : Int), h.events.lookup fd ≠ none →
      (KQueue.Del h fd).exception = none) ∧
    (∀ (os : OS) (h : EventHub) (fd : Int), os.epoll_del_fails fd = true →
      Epoll.Del os h fd = Result.raised Exception.runtime_error_del h) ∧
    scenario_bad_handle_epoll.sys_ev_op_ = Backend.Epoll ∧
    (scenario_bad_handle_epoll.LoopOnce Program.inert os_bad_handle_epoll true).exception =
      some Exception.runtime_error_del ∧
    Obs.add 9 false ∈
      (scenario_bad_handle_epoll.LoopOnce Program.inert os_bad_handle_epoll true).hub.trace ∧
    Obs.del 9 false ∈
      (scenario_bad_handle_epoll.LoopOnce Program.inert os_bad_handle_epoll true).hub.trace ∧
    calls (scenario_bad_handle_epoll.LoopOnce Program.inert os_bad_handle_epoll true).hub.trace
      = [] := by
  refine ⟨?_, ?_, by decide, by decide, by decide, by decide, by decide⟩
  · intro h fd hfd
    unfold KQueue.Del
    cases hl : h.events.lookup fd with
    | none => exact absurd hl hfd
    | some _ => rfl
  · intro os h fd hfail
    simp [Epoll.Del, hfail]

/-- C12. `KQueue::Poll` never enqueues a descriptor twice: on a hub whose dispatch queue
agrees with the `kInActive` flags, after the poll the queue still does, it begins with the
old queue, and every descriptor that was queued or is reported occurs in it exactly once,
each reported descriptor with the result flag of its filter set.  `Epoll::Poll` pushes
without testing `kInActive`: after the iteration of `scenario_two_readers` in which the
callback of 4 destroys its descriptor, 7 is still queued, and the next poll, reporting 7
again, queues it a second time. -/
theorem C12_Epoll_Poll_enqueues_twice :
    (∀ (os : OS) (h : EventHub) (evs : List (Int × Filter)),
      ActiveAgree h → 0 ≤ h.registered_event_count_ → os.kevents = some evs →
      (∀ r ∈ evs, h.events.lookup r.1 ≠ none) →
      ∃ h1, KQueue.Poll os h = Result.ok h1 ∧ ActiveAgree h1 ∧
        h.active_fds_ <+: h1.active_fds_ ∧
        (∀ g ∈ h.active_fds_, h1.active_fds_.count g = 1) ∧
        (∀ r ∈ evs, h1.active_fds_.count r.1 = 1 ∧
          ∃ e1, h1.events.lookup r.1 = some e1 ∧ e1.where_kInActive = true ∧
            (r.2 = Filter.EVFILT_READ → e1.result_kRead = true) ∧
            (r.2 = Filter.EVFILT_WRITE → e1.result_kWrite = true))) ∧
    ((scenario_two_readers Backend.Epoll).LoopOnce prog_self_destroy os_both_readable
        true).hub.active_fds_ = [7] ∧
    (Epoll.Poll os_seven_readable
      ((scenario_two_readers Backend.Epoll).LoopOnce prog_self_destroy os_both_readable
        true).hub).hub.active_fds_ = [7, 7] ∧
    (KQueue.Poll os_seven_readable
      ((scenario_two_readers Backend.KQueue).LoopOnce prog_self_destroy os_both_readable
        true).hub).hub.active_fds_ = [7] := by
  refine ⟨?_, by decide, by decide, by decide⟩
  intro os h evs ha hcount hk htr
  obtain ⟨h1, hrep, ha1, hpre, hmem, hlook⟩ := KQueue_report_agree evs h ha htr
  refine ⟨h1, ?_, ha1, hpre, ?_, ?_⟩
  · unfold KQueue.Poll
    rw [if_neg (not_lt.mpr hcount)]
    simp only [hk]
    exact hrep
  · intro g hg
    exact List.count_eq_one_of_mem ha1.active_nodup ((hmem g).mpr (Or.inl hg))
  · intro r hr
    have hrm : r.1 ∈ evs.map Prod.fst := List.mem_map_of_mem Prod.fst hr
    refine ⟨List.count_eq_one_of_mem ha1.active_nodup ((hmem r.1).mpr (Or.inr hrm)), ?_⟩
    obtain ⟨e, he⟩ := Option.ne_none_iff_exists'.mp (htr r hr)
    refine ⟨Event.polled r.1 evs e, by rw [hlook, he]; rfl, ?_, ?_, ?_⟩
    · rw [Event.polled_eq]
      simp [hrm]
    · intro hf
      rw [Event.polled_eq]
      have : (r.1, Filter.EVFILT_READ) ∈ evs := by rw [← hf]; exact hr
      simp [this]
    · intro hf
      rw [Event.polled_eq]
      have : (r.1, Filter.EVFILT_WRITE) ∈ evs := by rw [← hf]; exact hr
      simp [this]

/-- C19 (counterexample). In `scenario_race`, after the poll of `os_race` descriptor 5 is
in the dispatch queue with its readable flag set; `CheckTimeoutEvents` then pops it as
expired, does not queue it again, sets the timed-out flag and clears the readable flag. -/
theorem C19_readable_flag_cleared_counterexample :
    (EventHub.sys_Poll os_race scenario_race 0).hub.active_fds_ = [5, 7] ∧
    ((EventHub.sys_Poll os_race scenario_race 0).hub.events.lookup 5).map
      (fun e => (e.result_kRead, e.result_kTimeout)) = some (true, false) ∧
    ((EventHub.sys_Poll os_race scenario_race 0).andThen
      (EventHub.CheckTimeoutEvents os_race)).hub.active_fds_ = [5, 7] ∧
    (((EventHub.sys_Poll os_race scenario_race 0).andThen
      (EventHub.CheckTimeoutEvents os_race)).hub.events.lookup 5).map
      (fun e => (e.result_kRead, e.result_kTimeout)) = some (false, true) := by
  decide

/-- C20. In `scenario_two_readers` the poll reports 4 and 7 readable and the read callback
of 4 destroys descriptor 4.  `ResponseActiveEvents` then returns at once: no further
callback is invoked for 4 and its event is not touched again, but descriptor 7 is not
dispatched either.  When `LoopOnce` returns, 7 is still in the dispatch queue, flagged
`kInActive`, locked, with its readable flag pending and its read callback not invoked; it
is dispatched by the next `LoopOnce`. -/
theorem C20_dispatch_returns_after_self_destroy :
    (scenario_two_readers Backend.KQueue).active_fds_ = [] ∧
    ((scenario_two_readers Backend.KQueue).LoopOnce prog_self_destroy os_both_readable
      true).exception = none ∧
    calls ((scenario_two_readers Backend.KQueue).LoopOnce prog_self_destroy os_both_readable
      true).hub.trace = [Obs.call 41 4 EventType.kRead none] ∧
    ((scenario_two_readers Backend.KQueue).LoopOnce prog_self_destroy os_both_readable
      true).hub.events.lookup 4 = none ∧
    ((scenario_two_readers Backend.KQueue).LoopOnce prog_self_destroy os_both_readable
      true).hub.active_fds_ = [7] ∧
    (((scenario_two_readers Backend.KQueue).LoopOnce prog_self_destroy os_both_readable
      true).hub.events.lookup 7).map
        (fun e => (e.where_kInActive, e.is_locked, e.result_kRead, e.read_cb_)) =
      some (true, true, true, some 71) ∧
    calls (run_calls prog_self_destroy
      [Call.LoopOnce os_both_readable true, Call.LoopOnce (quiet_at 0) true]
      (scenario_two_readers Backend.KQueue)).trace =
      [Obs.call 41 4 EventType.kRead none, Obs.call 71 7 EventType.kRead none] := by
  decide


/-! ## Claims C14, C15, C16: cancellation, at-most-once dispatch, re-arming -/

/-- C14. Silent cancellation.  Let `f` be in the registration queue of a consistent hub
with both its read and its write callback null (unlocked, no error or timeout pending),
and let the callbacks of the other descriptors leave `f` alone.  Then the next `LoopOnce`,
however it ends, leaves `f` unlocked, makes no `Add` call for `f`, leaves `f` neither in
the registration queue nor in the timeout heap with its `kInTimeout` flag cleared, and
invokes no callback for `f`; and after any further iterations, whatever their polls
report, still no callback was invoked for `f` and no `Add` call made for it. -/
theorem C14_silent_cancellation (prog : Program) (os : OS) (can_block : Bool)
    (h : EventHub) (f : Int) (e : Event) (hc : Consistent h) (hp : prog.leaves f)
    (hf : f ∈ h.ready_fds_) (hl : h.events.lookup f = some e)
    (hrd : e.read_cb_ = none) (hwr : e.write_cb_ = none) (hlock : e.is_locked = false)
    (hE : e.result_kError = false) (hT : e.result_kTimeout = false) :
    ((h.LoopOnce prog os can_block).hub.events.lookup f).map
      (fun e1 => (e1.is_locked, e1.where_kInReady, e1.where_kInTimeout)) =
      some (false, false, false) ∧
    adds_for f (h.LoopOnce prog os can_block).hub.trace = adds_for f h.trace ∧
    f ∉ (h.LoopOnce prog os can_block).hub.ready_fds_ ∧
    f ∉ (h.LoopOnce prog os can_block).hub.timeout_heap_ ∧
    calls_for f (h.LoopOnce prog os can_block).hub.trace = calls_for f h.trace ∧
    ∀ its : List (OS × Bool),
      calls_for f (run_calls prog (loops its) (h.LoopOnce prog os can_block).hub).trace =
        calls_for f h.trace ∧
      adds_for f (run_calls prog (loops its) (h.LoopOnce prog os can_block).hub).trace =
        adds_for f h.trace := by
  have hcb : e.has_callback = false := by simp [Event.has_callback, hrd, hwr]
  obtain ⟨hfin, hret, _, hlf, hnr, hnh, _, hcalls, hadds⟩ :=
    PreprocessReadyEvents_cancel os h f e hc hf hl hcb
  have s1 : StaysSpent f h (h.PreprocessReadyEvents os).hub := by
    rw [hret]
    refine ⟨⟨?_, hnr, hnh⟩, hcalls, hadds⟩
    simp only [Result.hub]
    rw [hlf]
    simp [Event.spent, hrd, hwr, hlock, hE, hT]
  have s := LoopOnce_spent_from prog os h can_block f hp s1
  refine ⟨?_, s.adds, s.spent.2.1, s.spent.2.2, s.calls, ?_⟩
  · have hsp := s.spent.1
    cases hl2 : (h.LoopOnce prog os can_block).hub.events.lookup f with
    | none => rw [hl2] at hsp; simp at hsp
    | some e2 =>
      rw [hl2] at hsp
      simp only [Option.map_some', Option.some.injEq, Event.spent, Bool.and_eq_true,
        Bool.not_eq_true, Bool.not_eq_eq_eq_not, Bool.not_true] at hsp
      simp [hsp.1.1.2, hsp.1.2, hsp.2]
  · intro its
    have s2 := loops_spent prog f hp its _ s.spent
    exact ⟨s2.calls.trans s.calls, s2.adds.trans s.adds⟩


/-- C15. At-most-once dispatch.  In a consistent hub let `f` be a descriptor armed by
`Ready()` without a timeout: tracked with the event `e`, which has a read or a write
callback, either awaiting registration or registered and locked, not in the timeout heap,
not awaiting dispatch, no result flag pending; and let the callbacks of the other
descriptors leave `f` alone.  Take any `LoopOnce`, on either backend, in which `Add`
succeeds for `f` if `f` awaits registration.  (1) If its poll does not report `f`, it
invokes no callback of `f` and leaves `f` registered and waiting: locked, with the
callbacks, user data and error callback of `e`, in none of the queues; `Add(f)` was called
once if `f` awaited registration and not at all otherwise.  (2) Whatever its poll
reports, if the callbacks of `f` keep `f` (they return normally without destroying it;
they may re-arm it), the deregistration of `f` does not throw and epoll names `f` at most
once, then the callbacks it invokes for `f` are none at all, or the write callback once if
the poll reports `f` writable followed by the read callback once if the poll reports `f`
readable, each with the user data; and they are the latter whenever `LoopOnce` returns
normally without leaving `f` in the dispatch queue.  (3) If the poll names `f`, the
callbacks of `f` do not reconfigure it, and `LoopOnce` returns normally without leaving
`f` in the dispatch queue, then `f` is left unlocked with both callbacks cleared, and no
later `LoopOnce` invokes a callback of `f`, whatever the later polls report. -/
theorem C15_at_most_once_dispatch (prog : Program) (h : EventHub) (f : Int) (e : Event)
    (hc : Consistent h) (hp : prog.leaves f)
    (hl : h.events.lookup f = some e) (hcb : e.has_callback = true)
    (hstate : f ∈ h.ready_fds_ ∨ e.is_locked = true)
    (hnh : f ∉ h.timeout_heap_) (hna : f ∉ h.active_fds_)
    (hA : e.where_kInActive = false)
    (hW : e.result_kWrite = false) (hR : e.result_kRead = false)
    (hE : e.result_kError = false) (hT : e.result_kTimeout = false) :
    (∀ (os : OS) (can_block : Bool),
      (f ∈ h.ready_fds_ →
        KQueue.add_fails os f e = false ∧ os.epoll_add_fails f = false) →
      os.reports f = false →
      (h.LoopOnce prog os can_block).hub.idle_at f
        { e with where_kInReady := false, is_locked := true } ∧
      calls_for f (h.LoopOnce prog os can_block).hub.trace = calls_for f h.trace ∧
      adds_for f (h.LoopOnce prog os can_block).hub.trace =
        adds_for f h.trace ++ (if f ∈ h.ready_fds_ then [Obs.add f true] else [])) ∧
    (∀ (os : OS) (can_block : Bool),
      (f ∈ h.ready_fds_ →
        KQueue.add_fails os f e = false ∧ os.epoll_add_fails f = false) →
      prog.keeps f → os.epoll_del_fails f = false →
      (∀ evs, os.epoll_events = some evs →
        (evs.filter (fun ev => decide (ev.fd = f))).length ≤ 1) →
      ∃ l, calls_for f (h.LoopOnce prog os can_block).hub.trace = calls_for f h.trace ++ l ∧
        (l = [] ∨ l = reported_calls os h.sys_ev_op_ f e) ∧
        ((h.LoopOnce prog os can_block).exception = none →
          f ∉ (h.LoopOnce prog os can_block).hub.active_fds_ →
          l = reported_calls os h.sys_ev_op_ f e)) ∧
    (∀ (os : OS) (can_block : Bool),
      (f ∈ h.ready_fds_ →
        KQueue.add_fails os f e = false ∧ os.epoll_add_fails f = false) →
      prog.respects f → os.epoll_del_fails f = false →
      (∀ evs, os.epoll_events = some evs →
        (evs.filter (fun ev => decide (ev.fd = f))).length ≤ 1) →
      os.names h.sys_ev_op_ f = true →
      (h.LoopOnce prog os can_block).exception = none →
      f ∉ (h.LoopOnce prog os can_block).hub.active_fds_ →
      (h.LoopOnce prog os can_block).hub.events.lookup f =
        some { e.dispatched with where_kInReady := false } ∧
      (h.LoopOnce prog os can_block).hub.spent_at f ∧
      ∀ its : List (OS × Bool),
        calls_for f (run_calls prog (loops its) (h.LoopOnce prog os can_block).hub).trace =
          calls_for f (h.LoopOnce prog os can_block).hub.trace) := by
  refine ⟨?_, ?_, ?_⟩
  · intro os can_block hadd hrep
    obtain ⟨x, hx, _, hlx, hrx, hhx, hax, hcallsx, haddsx, _⟩ :=
      Preprocess_armed os h f e hc hl hcb hstate hadd hnh hna
    have hs := LoopOnce_same_from prog os h can_block f hp hrep x hx hhx hax
    exact ⟨⟨hs.lookup.trans hlx, not_mem_of_SameFor_ready hs hrx,
      fun hm => hhx (hs.heap.mp hm), not_mem_of_SameFor_active hs hax⟩,
      hs.calls.trans hcallsx, hs.adds.trans haddsx⟩
  · intro os can_block hadd hk hdel hone
    obtain ⟨x, hx, _, hlx, _, hhx, hax, hcallsx, _, hbx⟩ :=
      Preprocess_armed os h f e hc hl hcb hstate hadd hnh hna
    obtain ⟨l, hcalls, hor, himp⟩ := LoopOnce_reported_from prog os h can_block f hp hk x
      { e with where_kInReady := false, is_locked := true } hx hlx hA hW hR hE hT hhx hax
      hdel hone
    rw [hcallsx] at hcalls
    rw [hbx] at hor himp
    exact ⟨l, hcalls, hor, himp⟩
  · intro os can_block hadd hk hdel hone hn hret hout
    obtain ⟨x, hx, _, hlx, _, hhx, hax, _, _, hbx⟩ :=
      Preprocess_armed os h f e hc hl hcb hstate hadd hnh hna
    have hlf := LoopOnce_dispatched_from prog os h can_block f hp hk x
      { e with where_kInReady := false, is_locked := true } hx hlx hA hhx hax hdel hone
      (by rw [hbx]; exact hn) hret hout
    have hlf2 : (h.LoopOnce prog os can_block).hub.events.lookup f =
        some { e.dispatched with where_kInReady := false } := hlf
    have hcf : Consistent (h.LoopOnce prog os can_block).hub :=
      Consistent_LoopOnce prog os h can_block hc
    have hsp : (h.LoopOnce prog os can_block).hub.spent_at f := by
      refine ⟨?_, ?_, ?_⟩
      · rw [hlf2]
        simp [Event.spent, Event.dispatched]
      · intro hm
        have hflag := (hcf.ready_flag f).mp hm
        simp [EventHub.IsInReady, hlf2] at hflag
      · intro hm
        have hflag := (hcf.heap_flag f).mp hm
        simp [EventHub.IsInTimeout, hlf2, Event.dispatched] at hflag
    exact ⟨hlf2, hsp, fun its => (loops_spent prog f hp its _ hsp).calls⟩


/-- C16. Re-arm round trip.  In a consistent hub let `f` be at the head of the dispatch
queue (and nowhere else in it) with the event `e`, and let each callback that the dispatch
of `f` invokes (the write callback if `f` is flagged writable, the read callback if it is
flagged readable, the error callback for the errored and for the timed-out flag) either
re-arm `f`, that is call `SetCurrent(f)`, then any calls of `OnRead` and `OnWrite`, then
`Ready(t)` with or without a timeout, or not call into the hub; `pw`, `pr`, `pe`, `pt` say
which.  Let the callbacks of the other descriptors leave `f` alone.  Then when the
dispatch phase, and with it `LoopOnce`, ends, the event of `f` is `e.rearmed pw pr pe pt`:
unlocked, with the result flags clear, with the callbacks that the invoked callbacks set
(the ones `e` held were cleared before the first invocation), with the user data and the
error callback of `e`, flagged as awaiting registration if a `Ready` found a callback
set, and flagged as in the timeout heap with the deadline of the last `Ready(t)` that had
a timeout.  The descriptor is in the registration queue exactly once if it is so flagged
and in the timeout heap exactly if it is so flagged, and the callbacks invoked for `f`
were those of its pending flags, each once.  In the next `LoopOnce`, if `f` awaits
registration with a callback and `Add` succeeds, the registration phase locks `f` and
calls `Add(f)` once; and if the poll does not report `f` and its deadline, if any, is
after the clock reading, `f` is still locked with its callbacks when that `LoopOnce`
ends, and none of them was invoked. -/
theorem C16_rearm_round_trip (prog : Program) (os : OS) (n : Nat) (h : EventHub) (f : Int)
    (rest : List Int) (e : Event) (pw pr pe pt : Option Rearm)
    (hc : Consistent h) (hp : prog.leaves f) (hf0 : 0 ≤ f)
    (ha : h.active_fds_ = f :: rest) (hnr : f ∉ rest) (hg : h.events.lookup f = some e)
    (hx : e.error_cb_ ≠ none)
    (hw : ∀ k, e.write_cb_ = some k → e.result_kWrite = true →
      prog k f EventType.kWrite e.data_ = calls_of_plan pw f)
    (hr : ∀ k, e.read_cb_ = some k → e.result_kRead = true →
      prog k f EventType.kRead e.data_ = calls_of_plan pr f)
    (hE : ∀ k, e.error_cb_ = some k → e.result_kError = true →
      prog k f EventType.kError e.data_ = calls_of_plan pe f)
    (hT : ∀ k, e.error_cb_ = some k → e.result_kTimeout = true →
      prog k f EventType.kTimeout e.data_ = calls_of_plan pt f)
    (hcfg : plan_valid pw = true ∧ plan_valid pr = true ∧ plan_valid pe = true ∧
      plan_valid pt = true)
    (hdel : h.sys_ev_op_ = Backend.Epoll → e.write_cb_ ≠ none ∨ e.read_cb_ ≠ none →
      os.epoll_del_fails f = false) :
    (EventHub.ResponseActiveEvents_loop prog os (n + 1) h).hub.events.lookup f =
      some (e.rearmed pw pr pe pt) ∧
    (e.rearmed pw pr pe pt).is_locked = false ∧
    (e.rearmed pw pr pe pt).data_ = e.data_ ∧
    (e.rearmed pw pr pe pt).error_cb_ = e.error_cb_ ∧
    ((e.rearmed pw pr pe pt).where_kInReady = true →
      (EventHub.ResponseActiveEvents_loop prog os (n + 1) h).hub.ready_fds_.count f = 1) ∧
    ((e.rearmed pw pr pe pt).where_kInTimeout = true ↔
      f ∈ (EventHub.ResponseActiveEvents_loop prog os (n + 1) h).hub.timeout_heap_) ∧
    calls_for f (EventHub.ResponseActiveEvents_loop prog os (n + 1) h).hub.trace =
      calls_for f h.trace ++ dispatch_calls f e ∧
    ∀ (os2 : OS) (can_block : Bool),
      (e.rearmed pw pr pe pt).where_kInReady = true →
      (e.rearmed pw pr pe pt).has_callback = true →
      KQueue.add_fails os2 f (e.rearmed pw pr pe pt) = false →
      os2.epoll_add_fails f = false →
      (∃ x, (EventHub.ResponseActiveEvents_loop prog os (n + 1) h).hub.PreprocessReadyEvents
            os2 = Result.ok x ∧
          x.events.lookup f = some
            { e.rearmed pw pr pe pt with where_kInReady := false, is_locked := true } ∧
          adds_for f x.trace =
            adds_for f (EventHub.ResponseActiveEvents_loop prog os (n + 1) h).hub.trace ++
              [Obs.add f true]) ∧
      (os2.reports f = false →
        ((e.rearmed pw pr pe pt).where_kInTimeout = true →
          os2.now_check < (e.rearmed pw pr pe pt).timeout_stamp_) →
        ((EventHub.ResponseActiveEvents_loop prog os (n + 1) h).hub.LoopOnce prog os2
            can_block).hub.events.lookup f = some
          { e.rearmed pw pr pe pt with where_kInReady := false, is_locked := true } ∧
        adds_for f ((EventHub.ResponseActiveEvents_loop prog os (n + 1) h).hub.LoopOnce
            prog os2 can_block).hub.trace =
          adds_for f (EventHub.ResponseActiveEvents_loop prog os (n + 1) h).hub.trace ++
            [Obs.add f true] ∧
        calls_for f ((EventHub.ResponseActiveEvents_loop prog os (n + 1) h).hub.LoopOnce
            prog os2 can_block).hub.trace =
          calls_for f (EventHub.ResponseActiveEvents_loop prog os (n + 1) h).hub.trace) := by
  have hcfg2 : ∀ p, p = pw ∨ p = pr ∨ p = pe ∨ p = pt →
      ∀ r, p = some r → ∀ a ∈ r.cfg, a.sets_callback = true := by
    intro p hp0 r hr0 a ha0
    have hv : plan_valid p = true := by
      rcases hp0 with rfl | rfl | rfl | rfl
      · exact hcfg.1
      · exact hcfg.2.1
      · exact hcfg.2.2.1
      · exact hcfg.2.2.2
    subst hr0
    simp only [plan_valid, List.all_eq_true] at hv
    exact hv a ha0
  obtain ⟨h1, hstep, hc1, hact1, hl1, hcalls1, _⟩ :=
    Response_step_plan prog os n h f rest e pw pr pe pt hc hf0 ha hg hx hw hr hE hT hcfg2
      hdel
  have hs := Response_same prog os f hp n h1 (by rw [hact1]; exact hnr)
  have hc2 : Consistent (EventHub.ResponseActiveEvents_loop prog os (n + 1) h).hub :=
    Consistent_Response prog os (n + 1) h hc
  rw [← hstep] at hs
  generalize (EventHub.ResponseActiveEvents_loop prog os (n + 1) h).hub = h2 at hs hc2 ⊢
  have hl2 : h2.events.lookup f = some (e.rearmed pw pr pe pt) := hs.lookup.trans hl1
  have hact2 : f ∉ h2.active_fds_ :=
    not_mem_of_SameFor_active hs (by rw [hact1]; exact hnr)
  have hk1 := Event.after_keeps pw (e.write_cb_.isSome && e.result_kWrite) e.dispatching
  have hk2 := Event.after_keeps pr (e.read_cb_.isSome && e.result_kRead)
    (e.dispatching.after pw (e.write_cb_.isSome && e.result_kWrite))
  have hk3 := Event.after_keeps pe e.result_kError
    ((e.dispatching.after pw (e.write_cb_.isSome && e.result_kWrite)).after pr
      (e.read_cb_.isSome && e.result_kRead))
  have hk4 := Event.after_keeps pt e.result_kTimeout
    (((e.dispatching.after pw (e.write_cb_.isSome && e.result_kWrite)).after pr
      (e.read_cb_.isSome && e.result_kRead)).after pe e.result_kError)
  have hpend := pending_eq (hk4.1.trans (hk3.1.trans (hk2.1.trans hk1.1)))
  have hread : (e.rearmed pw pr pe pt).where_kInReady = true → f ∈ h2.ready_fds_ := by
    intro hrdy
    rw [hc2.ready_flag f]
    simp [EventHub.IsInReady, hl2, hrdy]
  refine ⟨hl2, hk4.2.1.trans (hk3.2.1.trans (hk2.2.1.trans hk1.2.1)), hpend.2.2.2.2.2,
    hpend.2.2.2.2.1, fun hrdy => List.count_eq_one_of_mem hc2.ready_nodup (hread hrdy), ?_,
    ?_, ?_⟩
  · rw [hc2.heap_flag f]
    simp [EventHub.IsInTimeout, hl2]
  · rw [hs.calls]; exact hcalls1
  · intro os2 can_block hrdy hcb hk hep
    obtain ⟨h3, hfin, post, hret, hcf, hr3, hs3, hc3, hfin3, hrest⟩ :=
      PreprocessReadyEvents_at os2 f h2 hc2 (hread hrdy)
    have hl3 := hs3.lookup.trans hl2
    have hreg := EventHub.Preprocess_step_registered os2 post.length h3 f post _ hr3 hl3
      hcb hk hep
    have hs4 := hrest _ hreg rfl
    have hlf : hfin.events.lookup f = some
        { e.rearmed pw pr pe pt with where_kInReady := false, is_locked := true } := by
      rw [hs4.lookup]
      simp [Table.lookup_insert_eq]
    have hadds : adds_for f hfin.trace = adds_for f h2.trace ++ [Obs.add f true] := by
      rw [hs4.adds]
      simp only [adds_for_append]
      rw [hs3.adds]
      simp [adds_for, Obs.is_add_for]
    have hcallsf : calls_for f hfin.trace = calls_for f h2.trace := by
      rw [hs4.calls]
      simp only [calls_for_append]
      rw [hs3.calls]
      simp [calls_for, Obs.is_call_for]
    refine ⟨⟨hfin, hret, hlf, hadds⟩, ?_⟩
    intro hrep hlater
    have hna : f ∉ hfin.active_fds_ := by
      intro hm
      have hcnt := hs4.active
      simp only [] at hcnt
      rw [hs3.active, List.count_eq_zero_of_not_mem hact2] at hcnt
      exact (List.count_eq_zero.mp hcnt) hm
    have hs5 := LoopOnce_waiting_from prog os2 h2 can_block f hp hrep hfin _ hret hlf
      (by
        intro hm
        have hflag := (hcf.heap_flag f).mp hm
        simp only [EventHub.IsInTimeout, hlf] at hflag
        exact hlater hflag)
      hna
    exact ⟨hs5.lookup.trans hlf, hs5.adds.trans hadds, hs5.calls.trans hcallsf⟩

/-- C14 (witness): in `scenario_cancelled` descriptor 5 was armed with a timeout of 2 s and
its read callback then set to null.  In the iteration at 3 s, in which descriptor 7 is
dispatched and re-arms itself, and in a further iteration at 4 s, nothing is invoked or
registered for 5. -/
theorem C14_silent_cancellation_witness :
    ((scenario_cancelled.LoopOnce prog_rearm os_after_deadline true).hub.events.lookup 5).map
      (fun e1 => (e1.is_locked, e1.where_kInReady, e1.where_kInTimeout)) =
      some (false, false, false) ∧
    adds_for 5 (scenario_cancelled.LoopOnce prog_rearm os_after_deadline true).hub.trace =
      adds_for 5 scenario_cancelled.trace ∧
    5 ∉ (scenario_cancelled.LoopOnce prog_rearm os_after_deadline true).hub.ready_fds_ ∧
    5 ∉ (scenario_cancelled.LoopOnce prog_rearm os_after_deadline true).hub.timeout_heap_ ∧
    calls_for 5 (scenario_cancelled.LoopOnce prog_rearm os_after_deadline true).hub.trace =
      calls_for 5 scenario_cancelled.trace ∧
    ∀ its : List (OS × Bool),
      calls_for 5 (run_calls prog_rearm (loops its)
          (scenario_cancelled.LoopOnce prog_rearm os_after_deadline true).hub).trace =
        calls_for 5 scenario_cancelled.trace ∧
      adds_for 5 (run_calls prog_rearm (loops its)
          (scenario_cancelled.LoopOnce prog_rearm os_after_deadline true).hub).trace =
        adds_for 5 scenario_cancelled.trace :=
  C14_silent_cancellation prog_rearm os_after_deadline true scenario_cancelled 5
    { where_kInReady := true, where_kInTimeout := true, error_cb_ := some 50,
      timeout_stamp_ := 2000000 }
    (Consistent_run_calls prog_rearm _ _ (Consistent_initial Backend.KQueue))
    (prog_rearm_leaves 5) (by decide) (by decide) rfl rfl rfl rfl rfl

/-- C15 (witness): descriptor 5 with read callback 51 and write callback 52.  (1) Just
armed on epoll, an iteration that reports nothing registers it and leaves it locked with
its callbacks, invoking nothing; and the registered descriptor 5 of `scenario_armed`
(kqueue) is left as it is by an iteration that reports nothing.  (2) Just armed on epoll,
an iteration that registers it and reports it readable and writable invokes its write
callback once and then its read callback once (which re-arms it).  (3) Just armed on
kqueue, an iteration that registers it and reports it readable invokes its read callback,
which accepts a connection; the descriptor is left unlocked without callbacks and no later
iteration invokes anything for it. -/
theorem C15_at_most_once_dispatch_witness :
    (((scenario_queued Backend.Epoll).LoopOnce prog_rearm (quiet_at 0) true).hub.idle_at 5
        { is_locked := true, data_ := some 8, write_cb_ := some 52, read_cb_ := some 51,
          error_cb_ := some 50 } ∧
      calls_for 5 ((scenario_queued Backend.Epoll).LoopOnce prog_rearm (quiet_at 0)
        true).hub.trace = calls_for 5 (scenario_queued Backend.Epoll).trace ∧
      adds_for 5 ((scenario_queued Backend.Epoll).LoopOnce prog_rearm (quiet_at 0)
        true).hub.trace = adds_for 5 (scenario_queued Backend.Epoll).trace ++
          (if 5 ∈ (scenario_queued Backend.Epoll).ready_fds_ then [Obs.add 5 true] else [])) ∧
    ((scenario_armed.LoopOnce Program.inert (quiet_at 1) true).hub.idle_at 5
        { is_locked := true, read_cb_ := some 51, error_cb_ := some 50 } ∧
      calls_for 5 (scenario_armed.LoopOnce Program.inert (quiet_at 1) true).hub.trace =
        calls_for 5 scenario_armed.trace ∧
      adds_for 5 (scenario_armed.LoopOnce Program.inert (quiet_at 1) true).hub.trace =
        adds_for 5 scenario_armed.trace ++
          (if 5 ∈ scenario_armed.ready_fds_ then [Obs.add 5 true] else [])) ∧
    ((∃ l, calls_for 5 ((scenario_queued Backend.Epoll).LoopOnce prog_rearm os_five_both
          true).hub.trace = calls_for 5 (scenario_queued Backend.Epoll).trace ++ l ∧
        (l = [] ∨ l = reported_calls os_five_both (scenario_queued Backend.Epoll).sys_ev_op_ 5
          { where_kInReady := true, data_ := some 8, write_cb_ := some 52,
            read_cb_ := some 51, error_cb_ := some 50 }) ∧
        (((scenario_queued Backend.Epoll).LoopOnce prog_rearm os_five_both
            true).exception = none →
          5 ∉ ((scenario_queued Backend.Epoll).LoopOnce prog_rearm os_five_both
            true).hub.active_fds_ →
          l = reported_calls os_five_both (scenario_queued Backend.Epoll).sys_ev_op_ 5
            { where_kInReady := true, data_ := some 8, write_cb_ := some 52,
              read_cb_ := some 51, error_cb_ := some 50 })) ∧
      reported_calls os_five_both (scenario_queued Backend.Epoll).sys_ev_op_ 5
          { where_kInReady := true, data_ := some 8, write_cb_ := some 52,
            read_cb_ := some 51, error_cb_ := some 50 } =
        [Obs.call 52 5 EventType.kWrite (some 8), Obs.call 51 5 EventType.kRead (some 8)] ∧
      ((scenario_queued Backend.Epoll).LoopOnce prog_rearm os_five_both true).exception =
        none ∧
      ((scenario_queued Backend.Epoll).LoopOnce prog_rearm os_five_both
        true).hub.active_fds_ = [] ∧
      ((scenario_queued Backend.Epoll).LoopOnce prog_rearm os_five_both true).hub.trace =
        [Obs.add 5 true, Obs.poll 0, Obs.del 5 true,
         Obs.call 52 5 EventType.kWrite (some 8), Obs.call 51 5 EventType.kRead (some 8)]) ∧
    (((scenario_queued Backend.KQueue).LoopOnce prog_accept os_five_readable
        true).hub.events.lookup 5 = some { data_ := some 8, error_cb_ := some 50 } ∧
      ((scenario_queued Backend.KQueue).LoopOnce prog_accept os_five_readable
        true).hub.spent_at 5 ∧
      ∀ its : List (OS × Bool),
        calls_for 5 (run_calls prog_accept (loops its)
          ((scenario_queued Backend.KQueue).LoopOnce prog_accept os_five_readable
            true).hub).trace =
        calls_for 5 ((scenario_queued Backend.KQueue).LoopOnce prog_accept os_five_readable
          true).hub.trace) := by
  have tA := C15_at_most_once_dispatch prog_rearm (scenario_queued Backend.Epoll) 5
    { where_kInReady := true, data_ := some 8, write_cb_ := some 52, read_cb_ := some 51,
      error_cb_ := some 50 }
    (Consistent_run_calls Program.inert _ _ (Consistent_initial Backend.Epoll))
    (prog_rearm_leaves 5) (by decide) rfl (Or.inl (by decide)) (by decide) (by decide)
    rfl rfl rfl rfl rfl
  have tB := C15_at_most_once_dispatch Program.inert scenario_armed 5
    { is_locked := true, read_cb_ := some 51, error_cb_ := some 50 }
    (Consistent_run_calls Program.inert _ _ (Consistent_initial Backend.KQueue))
    (leaves_inert 5) (by decide) rfl (Or.inr rfl) (by decide) (by decide)
    rfl rfl rfl rfl rfl
  have tC := C15_at_most_once_dispatch prog_accept (scenario_queued Backend.KQueue) 5
    { where_kInReady := true, data_ := some 8, write_cb_ := some 52, read_cb_ := some 51,
      error_cb_ := some 50 }
    (Consistent_run_calls Program.inert _ _ (Consistent_initial Backend.KQueue))
    (prog_accept_leaves 5 (by decide)) (by decide) rfl (Or.inl (by decide)) (by decide)
    (by decide) rfl rfl rfl rfl rfl
  refine ⟨tA.1 (quiet_at 0) true (fun _ => ⟨rfl, rfl⟩) (by decide),
    tB.1 (quiet_at 1) true (fun _ => ⟨rfl, rfl⟩) (by decide),
    ⟨tA.2.1 os_five_both true (fun _ => ⟨rfl, rfl⟩) (prog_rearm_keeps 5 (by decide)) rfl
      (by intro evs hevs; cases hevs; decide), by decide, by decide, by decide, by decide⟩,
    tC.2.2 os_five_readable true (fun _ => ⟨rfl, rfl⟩) (prog_accept_respects 5 (by decide))
      rfl (by intro evs hevs; cases hevs; decide) (by decide) (by decide) (by decide)⟩

/-- C16 (witness): three dispatches of descriptor 5.  (1) On kqueue, reported readable, with
the read callback of the echo example, which re-arms the descriptor for writing: it awaits
registration with the write callback 52 only.  (2) On kqueue, reported readable and
writable, with the callbacks of the echo example: the write callback re-arms it for
reading with a timeout of 10 s at clock reading 1 s, then the read callback re-arms it for
writing; it awaits registration and its deadline at 11 s with both callbacks and its user
data 8.  (3) On epoll, reported readable and writable, with the callbacks of the chatroom
example, each of which sets both callbacks.  In each case the next `LoopOnce`, at 1 s,
registers the descriptor again and leaves it locked. -/
theorem C16_rearm_round_trip_witness :
    ((EventHub.ResponseActiveEvents_loop prog_echo (quiet_at 0) (0 + 1)
        (EventHub.sys_Poll os_five_readable scenario_armed 0).hub).hub.events.lookup 5 =
      some { where_kInReady := true, write_cb_ := some 52, error_cb_ := some 50 } ∧
    (EventHub.ResponseActiveEvents_loop prog_echo (quiet_at 0) (0 + 1)
        (EventHub.sys_Poll os_five_readable scenario_armed 0).hub).hub.ready_fds_.count 5 =
      1 ∧
    calls_for 5 (EventHub.ResponseActiveEvents_loop prog_echo (quiet_at 0) (0 + 1)
        (EventHub.sys_Poll os_five_readable scenario_armed 0).hub).hub.trace =
      calls_for 5 (EventHub.sys_Poll os_five_readable scenario_armed 0).hub.trace ++
        [Obs.call 51 5 EventType.kRead none] ∧
    ((EventHub.ResponseActiveEvents_loop prog_echo (quiet_at 0) (0 + 1)
        (EventHub.sys_Poll os_five_readable scenario_armed 0).hub).hub.LoopOnce prog_echo
          (quiet_at 1) true).hub.events.lookup 5 =
      some { is_locked := true, write_cb_ := some 52, error_cb_ := some 50 } ∧
    adds_for 5 ((EventHub.ResponseActiveEvents_loop prog_echo (quiet_at 0) (0 + 1)
        (EventHub.sys_Poll os_five_readable scenario_armed 0).hub).hub.LoopOnce prog_echo
          (quiet_at 1) true).hub.trace =
      adds_for 5 (EventHub.ResponseActiveEvents_loop prog_echo (quiet_at 0) (0 + 1)
        (EventHub.sys_Poll os_five_readable scenario_armed 0).hub).hub.trace ++
        [Obs.add 5 true]) ∧
    ((EventHub.ResponseActiveEvents_loop prog_echo (quiet_at 0) (0 + 1)
        (EventHub.sys_Poll os_five_both (scenario_connection Backend.KQueue)
          0).hub).hub.events.lookup 5 =
      some { where_kInReady := true, where_kInTimeout := true, data_ := some 8,
             write_cb_ := some 52, read_cb_ := some 51, error_cb_ := some 50,
             timeout_stamp_ := 11 * ticks_per_second } ∧
    (EventHub.ResponseActiveEvents_loop prog_echo (quiet_at 0) (0 + 1)
        (EventHub.sys_Poll os_five_both (scenario_connection Backend.KQueue)
          0).hub).hub.ready_fds_.count 5 = 1 ∧
    5 ∈ (EventHub.ResponseActiveEvents_loop prog_echo (quiet_at 0) (0 + 1)
        (EventHub.sys_Poll os_five_both (scenario_connection Backend.KQueue)
          0).hub).hub.timeout_heap_ ∧
    calls_for 5 (EventHub.ResponseActiveEvents_loop prog_echo (quiet_at 0) (0 + 1)
        (EventHub.sys_Poll os_five_both (scenario_connection Backend.KQueue)
          0).hub).hub.trace =
      calls_for 5 (EventHub.sys_Poll os_five_both (scenario_connection Backend.KQueue)
          0).hub.trace ++
        [Obs.call 52 5 EventType.kWrite (some 8), Obs.call 51 5 EventType.kRead (some 8)] ∧
    ((EventHub.ResponseActiveEvents_loop prog_echo (quiet_at 0) (0 + 1)
        (EventHub.sys_Poll os_five_both (scenario_connection Backend.KQueue)
          0).hub).hub.LoopOnce prog_echo (quiet_at 1) true).hub.events.lookup 5 =
      some { is_locked := true, where_kInTimeout := true, data_ := some 8,
             write_cb_ := some 52, read_cb_ := some 51, error_cb_ := some 50,
             timeout_stamp_ := 11 * ticks_per_second }) ∧
    ((EventHub.ResponseActiveEvents_loop prog_chat (quiet_at 0) (0 + 1)
        (EventHub.sys_Poll os_five_both (scenario_connection Backend.Epoll)
          0).hub).hub.events.lookup 5 =
      some { where_kInReady := true, data_ := some 8, write_cb_ := some 52,
             read_cb_ := some 51, error_cb_ := some 50 } ∧
    (EventHub.ResponseActiveEvents_loop prog_chat (quiet_at 0) (0 + 1)
        (EventHub.sys_Poll os_five_both (scenario_connection Backend.Epoll)
          0).hub).hub.ready_fds_.count 5 = 1 ∧
    ((EventHub.ResponseActiveEvents_loop prog_chat (quiet_at 0) (0 + 1)
        (EventHub.sys_Poll os_five_both (scenario_connection Backend.Epoll)
          0).hub).hub.LoopOnce prog_chat (quiet_at 1) true).hub.events.lookup 5 =
      some { is_locked := true, data_ := some 8, write_cb_ := some 52,
             read_cb_ := some 51, error_cb_ := some 50 } ∧
    adds_for 5 ((EventHub.ResponseActiveEvents_loop prog_chat (quiet_at 0) (0 + 1)
        (EventHub.sys_Poll os_five_both (scenario_connection Backend.Epoll)
          0).hub).hub.LoopOnce prog_chat (quiet_at 1) true).hub.trace =
      adds_for 5 (EventHub.ResponseActiveEvents_loop prog_chat (quiet_at 0) (0 + 1)
        (EventHub.sys_Poll os_five_both (scenario_connection Backend.Epoll)
          0).hub).hub.trace ++ [Obs.add 5 true]) := by
  have t1 := C16_rearm_round_trip prog_echo (quiet_at 0) 0
    (EventHub.sys_Poll os_five_readable scenario_armed 0).hub 5 []
    { is_locked := true, where_kInActive := true, result_kRead := true,
      read_cb_ := some 51, error_cb_ := some 50 }
    none (some { cfg := [Action.OnWrite (some 52)], timeout := none, now := 0 }) none none
    (Consistent_sys_Poll _ _ _
      (Consistent_run_calls Program.inert _ _ (Consistent_initial Backend.KQueue)))
    (prog_echo_leaves 5) (by decide) (by decide) (by decide) (by decide) (by decide)
    (fun k hk _ => by cases hk) (fun k hk _ => by cases hk; rfl)
    (fun k _ hfl => by cases hfl) (fun k _ hfl => by cases hfl)
    (by decide) (fun hb => absurd hb (by decide))
  have t2 := C16_rearm_round_trip prog_echo (quiet_at 0) 0
    (EventHub.sys_Poll os_five_both (scenario_connection Backend.KQueue) 0).hub 5 []
    { is_locked := true, where_kInActive := true, data_ := some 8, result_kWrite := true,
      result_kRead := true, write_cb_ := some 52, read_cb_ := some 51, error_cb_ := some 50 }
    (some { cfg := [Action.OnRead (some 51)], timeout := some 10,
            now := 1 * ticks_per_second })
    (some { cfg := [Action.OnWrite (some 52)], timeout := none, now := 0 }) none none
    (Consistent_sys_Poll _ _ _
      (Consistent_run_calls Program.inert _ _ (Consistent_initial Backend.KQueue)))
    (prog_echo_leaves 5) (by decide) (by decide) (by decide) (by decide) (by decide)
    (fun k hk _ => by cases hk; rfl) (fun k hk _ => by cases hk; rfl)
    (fun k _ hfl => by cases hfl) (fun k _ hfl => by cases hfl)
    (by decide) (fun hb => absurd hb (by decide))
  have t3 := C16_rearm_round_trip prog_chat (quiet_at 0) 0
    (EventHub.sys_Poll os_five_both (scenario_connection Backend.Epoll) 0).hub 5 []
    { is_locked := true, where_kInActive := true, data_ := some 8, result_kWrite := true,
      result_kRead := true, write_cb_ := some 52, read_cb_ := some 51, error_cb_ := some 50 }
    (some { cfg := [Action.OnRead (some 51), Action.OnWrite (some 52)], timeout := none,
            now := 0 })
    (some { cfg := [Action.OnRead (some 51), Action.OnWrite (some 52)], timeout := none,
            now := 0 }) none none
    (Consistent_sys_Poll _ _ _
      (Consistent_run_calls Program.inert _ _ (Consistent_initial Backend.Epoll)))
    (prog_chat_leaves 5) (by decide) (by decide) (by decide) (by decide) (by decide)
    (fun k hk _ => by cases hk; rfl) (fun k hk _ => by cases hk; rfl)
    (fun k _ hfl => by cases hfl) (fun k _ hfl => by cases hfl)
    (by decide) (fun _ _ => rfl)
  have n1 := t1.2.2.2.2.2.2.2 (quiet_at 1) true rfl rfl rfl rfl
  have n2 := t2.2.2.2.2.2.2.2 (quiet_at 1) true rfl rfl rfl rfl
  have n3 := t3.2.2.2.2.2.2.2 (quiet_at 1) true rfl rfl rfl rfl
  have m1 := n1.2 rfl (fun hf => by cases hf)
  have m2 := n2.2 rfl (fun _ => by decide)
  have m3 := n3.2 rfl (fun hf => by cases hf)
  exact ⟨⟨t1.1, t1.2.2.2.2.1 rfl, t1.2.2.2.2.2.2.1, m1.1, m1.2.1⟩,
    ⟨t2.1, t2.2.2.2.2.1 rfl, t2.2.2.2.2.2.1.mp rfl, t2.2.2.2.2.2.2.1, m2.1⟩,
    ⟨t3.1, t3.2.2.2.2.1 rfl, m3.1, m3.2.1⟩⟩

/-! ## Claims C13, C17, C19: dispatch order, `Ready`, the timed-out flag -/

/-- C19 (amended). When `CheckTimeoutEvents` finds at the root of the heap an expired
descriptor that is already awaiting dispatch, it pops it, clears its `kInTimeout` flag
and does not push it onto the dispatch queue again; it does not add the timed-out flag to
the pending result flags but replaces them by it: when the call ends, the timed-out flag
is the only result flag of the descriptor, the readable, writable and errored flags being
cleared. -/
theorem C19_timeout_replaces_pending_flags (os : OS) (h : EventHub) (top : Int) (e : Event)
    (hn : h.timeout_heap_.Nodup) (ht : EventMinHeap.Top h.timeout_heap_ = some top)
    (hg : h.events.lookup top = some e) (hexp : e.timeout_stamp_ ≤ os.now_check)
    (ha : e.where_kInActive = true) :
    (h.CheckTimeoutEvents os).hub.events.lookup top = some
      { e with where_kInTimeout := false, result_kWrite := false, result_kRead := false,
               result_kTimeout := true, result_kError := false } ∧
    (h.CheckTimeoutEvents os).hub.active_fds_.count top = h.active_fds_.count top ∧
    top ∉ (h.CheckTimeoutEvents os).hub.timeout_heap_ := by
  obtain ⟨n, hlen⟩ : ∃ n, h.timeout_heap_.length = n + 1 := by
    cases hl : h.timeout_heap_ with
    | nil => rw [hl] at ht; simp [EventMinHeap.Top] at ht
    | cons y rest => exact ⟨rest.length, rfl⟩
  have hstep := EventHub.CheckTimeout_step_active os n h top e ht hg hexp ha
  have hnot : top ∉ EventMinHeap.Pop h.events h.timeout_heap_ :=
    EventMinHeap.Top_not_mem_Pop _ _ _ hn ht
  have hs := CheckTimeout_same os top n
    ({ h with
      timeout_heap_ := EventMinHeap.Pop h.events h.timeout_heap_
      events := h.events.insert top
        { e with where_kInTimeout := false, result_kWrite := false, result_kRead := false,
                 result_kTimeout := true, result_kError := false } } : EventHub) hnot
  rw [← hstep, ← hlen] at hs
  refine ⟨?_, ?_, ?_⟩
  · have := hs.lookup
    unfold EventHub.CheckTimeoutEvents
    rw [this]
    simp [Table.lookup_insert_eq]
  · exact hs.active
  · exact fun hm => hnot (hs.heap.mp hm)

/-- C19 (witness): descriptor 5 of `scenario_race` after the poll that reported it
readable, at the time its deadline expires. -/
theorem C19_timeout_replaces_pending_flags_witness :
    ((EventHub.sys_Poll os_race scenario_race 0).hub.CheckTimeoutEvents
        os_race).hub.events.lookup 5 = some
      { is_locked := true, where_kInActive := true, result_kTimeout := true,
        read_cb_ := some 51, error_cb_ := some 50, timeout_stamp_ := 2000000 } ∧
    ((EventHub.sys_Poll os_race scenario_race 0).hub.CheckTimeoutEvents
        os_race).hub.active_fds_.count 5 =
      (EventHub.sys_Poll os_race scenario_race 0).hub.active_fds_.count 5 ∧
    5 ∉ ((EventHub.sys_Poll os_race scenario_race 0).hub.CheckTimeoutEvents
        os_race).hub.timeout_heap_ :=
  C19_timeout_replaces_pending_flags os_race (EventHub.sys_Poll os_race scenario_race 0).hub 5
    { is_locked := true, where_kInTimeout := true, where_kInActive := true,
      result_kRead := true, read_cb_ := some 51, error_cb_ := some 50,
      timeout_stamp_ := 2000000 }
    (by decide) (by decide) (by decide) (by decide) rfl


/-! ## Claim C18: the order of the timeout heap -/

/-- C18. Heap ordering without removal.  For any deadlines (the table `events`) and any
descriptors `fds` pushed in any order onto an empty `EventMinHeap`, the heap has as many
elements as were pushed; a client that repeats `Top()` and `Pop()` as often reads a
permutation of the pushed descriptors (each exactly as often as it was pushed), in
non-decreasing order of deadline; the size decreases by one with each `Pop()`, and after
as many `Pop()`s as there were pushes the heap is empty. -/
theorem C18_heap_order (events : Table) (fds : List Int) :
    (EventMinHeap.push_all events fds).length = fds.length ∧
    (EventMinHeap.drain events fds.length (EventMinHeap.push_all events fds)).Perm fds ∧
    (EventMinHeap.drain events fds.length (EventMinHeap.push_all events fds)).Pairwise
      (fun a b => stamp events a ≤ stamp events b) ∧
    (∀ k, ((EventMinHeap.Pop events)^[k] (EventMinHeap.push_all events fds)).length =
      fds.length - k) ∧
    (EventMinHeap.Pop events)^[fds.length] (EventMinHeap.push_all events fds) = [] := by
  obtain ⟨hperm, hord⟩ := EventMinHeap.push_all_spec events fds
  have hlen := hperm.length_eq
  refine ⟨hlen, ?_, ?_, ?_, ?_⟩
  · exact (EventMinHeap.drain_perm events fds.length _ (le_of_eq hlen)).trans hperm
  · exact EventMinHeap.drain_sorted events fds.length _ hord
  · intro k
    rw [EventMinHeap.length_iterate_Pop, hlen]
  · apply List.length_eq_zero.mp
    rw [EventMinHeap.length_iterate_Pop, hlen]
    omega


/-! ## The wait passed to the poll (C23) -/

/-- C23 (counterexample): descriptor 5 is armed at time 0 with a timeout of 2 s.  In a
blocking `LoopOnce` that reads the clock half a second later, the remaining time until
the deadline of the heap root is 1 500 000 clock ticks (1.5 s), and the wait passed to
`Poll` is 1 s, which is not the remaining time; in one that reads the clock after 1.5 s,
the deadline has not passed and the wait passed to `Poll` is zero. -/
theorem C23_wait_is_remaining_time_counterexample :
    EventMinHeap.Top scenario_deadline.timeout_heap_ = some 5 ∧
    stamp scenario_deadline.events 5 - (quiet_at_tick 500000).now_wait = 1500000 ∧
    (scenario_deadline.LoopOnce Program.inert (quiet_at_tick 500000) true).hub.trace =
      [Obs.add 5 true, Obs.poll 1] ∧
    1 * ticks_per_second ≠ stamp scenario_deadline.events 5 - (quiet_at_tick 500000).now_wait ∧
    (quiet_at_tick 1500000).now_wait < stamp scenario_deadline.events 5 ∧
    (scenario_deadline.LoopOnce Program.inert (quiet_at_tick 1500000) true).hub.trace =
      [Obs.add 5 true, Obs.poll 0] := by
  decide

/-- C23 (amended): from every hub state in which the flags agree with the queues (every
reachable state), `PreprocessReadyEvents` returns and `LoopOnce` goes on with
`Poll(wait)`, where `wait` is never negative, is zero when `can_block` is false, when the
timeout heap is empty, or when the deadline of the heap root is at or before the clock
reading; otherwise it is the remaining time until that deadline rounded down to whole
seconds: `wait` seconds do not exceed the remaining time and `wait + 1` seconds do. -/
theorem C23_wait_is_whole_seconds (prog : Program) (os : OS) (h : EventHub)
    (can_block : Bool) (hc : Consistent h) :
    ∃ h1, h.PreprocessReadyEvents os = Result.ok h1 ∧
      h.LoopOnce prog os can_block =
        ((EventHub.sys_Poll os h1 (wait_bound h1 can_block os.now_wait)).andThen fun h2 =>
          (EventHub.CheckTimeoutEvents os h2).andThen fun h3 =>
            EventHub.ResponseActiveEvents prog os h3) ∧
      (EventHub.sys_Poll os h1 (wait_bound h1 can_block os.now_wait)).hub.trace =
        h1.trace ++ [Obs.poll (wait_bound h1 can_block os.now_wait)] ∧
      0 ≤ wait_bound h1 can_block os.now_wait ∧
      (can_block = false → wait_bound h1 can_block os.now_wait = 0) ∧
      (h1.timeout_heap_ = [] → wait_bound h1 can_block os.now_wait = 0) ∧
      (∀ top, EventMinHeap.Top h1.timeout_heap_ = some top →
        stamp h1.events top ≤ os.now_wait → wait_bound h1 can_block os.now_wait = 0) ∧
      (∀ top, can_block = true → EventMinHeap.Top h1.timeout_heap_ = some top →
        os.now_wait < stamp h1.events top →
        wait_bound h1 can_block os.now_wait * ticks_per_second ≤
          stamp h1.events top - os.now_wait ∧
        stamp h1.events top - os.now_wait <
          (wait_bound h1 can_block os.now_wait + 1) * ticks_per_second) := by
  obtain ⟨h1, hpre⟩ := Preprocess_returns os _ h hc (le_refl _)
  have hc1 : Consistent h1 := by
    have := Consistent_Preprocess os h.ready_fds_.length h hc
    rw [hpre] at this
    exact this
  have hw := CalculateWaittingTime_eq os h1 can_block
    (fun top ht => hc1.heap_tracked top (EventMinHeap.Top_mem _ _ ht))
  refine ⟨h1, hpre, ?_, ?_, wait_bound_nonneg _ _ _, ?_, ?_, ?_, ?_⟩
  · have hpre2 : h.PreprocessReadyEvents os = Result.ok h1 := hpre
    simp only [EventHub.LoopOnce, hpre2, Result.andThen, hw]
  · exact (sys_Poll_keeps (fun _ => ()) (fun _ => rfl) (fun _ => rfl) (fun _ => rfl)
      os h1 _).2.2.1
  · intro hb
    simp [wait_bound, hb]
  · intro hh
    simp [wait_bound, hh, EventMinHeap.Top]
  · intro top ht hle
    simp [wait_bound, ht, hle]
  · intro top hb ht hlt
    subst hb
    exact wait_bound_floor h1 os.now_wait top ht hlt

/-- C23 (witness): the amended theorem where descriptor 5 is armed with a timeout of 2 s
and the blocking iteration reads the clock half a second later. -/
theorem C23_wait_is_whole_seconds_witness :
    ∃ h1, scenario_deadline.PreprocessReadyEvents (quiet_at_tick 500000) = Result.ok h1 ∧
      scenario_deadline.LoopOnce Program.inert (quiet_at_tick 500000) true =
        ((EventHub.sys_Poll (quiet_at_tick 500000) h1
            (wait_bound h1 true (quiet_at_tick 500000).now_wait)).andThen fun h2 =>
          (EventHub.CheckTimeoutEvents (quiet_at_tick 500000) h2).andThen fun h3 =>
            EventHub.ResponseActiveEvents Program.inert (quiet_at_tick 500000) h3) ∧
      (EventHub.sys_Poll (quiet_at_tick 500000) h1
          (wait_bound h1 true (quiet_at_tick 500000).now_wait)).hub.trace =
        h1.trace ++ [Obs.poll (wait_bound h1 true (quiet_at_tick 500000).now_wait)] ∧
      0 ≤ wait_bound h1 true (quiet_at_tick 500000).now_wait ∧
      (true = false → wait_bound h1 true (quiet_at_tick 500000).now_wait = 0) ∧
      (h1.timeout_heap_ = [] → wait_bound h1 true (quiet_at_tick 500000).now_wait = 0) ∧
      (∀ top, EventMinHeap.Top h1.timeout_heap_ = some top →
        stamp h1.events top ≤ (quiet_at_tick 500000).now_wait →
        wait_bound h1 true (quiet_at_tick 500000).now_wait = 0) ∧
      (∀ top, true = true → EventMinHeap.Top h1.timeout_heap_ = some top →
        (quiet_at_tick 500000).now_wait < stamp h1.events top →
        wait_bound h1 true (quiet_at_tick 500000).now_wait * ticks_per_second ≤
          stamp h1.events top - (quiet_at_tick 500000).now_wait ∧
        stamp h1.events top - (quiet_at_tick 500000).now_wait <
          (wait_bound h1 true (quiet_at_tick 500000).now_wait + 1) * ticks_per_second) :=
  C23_wait_is_whole_seconds Program.inert (quiet_at_tick 500000) scenario_deadline true
    (Consistent_run_calls Program.inert _ _ (Consistent_initial Backend.KQueue))

/-! ## Deregistrations and registrations (C24) -/

/-- C24. `Del` is called without a matching registration.  On the kqueue backend,
descriptor 5 is armed with a read callback and a timeout of 2 s and registered by one
successful `Add`; the
`LoopOnce` at 2 s calls `Del(5)` twice, once in `CheckTimeoutEvents` and once in
`ResponseActiveEvents`, the registered-event counter becomes `-1`, and the next
`LoopOnce` throws `std::length_error` from `KQueue::Poll`.  And `Del(9)` is called for
descriptor 9 after its only `Add` failed, which also leaves the counter at `-1`.  On the
readiness path, by contrast, one `Add` is followed by one `Del` and the counter returns
to zero. -/
theorem C24_Del_without_registration :
    (adds_for 5 (run_calls Program.inert
        [Call.LoopOnce (quiet_at 0) true, Call.LoopOnce (quiet_at 2) true]
        scenario_deadline).trace = [Obs.add 5 true] ∧
      dels_for 5 (run_calls Program.inert
        [Call.LoopOnce (quiet_at 0) true, Call.LoopOnce (quiet_at 2) true]
        scenario_deadline).trace = [Obs.del 5 true, Obs.del 5 true] ∧
      (run_calls Program.inert
        [Call.LoopOnce (quiet_at 0) true, Call.LoopOnce (quiet_at 2) true]
        scenario_deadline).trace =
        [Obs.add 5 true, Obs.poll 2, Obs.poll 0, Obs.del 5 true, Obs.del 5 true,
         Obs.call 50 5 EventType.kTimeout none] ∧
      (run_calls Program.inert
        [Call.LoopOnce (quiet_at 0) true, Call.LoopOnce (quiet_at 2) true]
        scenario_deadline).registered_event_count_ = -1 ∧
      ((run_calls Program.inert
        [Call.LoopOnce (quiet_at 0) true, Call.LoopOnce (quiet_at 2) true]
        scenario_deadline).LoopOnce Program.inert (quiet_at 3) true).exception =
        some Exception.length_error) ∧
    (adds_for 9 (scenario_bad_handle.LoopOnce Program.inert os_bad_handle true).hub.trace =
        [Obs.add 9 false] ∧
      dels_for 9 (scenario_bad_handle.LoopOnce Program.inert os_bad_handle true).hub.trace =
        [Obs.del 9 true] ∧
      (scenario_bad_handle.LoopOnce Program.inert os_bad_handle true).hub.trace =
        [Obs.add 9 false, Obs.add 4 true, Obs.poll 0, Obs.del 9 true,
         Obs.call 90 9 EventType.kError none, Obs.del 4 true,
         Obs.call 41 4 EventType.kRead none] ∧
      (scenario_bad_handle.LoopOnce Program.inert os_bad_handle true).hub.registered_event_count_
        = -1) ∧
    (scenario_armed.trace = [Obs.add 5 true, Obs.poll 0] ∧
      scenario_armed.registered_event_count_ = 1 ∧
      (scenario_armed.LoopOnce Program.inert os_five_readable true).hub.trace =
        [Obs.add 5 true, Obs.poll 0, Obs.poll 0, Obs.del 5 true,
         Obs.call 51 5 EventType.kRead none] ∧
      (scenario_armed.LoopOnce Program.inert os_five_readable true).hub.registered_event_count_
        = 0) := by
  decide

/-! ## Flags and containers in reachable states (C25) -/

/-- C25: in every state reached from a fresh hub (on either backend) by calls of the
public surface, with any callbacks and any answers of the operating system, going on
after exceptions: a descriptor's `kInReady` flag is set exactly if it is in the
registration queue, its `kInTimeout` flag exactly if it is in the timeout heap, neither
container holds a descriptor twice, and every member of either is tracked (these are the
descriptors the heap comparator looks up).  So in a `LoopOnce` from such a state
`PreprocessReadyEvents` returns normally, `CalculateWaittingTime` returns a value, and
`CheckTimeoutEvents` does not end with `std::out_of_range`, whatever the poll did. -/
theorem C25_flags_agree_with_containers (prog : Program) (backend : Backend)
    (cs : List Call) :
    (∀ g, g ∈ (run_calls prog cs (EventHub.initial backend)).ready_fds_ ↔
      (run_calls prog cs (EventHub.initial backend)).IsInReady g = true) ∧
    (∀ g, g ∈ (run_calls prog cs (EventHub.initial backend)).timeout_heap_ ↔
      (run_calls prog cs (EventHub.initial backend)).IsInTimeout g = true) ∧
    (run_calls prog cs (EventHub.initial backend)).ready_fds_.Nodup ∧
    (run_calls prog cs (EventHub.initial backend)).timeout_heap_.Nodup ∧
    (∀ g ∈ (run_calls prog cs (EventHub.initial backend)).ready_fds_,
      (run_calls prog cs (EventHub.initial backend)).events.lookup g ≠ none) ∧
    (∀ g ∈ (run_calls prog cs (EventHub.initial backend)).timeout_heap_,
      (run_calls prog cs (EventHub.initial backend)).events.lookup g ≠ none) ∧
    ∀ os : OS, ∃ h1,
      (run_calls prog cs (EventHub.initial backend)).PreprocessReadyEvents os =
        Result.ok h1 ∧
      (∃ w, EventHub.CalculateWaittingTime os h1 = Except.ok w) ∧
      ∀ w, ((EventHub.sys_Poll os h1 w).hub.CheckTimeoutEvents os).exception ≠
        some Exception.out_of_range := by
  have hc : Consistent (run_calls prog cs (EventHub.initial backend)) :=
    Consistent_run_calls prog cs _ (Consistent_initial backend)
  refine ⟨hc.ready_flag, hc.heap_flag, hc.ready_nodup, hc.heap_nodup, hc.ready_tracked,
    hc.heap_tracked, ?_⟩
  intro os
  obtain ⟨h1, hpre⟩ := Preprocess_returns os _ _ hc (le_refl _)
  have hc1 : Consistent h1 := by
    have := Consistent_Preprocess os
      (run_calls prog cs (EventHub.initial backend)).ready_fds_.length _ hc
    rw [hpre] at this
    exact this
  refine ⟨h1, hpre, ?_, ?_⟩
  · have hw := CalculateWaittingTime_eq os h1 true
      (fun top ht => hc1.heap_tracked top (EventMinHeap.Top_mem _ _ ht))
    rw [if_pos rfl] at hw
    exact ⟨_, hw⟩
  · intro w
    exact CheckTimeout_in_range os _ _ (Consistent_sys_Poll os h1 w hc1)

/-! ## The state after dispatch (C22) -/

/-- The draining of an ordered heap, applied: descriptor 5, registered with a timeout of
2 s, is popped by `CheckTimeoutEvents` at 2 s and queued for dispatch. -/
theorem CheckTimeout_drained_example :
    ∃ h1, scenario_race.CheckTimeoutEvents os_race = Result.ok h1 ∧
      5 ∉ h1.timeout_heap_ ∧ 5 ∈ h1.active_fds_ ∧
      (h1.events.lookup 5).map (fun e => (e.where_kInTimeout, e.result_kTimeout)) =
        some (false, true) := by
  have hs : Sound scenario_race :=
    Sound_of_checks scenario_race (by decide) (by decide) (by decide) (by decide)
      (by decide) (by decide) (by decide)
  obtain ⟨h1, hrun, hin, hout, _, _⟩ :=
    CheckTimeout_drained os_race scenario_race.timeout_heap_.length scenario_race
      (Consistent_run_calls Program.inert _ _ (Consistent_initial Backend.KQueue))
      hs.active_flag
      (by intro i hi0 hil
          have : scenario_race.timeout_heap_.length = 1 := by decide
          omega)
      (le_refl _) (fun hb => absurd hb (by decide))
  have hn : 5 ∉ h1.timeout_heap_ := by
    intro hm
    obtain ⟨_, hlt, hsame⟩ := hin 5 hm
    have hst : stamp h1.events 5 = 2000000 := by
      simp only [stamp, hsame]
      decide
    rw [hst] at hlt
    revert hlt
    decide
  obtain ⟨e, _, _, hl1, ha1⟩ := hout 5 (by decide) hn
  exact ⟨h1, hrun, hn, ha1, by rw [hl1]; rfl⟩

/-- C21. Expired timeouts are not always drained.  Descriptors 1, 2, 3 are armed at time
0 with timeouts of 10 s, 20 s, 30 s and descriptor 3 is re-armed with 40 s: `Remove`
leaves the heap as `[2, 1, 3]`, which is not in deadline order.  `CheckTimeoutEvents` at
15 s then returns with the hub unchanged: descriptor 1, whose deadline of 10 s has passed,
remains in the heap, and so it does after the whole `LoopOnce` at 15 s.  On a heap that is
in deadline order the loop does drain: from every hub state in which the flags agree with
the queues and the descriptors flagged `kInActive` are in the dispatch queue, on either
backend (on epoll, if `Del` does not throw), `CheckTimeoutEvents` returns, every
descriptor remaining in the heap has a deadline after the clock reading (and its event
as before), and every descriptor removed from the heap had a deadline at or before the
clock reading, has its `kInTimeout` flag cleared, the timed-out flag set and the other
result flags cleared, and is in the dispatch queue. -/
theorem C21_expired_timeout_left_in_heap :
    (scenario_rearm.timeout_heap_ = [2, 1, 3] ∧
      stamp scenario_rearm.events 1 = 10 * ticks_per_second ∧
      stamp scenario_rearm.events 2 = 20 * ticks_per_second ∧
      (quiet_at 15).now_check = 15 * ticks_per_second ∧
      scenario_rearm.CheckTimeoutEvents (quiet_at 15) = Result.ok scenario_rearm ∧
      (scenario_rearm.LoopOnce Program.inert (quiet_at 15) true).exception = none ∧
      (scenario_rearm.LoopOnce Program.inert (quiet_at 15) true).hub.timeout_heap_ =
        [2, 1, 3] ∧
      (scenario_rearm.LoopOnce Program.inert (quiet_at 15) true).hub.active_fds_ = [] ∧
      stamp (scenario_rearm.LoopOnce Program.inert (quiet_at 15) true).hub.events 1 =
        10 * ticks_per_second ∧
      ((scenario_rearm.LoopOnce Program.inert (quiet_at 15) true).hub.events.lookup 1).map
        (fun e => (e.where_kInTimeout, e.result_kTimeout)) = some (true, false)) ∧
    ¬ heap_ordered (stamp scenario_rearm.events) scenario_rearm.timeout_heap_.length
        scenario_rearm.timeout_heap_ ∧
    ∀ (os : OS) (h : EventHub), Consistent h →
      (∀ g e, h.events.lookup g = some e → e.where_kInActive = true → g ∈ h.active_fds_) →
      heap_ordered (stamp h.events) h.timeout_heap_.length h.timeout_heap_ →
      (h.sys_ev_op_ = Backend.Epoll → ∀ g ∈ h.timeout_heap_, os.epoll_del_fails g = false) →
      ∃ h1, h.CheckTimeoutEvents os = Result.ok h1 ∧
        (∀ x ∈ h1.timeout_heap_, x ∈ h.timeout_heap_ ∧ os.now_check < stamp h1.events x ∧
          h1.events.lookup x = h.events.lookup x) ∧
        (∀ x ∈ h.timeout_heap_, x ∉ h1.timeout_heap_ →
          ∃ e, h.events.lookup x = some e ∧ e.timeout_stamp_ ≤ os.now_check ∧
            h1.events.lookup x = some
              { e with where_kInTimeout := false, where_kInActive := true,
                       result_kWrite := false, result_kRead := false,
                       result_kTimeout := true, result_kError := false } ∧
            x ∈ h1.active_fds_) := by
  refine ⟨by decide, ?_, ?_⟩
  · intro ho
    have h1 := ho 1 (by decide) (by decide)
    revert h1
    decide
  · intro os h hc hflag ho hdel
    obtain ⟨h1, hrun, hin, hout, _, _⟩ :=
      CheckTimeout_drained os h.timeout_heap_.length h hc hflag ho (le_refl _) hdel
    exact ⟨h1, hrun, hin, hout⟩

/-! ## Timer-only descriptors (C26) -/

/-- The firing of an ordered heap, applied: descriptor 5, armed alone with a timeout of
2 s and no read or write callback, fires in the iteration at 2 s. -/
theorem LoopOnce_fires_example :
    ∃ h4, scenario_timer.LoopOnce Program.inert (quiet_at 2) true = Result.ok h4 ∧
      calls_for 5 h4.trace =
        calls_for 5 scenario_timer.trace ++ [Obs.call 50 5 EventType.kTimeout none] ∧
      h4.events.lookup 5 = some (Event.dispatched
        { where_kInTimeout := true, error_cb_ := some 50, timeout_stamp_ := 2000000 }) ∧
      5 ∉ h4.timeout_heap_ :=
  LoopOnce_fires Program.inert (fun _ _ _ _ => rfl) (quiet_at 2) true [] scenario_timer 5
    { where_kInTimeout := true, error_cb_ := some 50, timeout_stamp_ := 2000000 } 50
    (Sound_of_checks scenario_timer (by decide) (by decide) (by decide) (by decide)
      (by decide) (by decide) (by decide))
    (Consistent_run_calls Program.inert _ _ (Consistent_initial Backend.KQueue))
    (by decide) rfl (by decide) (by decide) (by decide)
    (by intro i hi0 hil
        have : scenario_timer.timeout_heap_.length = 1 := by decide
        omega)
    (by decide) (by decide) rfl rfl rfl (by decide)

/-- C26. Timer-only descriptors.  (1) On a selected descriptor
without read and write callback, `Ready(d)` returns normally, puts the descriptor in the
timeout heap with the flag `kInTimeout` and the deadline computed from `now` and `d`,
which is `now + d` unless the 64-bit computation overflows, and leaves the
registration queue, the dispatch queue, the trace and every other event as they are.
(2) If `f` is tracked without read and write callback, unlocked and not flagged as
awaiting registration, and no callback reconfigures or destroys `f`, then after any
sequence of iterations, on either backend and however each ends, `f` is still so (never
locked), and the trace holds no further `Add` and no further `Del` for `f`.  (3) On the
kqueue backend, with callbacks that do not call into the hub, an empty registration queue
and a timeout heap in deadline order, the iteration whose reconcile step runs at or after
the deadline of such an `f` returns normally, invokes the error callback of `f` exactly
once, with kind Timeout and the user data, and leaves `f` unlocked, out of the heap, with
the result flags clear.  (4) The heap need not be in deadline order: descriptors 1, 2, 3,
with an error callback only, are armed at time 0 with 10 s, 20 s, 30 s and descriptor 3 is
re-armed with 40 s, which leaves the heap as `[2, 1, 3]`.  The `LoopOnce` at 15 s is the
first whose reconcile step runs after the deadline of descriptor 1; it returns normally
without invoking the error callback of 1, which stays in the heap, and that callback is
invoked only by the `LoopOnce` at 25 s, after the one of descriptor 2. -/
theorem C26_timer_only_descriptors :
    (∀ (h : EventHub) (d now : Int) (e : Event),
      h.events.lookup h.current_fd_ = some e → e.read_cb_ = none → e.write_cb_ = none →
      ∃ h1, h.Ready (some d) now = Result.ok h1 ∧
        h1.ready_fds_ = h.ready_fds_ ∧ h1.active_fds_ = h.active_fds_ ∧
        h1.trace = h.trace ∧ h.current_fd_ ∈ h1.timeout_heap_ ∧
        h1.events.lookup h.current_fd_ = some
          { e with where_kInTimeout := true
                   timeout_stamp_ := deadline_of now d } ∧
        (representable (d * ticks_per_second) →
          representable (now + d * ticks_per_second) →
          deadline_of now d = now + d * ticks_per_second) ∧
        (∀ g, g ≠ h.current_fd_ → h1.events.lookup g = h.events.lookup g)) ∧
    (∀ (prog : Program) (f : Int) (h : EventHub) (its : List (OS × Bool)),
      (∀ k g t d h0, SameFor f h0 (run_actions (prog k g t d) h0).hub) →
      (h.events.lookup f).map Event.timer = some true →
      ((run_calls prog (loops its) h).events.lookup f).map Event.timer = some true ∧
      adds_for f (run_calls prog (loops its) h).trace = adds_for f h.trace ∧
      dels_for f (run_calls prog (loops its) h).trace = dels_for f h.trace) ∧
    (∀ (prog : Program) (os : OS) (can_block : Bool) (evs : List (Int × Filter))
      (h : EventHub) (f : Int) (e : Event) (x : Nat),
      (∀ k g t d, prog k g t d = []) → Sound h → Consistent h →
      0 ≤ h.registered_event_count_ → os.kevents = some evs →
      (∀ r ∈ evs, h.events.lookup r.1 ≠ none) → f ∉ evs.map Prod.fst →
      h.ready_fds_ = [] →
      heap_ordered (stamp h.events) h.timeout_heap_.length h.timeout_heap_ →
      f ∈ h.timeout_heap_ → h.events.lookup f = some e →
      e.read_cb_ = none → e.write_cb_ = none → e.error_cb_ = some x →
      e.timeout_stamp_ ≤ os.now_check →
      ∃ h4, h.LoopOnce prog os can_block = Result.ok h4 ∧
        calls_for f h4.trace =
          calls_for f h.trace ++ [Obs.call x f EventType.kTimeout e.data_] ∧
        h4.events.lookup f = some e.dispatched ∧ f ∉ h4.timeout_heap_) ∧
    (scenario_timers.timeout_heap_ = [2, 1, 3] ∧
      scenario_timers.ready_fds_ = [] ∧
      scenario_timers.trace = [] ∧
      scenario_timers.events.lookup 1 = some
        { where_kInTimeout := true, error_cb_ := some 10,
          timeout_stamp_ := 10 * ticks_per_second } ∧
      (quiet_at 15).now_check = 15 * ticks_per_second ∧
      (scenario_timers.LoopOnce Program.inert (quiet_at 15) true).exception = none ∧
      (scenario_timers.LoopOnce Program.inert (quiet_at 15) true).hub.trace =
        [Obs.poll 5] ∧
      (scenario_timers.LoopOnce Program.inert (quiet_at 15) true).hub.timeout_heap_ =
        [2, 1, 3] ∧
      (scenario_timers.LoopOnce Program.inert (quiet_at 15) true).hub.events.lookup 1 =
        scenario_timers.events.lookup 1 ∧
      (run_calls Program.inert
        [Call.LoopOnce (quiet_at 15) true, Call.LoopOnce (quiet_at 25) true]
        scenario_timers).trace =
        [Obs.poll 5, Obs.poll 0, Obs.call 20 2 EventType.kTimeout none,
         Obs.call 10 1 EventType.kTimeout none]) := by
  refine ⟨?_, ?_, ?_, by decide⟩
  · intro h d now e hl hrd hwr
    obtain ⟨h1, a, b, c, d1, e1, f1, g1⟩ := Ready_timer h d now e hl hrd hwr
    exact ⟨h1, a, b, c, d1, e1, f1, deadline_of_eq now d, g1⟩
  · intro prog f h its hresp ht
    have s := loops_timer prog f hresp its h ht
    exact ⟨s.timer, s.adds, s.dels⟩
  · intro prog os can_block evs h f e x hinert hs hc hcount hk hevs hrep hready ho hf hl
      hrd hwr hx hexp
    exact LoopOnce_fires prog hinert os can_block evs h f e x hs hc hcount hk hevs hrep
      hready ho hf hl hrd hwr hx hexp

end noevent
